import Mathlib

/-!
# Synchronisation engine of the block explorer: `db/dcrpg/sync.go`

A shallow embedding of `(*ChainDB).SyncChainDB` and of its inner closure
`importBlocks`, followed by theorems about them. The smaller functions of `sync.go`
(`syncCoinAgeBandsTable`, `GetStartRevertIndexAddressRow`, the month loop of the two
summary tables, `supplementUnknownTicketError`) and two functions of
`cmd/dcrdata/internal/explorer/explorer.go` (`TicketStatusText`,
`GetMultichainBlockchainSize`) are embedded after it.

## Modelling conventions

* Heights are `int64` in the source.  They are embedded as `Int`; every height that
  `SyncChainDB` computes is bounded by a block height of the chain, far away from the
  `int64` limits, so no wrap-around is modelled there.  The two smaller functions
  that do arithmetic on `int64` arguments of their own, `syncCoinAgeBandsTable` and
  `GetStartRevertIndexAddressRow`, are embedded with the wrap-around of Go's signed
  arithmetic, `wrap64`, and their theorems state the range in which no sum wraps.
  Go's `%` truncates towards zero and is embedded as `Int.tmod`.
* The collaborators (block source, primary store, stake database, context, the two
  channels) are external.  Their answers are supplied by an `Env`, an oracle indexed
  by the time of the call, the time being the number of collaborator interactions
  made so far.  Every interaction is appended to a trace together with the
  collaborator state right after it.
* Wall-clock code (the ticker driven speed report, the estimated remaining time of a
  progress message) and logging are left out: they read counters and never change
  control flow or any collaborator.
* A Go `panic` is an outcome of its own; the loop of `importBlocks` takes a fuel
  argument, because the node height that bounds it is re-polled while it runs.
-/

namespace Dcrpg

/-! ## Constants of the source -/

/-- The constant `quickStatsTarget`. -/
def quickStatsTarget : Nat := 250

/-- The constant `deepStatsTarget`. -/
def deepStatsTarget : Nat := 600

/-- The constant `rescanLogBlockChunk`. -/
def rescanLogBlockChunk : Int := 500

/-! ## Collaborator state, calls and trace -/

/-- The state of the collaborators that `SyncChainDB` reads or changes: the best
height of the primary store (`HeightDB`, the chain cursor), the height of the stake
database, the persisted flag `meta.ibd_complete`, the duplicate check toggle and the
size of the UTXO cache. -/
structure World where
  chainCursor : Int
  stakeHeight : Int
  ibdComplete : Bool
  dupCheck : Bool
  utxoSize : Nat
deriving DecidableEq, Repr

/-- The identifiers `dbtypes.InitialDBLoad` and `dbtypes.AddressesTableSync`. -/
inductive BarID where
  | InitialDBLoad
  | AddressesTableSync
deriving DecidableEq, Repr

/-- The status texts: the constants `initialLoadSyncStatusMsg` and
`addressesSyncStatusMsg`, or no text. -/
inductive StatusMsg where
  | noMsg
  | initialLoadSyncStatusMsg
  | addressesSyncStatusMsg
deriving DecidableEq, Repr

/-- The message type `dbtypes.ProgressBarLoad`, without its wall-clock field.
`syncComplete` stands for the subtitle "sync complete". -/
structure ProgressBarLoad where
  fromHeight : Int
  toHeight : Int
  msg : StatusMsg
  barID : BarID
  syncComplete : Bool
deriving DecidableEq, Repr

/-- The tables named in `AnalyzeTable` calls. -/
inductive Table where
  | vouts
  | transactions
  | addresses
deriving DecidableEq, Repr

/-- The interactions of `SyncChainDB` with its collaborators. -/
inductive Call where
  | GetBestBlock
  | HeightDB
  | IBDComplete
  | StakeDBHeight
  | RewindStakeDB (toHeight : Int)
  | UtxoCacheSize
  | RetrieveUTXOs
  | InitUtxoCache (utxos : Nat)
  | DeindexAll
  | CreateTmpIndex
  | EnableDuplicateCheckOnInsert (dupCheck : Bool)
  | SetIBDComplete (complete : Bool)
  | SendProgress (p : ProgressBarLoad)
  | CtxDone
  | GetBlock (height : Int)
  | ConnectBlock (height : Int)
  | GetChainWork (height : Int)
  | StoreBlock (height : Int) (updateAddressesSpendingInfo : Bool)
  | SendPageData (height : Int)
  | SignalHeight (height : Int)
  | DropTmpIndex
  | DeleteDuplicates
  | IndexAll
  | IndexAddressTableOnMatchingTxHash
  | IndexTicketsTable
  | AnalyzeAllTables (statsTarget : Nat)
  | AnalyzeTable (table : Table) (statsTarget : Nat)
  | DeindexAddressTableOnMatchingTxHash
  | UpdateSpendingInfoInAllAddresses
deriving DecidableEq, Repr

/-- One entry of the trace: the call, whether it went through (no error; for a
channel send: delivered; for `CtxDone`: the context is still live) and the
collaborator state right after it. -/
structure Event where
  call : Call
  ok : Bool
  after : World
deriving DecidableEq, Repr

/-- The errors `SyncChainDB` returns, one per `fmt.Errorf` site or passed-on error. -/
inductive SyncError where
  | getBestBlockFailed
  | retrieveBestBlockHeight
  | ibdCompleteFailed
  | deleteStakeDB
  | rewindStakeDBFailed
  | retrieveUTXOs
  | deindexAllFailed
  | createTmpIndexFailed
  | setIBDCompleteFailed
  | cancelledAtHeight (ib : Int)
  | updateToBlockFailed (ib : Int)
  | connectBlockFailed (ib : Int)
  | getChainWorkFailed (ib : Int)
  | storeBlockFailed (ib : Int)
  | dropTmpIndexFailed
  | deleteDuplicatesFailed
  | indexAllFailed
  | indexAddressTableFailed
  | indexTicketsTableFailed
  | analyzeTablesFailed
  | analyzeVoutsFailed
  | analyzeTransactionsFailed
  | updateSpendingInfoFailed
  | analyzeAddressesFailed
  | syncCancelled
deriving DecidableEq, Repr

/-- The two panics of `SyncChainDB`: "invalid starting height" and "About to connect
the wrong block: ib, stakeDBHeight ... Restart with --purge-n-blocks=n to recover." -/
inductive PanicMsg where
  | invalidStartingHeight
  | wrongBlock (ib : Int) (stakeDBHeight : Int) (purge : Int)
deriving DecidableEq, Repr

/-- The per-block counts that `StoreBlock` and the block report. -/
structure BlockCounts where
  numVins : Int
  numVouts : Int
  numAddresses : Int
  numTxs : Int
deriving DecidableEq, Repr

/-- The answers of the collaborators, indexed by the time of the call. -/
structure Env where
  /-- The height `GetBestBlock` reports when called at time `t`. -/
  best : Nat → Int
  /-- Whether the fallible call made at time `t` returns an error. -/
  fails : Nat → Bool
  /-- Whether the text of a `DeindexAll` error at time `t` contains "does not exist". -/
  doesNotExist : Nat → Bool
  /-- Whether `ctx.Done()` is closed at time `t`. -/
  done : Nat → Bool
  /-- Whether the buffer of the channel written at time `t` is full. -/
  full : Nat → Bool
  /-- The height of the stake database after `RewindStakeDB` ran, from the height
  before and the target. -/
  rewound : Int → Int → Int
  /-- The number of rows `RetrieveUTXOs` returns. -/
  utxos : Nat
  /-- The counts of the block at a height. -/
  counts : Int → BlockCounts

/-- The machine state of a run: collaborators, trace, and the local variables of
`SyncChainDB` that change after set-up. `barLoad` and `updateExplorer` tell whether
the channel variable is non-nil. -/
structure St where
  w : World
  trace : List Event
  nodeHeight : Int
  stakeDBHeight : Int
  barLoad : Bool
  updateExplorer : Bool
  totalTxs : Int
  totalVins : Int
  totalVouts : Int
  totalAddresses : Int
  stage : Nat

/-- The local variables of `SyncChainDB` that are fixed once block import starts. -/
structure RunCfg where
  startHeight : Int
  reindexing : Bool
  updateAllAddresses : Bool
  requireAnalyze : Bool
  stages : Nat
deriving DecidableEq, Repr

/-- How a run ends. `outOfFuel` belongs to the model only. -/
inductive Outcome where
  | returned (height : Int) (err : Option SyncError)
  | panicked (msg : PanicMsg)
  | outOfFuel
deriving DecidableEq, Repr

/-- The result of a piece of straight-line code: fall through, `return h, err`, or
panic. -/
inductive Step where
  | next (s : St)
  | stop (height : Int) (err : SyncError) (s : St)
  | panic (msg : PanicMsg) (s : St)

/-- Sequencing: the rest of the code runs only when the first part falls through. -/
def Step.bind (x : Step) (f : St → Step) : Step :=
  match x with
  | .next s => f s
  | .stop h e s => .stop h e s
  | .panic m s => .panic m s

/-- Whether a step is a `return`. -/
def Step.isStop : Step → Bool
  | .stop _ _ _ => true
  | _ => false

/-- The state a step ends in. -/
def Step.st : Step → St
  | .next s => s
  | .stop _ _ s => s
  | .panic _ s => s

/-- The time: the number of interactions so far. -/
def St.now (s : St) : Nat := s.trace.length

/-- Append an interaction, with the collaborator state as it is now. -/
@[simps]
def St.record (s : St) (c : Call) (ok : Bool) : St :=
  { s with trace := s.trace ++ [⟨c, ok, s.w⟩] }

/-- Replace the collaborator state. -/
@[simps]
def St.setW (s : St) (w : World) : St := { s with w := w }

/-- Assign the local variable `nodeHeight`. -/
@[simps]
def St.setNodeHeight (s : St) (h : Int) : St := { s with nodeHeight := h }

/-- Assign the local variable `stakeDBHeight`. -/
@[simps]
def St.setStakeDBHeight (s : St) (h : Int) : St := { s with stakeDBHeight := h }

/-- Assign the local variable `stage`. -/
@[simps]
def St.setStage (s : St) (n : Nat) : St := { s with stage := n }

/-- Add the counts of a block to the running totals, lines 1008-1013. -/
@[simps]
def St.addCounts (s : St) (c : BlockCounts) : St :=
  { s with
    totalVins := s.totalVins + c.numVins
    totalVouts := s.totalVouts + c.numVouts
    totalAddresses := s.totalAddresses + c.numAddresses
    totalTxs := s.totalTxs + c.numTxs }

/-- Set the channel variable `barLoad` to nil. -/
@[simps]
def St.dropBarLoad (s : St) : St := { s with barLoad := false }

/-- Set the channel variable `updateExplorer` to nil. -/
@[simps]
def St.dropUpdateExplorer (s : St) : St := { s with updateExplorer := false }

/-- A fallible call without tracked effect: on error `return h, e`. -/
def attempt (env : Env) (c : Call) (h : Int) (e : SyncError) (s : St) : Step :=
  if env.fails s.now then .stop h e (s.record c false) else .next (s.record c true)

/-- A fallible call that changes the collaborator state when it succeeds. -/
def attemptW (env : Env) (c : Call) (h : Int) (e : SyncError) (upd : World → World)
    (s : St) : Step :=
  if env.fails s.now then .stop h e (s.record c false)
  else .next ((s.setW (upd s.w)).record c true)

/-- The closure `sendProgressUpdate`: nothing when `barLoad` is nil; otherwise a
non-blocking send, and `barLoad = nil` when the buffer is full. -/
def sendProgressUpdate (env : Env) (p : ProgressBarLoad) (s : St) : St :=
  if s.barLoad then
    if env.full s.now then (s.record (.SendProgress p) false).dropBarLoad
    else s.record (.SendProgress p) true
  else s

/-- The closure `sendPageData`: nothing when `updateExplorer` is nil; otherwise a
non-blocking send, and `updateExplorer = nil` when the buffer is full. -/
def sendPageData (env : Env) (height : Int) (s : St) : St :=
  if s.updateExplorer then
    if env.full s.now then (s.record (.SendPageData height) false).dropUpdateExplorer
    else s.record (.SendPageData height) true
  else s

/-- The call `client.GetBestBlock` assigned to `nodeHeight`; the assignment happens
also when the call fails. -/
def pollBestBlock (env : Env) (h : Int) (s : St) : Step :=
  let s1 := s.setNodeHeight (env.best s.now)
  if env.fails s.now then .stop h .getBestBlockFailed (s1.record .GetBestBlock false)
  else .next (s1.record .GetBestBlock true)

/-! ## The loop body of `importBlocks` -/

/-- Lines 916-921: the quit check at the top of an iteration. -/
def checkQuit (env : Env) (ib : Int) (s : St) : Step :=
  if env.done s.now then .stop (ib - 1) (.cancelledAtHeight ib) (s.record .CtxDone false)
  else .next (s.record .CtxDone true)

/-- Lines 923-951: progress logging, which re-polls the node height every
`rescanLogBlockChunk` blocks and at the first block, the genesis block apart. -/
def progressLogging (env : Env) (cfg : RunCfg) (ib : Int) (s : St) : Step :=
  if (ib - 1).tmod rescanLogBlockChunk = 0 ∨ ib = cfg.startHeight then
    if ib = 0 then .next s
    else
      (pollBestBlock env ib s).bind fun s =>
        .next (sendProgressUpdate env
          ⟨ib, s.nodeHeight, .initialLoadSyncStatusMsg, .InitialDBLoad, false⟩ s)
  else .next s

/-- Line 969: `rpcutils.GetBlock(ib, client)`. -/
def getBlock (env : Env) (ib : Int) (s : St) : Step :=
  attempt env (.GetBlock ib) (ib - 1) (.updateToBlockFailed ib) s

/-- Modelled from the spec: the effect of `stakeDB.ConnectBlock`, which is not part
of the sources at hand: a successful call advances the stake database to the height
of the connected block. -/
def connectBlockEffect (ib : Int) (w : World) : World := { w with stakeHeight := ib }

/-- Lines 975-990: advance the stake database, or panic when it is more than one
block behind, then re-read its height. -/
def advanceStakeDB (env : Env) (ib : Int) (s : St) : Step :=
  let readHeight := fun (s : St) =>
    Step.next ((s.setStakeDBHeight s.w.stakeHeight).record .StakeDBHeight true)
  if ib > s.stakeDBHeight then
    let behind := ib - s.stakeDBHeight
    if behind ≠ 1 then .panic (.wrongBlock ib s.stakeDBHeight (2 * behind)) s
    else
      (attemptW env (.ConnectBlock ib) (ib - 1) (.connectBlockFailed ib)
        (connectBlockEffect ib) s).bind readHeight
  else readHeight s

/-- Line 993: `rpcutils.GetChainWork(client, blockHash)`. -/
def getChainWork (env : Env) (ib : Int) (s : St) : Step :=
  attempt env (.GetChainWork ib) (ib - 1) (.getChainWorkFailed ib) s

/-- Modelled from the spec: the effect of `StoreBlock`, which is not part of the
sources at hand. The chain cursor is the best height recorded by the primary store,
it is monotonic and changed only by successful block commits: a successful commit of
the block at height `ib` raises it to `ib` when it was lower. -/
def storeBlockEffect (ib : Int) (w : World) : World :=
  { w with chainCursor := max w.chainCursor ib }

/-- Lines 998-1013: `StoreBlock` with `updateAddressesSpendingInfo` being
`!updateAllAddresses`, then the running totals. -/
def storeBlock (env : Env) (cfg : RunCfg) (ib : Int) (s : St) : Step :=
  (attemptW env (.StoreBlock ib (!cfg.updateAllAddresses)) (ib - 1) (.storeBlockFailed ib)
    (storeBlockEffect ib) s).bind fun s =>
    .next (s.addCounts (env.counts ib))

/-- Lines 1015-1020: the explorer update every 20 blocks. -/
def updateExplorerPages (env : Env) (cfg : RunCfg) (ib : Int) (s : St) : Step :=
  if !cfg.updateAllAddresses ∧ ib.tmod 20 = 0 then .next (sendPageData env ib s)
  else .next s

/-- Lines 1022-1028: re-poll the node height when the loop reached it. -/
def updateNodeHeight (env : Env) (ib : Int) (s : St) : Step :=
  if ib = s.nodeHeight then pollBestBlock env ib s else .next s

/-- One iteration of the loop of `importBlocks`, lines 916-1028. -/
def importBlock (env : Env) (cfg : RunCfg) (ib : Int) (s : St) : Step :=
  (checkQuit env ib s).bind fun s =>
  (progressLogging env cfg ib s).bind fun s =>
  (getBlock env ib s).bind fun s =>
  (advanceStakeDB env ib s).bind fun s =>
  (getChainWork env ib s).bind fun s =>
  (storeBlock env cfg ib s).bind fun s =>
  (updateExplorerPages env cfg ib s).bind fun s =>
  updateNodeHeight env ib s

/-- The result of `importBlocks`: `return nodeHeight, nil` (`done`), an error return,
a panic, or the fuel of the model used up. -/
inductive LoopResult where
  | done (endHeight : Int) (s : St)
  | stop (height : Int) (err : SyncError) (s : St)
  | panic (msg : PanicMsg) (s : St)
  | outOfFuel (s : St)

/-- The state a loop result carries. -/
def LoopResult.st : LoopResult → St
  | .done _ s => s
  | .stop _ _ s => s
  | .panic _ s => s
  | .outOfFuel s => s

/-- The closure `importBlocks`, lines 914-1031:
`for ib := start; ib <= nodeHeight; ib++ { ... }; return nodeHeight, nil`. -/
def importBlocks (env : Env) (cfg : RunCfg) : Nat → Int → St → LoopResult
  | 0, ib, s => if ib ≤ s.nodeHeight then .outOfFuel s else .done s.nodeHeight s
  | fuel + 1, ib, s =>
    if ib ≤ s.nodeHeight then
      match importBlock env cfg ib s with
      | .next s1 => importBlocks env cfg fuel (ib + 1) s1
      | .stop h e s1 => .stop h e s1
      | .panic m s1 => .panic m s1
    else .done s.nodeHeight s

/-! ## Set-up, lines 712-912 -/

/-- The local variables fixed before block import, from the state of the store at
entry, the node height polled first and the two arguments: lines 730, 765-777, 819,
830-838 and 887. -/
def mkCfg (w : World) (nodeHeight : Int) (updateAllAddresses newIndexes : Bool) : RunCfg :=
  let lastBlock := w.chainCursor
  let reindexing := (newIndexes || lastBlock == -1) || !w.ibdComplete
  let updateAllAddresses := updateAllAddresses || !w.ibdComplete
  let requireAnalyze := reindexing || decide (nodeHeight - lastBlock > 10000)
  { startHeight := lastBlock + 1
    reindexing := reindexing
    updateAllAddresses := updateAllAddresses
    requireAnalyze := requireAnalyze
    stages := 1 + (if reindexing then 3 else if requireAnalyze then 1 else 0)
      + (if updateAllAddresses then 1 else 0) }

/-- The state at entry: nothing called yet. -/
def initSt (w : World) (updateExplorer barLoad : Bool) : St :=
  { w := w, trace := [], nodeHeight := 0, stakeDBHeight := 0, barLoad := barLoad,
    updateExplorer := updateExplorer, totalTxs := 0, totalVins := 0, totalVouts := 0,
    totalAddresses := 0, stage := 0 }

/-- Lines 740-743: read the height of the stake database, then panic on a store
height below -1. -/
def readStakeDBHeight (lastBlock : Int) (s : St) : Step :=
  let s1 := (s.setStakeDBHeight s.w.stakeHeight).record .StakeDBHeight true
  if lastBlock < -1 then .panic .invalidStartingHeight s1 else .next s1

/-- Lines 749-761: the stake database ahead of the primary store is either declared
corrupted or rewound.
Modelled from the spec: `RewindStakeDB` is not part of the sources at hand; it
returns the height the stake database is at after the rewind, and that height is
given by `Env.rewound`. -/
def rewindStakeDB (env : Env) (lastBlock : Int) (s : St) : Step :=
  if s.stakeDBHeight > lastBlock ∧ s.stakeDBHeight > 0 then
    if lastBlock < 0 ∨ s.stakeDBHeight > 2 * lastBlock then .stop (-1) .deleteStakeDB s
    else
      let h := env.rewound s.w.stakeHeight lastBlock
      let s1 := (s.setW { s.w with stakeHeight := h }).setStakeDBHeight h
      if env.fails s.now then
        .stop lastBlock .rewindStakeDBFailed (s1.record (.RewindStakeDB lastBlock) false)
      else .next (s1.record (.RewindStakeDB lastBlock) true)
  else .next s

/-- Lines 779-789: warm the UTXO cache when it is empty. -/
def warmUtxoCache (env : Env) (s : St) : Step :=
  let s1 := s.record .UtxoCacheSize true
  if s1.w.utxoSize = 0 then
    (attempt env .RetrieveUTXOs (-1) .retrieveUTXOs s1).bind fun s =>
      .next ((s.setW { s.w with utxoSize := env.utxos }).record (.InitUtxoCache env.utxos) true)
  else .next s1

/-- The call `pgb.EnableDuplicateCheckOnInsert`. -/
def enableDuplicateCheckOnInsert (dupCheck : Bool) (s : St) : St :=
  (s.setW { s.w with dupCheck := dupCheck }).record (.EnableDuplicateCheckOnInsert dupCheck) true

/-- Line 794-797: `DeindexAll`, whose error is passed over when its text contains
"does not exist". -/
def deindexAll (env : Env) (lastBlock : Int) (s : St) : Step :=
  if env.fails s.now then
    if env.doesNotExist s.now then .next (s.record .DeindexAll false)
    else .stop lastBlock .deindexAllFailed (s.record .DeindexAll false)
  else .next (s.record .DeindexAll true)

/-- Lines 791-816: drop the indexes and switch the duplicate check off when
reindexing, switch it on otherwise. -/
def prepareIndexes (env : Env) (cfg : RunCfg) (lastBlock : Int) (s : St) : Step :=
  if cfg.reindexing then
    (deindexAll env lastBlock s).bind fun s =>
    (attempt env .CreateTmpIndex lastBlock .createTmpIndexFailed s).bind fun s =>
    .next (enableDuplicateCheckOnInsert false s)
  else .next (enableDuplicateCheckOnInsert true s)

/-- Modelled from the spec: the effect of `SetIBDComplete`, which is not part of the
sources at hand: a successful call persists the flag. -/
def setIBDEffect (complete : Bool) (w : World) : World := { w with ibdComplete := complete }

/-- Lines 821-828: clear `meta.ibd_complete` before a bulk pass, when it is set. -/
def clearIBDComplete (env : Env) (cfg : RunCfg) (ibdComplete : Bool) (s : St) : Step :=
  if ibdComplete ∧ (cfg.reindexing ∨ cfg.updateAllAddresses) then
    attemptW env (.SetIBDComplete false) s.nodeHeight .setIBDCompleteFailed (setIBDEffect false) s
  else .next s

/-- Lines 868-879 and 911: the progress messages announced at start. -/
def announce (env : Env) (cfg : RunCfg) (s : St) : Step :=
  let s1 := sendProgressUpdate env ⟨0, 0, .initialLoadSyncStatusMsg, .InitialDBLoad, false⟩ s
  let s2 := if cfg.updateAllAddresses then
      sendProgressUpdate env ⟨0, 0, .addressesSyncStatusMsg, .AddressesTableSync, false⟩ s1
    else s1
  .next (s2.setStage 1)

/-- Lines 712-761: poll the node, read the store height, the flag and the stake
height, and reconcile the stake database with the primary store. -/
def reconcile (env : Env) (w : World) (updateExplorer barLoad : Bool) : Step :=
  let lastBlock := w.chainCursor
  (pollBestBlock env (-1) (initSt w updateExplorer barLoad)).bind fun s =>
  (attempt env .HeightDB (-1) .retrieveBestBlockHeight s).bind fun s =>
  (attempt env .IBDComplete lastBlock .ibdCompleteFailed s).bind fun s =>
  (readStakeDBHeight lastBlock s).bind fun s =>
  rewindStakeDB env lastBlock s

/-- Lines 779-912: warm the cache, prepare the indexes, clear the flag, announce. -/
def prepare (env : Env) (cfg : RunCfg) (lastBlock : Int) (ibdComplete : Bool) (s : St) : Step :=
  (warmUtxoCache env s).bind fun s =>
  (prepareIndexes env cfg lastBlock s).bind fun s =>
  (clearIBDComplete env cfg ibdComplete s).bind fun s =>
  announce env cfg s

/-- Everything `SyncChainDB` does before `importBlocks(startHeight)`: lines 712-912. -/
def setup (env : Env) (w : World) (updateAllAddresses newIndexes updateExplorer barLoad : Bool) :
    Step :=
  (reconcile env w updateExplorer barLoad).bind
    (prepare env (mkCfg w (env.best 0) updateAllAddresses newIndexes) w.chainCursor w.ibdComplete)

/-! ## Maintenance stages and catch-up, lines 1039-1213 -/

/-- A between-stage quit check, lines 1109-1113, 1154-1158 and 1174-1178. -/
def checkCancelled (env : Env) (s : St) : Step :=
  if env.done s.now then .stop s.nodeHeight .syncCancelled (s.record .CtxDone false)
  else .next (s.record .CtxDone true)

/-- Lines 1042-1051: signal the final height and the end of the initial load. -/
def signalEndOfLoad (env : Env) (s : St) : Step :=
  let s1 := s.record (.SignalHeight (s.nodeHeight % 2 ^ 32)) true
  .next (sendProgressUpdate env
    ⟨s1.nodeHeight, s1.nodeHeight, .initialLoadSyncStatusMsg, .InitialDBLoad, false⟩ s1)

/-- Advance the stage counter (`stage++`). -/
def nextStage (s : St) : St := s.setStage (s.stage + 1)

/-- Lines 1055-1107: duplicate removal, indexing and the deep ANALYZE. -/
def reindexStage (env : Env) (cfg : RunCfg) (s : St) : Step :=
  if cfg.reindexing then
    (attempt env .DropTmpIndex s.nodeHeight .dropTmpIndexFailed (nextStage s)).bind fun s =>
    (attempt env .DeleteDuplicates 0 .deleteDuplicatesFailed s).bind fun s =>
    (attempt env .IndexAll s.nodeHeight .indexAllFailed (nextStage s)).bind fun s =>
    (if !cfg.updateAllAddresses then
      attempt env .IndexAddressTableOnMatchingTxHash s.nodeHeight .indexAddressTableFailed s
     else .next s).bind fun s =>
    (attempt env .IndexTicketsTable s.nodeHeight .indexTicketsTableFailed s).bind fun s =>
    attempt env (.AnalyzeAllTables deepStatsTarget) s.nodeHeight .analyzeTablesFailed (nextStage s)
  else .next s

/-- Lines 1116-1152: the bulk update of the spending information of the addresses
table. `analyzed` is `reindexing` here: line 1106 is reached whenever line 1055
holds and no return was taken. -/
def addressesStage (env : Env) (cfg : RunCfg) (s : St) : Step :=
  if cfg.updateAllAddresses then
    (if !cfg.reindexing then
      (attempt env (.AnalyzeTable .vouts deepStatsTarget) s.nodeHeight .analyzeVoutsFailed
        (nextStage s)).bind fun s =>
      attempt env (.AnalyzeTable .transactions deepStatsTarget) s.nodeHeight
        .analyzeTransactionsFailed s
     else .next (nextStage s)).bind fun s =>
    (Step.next (s.record .DeindexAddressTableOnMatchingTxHash (!env.fails s.now))).bind fun s =>
    (attempt env .UpdateSpendingInfoInAllAddresses s.nodeHeight .updateSpendingInfoFailed
      s).bind fun s =>
    (attempt env .IndexAddressTableOnMatchingTxHash s.nodeHeight .indexAddressTableFailed
      s).bind fun s =>
    attempt env (.AnalyzeTable .addresses deepStatsTarget) s.nodeHeight .analyzeAddressesFailed s
  else .next s

/-- Lines 1160-1167: the quick ANALYZE. `analyzed` is `reindexing` here, as in
`addressesStage`: line 1106 is the only assignment to it. -/
def quickAnalyze (env : Env) (cfg : RunCfg) (s : St) : Step :=
  if !cfg.reindexing ∧ cfg.requireAnalyze then
    attempt env (.AnalyzeAllTables quickStatsTarget) s.nodeHeight .analyzeTablesFailed
      (nextStage s)
  else .next s

/-- Lines 1169-1172: set `meta.ibd_complete`. -/
def setIBDComplete (env : Env) (s : St) : Step :=
  attemptW env (.SetIBDComplete true) s.nodeHeight .setIBDCompleteFailed (setIBDEffect true) s

/-- Lines 1184-1188: the poll before the catch-up; on error the height returned is
the one the failed call assigned. -/
def pollForCatchUp (env : Env) (s : St) : Step :=
  pollBestBlock env (env.best s.now) s

/-- Lines 1039-1167: the maintenance stages that follow the first import pass. -/
def stages (env : Env) (cfg : RunCfg) (s : St) : Step :=
  (signalEndOfLoad env s).bind fun s =>
  (reindexStage env cfg s).bind fun s =>
  (checkCancelled env s).bind fun s =>
  (addressesStage env cfg s).bind fun s =>
  (checkCancelled env s).bind fun s =>
  quickAnalyze env cfg s

/-- Lines 1169-1188: set the flag, switch the duplicate check on, poll the node. -/
def finalize (env : Env) (s : St) : Step :=
  (setIBDComplete env s).bind fun s =>
  (checkCancelled env s).bind fun s =>
  (Step.next (enableDuplicateCheckOnInsert true s)).bind fun s =>
  pollForCatchUp env s

/-- Lines 1039-1188: everything between the first import pass and the catch-up. -/
def maintenance (env : Env) (cfg : RunCfg) (s : St) : Step :=
  (stages env cfg s).bind (finalize env)

/-- Lines 1198-1212: the final progress message and `return nodeHeight, err`, where
`err` is nil. -/
def complete (env : Env) (cfg : RunCfg) (s : St) : Outcome × St :=
  let s1 := if s.barLoad then
      sendProgressUpdate env
        ⟨0, 0, .noMsg, if cfg.updateAllAddresses then .AddressesTableSync else .InitialDBLoad,
          true⟩ s
    else s
  (.returned s1.nodeHeight none, s1)

/-- Lines 1189-1194: the catch-up pass, `importBlocks(endHeight)`, when the node
height moved past `endHeight`. -/
def catchUp (env : Env) (cfg : RunCfg) (fuel : Nat) (endHeight : Int) (s : St) : LoopResult :=
  if s.nodeHeight > endHeight then importBlocks env cfg fuel endHeight s
  else .done endHeight s

/-- Lines 1039-1213: what `SyncChainDB` does after the first import pass returned
`endHeight` without error. -/
def afterImport (env : Env) (cfg : RunCfg) (fuel : Nat) (endHeight : Int) (s : St) :
    Outcome × St :=
  match maintenance env cfg s with
  | .stop h e s1 => (.returned h (some e), s1)
  | .panic m s1 => (.panicked m, s1)
  | .next s1 =>
    match catchUp env cfg fuel endHeight s1 with
    | .stop h e s2 => (.returned h (some e), s2)
    | .panic m s2 => (.panicked m, s2)
    | .outOfFuel s2 => (.outOfFuel, s2)
    | .done _ s2 => complete env cfg s2

/-- The method `(*ChainDB).SyncChainDB`, lines 705-1213. `w` is the state of the
collaborators at entry; `updateExplorer` and `barLoad` tell whether the channel
passed is non-nil; `fuel` bounds the iterations of each import pass. -/
def SyncChainDB (env : Env) (fuel : Nat) (w : World)
    (updateAllAddresses newIndexes updateExplorer barLoad : Bool) : Outcome × St :=
  let cfg := mkCfg w (env.best 0) updateAllAddresses newIndexes
  match setup env w updateAllAddresses newIndexes updateExplorer barLoad with
  | .stop h e s => (.returned h (some e), s)
  | .panic m s => (.panicked m, s)
  | .next s =>
    match importBlocks env cfg fuel cfg.startHeight s with
    | .stop h e s1 => (.returned h (some e), s1)
    | .panic m s1 => (.panicked m, s1)
    | .outOfFuel s1 => (.outOfFuel, s1)
    | .done endHeight s1 => afterImport env cfg fuel endHeight s1

/-! ## Observations on traces -/

/-- The heights of the `StoreBlock` calls that succeeded, in call order. -/
def storedHeights (tr : List Event) : List Int :=
  tr.filterMap fun e =>
    match e.call, e.ok with
    | .StoreBlock h _, true => some h
    | _, _ => none

/-- The heights `StoreBlock` was called with, successful or not, in call order. -/
def storeCalls (tr : List Event) : List Int :=
  tr.filterMap fun e =>
    match e.call with
    | .StoreBlock h _ => some h
    | _ => none

/-- The heights `stakeDB.ConnectBlock` was called with, in call order. -/
def connectCalls (tr : List Event) : List Int :=
  tr.filterMap fun e =>
    match e.call with
    | .ConnectBlock h => some h
    | _ => none

/-- The heights `GetBlock` was called with, in call order. -/
def fetchCalls (tr : List Event) : List Int :=
  tr.filterMap fun e =>
    match e.call with
    | .GetBlock h => some h
    | _ => none

/-- The heights `GetChainWork` was called for, in call order. -/
def chainWorkCalls (tr : List Event) : List Int :=
  tr.filterMap fun e =>
    match e.call with
    | .GetChainWork h => some h
    | _ => none

/-- The targets `RewindStakeDB` was called with, in call order. -/
def rewindCalls (tr : List Event) : List Int :=
  tr.filterMap fun e =>
    match e.call with
    | .RewindStakeDB h => some h
    | _ => none

/-- The calls of a trace, in order. -/
def callsOf (tr : List Event) : List Call := tr.map Event.call

/-- The height reported by the last `GetBestBlock` call of a trace whose first event
happened at time `t`, or `acc` when there is none. -/
def lastPolledFrom (env : Env) : Nat → List Event → Option Int → Option Int
  | _, [], acc => acc
  | t, e :: es, acc =>
    lastPolledFrom env (t + 1) es (if e.call = .GetBestBlock then some (env.best t) else acc)

/-- The best height last polled from the block source in a trace. -/
def lastPolled (env : Env) (tr : List Event) : Option Int := lastPolledFrom env 0 tr none

/-- The heights `a, a+1, ..., b` (empty when `b < a`). -/
def heightsFromTo (a b : Int) : List Int :=
  (List.range (b + 1 - a).toNat).map fun (i : Nat) => a + (i : Int)

/-- An environment in which nothing fails, the context stays live, no channel is
full, the block source stays at height `n`, and the stake database rewinds to the
larger of the target and zero. -/
def quietEnv (n : Int) : Env :=
  { best := fun _ => n, fails := fun _ => false, doesNotExist := fun _ => false,
    done := fun _ => false, full := fun _ => false,
    rewound := fun _ target => max target 0, utxos := 0,
    counts := fun _ => ⟨0, 0, 0, 0⟩ }

/-- The environment `quietEnv n` in which the fallible call made at time `t` fails. -/
def failingEnv (n : Int) (t : Nat) : Env :=
  { quietEnv n with fails := fun u => decide (u = t) }

/-- The environment `quietEnv n` in which the context is cancelled from time `t` on. -/
def cancelledEnv (n : Int) (t : Nat) : Env :=
  { quietEnv n with done := fun u => decide (t ≤ u) }

/-- A state at the head of the import loop: the collaborators in state `w`, the
stake height read, `nodeHeight` as given, nothing in the trace, no channel. -/
def loopEntry (w : World) (nodeHeight : Int) : St :=
  ((initSt w false false).setNodeHeight nodeHeight).setStakeDBHeight w.stakeHeight

/-- Whether a call is one of those whose failure ends an iteration of the import
loop with the previous height: the quit check, `GetBlock`, `ConnectBlock`,
`GetChainWork` and `StoreBlock`. -/
def isImportAbort : Call → Bool
  | .CtxDone => true
  | .GetBlock _ => true
  | .ConnectBlock _ => true
  | .GetChainWork _ => true
  | .StoreBlock _ _ => true
  | _ => false

/-- The calls among those of `isImportAbort` that did not go through, in call order. -/
def abortCalls (tr : List Event) : List Call :=
  tr.filterMap fun e => if !e.ok && isImportAbort e.call then some e.call else none

/-- The calls an iteration of the import loop can make. -/
def isLoopCall : Call → Bool
  | .CtxDone => true
  | .GetBestBlock => true
  | .SendProgress _ => true
  | .GetBlock _ => true
  | .ConnectBlock _ => true
  | .StakeDBHeight => true
  | .GetChainWork _ => true
  | .StoreBlock _ _ => true
  | .SendPageData _ => true
  | _ => false

/-- The calls made between `reconcile` and the first import pass. -/
def isPrepareCall : Call → Bool
  | .UtxoCacheSize => true
  | .RetrieveUTXOs => true
  | .InitUtxoCache _ => true
  | .DeindexAll => true
  | .CreateTmpIndex => true
  | .EnableDuplicateCheckOnInsert _ => true
  | .SetIBDComplete false => true
  | .SendProgress _ => true
  | _ => false

/-- The calls the maintenance stages can make. -/
def isStageCall : Call → Bool
  | .SignalHeight _ => true
  | .SendProgress _ => true
  | .DropTmpIndex => true
  | .DeleteDuplicates => true
  | .IndexAll => true
  | .IndexAddressTableOnMatchingTxHash => true
  | .IndexTicketsTable => true
  | .AnalyzeAllTables _ => true
  | .AnalyzeTable _ _ => true
  | .DeindexAddressTableOnMatchingTxHash => true
  | .UpdateSpendingInfoInAllAddresses => true
  | .CtxDone => true
  | _ => false

/-- The calls made between the maintenance stages and the catch-up pass. -/
def isFinalizeCall : Call → Bool
  | .SetIBDComplete true => true
  | .CtxDone => true
  | .EnableDuplicateCheckOnInsert true => true
  | .GetBestBlock => true
  | _ => false

/-- The state of the collaborators after the stake step of iteration `ib` entered in
state `s`, when the step went through. -/
def worldAfterConnect (ib : Int) (s : St) : World :=
  if s.stakeDBHeight < ib then connectBlockEffect ib s.w else s.w

/-- The state of the collaborators after the commit of iteration `ib` entered in
state `s`. -/
def worldAfterStore (ib : Int) (s : St) : World :=
  storeBlockEffect ib (worldAfterConnect ib s)

/-- Every event of `s1` that is not one of `s` is a call of the import loop, made in
one of the three collaborator states iteration `ib` goes through. -/
def IterEvents (ib : Int) (s s1 : St) : Prop :=
  ∀ e ∈ s1.trace, e ∈ s.trace ∨
    (isLoopCall e.call = true ∧
      (e.after = s.w ∨ e.after = worldAfterConnect ib s ∨ e.after = worldAfterStore ib s))

/-- What one iteration of the import loop, entered in state `s` at height `ib`, may
end in, by outcome: the return value, the state of the collaborators, and the calls
it added to the trace. -/
def IterSpec (cfg : RunCfg) (ib : Int) (s : St) : Step → Prop
  | .next s1 =>
    s1.w = worldAfterStore ib s ∧ s1.stakeDBHeight = (worldAfterConnect ib s).stakeHeight ∧
    (s.stakeDBHeight < ib → ib = s.stakeDBHeight + 1) ∧
    fetchCalls s1.trace = fetchCalls s.trace ++ [ib] ∧
    connectCalls s1.trace = connectCalls s.trace ++ (if s.stakeDBHeight < ib then [ib] else []) ∧
    chainWorkCalls s1.trace = chainWorkCalls s.trace ++ [ib] ∧
    storeCalls s1.trace = storeCalls s.trace ++ [ib] ∧
    storedHeights s1.trace = storedHeights s.trace ++ [ib] ∧
    abortCalls s1.trace = abortCalls s.trace ∧ IterEvents ib s s1
  | .stop h e s1 =>
    IterEvents ib s s1 ∧
    ((e = .cancelledAtHeight ib ∧ h = ib - 1 ∧ s1.w = s.w ∧
      fetchCalls s1.trace = fetchCalls s.trace ∧
      connectCalls s1.trace = connectCalls s.trace ∧
      chainWorkCalls s1.trace = chainWorkCalls s.trace ∧
      storeCalls s1.trace = storeCalls s.trace ∧
      storedHeights s1.trace = storedHeights s.trace ∧
      abortCalls s1.trace = abortCalls s.trace ++ [.CtxDone]) ∨
    (e = .getBestBlockFailed ∧ h = ib ∧ s1.w = s.w ∧
      fetchCalls s1.trace = fetchCalls s.trace ∧
      connectCalls s1.trace = connectCalls s.trace ∧
      chainWorkCalls s1.trace = chainWorkCalls s.trace ∧
      storeCalls s1.trace = storeCalls s.trace ∧
      storedHeights s1.trace = storedHeights s.trace ∧
      abortCalls s1.trace = abortCalls s.trace) ∨
    (e = .getBestBlockFailed ∧ h = ib ∧ s1.w = worldAfterStore ib s ∧
      (s.stakeDBHeight < ib → ib = s.stakeDBHeight + 1) ∧
      fetchCalls s1.trace = fetchCalls s.trace ++ [ib] ∧
      connectCalls s1.trace = connectCalls s.trace ++ (if s.stakeDBHeight < ib then [ib] else []) ∧
      chainWorkCalls s1.trace = chainWorkCalls s.trace ++ [ib] ∧
      storeCalls s1.trace = storeCalls s.trace ++ [ib] ∧
      storedHeights s1.trace = storedHeights s.trace ++ [ib] ∧
      abortCalls s1.trace = abortCalls s.trace) ∨
    (e = .updateToBlockFailed ib ∧ h = ib - 1 ∧ s1.w = s.w ∧
      fetchCalls s1.trace = fetchCalls s.trace ++ [ib] ∧
      connectCalls s1.trace = connectCalls s.trace ∧
      chainWorkCalls s1.trace = chainWorkCalls s.trace ∧
      storeCalls s1.trace = storeCalls s.trace ∧
      storedHeights s1.trace = storedHeights s.trace ∧
      abortCalls s1.trace = abortCalls s.trace ++ [.GetBlock ib]) ∨
    (e = .connectBlockFailed ib ∧ h = ib - 1 ∧ s1.w = s.w ∧ ib = s.stakeDBHeight + 1 ∧
      fetchCalls s1.trace = fetchCalls s.trace ++ [ib] ∧
      connectCalls s1.trace = connectCalls s.trace ++ [ib] ∧
      chainWorkCalls s1.trace = chainWorkCalls s.trace ∧
      storeCalls s1.trace = storeCalls s.trace ∧
      storedHeights s1.trace = storedHeights s.trace ∧
      abortCalls s1.trace = abortCalls s.trace ++ [.ConnectBlock ib]) ∨
    (e = .getChainWorkFailed ib ∧ h = ib - 1 ∧ s1.w = worldAfterConnect ib s ∧
      (s.stakeDBHeight < ib → ib = s.stakeDBHeight + 1) ∧
      fetchCalls s1.trace = fetchCalls s.trace ++ [ib] ∧
      connectCalls s1.trace = connectCalls s.trace ++ (if s.stakeDBHeight < ib then [ib] else []) ∧
      chainWorkCalls s1.trace = chainWorkCalls s.trace ++ [ib] ∧
      storeCalls s1.trace = storeCalls s.trace ∧
      storedHeights s1.trace = storedHeights s.trace ∧
      abortCalls s1.trace = abortCalls s.trace ++ [.GetChainWork ib]) ∨
    (e = .storeBlockFailed ib ∧ h = ib - 1 ∧ s1.w = worldAfterConnect ib s ∧
      (s.stakeDBHeight < ib → ib = s.stakeDBHeight + 1) ∧
      fetchCalls s1.trace = fetchCalls s.trace ++ [ib] ∧
      connectCalls s1.trace = connectCalls s.trace ++ (if s.stakeDBHeight < ib then [ib] else []) ∧
      chainWorkCalls s1.trace = chainWorkCalls s.trace ++ [ib] ∧
      storeCalls s1.trace = storeCalls s.trace ++ [ib] ∧
      storedHeights s1.trace = storedHeights s.trace ∧
      abortCalls s1.trace = abortCalls s.trace ++ [.StoreBlock ib (!cfg.updateAllAddresses)]))
  | .panic m s1 =>
    m = .wrongBlock ib s.stakeDBHeight (2 * (ib - s.stakeDBHeight)) ∧
    s.stakeDBHeight < ib ∧ ib - s.stakeDBHeight ≠ 1 ∧ s1.w = s.w ∧
    fetchCalls s1.trace = fetchCalls s.trace ++ [ib] ∧
    connectCalls s1.trace = connectCalls s.trace ∧
    chainWorkCalls s1.trace = chainWorkCalls s.trace ∧
    storeCalls s1.trace = storeCalls s.trace ∧
    storedHeights s1.trace = storedHeights s.trace ∧
    abortCalls s1.trace = abortCalls s.trace ∧ IterEvents ib s s1

/-- The assertion that holds inside iteration `ib`, entered in state `s0`, once `p`
of its calls went through: 1 the block fetch, 2 the stake step, 3 the chain work, 4
the commit. -/
def Mid (ib : Int) (s0 : St) (p : Nat) (s : St) : Prop :=
  s.w = (if p < 2 then s0.w else if p < 4 then worldAfterConnect ib s0
    else worldAfterStore ib s0) ∧
  s.stakeDBHeight = (if p < 2 then s0.stakeDBHeight else (worldAfterConnect ib s0).stakeHeight) ∧
  (2 ≤ p → s0.stakeDBHeight < ib → ib = s0.stakeDBHeight + 1) ∧
  fetchCalls s.trace = fetchCalls s0.trace ++ (if 1 ≤ p then [ib] else []) ∧
  connectCalls s.trace = connectCalls s0.trace ++
    (if 2 ≤ p ∧ s0.stakeDBHeight < ib then [ib] else []) ∧
  chainWorkCalls s.trace = chainWorkCalls s0.trace ++ (if 3 ≤ p then [ib] else []) ∧
  storeCalls s.trace = storeCalls s0.trace ++ (if 4 ≤ p then [ib] else []) ∧
  storedHeights s.trace = storedHeights s0.trace ++ (if 4 ≤ p then [ib] else []) ∧
  abortCalls s.trace = abortCalls s0.trace ∧ IterEvents ib s0 s

/-- The assertion after a part of iteration `ib`: `Mid` when it falls through, the
clause of `IterSpec` otherwise. -/
def MidPost (cfg : RunCfg) (ib : Int) (s0 : St) (p : Nat) : Step → Prop
  | .next s => Mid ib s0 p s
  | r => IterSpec cfg ib s0 r

/-- The loop head with counter `ib` reached in state `sm`, in a pass started at
`start` in state `s`: the heights `start .. ib - 1` were fetched and committed, none
of the calls that end the loop failed, and the flags are as they were. -/
def Reached (start : Int) (s : St) (ib : Int) (sm : St) : Prop :=
  start ≤ ib ∧
  fetchCalls sm.trace = fetchCalls s.trace ++ heightsFromTo start (ib - 1) ∧
  chainWorkCalls sm.trace = chainWorkCalls s.trace ++ heightsFromTo start (ib - 1) ∧
  storeCalls sm.trace = storeCalls s.trace ++ heightsFromTo start (ib - 1) ∧
  storedHeights sm.trace = storedHeights s.trace ++ heightsFromTo start (ib - 1) ∧
  abortCalls sm.trace = abortCalls s.trace ∧
  (s.w.chainCursor = start - 1 → sm.w.chainCursor = ib - 1) ∧
  sm.w.ibdComplete = s.w.ibdComplete ∧ sm.w.dupCheck = s.w.dupCheck ∧
  sm.w.utxoSize = s.w.utxoSize ∧
  ∀ e ∈ sm.trace, e ∈ s.trace ∨
    (isLoopCall e.call = true ∧ e.after.ibdComplete = s.w.ibdComplete ∧
      e.after.dupCheck = s.w.dupCheck)

/-- What a pass of `importBlocks` started at `start` in state `s` ends in: the loop
head it reached last, and, for a return from inside an iteration or a panic, what
that iteration did. -/
def LoopSpec (cfg : RunCfg) (start : Int) (s : St) : LoopResult → Prop
  | .done n s1 => ∃ ib, n < ib ∧ n = s1.nodeHeight ∧ Reached start s ib s1
  | .stop h e s1 => ∃ ib sm, Reached start s ib sm ∧ IterSpec cfg ib sm (.stop h e s1)
  | .panic m s1 => ∃ ib sm, Reached start s ib sm ∧ IterSpec cfg ib sm (.panic m s1)
  | .outOfFuel s1 => ∃ ib, Reached start s ib s1

/-- What the parts of `SyncChainDB` that follow `reconcile` leave alone while they run
from `s` to `s1`: the trace grows at its end, `nodeHeight` changes only by a poll
made meanwhile, a channel variable set to nil stays nil, the stake database is not
rewound. -/
def Frame (env : Env) (s s1 : St) : Prop :=
  s.now ≤ s1.now ∧
  (s1.nodeHeight = s.nodeHeight ∨ ∃ t, s.now ≤ t ∧ t < s1.now ∧ s1.nodeHeight = env.best t) ∧
  (lastPolled env s.trace = some s.nodeHeight → lastPolled env s1.trace = some s1.nodeHeight) ∧
  (s1.barLoad = true → s.barLoad = true) ∧
  (s1.updateExplorer = true → s.updateExplorer = true) ∧
  s.trace <+: s1.trace ∧ rewindCalls s1.trace = rewindCalls s.trace

/-- The events one of the parts of `SyncChainDB` outside the import loop adds to the
trace of `s`, leaving the heights alone: calls of the class `cls`. -/
def SideEvents (cls : Call → Bool) (s s1 : St) : Prop :=
  ∀ e ∈ s1.trace, e ∈ s.trace ∨
    (cls e.call = true ∧ e.after.chainCursor = s.w.chainCursor ∧
      e.after.stakeHeight = s.w.stakeHeight)

/-- What the parts of `SyncChainDB` outside the import loop leave alone while they
run from `s` to `s1`: the frame, the heights of both stores, the local copy of the
stake height, the totals, and the record of the import calls. -/
def SideFrame (env : Env) (cls : Call → Bool) (s s1 : St) : Prop :=
  Frame env s s1 ∧
  (cls .GetBestBlock = false → s1.nodeHeight = s.nodeHeight) ∧
  s1.w.chainCursor = s.w.chainCursor ∧ s1.w.stakeHeight = s.w.stakeHeight ∧
  s1.stakeDBHeight = s.stakeDBHeight ∧
  s1.totalTxs = s.totalTxs ∧ s1.totalVins = s.totalVins ∧ s1.totalVouts = s.totalVouts ∧
  s1.totalAddresses = s.totalAddresses ∧
  fetchCalls s1.trace = fetchCalls s.trace ∧
  connectCalls s1.trace = connectCalls s.trace ∧
  chainWorkCalls s1.trace = chainWorkCalls s.trace ∧
  storeCalls s1.trace = storeCalls s.trace ∧
  storedHeights s1.trace = storedHeights s.trace ∧
  rewindCalls s1.trace = rewindCalls s.trace ∧
  SideEvents cls s s1

/-- The calls that are no part of the import of a block and no rewind. -/
def isSideCall : Call → Bool
  | .StoreBlock _ _ => false
  | .GetBlock _ => false
  | .ConnectBlock _ => false
  | .GetChainWork _ => false
  | .RewindStakeDB _ => false
  | .GetBestBlock => false
  | _ => true

/-- What `prepare`, entered in state `s`, may end in: the duplicate check and the
flag when it falls through, the height returned with each error. -/
def PrepareSpec (cfg : RunCfg) (lastBlock : Int) (ibdComplete : Bool) (s : St) :
    Step → Prop
  | .next s1 =>
    s1.w.dupCheck = (!cfg.reindexing) ∧
    s1.w.ibdComplete =
      (if ibdComplete = true ∧ (cfg.reindexing = true ∨ cfg.updateAllAddresses = true) then false
        else s.w.ibdComplete) ∧
    s1.stage = 1
  | .stop h e s1 =>
    s1.w.ibdComplete = s.w.ibdComplete ∧
    ((e = .retrieveUTXOs ∧ h = -1) ∨ (e = .deindexAllFailed ∧ h = lastBlock) ∨
      (e = .createTmpIndexFailed ∧ h = lastBlock) ∨
      (e = .setIBDCompleteFailed ∧ h = s.nodeHeight))
  | .panic _ _ => False

/-- The calls of a trace that went through, in call order. -/
def okCalls (tr : List Event) : List Call :=
  tr.filterMap fun e => if e.ok then some e.call else none

/-- The stake database is ahead of the primary store by more than `SyncChainDB`
repairs: the condition of lines 751-752. -/
def Corrupted (w : World) : Prop :=
  (w.stakeHeight > w.chainCursor ∧ w.stakeHeight > 0) ∧
    (w.chainCursor < 0 ∨ w.stakeHeight > 2 * w.chainCursor)

/-- The stake database is ahead of the primary store and gets rewound: line 751 holds
and line 752 does not. -/
def Rewinds (w : World) : Prop :=
  (w.stakeHeight > w.chainCursor ∧ w.stakeHeight > 0) ∧
    ¬(w.chainCursor < 0 ∨ w.stakeHeight > 2 * w.chainCursor)

instance (w : World) : Decidable (Corrupted w) := by unfold Corrupted; infer_instance

instance (w : World) : Decidable (Rewinds w) := by unfold Rewinds; infer_instance

/-- What `reconcile` may end in, from the state `w` of the collaborators at entry. -/
def ReconcileSpec (env : Env) (w : World) (updateExplorer barLoad : Bool) : Step → Prop
  | .next s =>
    -1 ≤ w.chainCursor ∧ ¬Corrupted w ∧
    env.fails 0 = false ∧ env.fails 1 = false ∧ env.fails 2 = false ∧
    (Rewinds w → env.fails 4 = false) ∧
    s.w = (if Rewinds w then
      { w with stakeHeight := env.rewound w.stakeHeight w.chainCursor } else w) ∧
    s.stakeDBHeight = s.w.stakeHeight ∧ s.nodeHeight = env.best 0 ∧
    callsOf s.trace = [.GetBestBlock, .HeightDB, .IBDComplete, .StakeDBHeight] ++
      (if Rewinds w then [.RewindStakeDB w.chainCursor] else []) ∧
    lastPolled env s.trace = some (env.best 0) ∧ 0 < s.now ∧
    s.barLoad = barLoad ∧ s.updateExplorer = updateExplorer ∧
    s.totalTxs = 0 ∧ s.totalVins = 0 ∧ s.totalVouts = 0 ∧ s.totalAddresses = 0 ∧
    fetchCalls s.trace = [] ∧ connectCalls s.trace = [] ∧ chainWorkCalls s.trace = [] ∧
    storeCalls s.trace = [] ∧ storedHeights s.trace = [] ∧
    rewindCalls s.trace = (if Rewinds w then [w.chainCursor] else []) ∧
    ∀ e ∈ s.trace, e.ok = true ∧ (e.after = w ∨ e.after = s.w)
  | .stop h e s =>
    s.w.chainCursor = w.chainCursor ∧
    fetchCalls s.trace = [] ∧ connectCalls s.trace = [] ∧ chainWorkCalls s.trace = [] ∧
    storeCalls s.trace = [] ∧ storedHeights s.trace = [] ∧
    rewindCalls s.trace = (if e = .rewindStakeDBFailed then [w.chainCursor] else []) ∧
    ((e = .getBestBlockFailed ∧ h = -1 ∧ env.fails 0 = true ∧ s.w = w ∧
        callsOf s.trace = [.GetBestBlock]) ∨
      (e = .retrieveBestBlockHeight ∧ h = -1 ∧ env.fails 1 = true ∧ s.w = w ∧
        callsOf s.trace = [.GetBestBlock, .HeightDB]) ∨
      (e = .ibdCompleteFailed ∧ h = w.chainCursor ∧ env.fails 2 = true ∧ s.w = w ∧
        callsOf s.trace = [.GetBestBlock, .HeightDB, .IBDComplete]) ∨
      (e = .deleteStakeDB ∧ h = -1 ∧ -1 ≤ w.chainCursor ∧ Corrupted w ∧ s.w = w ∧
        env.fails 0 = false ∧ env.fails 1 = false ∧ env.fails 2 = false ∧
        callsOf s.trace = [.GetBestBlock, .HeightDB, .IBDComplete, .StakeDBHeight]) ∨
      (e = .rewindStakeDBFailed ∧ h = w.chainCursor ∧ -1 ≤ w.chainCursor ∧ Rewinds w ∧
        env.fails 4 = true ∧
        callsOf s.trace = [.GetBestBlock, .HeightDB, .IBDComplete, .StakeDBHeight,
          .RewindStakeDB w.chainCursor]))
  | .panic m s =>
    m = .invalidStartingHeight ∧ w.chainCursor < -1 ∧ s.w = w ∧ rewindCalls s.trace = [] ∧
    callsOf s.trace = [.GetBestBlock, .HeightDB, .IBDComplete, .StakeDBHeight]

/-- The errors of the maintenance stages that return `nodeHeight`. -/
def isStageError : SyncError → Bool
  | .dropTmpIndexFailed => true
  | .indexAllFailed => true
  | .indexAddressTableFailed => true
  | .indexTicketsTableFailed => true
  | .analyzeTablesFailed => true
  | .analyzeVoutsFailed => true
  | .analyzeTransactionsFailed => true
  | .updateSpendingInfoFailed => true
  | .analyzeAddressesFailed => true
  | .syncCancelled => true
  | _ => false

/-- The calls of the reindexing stage that must go through for it to fall through. -/
def reindexPlan (cfg : RunCfg) : List Call :=
  if cfg.reindexing then
    [.DropTmpIndex, .DeleteDuplicates, .IndexAll, .IndexTicketsTable,
      .AnalyzeAllTables deepStatsTarget] ++
    (if cfg.updateAllAddresses then [] else [.IndexAddressTableOnMatchingTxHash])
  else []

/-- The calls of the addresses stage that must go through for it to fall through. -/
def addressesPlan (cfg : RunCfg) : List Call :=
  if cfg.updateAllAddresses then
    (if cfg.reindexing then []
      else [.AnalyzeTable .vouts deepStatsTarget, .AnalyzeTable .transactions deepStatsTarget]) ++
    [.UpdateSpendingInfoInAllAddresses, .IndexAddressTableOnMatchingTxHash,
      .AnalyzeTable .addresses deepStatsTarget]
  else []

/-- The call of the quick ANALYZE, when it applies. -/
def quickPlan (cfg : RunCfg) : List Call :=
  if !cfg.reindexing ∧ cfg.requireAnalyze then [.AnalyzeAllTables quickStatsTarget] else []

/-- What a maintenance stage entered in state `s` may end in: when it falls through,
the calls of `plan` went through; an error comes with `nodeHeight`, the error of
`DeleteDuplicates` with height 0. Nothing the stage does changes the collaborator
state tracked here. -/
def StageSpec (plan : List Call) (s : St) : Step → Prop
  | .next s1 =>
    s1.w = s.w ∧ (∀ c ∈ okCalls s.trace, c ∈ okCalls s1.trace) ∧
    ∀ c ∈ plan, c ∈ okCalls s1.trace
  | .stop h e s1 =>
    s1.w = s.w ∧ ((e = .deleteDuplicatesFailed ∧ h = 0) ∨
      (isStageError e = true ∧ h = s1.nodeHeight))
  | .panic _ _ => False

/-- What `finalize` entered in state `s` may end in. -/
def FinalizeSpec (s : St) : Step → Prop
  | .next s1 => s1.w.ibdComplete = true ∧ s1.w.dupCheck = true
  | .stop h e s1 =>
    h = s1.nodeHeight ∧
    ((e = .setIBDCompleteFailed ∧ s1.w = s.w) ∨
      (e = .syncCancelled ∧ s1.w.ibdComplete = true ∧ s1.w.dupCheck = s.w.dupCheck) ∨
      (e = .getBestBlockFailed ∧ s1.w.ibdComplete = true ∧ s1.w.dupCheck = true))
  | .panic _ _ => False

/-- The final progress message is the only call `complete` makes. -/
def isCompleteCall : Call → Bool
  | .SendProgress _ => true
  | _ => false

/-- The loop head with counter `ib` in a pass in which the local copy of the stake
height is exact, the stake database is not behind, and `nodeHeight` was polled from
a source that never goes back. -/
def QuietInv (env : Env) (base : List Int) (start ib : Int) (s : St) : Prop :=
  start ≤ ib ∧ s.stakeDBHeight = s.w.stakeHeight ∧ ib ≤ s.stakeDBHeight + 1 ∧
  ib - 1 ≤ s.nodeHeight ∧ (∃ t, t < s.now ∧ s.nodeHeight = env.best t) ∧
  lastPolled env s.trace = some s.nodeHeight ∧
  storeCalls s.trace = base ++ heightsFromTo start (ib - 1) ∧
  storedHeights s.trace = base ++ heightsFromTo start (ib - 1)

/-- The stake database is level with the primary store or one block ahead of it. -/
def HeightsInv (w : World) : Prop :=
  w.stakeHeight - 1 ≤ w.chainCursor ∧ w.chainCursor ≤ w.stakeHeight

instance (w : World) : Decidable (HeightsInv w) := by unfold HeightsInv; infer_instance

/-- The state `s1` reached from `s` keeps `HeightsInv`, and so does the collaborator
state after every call made meanwhile. -/
def KeepsHeights (s s1 : St) : Prop :=
  HeightsInv s1.w ∧ ∀ e ∈ s1.trace, e ∈ s.trace ∨ HeightsInv e.after

/-- The loop head with counter `ib` reached in state `sm`, in a pass entered in state
`s` with the local copy of the stake height exact and `HeightsInv`. -/
def GoodHead (s : St) (ib : Int) (sm : St) : Prop :=
  sm.stakeDBHeight = sm.w.stakeHeight ∧ ib - 1 ≤ sm.w.chainCursor ∧
  s.stakeDBHeight ≤ sm.stakeDBHeight ∧
  connectCalls sm.trace =
    connectCalls s.trace ++ heightsFromTo (s.stakeDBHeight + 1) sm.stakeDBHeight ∧
  KeepsHeights s sm

/-- What a pass entered in state `s` with the local copy of the stake height exact
and `HeightsInv` ends in: it does not panic, it keeps `HeightsInv`, and the blocks it
connected to the stake database are those above the stake height at entry, in
order. -/
def LoopGood (s : St) : LoopResult → Prop
  | .done n s1 => n - 1 ≤ s1.w.chainCursor ∧ GoodHead s n s1
  | .stop _ _ s1 =>
    KeepsHeights s s1 ∧ ∃ b, s.stakeDBHeight ≤ b ∧
      connectCalls s1.trace = connectCalls s.trace ++ heightsFromTo (s.stakeDBHeight + 1) b
  | .panic _ _ => False
  | .outOfFuel s1 =>
    KeepsHeights s s1 ∧ ∃ b, s.stakeDBHeight ≤ b ∧
      connectCalls s1.trace = connectCalls s.trace ++ heightsFromTo (s.stakeDBHeight + 1) b

/-- The outcome of `SyncChainDB` when a part of it ends in `x`: the assertion `G` when
the part falls through, `P` of the run's result otherwise. -/
def PhasePost (G : St → Prop) (P : Outcome × St → Prop) : Step → Prop
  | .next s => G s
  | .stop h e s => P (.returned h (some e), s)
  | .panic m s => P (.panicked m, s)

/-- The outcome of `SyncChainDB` when a pass of `importBlocks` ends in `r`: the
assertion `G` when the pass returns without error, `P` of the run's result
otherwise. -/
def LoopPost (G : Int → St → Prop) (P : Outcome × St → Prop) : LoopResult → Prop
  | .done n s => G n s
  | .stop h e s => P (.returned h (some e), s)
  | .panic m s => P (.panicked m, s)
  | .outOfFuel s => P (.outOfFuel, s)

/-- What a run that got past `reconcile` in state `s0`, the stake database level with
the store or one block ahead, ends in: no panic, `HeightsInv` kept throughout, and
the blocks connected to the stake database are those above its height, in order. -/
def RunGood (s0 : St) (x : Outcome × St) : Prop :=
  (∀ m, x.1 ≠ .panicked m) ∧ KeepsHeights s0 x.2 ∧
  ∃ b, s0.stakeDBHeight ≤ b ∧
    connectCalls x.2.trace = connectCalls s0.trace ++ heightsFromTo (s0.stakeDBHeight + 1) b

/-- The errors a pass of `importBlocks` returns. -/
def isImportError : SyncError → Bool
  | .cancelledAtHeight _ => true
  | .getBestBlockFailed => true
  | .updateToBlockFailed _ => true
  | .connectBlockFailed _ => true
  | .getChainWorkFailed _ => true
  | .storeBlockFailed _ => true
  | _ => false

/-- The errors `SyncChainDB` returns once it got past `reconcile`. -/
def isLateError (e : SyncError) : Bool :=
  isImportError e || isStageError e || e == .deleteDuplicatesFailed ||
    e == .retrieveUTXOs || e == .deindexAllFailed || e == .createTmpIndexFailed ||
    e == .setIBDCompleteFailed

/-- The errors of set-up that `SyncChainDB` returns with `lastBlock`. -/
def isEarlyError : SyncError → Bool
  | .ibdCompleteFailed => true
  | .rewindStakeDBFailed => true
  | .deindexAllFailed => true
  | .createTmpIndexFailed => true
  | _ => false

/-- The state of the collaborators after the call `c` went through, from their state
`w` before it: the effects kept track of are those of `connectBlockEffect`,
`storeBlockEffect` and `setIBDEffect`, the duplicate check toggle and the warm-up of
the UTXO cache. -/
def effect (c : Call) (w : World) : World :=
  match c with
  | .ConnectBlock ib => connectBlockEffect ib w
  | .StoreBlock ib _ => storeBlockEffect ib w
  | .SetIBDComplete b => setIBDEffect b w
  | .EnableDuplicateCheckOnInsert b => { w with dupCheck := b }
  | .InitUtxoCache n => { w with utxoSize := n }
  | _ => w

/-- The two channel sends. -/
def isSend : Call → Bool
  | .SendProgress _ => true
  | .SendPageData _ => true
  | _ => false

/-- A relation between the state before and the state after a piece of
`SyncChainDB` that every elementary action on the state keeps, for the calls of the
class `cls`: a call that fails, a call that goes through, an assignment to a local
variable, and a send through one of the two closures. -/
structure StepClosed (env : Env) (cls : Call → Bool) (R : St → St → Prop) : Prop where
  refl : ∀ s, R s s
  trans : ∀ a b c, R a b → R b c → R a c
  failed : ∀ s c, cls c = true → isSend c = false → R s (s.record c false)
  passed : ∀ s c, cls c = true → isSend c = false →
    R s ((s.setW (effect c s.w)).record c true)
  nodeHeight : ∀ s h, R s (s.setNodeHeight h)
  stakeDBHeight : ∀ s h, R s (s.setStakeDBHeight h)
  stage : ∀ s n, R s (s.setStage n)
  counts : ∀ s c, R s (s.addCounts c)
  progress : ∀ s p, cls (.SendProgress p) = true → R s (sendProgressUpdate env p s)
  page : ∀ s h, cls (.SendPageData h) = true → R s (sendPageData env h s)

/-- The calls of the maintenance work around block import: the indexes, the removal
of duplicate rows, the statistics and the spending information of the addresses
table. -/
def isMaintenanceCall : Call → Bool
  | .DeindexAll => true
  | .CreateTmpIndex => true
  | .DropTmpIndex => true
  | .DeleteDuplicates => true
  | .IndexAll => true
  | .IndexAddressTableOnMatchingTxHash => true
  | .IndexTicketsTable => true
  | .AnalyzeAllTables _ => true
  | .AnalyzeTable _ _ => true
  | .DeindexAddressTableOnMatchingTxHash => true
  | .UpdateSpendingInfoInAllAddresses => true
  | _ => false

/-- The maintenance calls of a trace with their outcome, in call order. -/
def stageLog (tr : List Event) : List (Call × Bool) :=
  tr.filterMap fun e => if isMaintenanceCall e.call then some (e.call, e.ok) else none

/-- The maintenance calls whose error `SyncChainDB` may pass over: `DeindexAll`, line
795, and `DeindexAddressTableOnMatchingTxHash`, line 1133. -/
def isTolerated : Call → Bool
  | .DeindexAll => true
  | .DeindexAddressTableOnMatchingTxHash => true
  | _ => false

/-- A log of calls with their outcome is the log of a part of `SyncChainDB` that
stopped while following the script `plan`, in which `some c` is the call `c` and
`none` marks a point where the part can stop without a maintenance call having
failed (an error of another call, a cancellation, a panic): the calls are those of
the script, in its order, from its first call on; a call that failed is the last of
the log unless its error is one that may be passed over; and after a call that went
through the log ends only at a point marked `none`. -/
def planRun : List (Option Call) → List (Call × Bool) → Bool
  | [], _ => false
  | none :: cs, l => l.isEmpty || planRun cs l
  | some _ :: _, [] => false
  | some c :: cs, a :: l =>
    decide (a.1 = c) &&
      (if a.2 then planRun cs l else (l.isEmpty || (isTolerated c && planRun cs l)))

/-- A log of calls with their outcome went through the whole script `plan`. -/
def planDone (plan : List Call) (l : List (Call × Bool)) : Prop :=
  l.map Prod.fst = plan ∧ ∀ a ∈ l, a.2 = true ∨ isTolerated a.1 = true

/-- The maintenance calls of set-up, lines 791-808. -/
def prepareScript (cfg : RunCfg) : List Call :=
  if cfg.reindexing then [.DeindexAll, .CreateTmpIndex] else []

/-- The maintenance calls of the reindexing stage, lines 1055-1107, in order. -/
def reindexScript (cfg : RunCfg) : List Call :=
  if cfg.reindexing then
    [.DropTmpIndex, .DeleteDuplicates, .IndexAll] ++
    (if cfg.updateAllAddresses then [] else [.IndexAddressTableOnMatchingTxHash]) ++
    [.IndexTicketsTable, .AnalyzeAllTables deepStatsTarget]
  else []

/-- The maintenance calls of the addresses stage, lines 1116-1152, in order. -/
def addressesScript (cfg : RunCfg) : List Call :=
  if cfg.updateAllAddresses then
    (if cfg.reindexing then []
      else [.AnalyzeTable .vouts deepStatsTarget, .AnalyzeTable .transactions deepStatsTarget]) ++
    [.DeindexAddressTableOnMatchingTxHash, .UpdateSpendingInfoInAllAddresses,
      .IndexAddressTableOnMatchingTxHash, .AnalyzeTable .addresses deepStatsTarget]
  else []

/-- The maintenance call of the quick ANALYZE, lines 1160-1167. -/
def quickScript (cfg : RunCfg) : List Call :=
  if !cfg.reindexing ∧ cfg.requireAnalyze then [.AnalyzeAllTables quickStatsTarget] else []

/-- The maintenance calls of a whole run, in order. -/
def script (cfg : RunCfg) : List Call :=
  prepareScript cfg ++ (reindexScript cfg ++ (addressesScript cfg ++ quickScript cfg))

/-- The script of the part of set-up that follows `reconcile`: the UTXO warm-up can
stop, then the maintenance calls, then the clearing of the flag can stop. -/
def prepareMarked (cfg : RunCfg) : List (Option Call) :=
  [none] ++ ((prepareScript cfg).map some ++ ([none] ++ [none]))

/-- The script of the maintenance stages, with the two cancellation checks. -/
def stagesMarked (cfg : RunCfg) : List (Option Call) :=
  [none] ++ ((reindexScript cfg).map some ++ ([none] ++ ((addressesScript cfg).map some ++
    ([none] ++ (quickScript cfg).map some))))

/-- The script of a whole run: `reconcile`, the rest of set-up, the first import pass,
the maintenance stages, then the part up to the catch-up pass and that pass. -/
def scriptMarked (cfg : RunCfg) : List (Option Call) :=
  [none] ++ (prepareMarked cfg ++ ([none] ++ (stagesMarked cfg ++ ([none] ++ [none]))))

/-- What a part of `SyncChainDB` with the script `sc` adds to the log of the
maintenance calls: the whole script when it falls through, the log of a stop
otherwise. -/
def ScriptSpec (sc : List (Option Call)) (s : St) : Step → Prop
  | .next s1 => ∃ l, stageLog s1.trace = stageLog s.trace ++ l ∧ planDone sc.reduceOption l
  | .stop _ _ s1 => ∃ l, stageLog s1.trace = stageLog s.trace ++ l ∧ planRun sc l = true
  | .panic _ s1 => ∃ l, stageLog s1.trace = stageLog s.trace ++ l ∧ planRun sc l = true

/-- The calls of `reconcile`, lines 712-761. -/
def isReconcileCall : Call → Bool
  | .GetBestBlock => true
  | .HeightDB => true
  | .IBDComplete => true
  | .StakeDBHeight => true
  | .RewindStakeDB _ => true
  | _ => false

/-- What a run of `SyncChainDB` leaves in the log of the maintenance calls: the whole
script when it returns without error, the log of a stop otherwise. -/
def LogPost (cfg : RunCfg) (y : Outcome × St) : Prop :=
  (∀ h, y.1 = .returned h none → planDone (script cfg) (stageLog y.2.trace)) ∧
    ((∀ h, y.1 ≠ .returned h none) → planRun (scriptMarked cfg) (stageLog y.2.trace) = true)

/-- The logs of the parts that stop while following a script. -/
def stopLogs : List (Option Call) → List (List (Call × Bool))
  | [] => []
  | none :: cs => [] :: stopLogs cs
  | some c :: cs =>
    [(c, false)] :: ((stopLogs cs).map (fun l => (c, true) :: l) ++
      (if isTolerated c then (stopLogs cs).map (fun l => (c, false) :: l) else []))

/-- The logs of the parts that go through a script. -/
def doneLogs : List Call → List (List (Call × Bool))
  | [] => [[]]
  | c :: cs =>
    (doneLogs cs).map (fun l => (c, true) :: l) ++
      (if isTolerated c then (doneLogs cs).map (fun l => (c, false) :: l) else [])

/-- The configuration with the given flags `reindexing`, `updateAllAddresses` and
`requireAnalyze`: the scripts depend on these three fields only. -/
def flagsCfg (r u q : Bool) : RunCfg :=
  { startHeight := 0, reindexing := r, updateAllAddresses := u, requireAnalyze := q,
    stages := 0 }

/-- The logs of the maintenance calls that a run with the given flags can leave. -/
def runLogs (r u q : Bool) : List (List (Call × Bool)) :=
  stopLogs (scriptMarked (flagsCfg r u q)) ++ doneLogs (script (flagsCfg r u q))

/-- The calls of the reindexing work: `DeindexAll` and the temporary index before
block import; the drop of that index, `DeleteDuplicates`, `IndexAll`,
`IndexTicketsTable` and the deep ANALYZE after it. -/
def reindexingCalls : List Call :=
  [.DeindexAll, .CreateTmpIndex, .DropTmpIndex, .DeleteDuplicates, .IndexAll,
    .IndexTicketsTable, .AnalyzeAllTables deepStatsTarget]

/-- The environment `quietEnv n` with one transaction, input, output and address per
block, in which the block source moves to height `m` at time `t`. -/
def risingEnv (n m : Int) (t : Nat) : Env :=
  { quietEnv n with
    best := fun u => if u < t then n else m
    counts := fun _ => ⟨1, 1, 1, 1⟩ }

/-- The environment `risingEnv n m t` in which the fallible call made at time `u`
fails. -/
def risingFailingEnv (n m : Int) (t u : Nat) : Env :=
  { risingEnv n m t with fails := fun v => decide (v = u) }

/-- No block was fetched, connected or committed so far, and the run totals are
zero. -/
def Idle (s : St) : Prop :=
  fetchCalls s.trace = [] ∧ connectCalls s.trace = [] ∧ storeCalls s.trace = [] ∧
  s.totalTxs = 0 ∧ s.totalVins = 0 ∧ s.totalVouts = 0 ∧ s.totalAddresses = 0

/-- The calls that leave the duplicate check toggle at `d` when it is `d`: all but
`EnableDuplicateCheckOnInsert (!d)`. -/
def keepsDupCheck (d : Bool) : Call → Bool
  | .EnableDuplicateCheckOnInsert b => b == d
  | _ => true

/-- From `s` to `s1` the trace grew by the calls `evs`; and when the duplicate check
toggle is `d` in `s`, it is `d` in `s1` and right after each of these calls. -/
def DupCheckKept (d : Bool) (s s1 : St) : Prop :=
  ∃ evs, s1.trace = s.trace ++ evs ∧
    (s.w.dupCheck = d → s1.w.dupCheck = d ∧ ∀ e ∈ evs, e.after.dupCheck = d)

/-- The outcomes of the sends on `barLoad`, in call order: `true` for a message that
was delivered, `false` for a send that found the buffer full. -/
def progressLog (tr : List Event) : List Bool :=
  tr.filterMap fun e =>
    match e.call with
    | .SendProgress _ => some e.ok
    | _ => none

/-- The outcomes of the sends on `updateExplorer`, in call order. -/
def pageLog (tr : List Event) : List Bool :=
  tr.filterMap fun e =>
    match e.call with
    | .SendPageData _ => some e.ok
    | _ => none

/-- From `s` to `s1`, for the sink whose channel variable is read by `isOpen` and whose
sends are listed by `log`: when the variable is not nil in `s`, the sends made
meanwhile were all delivered but the last one if the variable is nil in `s1`; when it
is nil in `s`, it is nil in `s1` and no send was made. -/
def SinkKept (isOpen : St → Bool) (log : List Event → List Bool) (s s1 : St) : Prop :=
  (isOpen s = true → ∃ n, log s1.trace =
    log s.trace ++ (List.replicate n true ++ (if isOpen s1 then [] else [false]))) ∧
  (isOpen s = false → isOpen s1 = false ∧ log s1.trace = log s.trace)

/-- The heights whose block hash was offered to `updateExplorer`, delivered or not, in
call order. -/
def pageCalls (tr : List Event) : List Int :=
  tr.filterMap fun e =>
    match e.call with
    | .SendPageData h => some h
    | _ => none

/-- The calls of an iteration of the import loop but the commit and the page
update. -/
def isFetchCall : Call → Bool
  | .CtxDone => true
  | .GetBestBlock => true
  | .SendProgress _ => true
  | .GetBlock _ => true
  | .ConnectBlock _ => true
  | .StakeDBHeight => true
  | .GetChainWork _ => true
  | _ => false

/-- From `s` to `s1` no block was committed, no hash offered, and the channel variable
`updateExplorer` is as it was. -/
def PageQuiet (s s1 : St) : Prop :=
  storedHeights s1.trace = storedHeights s.trace ∧ pageCalls s1.trace = pageCalls s.trace ∧
  s1.updateExplorer = s.updateExplorer

/-- What iteration `ib` of the import loop, entered in state `s` and ended in state
`s1`, offers to `updateExplorer`: the hash of the block when the iteration committed
it, `updateAllAddresses` is not in effect, `ib` is a multiple of 20 and the channel
variable is not nil in `s`; nothing otherwise. -/
def PageSpec (cfg : RunCfg) (ib : Int) (s s1 : St) : Prop :=
  pageCalls s1.trace = pageCalls s.trace ++
    (if storedHeights s1.trace = storedHeights s.trace ++ [ib] ∧
        cfg.updateAllAddresses = false ∧ ib.tmod 20 = 0 ∧ s.updateExplorer = true
      then [ib] else [])

/-! ## The stage counter -/

/-- What a part of `SyncChainDB` entered in state `s` does to the stage counter when it
makes `k` steps `stage++`: the counter is `k` higher when the part falls through, and
at most `k` higher when it returns or panics. -/
def StageAdd (k : Nat) (s : St) : Step → Prop
  | .next s1 => s1.stage = s.stage + k
  | .stop _ _ s1 => s1.stage ≤ s.stage + k
  | .panic _ s1 => s1.stage ≤ s.stage + k

/-- The number of steps `stage++` of lines 1055-1167: three in the reindexing stage,
one in the bulk update of the addresses table, one in the quick ANALYZE. -/
def stageSteps (cfg : RunCfg) : Nat :=
  (if cfg.reindexing then 3 else 0) + ((if cfg.updateAllAddresses then 1 else 0) +
    (if !cfg.reindexing ∧ cfg.requireAnalyze then 1 else 0))

/-! ## The warm-up of the UTXO cache -/

/-- The calls `RetrieveUTXOs` and `InitUtxoCache` of a trace with their outcome, in
call order. -/
def utxoLog (tr : List Event) : List (Call × Bool) :=
  tr.filterMap fun e =>
    match e.call with
    | .RetrieveUTXOs => some (e.call, e.ok)
    | .InitUtxoCache _ => some (e.call, e.ok)
    | _ => none

/-- The calls other than `RetrieveUTXOs` and `InitUtxoCache`. -/
def isNoUtxoLoad : Call → Bool
  | .RetrieveUTXOs => false
  | .InitUtxoCache _ => false
  | _ => true

/-- From `s` to `s1` the UTXO cache was not loaded: no call of `RetrieveUTXOs` or
`InitUtxoCache`, and the size of the cache is as it was. -/
def UtxoQuiet (s s1 : St) : Prop :=
  utxoLog s1.trace = utxoLog s.trace ∧ s1.w.utxoSize = s.w.utxoSize

/-- What the warm-up reached in state `s` leaves in the log of the loads: nothing when
the cache is not empty; `RetrieveUTXOs`, and `InitUtxoCache` after it when it went
through, when the cache is empty. `RetrieveUTXOs` is the call made at time
`s.now + 1`, right after the read of the size. -/
def warmUpLog (env : Env) (s : St) : List (Call × Bool) :=
  if s.w.utxoSize = 0 then
    if env.fails (s.now + 1) then [(.RetrieveUTXOs, false)]
    else [(.RetrieveUTXOs, true), (.InitUtxoCache env.utxos, true)]
  else []

/-- The size of the cache after the warm-up reached in state `s`. -/
def warmUpSize (env : Env) (s : St) : Nat :=
  if s.w.utxoSize = 0 ∧ env.fails (s.now + 1) = false then env.utxos else s.w.utxoSize

/-! ## The flag and the duplicate check at the end of a run -/

/-- A call `SetIBDComplete(true)` of the trace went through. -/
def flagSetIn (tr : List Event) : Prop :=
  ∃ e ∈ tr, e.call = .SetIBDComplete true ∧ e.ok = true

instance (tr : List Event) : Decidable (flagSetIn tr) := by
  unfold flagSetIn; infer_instance

/-- The calls other than `SetIBDComplete(true)`. -/
def isNoFlagSet : Call → Bool
  | .SetIBDComplete true => false
  | _ => true

/-- From `s` to `s1` no call `SetIBDComplete(true)` went through. -/
def FlagKept (s s1 : St) : Prop := flagSetIn s1.trace → flagSetIn s.trace

/-! ## `int64` arithmetic -/

/-- The `int64` value of an arithmetic result `n`: Go's signed integer arithmetic
wraps around in two's complement, so the sum or difference of two `int64` values is
the integer of the range from -9223372036854775808 to 9223372036854775807 that is
congruent to the exact result modulo 2^64 = 18446744073709551616. -/
def wrap64 (n : Int) : Int :=
  (n + 9223372036854775808) % 18446744073709551616 - 9223372036854775808

/-! ## `syncCoinAgeBandsTable`, lines 108-123 -/

/-- What `syncCoinAgeBandsTable` ends in: `return nil` after the loop (`done`), the
`return err` inside it (`failed`, with the error of the call made last), or the fuel
of the model used up. Each carries the height ranges
`SyncCoinAgeBandsWithHeightRange` was called with, in call order. -/
inductive BatchResult where
  | done (calls : List (Int × Int))
  | failed (err : String) (calls : List (Int × Int))
  | outOfFuel (calls : List (Int × Int))
deriving DecidableEq, Repr

/-- The calls a result carries. -/
def BatchResult.calls : BatchResult → List (Int × Int)
  | .done calls => calls
  | .failed _ calls => calls
  | .outOfFuel calls => calls

/-- The loop of `syncCoinAgeBandsTable`, lines 111-121:
`for fromHeight := ...; fromHeight <= maxHeight; fromHeight += batchSize`, with
`batchSize = 50`. The answer of the call number `k` (from 0) of
`SyncCoinAgeBandsWithHeightRange`, whose body is no part of the loop, is given by
`batchErr k`: `none` for nil, `some e` for the error `e`. The sums of lines 111 and
112 are `int64` sums and wrap around. -/
def coinAgeBandsLoop (batchErr : Nat → Option String) (maxHeight : Int) :
    Nat → Int → List (Int × Int) → BatchResult
  | 0, fromHeight, calls => if fromHeight ≤ maxHeight then .outOfFuel calls else .done calls
  | fuel + 1, fromHeight, calls =>
    if fromHeight ≤ maxHeight then
      let toHeight := wrap64 (wrap64 (fromHeight + 50) - 1)
      let toHeight := if toHeight > maxHeight then maxHeight else toHeight
      match batchErr calls.length with
      | some err => .failed err (calls ++ [(fromHeight, toHeight)])
      | none =>
        coinAgeBandsLoop batchErr maxHeight fuel (wrap64 (fromHeight + 50))
          (calls ++ [(fromHeight, toHeight)])
    else .done calls

/-- The method `syncCoinAgeBandsTable`, lines 108-123; `maxHeight` is
`pgb.bestBlock.height`. -/
def syncCoinAgeBandsTable (batchErr : Nat → Option String) (maxHeight : Int) (fuel : Nat)
    (lastHeight : Int) : BatchResult :=
  coinAgeBandsLoop batchErr maxHeight fuel (wrap64 (lastHeight + 1)) []

/-- The heights of the ranges of a list of calls, range after range. -/
def rangeHeights (calls : List (Int × Int)) : List Int :=
  (calls.map fun c => heightsFromTo c.1 c.2).flatten

/-! ## `GetStartRevertIndexAddressRow`, lines 618-628 -/

/-- The calendar date a `time.Time` shows in its location: the values of `Year()`,
`Month()` and `Day()`. -/
structure Date where
  year : Int
  month : Nat
  day : Nat
deriving DecidableEq, Repr

/-- Modelled from the spec: `dbtypes.AddressesMonthRowsCount`, which is not part of
the sources at hand: a month, of which the code reads year and month, and the number
of rows of that month, here as the `int64` the code converts it to. -/
structure AddressesMonthRowsCount where
  Month : Date
  Count : Int
deriving DecidableEq, Repr

/-- The loop of `GetStartRevertIndexAddressRow`, lines 620-626, entered with the
local variable `count`, and the `return -1` that follows it. The sum of line 621 is
an `int64` sum and wraps around. -/
def revertIndexFrom (currentMonth : Date) : Int → List AddressesMonthRowsCount → Int
  | _, [] => -1
  | count, monthRow :: rows =>
    let count := wrap64 (count + monthRow.Count)
    if monthRow.Month.month = currentMonth.month ∧ monthRow.Month.year = currentMonth.year then
      count
    else revertIndexFrom currentMonth count rows

/-- The method `GetStartRevertIndexAddressRow`, lines 618-628. -/
def GetStartRevertIndexAddressRow (rowCountMonths : List AddressesMonthRowsCount)
    (currentMonth : Date) : Int :=
  revertIndexFrom currentMonth 0 rowCountMonths

/-- A row is of the year and month of `m`: the test of line 623. -/
def sameMonth (monthRow : AddressesMonthRowsCount) (m : Date) : Prop :=
  monthRow.Month.month = m.month ∧ monthRow.Month.year = m.year

instance (monthRow : AddressesMonthRowsCount) (m : Date) : Decidable (sameMonth monthRow m) := by
  unfold sameMonth; infer_instance

/-! ## The month loop of `SyncAddressSummary` and `SyncTreasurySummary` -/

/-- Leap years of the Gregorian calendar. -/
def isLeap (y : Int) : Bool := (y % 4 == 0 && y % 100 != 0) || y % 400 == 0

/-- The number of days of month `m` of year `y`. -/
def daysIn (y : Int) (m : Nat) : Nat :=
  match m with
  | 2 => if isLeap y then 29 else 28
  | 4 => 30
  | 6 => 30
  | 9 => 30
  | 11 => 30
  | _ => 31

/-- The date of `t.AddDate(0, 1, 0)` of the Go standard library, for a valid date `t`:
the month is advanced by one, and a day past the end of that month is normalised the
way `time.Date` does it, by counting the surplus days into the month after (October 31
gives December 1, the normal form of November 31). -/
def addOneMonth (t : Date) : Date :=
  let y := if t.month = 12 then t.year + 1 else t.year
  let m := if t.month = 12 then 1 else t.month + 1
  if t.day ≤ daysIn y m then ⟨y, m, t.day⟩
  else ⟨if m = 12 then y + 1 else y, if m = 12 then 1 else m + 1, t.day - daysIn y m⟩

/-- What the month loop ends in: the loop left with `stopFlg` set (`done`), the
`return err` after a failed query (`failed`), or the fuel of the model used up. Each
carries the year and month of `startTime` at the head of every iteration made. -/
inductive MonthLoopResult where
  | done (visited : List (Int × Nat))
  | failed (visited : List (Int × Nat))
  | outOfFuel (visited : List (Int × Nat))
deriving DecidableEq, Repr

/-- The months a result carries. -/
def MonthLoopResult.visited : MonthLoopResult → List (Int × Nat)
  | .done visited => visited
  | .failed visited => visited
  | .outOfFuel visited => visited

/-- The loop `for !stopFlg` of `SyncAddressSummary`, lines 399-473, and the loop of
`SyncTreasurySummary`, lines 533-613, which has the same control flow. An iteration
sets `stopFlg` when `startTime` is of the year and month of `now`; it goes on with
`startTime.AddDate(0, 1, 0)` at once when the month is saved (`saved`, the answer of
`CheckSavedSummary`), returns when the query of the month fails (`queryFails`, by the
number of the iteration), and in every other branch works on the rows of the month and
goes on with `nextMonth`, which is `startTime.AddDate(0, 1, 0)` too. What is done with
the rows changes neither `startTime` nor `stopFlg` and is left out. -/
def summaryMonthLoop (saved : Date → Bool) (queryFails : Nat → Bool) (now : Date) :
    Nat → Date → List (Int × Nat) → MonthLoopResult
  | 0, _, visited => .outOfFuel visited
  | fuel + 1, startTime, visited =>
    let stopFlg := decide (now.month = startTime.month ∧ now.year = startTime.year)
    let visited1 := visited ++ [(startTime.year, startTime.month)]
    if saved startTime then
      if stopFlg then .done visited1
      else summaryMonthLoop saved queryFails now fuel (addOneMonth startTime) visited1
    else if queryFails visited.length then .failed visited1
    else if stopFlg then .done visited1
    else summaryMonthLoop saved queryFails now fuel (addOneMonth startTime) visited1

/-! ## `supplementUnknownTicketError`, lines 1215-1250 -/

/-- A character of the class `\w` of Go regular expressions: an ASCII letter, an ASCII
digit or the underscore. -/
def isWordChar (c : Char) : Bool := c.isAlphanum || c == '_'

/-- The text before the group of `unknown ticket (\w*) spent in block`. -/
def ticketPrefix : List Char := "unknown ticket ".toList

/-- The text after the group of `unknown ticket (\w*) spent in block`. -/
def ticketSuffix : List Char := " spent in block".toList

/-- A match of `unknown ticket (\w*) spent in block` that starts with the first
character of `cs`: the characters of the group. The group is the longest run of word
characters, since the blank that has to follow it is no word character. -/
def matchUnknownTicketAt (cs : List Char) : Option (List Char) :=
  if ticketPrefix.isPrefixOf cs then
    let rest := cs.drop ticketPrefix.length
    if ticketSuffix.isPrefixOf (rest.dropWhile isWordChar) then
      some (rest.takeWhile isWordChar)
    else none
  else none

/-- The group of the leftmost match of `unknown ticket (\w*) spent in block` in `cs`:
`re.FindStringSubmatch`, lines 1217-1218, with `matches[1]` of line 1224; `none` when
there is no match (`len(matches) <= 1`). -/
def findUnknownTicket : List Char → Option (List Char)
  | [] => none
  | c :: cs =>
    match matchUnknownTicketAt (c :: cs) with
    | some g => some g
    | none => findUnknownTicket cs

/-- The collaborators of `supplementUnknownTicketError`: `chainhash.NewHashFromStr`
(`none` for an error), a hash being a natural number here;
`Client.GetRawTransactionVerbose` (`none` for an error), of whose answer the code
reads `BlockHeight`; and `stakeDB.Height()`, a `uint32`. -/
structure TicketEnv where
  newHashFromStr : String → Option Nat
  getRawTransactionVerbose : Nat → Option Int
  stakeHeight : Nat

/-- The function `parseUnknownTicketError`, lines 1215-1230, of the message of the
error. -/
def parseUnknownTicketError (env : TicketEnv) (msg : String) : Option Nat :=
  match findUnknownTicket msg.toList with
  | none => none
  | some unknownTicket => env.newHashFromStr (String.mk unknownTicket)

/-- The hint of lines 1247-1249 for the block `badTxBlock` and `numToPurge` blocks. -/
def purgeHint (badTxBlock numToPurge : Int) : String :=
  "\n\t**** Unknown ticket was mined in block " ++ toString badTxBlock ++
    ". Try \"--purge-n-blocks=" ++ toString numToPurge ++ " to recover. ****"

/-- The method `supplementUnknownTicketError`, lines 1235-1250. An error is its
message; the error returned unchanged is the message returned unchanged. -/
def supplementUnknownTicketError (env : TicketEnv) (err : String) : String :=
  match parseUnknownTicketError env err with
  | none => err
  | some ticketHash =>
    match env.getRawTransactionVerbose ticketHash with
    | none => err
    | some badTxBlock =>
      let sDBHeight : Int := env.stakeHeight
      let numToPurge := sDBHeight - badTxBlock + 1
      err ++ purgeHint badTxBlock numToPurge

end Dcrpg

namespace Explorer

/-! ## `TicketStatusText`, `explorer.go` lines 262-291 -/

/-- Modelled from the spec: `dbtypes.TicketSpendType`, which is not part of the
sources at hand: an integer type with the named values `TicketUnspent`,
`TicketRevoked` and `TicketVoted`; `other n` stands for a value that is none of
them. -/
inductive TicketSpendType where
  | TicketUnspent
  | TicketRevoked
  | TicketVoted
  | other (n : Int)
deriving DecidableEq, Repr

/-- Modelled from the spec: `dbtypes.TicketPoolStatus`, which is not part of the
sources at hand: an integer type with the named values `PoolStatusLive`,
`PoolStatusVoted`, `PoolStatusExpired` and `PoolStatusMissed`; `other n` stands for a
value that is none of them. -/
inductive TicketPoolStatus where
  | PoolStatusLive
  | PoolStatusVoted
  | PoolStatusExpired
  | PoolStatusMissed
  | other (n : Int)
deriving DecidableEq, Repr

/-- The function `TicketStatusText`, lines 264-291. -/
def TicketStatusText (s : TicketSpendType) (p : TicketPoolStatus) : String :=
  match p with
  | .PoolStatusLive => "In Live Ticket Pool"
  | .PoolStatusVoted => "Voted"
  | .PoolStatusExpired =>
    match s with
    | .TicketUnspent => "Expired, Unrevoked"
    | .TicketRevoked => "Expired, Revoked"
    | _ => "invalid ticket state"
  | .PoolStatusMissed =>
    match s with
    | .TicketUnspent => "Missed, Unrevoked"
    | .TicketRevoked => "Missed, Revoked"
    | _ => "invalid ticket state"
  | _ => "Immature"

/-! ## `GetMultichainBlockchainSize`, `explorer.go` lines 1274-1300 -/

/-- Modelled from the spec: `mutilchain.MultichainChainSizeChartData`, which is not
part of the sources at hand: the decoded chart, of which the code reads the series
`T` of timestamps and the series `Size`. -/
structure MultichainChainSizeChartData where
  T : List Int
  Size : List Int
deriving DecidableEq, Repr

/-- What lines 1275-1287 end in: no chart source for the chain type, an error of
`Chart`, an error of `json.Unmarshal`, or the decoded chart. -/
inductive ChartRead where
  | noSource
  | chartError
  | decodeError
  | decoded (chainSizeData : MultichainChainSizeChartData)
deriving DecidableEq, Repr

/-- The loop of lines 1290-1295 over the timestamps from position `index` on, entered
with the local variables `maxTime` and `timeIndex`; it returns `timeIndex`. -/
def maxTimeIndexFrom : List Int → Nat → Int → Int → Int
  | [], _, _, timeIndex => timeIndex
  | time :: rest, index, maxTime, timeIndex =>
    if time > maxTime then maxTimeIndexFrom rest (index + 1) time index
    else maxTimeIndexFrom rest (index + 1) maxTime timeIndex

/-- The method `GetMultichainBlockchainSize`, lines 1274-1300; `none` is the run-time
panic of an index out of range at line 1297. -/
def GetMultichainBlockchainSize (chart : ChartRead) : Option Int :=
  match chart with
  | .decoded chainSizeData =>
    let timeIndex := maxTimeIndexFrom chainSizeData.T 0 0 (-1)
    if timeIndex > 0 then chainSizeData.Size.get? timeIndex.toNat
    else some 0
  | _ => some 0

end Explorer


namespace Dcrpg

/-! ## Basic facts on steps, on the channel closures and on the observations -/

@[simp] theorem Step.bind_next (s : St) (f : St → Step) : (Step.next s).bind f = f s := rfl

@[simp] theorem Step.bind_stop (h : Int) (e : SyncError) (s : St) (f : St → Step) :
    (Step.stop h e s).bind f = .stop h e s := rfl

@[simp] theorem Step.bind_panic (m : PanicMsg) (s : St) (f : St → Step) :
    (Step.panic m s).bind f = .panic m s := rfl

theorem Step.bind_ite (c : Prop) [Decidable c] (a b : Step) (f : St → Step) :
    (if c then a else b).bind f = if c then a.bind f else b.bind f := by
  split <;> rfl

@[simp] theorem Step.st_next (s : St) : (Step.next s).st = s := rfl

@[simp] theorem Step.st_stop (h : Int) (e : SyncError) (s : St) : (Step.stop h e s).st = s := rfl

@[simp] theorem Step.st_panic (m : PanicMsg) (s : St) : (Step.panic m s).st = s := rfl

/-- Sequencing rule: to show `Q` of `x.bind f`, show an assertion `N` after `x` when it
falls through and `Q` itself when it does not, and show `Q` of `f s` under `N s`. -/
theorem Step.bind_spec {Q : Step → Prop} {x : Step} {f : St → Step} (N : St → Prop)
    (hx : match x with
      | .next s => N s
      | .stop h e s => Q (.stop h e s)
      | .panic m s => Q (.panic m s))
    (hf : ∀ s, N s → Q (f s)) : Q (x.bind f) := by
  cases x with
  | next s => exact hf s hx
  | stop h e s => exact hx
  | panic m s => exact hx

/-- Sequencing rule for a relation between the state before and the state after that
is transitive. -/
theorem Step.bind_rel {R : St → St → Prop} (htrans : ∀ a b c, R a b → R b c → R a c)
    {x : Step} {f : St → Step} {s : St} (hx : R s x.st) (hf : ∀ s1, R s1 (f s1).st) :
    R s (x.bind f).st := by
  cases x with
  | next s1 => exact htrans _ _ _ hx (hf s1)
  | stop h e s1 => exact hx
  | panic m s1 => exact hx

@[simp] theorem St.now_record (s : St) (c : Call) (ok : Bool) :
    (s.record c ok).now = s.now + 1 := by
  simp [St.now]

@[simp] theorem St.now_setW (s : St) (w : World) : (s.setW w).now = s.now := rfl

@[simp] theorem St.now_setNodeHeight (s : St) (h : Int) : (s.setNodeHeight h).now = s.now := rfl

@[simp] theorem St.now_setStakeDBHeight (s : St) (h : Int) :
    (s.setStakeDBHeight h).now = s.now := rfl

@[simp] theorem St.now_setStage (s : St) (n : Nat) : (s.setStage n).now = s.now := rfl

@[simp] theorem St.now_addCounts (s : St) (c : BlockCounts) : (s.addCounts c).now = s.now := rfl

@[simp] theorem St.now_dropBarLoad (s : St) : s.dropBarLoad.now = s.now := rfl

@[simp] theorem St.now_dropUpdateExplorer (s : St) : s.dropUpdateExplorer.now = s.now := rfl

@[simp] theorem sendProgressUpdate_w (env : Env) (p : ProgressBarLoad) (s : St) :
    (sendProgressUpdate env p s).w = s.w := by
  unfold sendProgressUpdate; split_ifs <;> rfl

@[simp] theorem sendProgressUpdate_stakeDBHeight (env : Env) (p : ProgressBarLoad) (s : St) :
    (sendProgressUpdate env p s).stakeDBHeight = s.stakeDBHeight := by
  unfold sendProgressUpdate; split_ifs <;> rfl

@[simp] theorem sendProgressUpdate_nodeHeight (env : Env) (p : ProgressBarLoad) (s : St) :
    (sendProgressUpdate env p s).nodeHeight = s.nodeHeight := by
  unfold sendProgressUpdate; split_ifs <;> rfl

@[simp] theorem sendProgressUpdate_stage (env : Env) (p : ProgressBarLoad) (s : St) :
    (sendProgressUpdate env p s).stage = s.stage := by
  unfold sendProgressUpdate; split_ifs <;> rfl

@[simp] theorem sendProgressUpdate_updateExplorer (env : Env) (p : ProgressBarLoad) (s : St) :
    (sendProgressUpdate env p s).updateExplorer = s.updateExplorer := by
  unfold sendProgressUpdate; split_ifs <;> rfl

@[simp] theorem sendPageData_w (env : Env) (h : Int) (s : St) :
    (sendPageData env h s).w = s.w := by
  unfold sendPageData; split_ifs <;> rfl

@[simp] theorem sendPageData_stakeDBHeight (env : Env) (h : Int) (s : St) :
    (sendPageData env h s).stakeDBHeight = s.stakeDBHeight := by
  unfold sendPageData; split_ifs <;> rfl

@[simp] theorem sendPageData_nodeHeight (env : Env) (h : Int) (s : St) :
    (sendPageData env h s).nodeHeight = s.nodeHeight := by
  unfold sendPageData; split_ifs <;> rfl

@[simp] theorem sendPageData_stage (env : Env) (h : Int) (s : St) :
    (sendPageData env h s).stage = s.stage := by
  unfold sendPageData; split_ifs <;> rfl

@[simp] theorem sendPageData_barLoad (env : Env) (h : Int) (s : St) :
    (sendPageData env h s).barLoad = s.barLoad := by
  unfold sendPageData; split_ifs <;> rfl

/-- The events of the trace after a progress message. -/
@[simp] theorem mem_sendProgressUpdate_trace (env : Env) (p : ProgressBarLoad) (s : St)
    (e : Event) :
    e ∈ (sendProgressUpdate env p s).trace ↔
      e ∈ s.trace ∨ (s.barLoad = true ∧ e = ⟨.SendProgress p, !env.full s.now, s.w⟩) := by
  unfold sendProgressUpdate
  split_ifs <;> simp_all

/-- The events of the trace after a page update. -/
@[simp] theorem mem_sendPageData_trace (env : Env) (h : Int) (s : St) (e : Event) :
    e ∈ (sendPageData env h s).trace ↔
      e ∈ s.trace ∨ (s.updateExplorer = true ∧ e = ⟨.SendPageData h, !env.full s.now, s.w⟩) := by
  unfold sendPageData
  split_ifs <;> simp_all

/-- A progress message adds nothing but `SendProgress` events to the trace. -/
theorem sendProgressUpdate_filterMap {β : Type} (g : Event → Option β) (env : Env)
    (p : ProgressBarLoad) (s : St) (hg : ∀ ok w, g ⟨.SendProgress p, ok, w⟩ = none) :
    (sendProgressUpdate env p s).trace.filterMap g = s.trace.filterMap g := by
  unfold sendProgressUpdate
  split_ifs <;> simp [List.filterMap_append, hg]

/-- A page update adds nothing but `SendPageData` events to the trace. -/
theorem sendPageData_filterMap {β : Type} (g : Event → Option β) (env : Env)
    (h : Int) (s : St) (hg : ∀ ok w, g ⟨.SendPageData h, ok, w⟩ = none) :
    (sendPageData env h s).trace.filterMap g = s.trace.filterMap g := by
  unfold sendPageData
  split_ifs <;> simp [List.filterMap_append, hg]

@[simp] theorem sendProgressUpdate_fetchCalls (env : Env) (p : ProgressBarLoad) (s : St) :
    fetchCalls (sendProgressUpdate env p s).trace = fetchCalls s.trace :=
  sendProgressUpdate_filterMap _ env p s (fun _ _ => rfl)

@[simp] theorem sendProgressUpdate_connectCalls (env : Env) (p : ProgressBarLoad) (s : St) :
    connectCalls (sendProgressUpdate env p s).trace = connectCalls s.trace :=
  sendProgressUpdate_filterMap _ env p s (fun _ _ => rfl)

@[simp] theorem sendProgressUpdate_chainWorkCalls (env : Env) (p : ProgressBarLoad) (s : St) :
    chainWorkCalls (sendProgressUpdate env p s).trace = chainWorkCalls s.trace :=
  sendProgressUpdate_filterMap _ env p s (fun _ _ => rfl)

@[simp] theorem sendProgressUpdate_storeCalls (env : Env) (p : ProgressBarLoad) (s : St) :
    storeCalls (sendProgressUpdate env p s).trace = storeCalls s.trace :=
  sendProgressUpdate_filterMap _ env p s (fun _ _ => rfl)

@[simp] theorem sendProgressUpdate_storedHeights (env : Env) (p : ProgressBarLoad) (s : St) :
    storedHeights (sendProgressUpdate env p s).trace = storedHeights s.trace :=
  sendProgressUpdate_filterMap _ env p s (fun _ _ => rfl)

@[simp] theorem sendProgressUpdate_rewindCalls (env : Env) (p : ProgressBarLoad) (s : St) :
    rewindCalls (sendProgressUpdate env p s).trace = rewindCalls s.trace :=
  sendProgressUpdate_filterMap _ env p s (fun _ _ => rfl)

@[simp] theorem sendProgressUpdate_abortCalls (env : Env) (p : ProgressBarLoad) (s : St) :
    abortCalls (sendProgressUpdate env p s).trace = abortCalls s.trace :=
  sendProgressUpdate_filterMap _ env p s (fun ok _ => by cases ok <;> rfl)

@[simp] theorem sendPageData_fetchCalls (env : Env) (h : Int) (s : St) :
    fetchCalls (sendPageData env h s).trace = fetchCalls s.trace :=
  sendPageData_filterMap _ env h s (fun _ _ => rfl)

@[simp] theorem sendPageData_connectCalls (env : Env) (h : Int) (s : St) :
    connectCalls (sendPageData env h s).trace = connectCalls s.trace :=
  sendPageData_filterMap _ env h s (fun _ _ => rfl)

@[simp] theorem sendPageData_chainWorkCalls (env : Env) (h : Int) (s : St) :
    chainWorkCalls (sendPageData env h s).trace = chainWorkCalls s.trace :=
  sendPageData_filterMap _ env h s (fun _ _ => rfl)

@[simp] theorem sendPageData_storeCalls (env : Env) (h : Int) (s : St) :
    storeCalls (sendPageData env h s).trace = storeCalls s.trace :=
  sendPageData_filterMap _ env h s (fun _ _ => rfl)

@[simp] theorem sendPageData_storedHeights (env : Env) (h : Int) (s : St) :
    storedHeights (sendPageData env h s).trace = storedHeights s.trace :=
  sendPageData_filterMap _ env h s (fun _ _ => rfl)

@[simp] theorem sendPageData_rewindCalls (env : Env) (h : Int) (s : St) :
    rewindCalls (sendPageData env h s).trace = rewindCalls s.trace :=
  sendPageData_filterMap _ env h s (fun _ _ => rfl)

@[simp] theorem sendPageData_abortCalls (env : Env) (h : Int) (s : St) :
    abortCalls (sendPageData env h s).trace = abortCalls s.trace :=
  sendPageData_filterMap _ env h s (fun ok _ => by cases ok <;> rfl)

@[simp] theorem fetchCalls_append (a b : List Event) :
    fetchCalls (a ++ b) = fetchCalls a ++ fetchCalls b := List.filterMap_append _ _ _

@[simp] theorem connectCalls_append (a b : List Event) :
    connectCalls (a ++ b) = connectCalls a ++ connectCalls b := List.filterMap_append _ _ _

@[simp] theorem chainWorkCalls_append (a b : List Event) :
    chainWorkCalls (a ++ b) = chainWorkCalls a ++ chainWorkCalls b := List.filterMap_append _ _ _

@[simp] theorem storeCalls_append (a b : List Event) :
    storeCalls (a ++ b) = storeCalls a ++ storeCalls b := List.filterMap_append _ _ _

@[simp] theorem storedHeights_append (a b : List Event) :
    storedHeights (a ++ b) = storedHeights a ++ storedHeights b := List.filterMap_append _ _ _

@[simp] theorem rewindCalls_append (a b : List Event) :
    rewindCalls (a ++ b) = rewindCalls a ++ rewindCalls b := List.filterMap_append _ _ _

@[simp] theorem abortCalls_append (a b : List Event) :
    abortCalls (a ++ b) = abortCalls a ++ abortCalls b := List.filterMap_append _ _ _

@[simp] theorem fetchCalls_nil : fetchCalls [] = [] := rfl

@[simp] theorem connectCalls_nil : connectCalls [] = [] := rfl

@[simp] theorem chainWorkCalls_nil : chainWorkCalls [] = [] := rfl

@[simp] theorem storeCalls_nil : storeCalls [] = [] := rfl

@[simp] theorem storedHeights_nil : storedHeights [] = [] := rfl

@[simp] theorem rewindCalls_nil : rewindCalls [] = [] := rfl

@[simp] theorem abortCalls_nil : abortCalls [] = [] := rfl

@[simp] theorem fetchCalls_cons (e : Event) (l : List Event) :
    fetchCalls (e :: l) =
      (match e.call with
        | .GetBlock h => [h]
        | _ => []) ++ fetchCalls l := by
  unfold fetchCalls
  rw [List.filterMap_cons]
  split <;> split <;> simp_all

@[simp] theorem connectCalls_cons (e : Event) (l : List Event) :
    connectCalls (e :: l) =
      (match e.call with
        | .ConnectBlock h => [h]
        | _ => []) ++ connectCalls l := by
  unfold connectCalls
  rw [List.filterMap_cons]
  split <;> split <;> simp_all

@[simp] theorem chainWorkCalls_cons (e : Event) (l : List Event) :
    chainWorkCalls (e :: l) =
      (match e.call with
        | .GetChainWork h => [h]
        | _ => []) ++ chainWorkCalls l := by
  unfold chainWorkCalls
  rw [List.filterMap_cons]
  split <;> split <;> simp_all

@[simp] theorem storeCalls_cons (e : Event) (l : List Event) :
    storeCalls (e :: l) =
      (match e.call with
        | .StoreBlock h _ => [h]
        | _ => []) ++ storeCalls l := by
  unfold storeCalls
  rw [List.filterMap_cons]
  split <;> split <;> simp_all

@[simp] theorem storedHeights_cons (e : Event) (l : List Event) :
    storedHeights (e :: l) =
      (match e.call, e.ok with
        | .StoreBlock h _, true => [h]
        | _, _ => []) ++ storedHeights l := by
  unfold storedHeights
  rw [List.filterMap_cons]
  split <;> split <;> simp_all

@[simp] theorem rewindCalls_cons (e : Event) (l : List Event) :
    rewindCalls (e :: l) =
      (match e.call with
        | .RewindStakeDB h => [h]
        | _ => []) ++ rewindCalls l := by
  unfold rewindCalls
  rw [List.filterMap_cons]
  split <;> split <;> simp_all

@[simp] theorem abortCalls_cons (e : Event) (l : List Event) :
    abortCalls (e :: l) =
      (if !e.ok && isImportAbort e.call then [e.call] else []) ++ abortCalls l := by
  unfold abortCalls
  rw [List.filterMap_cons]
  split <;> split <;> simp_all

/-! ## One iteration of the import loop -/

theorem checkQuit_mid (env : Env) (cfg : RunCfg) (ib : Int) (s0 s : St) (h : Mid ib s0 0 s) :
    MidPost cfg ib s0 0 (checkQuit env ib s) := by
  unfold checkQuit
  split_ifs <;>
    simp_all [Mid, MidPost, IterSpec, IterEvents, isImportAbort, isLoopCall, or_imp, forall_and]

theorem progressLogging_mid (env : Env) (cfg : RunCfg) (ib : Int) (s0 s : St)
    (h : Mid ib s0 0 s) : MidPost cfg ib s0 0 (progressLogging env cfg ib s) := by
  unfold progressLogging pollBestBlock
  split_ifs <;>
    simp_all [Mid, MidPost, IterSpec, IterEvents, isImportAbort, isLoopCall, or_imp, forall_and]

theorem getBlock_mid (env : Env) (cfg : RunCfg) (ib : Int) (s0 s : St) (h : Mid ib s0 0 s) :
    MidPost cfg ib s0 1 (getBlock env ib s) := by
  unfold getBlock attempt
  split_ifs <;>
    simp_all [Mid, MidPost, IterSpec, IterEvents, isImportAbort, isLoopCall, or_imp, forall_and]

theorem advanceStakeDB_mid (env : Env) (cfg : RunCfg) (ib : Int) (s0 s : St)
    (h : Mid ib s0 1 s) : MidPost cfg ib s0 2 (advanceStakeDB env ib s) := by
  simp only [advanceStakeDB, attemptW, Step.bind_ite, Step.bind_next, Step.bind_stop,
    Step.bind_panic, ne_eq, ite_not]
  split_ifs <;>
    simp_all [Mid, MidPost, IterSpec, IterEvents, isImportAbort, isLoopCall, or_imp, forall_and,
      worldAfterConnect, connectBlockEffect, -not_lt] <;> omega

theorem getChainWork_mid (env : Env) (cfg : RunCfg) (ib : Int) (s0 s : St)
    (h : Mid ib s0 2 s) : MidPost cfg ib s0 3 (getChainWork env ib s) := by
  unfold getChainWork attempt
  split_ifs <;>
    simp_all [Mid, MidPost, IterSpec, IterEvents, isImportAbort, isLoopCall, or_imp, forall_and]

theorem storeBlock_mid (env : Env) (cfg : RunCfg) (ib : Int) (s0 s : St)
    (h : Mid ib s0 3 s) : MidPost cfg ib s0 4 (storeBlock env cfg ib s) := by
  simp only [storeBlock, attemptW, Step.bind_ite, Step.bind_next, Step.bind_stop]
  split_ifs <;>
    simp_all [Mid, MidPost, IterSpec, IterEvents, isImportAbort, isLoopCall, or_imp, forall_and,
      worldAfterStore]

theorem updateExplorerPages_mid (env : Env) (cfg : RunCfg) (ib : Int) (s0 s : St)
    (h : Mid ib s0 4 s) : MidPost cfg ib s0 4 (updateExplorerPages env cfg ib s) := by
  unfold updateExplorerPages
  split_ifs <;>
    simp_all [Mid, MidPost, IterEvents, isLoopCall, or_imp, forall_and]

theorem updateNodeHeight_mid (env : Env) (cfg : RunCfg) (ib : Int) (s0 s : St)
    (h : Mid ib s0 4 s) : IterSpec cfg ib s0 (updateNodeHeight env ib s) := by
  unfold updateNodeHeight pollBestBlock
  split_ifs <;>
    simp_all [Mid, IterSpec, IterEvents, isImportAbort, isLoopCall, or_imp, forall_and]

theorem mid_start (ib : Int) (s : St) : Mid ib s 0 s := by
  simp only [Mid, IterEvents]
  simp +contextual

/-- Every iteration of the import loop ends in one of the ways listed by `IterSpec`. -/
theorem importBlock_spec (env : Env) (cfg : RunCfg) (ib : Int) (s : St) :
    IterSpec cfg ib s (importBlock env cfg ib s) := by
  unfold importBlock
  refine Step.bind_spec (Mid ib s 0) ?_ fun s1 h1 => ?_
  · have := checkQuit_mid env cfg ib s s (mid_start ib s)
    revert this; cases checkQuit env ib s <;> exact id
  refine Step.bind_spec (Mid ib s 0) ?_ fun s2 h2 => ?_
  · have := progressLogging_mid env cfg ib s s1 h1
    revert this; cases progressLogging env cfg ib s1 <;> exact id
  refine Step.bind_spec (Mid ib s 1) ?_ fun s3 h3 => ?_
  · have := getBlock_mid env cfg ib s s2 h2
    revert this; cases getBlock env ib s2 <;> exact id
  refine Step.bind_spec (Mid ib s 2) ?_ fun s4 h4 => ?_
  · have := advanceStakeDB_mid env cfg ib s s3 h3
    revert this; cases advanceStakeDB env ib s3 <;> exact id
  refine Step.bind_spec (Mid ib s 3) ?_ fun s5 h5 => ?_
  · have := getChainWork_mid env cfg ib s s4 h4
    revert this; cases getChainWork env ib s4 <;> exact id
  refine Step.bind_spec (Mid ib s 4) ?_ fun s6 h6 => ?_
  · have := storeBlock_mid env cfg ib s s5 h5
    revert this; cases storeBlock env cfg ib s5 <;> exact id
  refine Step.bind_spec (Mid ib s 4) ?_ fun s7 h7 => ?_
  · have := updateExplorerPages_mid env cfg ib s s6 h6
    revert this; cases updateExplorerPages env cfg ib s6 <;> exact id
  exact updateNodeHeight_mid env cfg ib s s7 h7

end Dcrpg

namespace Dcrpg

/-! ## The frame of the import loop -/

theorem lastPolledFrom_concat (env : Env) (tr : List Event) (e : Event) (t : Nat)
    (acc : Option Int) :
    lastPolledFrom env t (tr ++ [e]) acc =
      if e.call = .GetBestBlock then some (env.best (t + tr.length))
      else lastPolledFrom env t tr acc := by
  induction tr generalizing t acc with
  | nil => simp [lastPolledFrom]
  | cons a tr ih =>
    simp only [List.cons_append, lastPolledFrom, ih, List.length_cons]
    have : t + (tr.length + 1) = t + 1 + tr.length := by omega
    rw [this]
    exact ih _ _

@[simp] theorem lastPolled_concat (env : Env) (tr : List Event) (e : Event) :
    lastPolled env (tr ++ [e]) =
      if e.call = .GetBestBlock then some (env.best tr.length) else lastPolled env tr := by
  simp [lastPolled, lastPolledFrom_concat]

@[simp] theorem sendProgressUpdate_lastPolled (env : Env) (p : ProgressBarLoad) (s : St) :
    lastPolled env (sendProgressUpdate env p s).trace = lastPolled env s.trace := by
  unfold sendProgressUpdate; split_ifs <;> simp

@[simp] theorem sendPageData_lastPolled (env : Env) (h : Int) (s : St) :
    lastPolled env (sendPageData env h s).trace = lastPolled env s.trace := by
  unfold sendPageData; split_ifs <;> simp

theorem frame_refl (env : Env) (s : St) : Frame env s s :=
  ⟨le_refl _, Or.inl rfl, id, id, id, List.prefix_refl _, rfl⟩

theorem frame_trans (env : Env) (a b c : St) (h1 : Frame env a b) (h2 : Frame env b c) :
    Frame env a c := by
  obtain ⟨n1, p1, l1, b1, u1, x1, r1⟩ := h1
  obtain ⟨n2, p2, l2, b2, u2, x2, r2⟩ := h2
  refine ⟨le_trans n1 n2, ?_, fun h => l2 (l1 h), fun h => b1 (b2 h), fun h => u1 (u2 h),
    x1.trans x2, r2.trans r1⟩
  rcases p2 with p2 | ⟨t, ht1, ht2, ht3⟩
  · rcases p1 with p1 | ⟨t, ht1, ht2, ht3⟩
    · exact Or.inl (p2.trans p1)
    · exact Or.inr ⟨t, ht1, lt_of_lt_of_le ht2 n2, p2.trans ht3⟩
  · exact Or.inr ⟨t, le_trans n1 ht1, ht2, ht3⟩

theorem frame_record (env : Env) (s : St) (c : Call) (ok : Bool) (hc : c ≠ .GetBestBlock)
    (hr : ∀ h, c ≠ .RewindStakeDB h) : Frame env s (s.record c ok) := by
  refine ⟨by simp, Or.inl rfl, by simp [hc], id, id, by simp, ?_⟩
  cases c <;> simp_all

theorem frame_setW (env : Env) (s : St) (w : World) : Frame env s (s.setW w) := by
  simp [Frame]

theorem frame_setStakeDBHeight (env : Env) (s : St) (h : Int) :
    Frame env s (s.setStakeDBHeight h) := by
  simp [Frame]

theorem frame_addCounts (env : Env) (s : St) (c : BlockCounts) : Frame env s (s.addCounts c) := by
  simp [Frame]

theorem frame_setStage (env : Env) (s : St) (n : Nat) : Frame env s (s.setStage n) := by
  simp [Frame]

theorem frame_sendProgressUpdate (env : Env) (p : ProgressBarLoad) (s : St) :
    Frame env s (sendProgressUpdate env p s) := by
  refine ⟨?_, Or.inl (by simp), by simp, ?_, by simp, ?_, by simp⟩
  · unfold sendProgressUpdate; split_ifs <;> simp
  · unfold sendProgressUpdate; split_ifs <;> simp_all
  · unfold sendProgressUpdate; split_ifs <;> simp

theorem frame_sendPageData (env : Env) (h : Int) (s : St) :
    Frame env s (sendPageData env h s) := by
  refine ⟨?_, Or.inl (by simp), by simp, by simp, ?_, ?_, by simp⟩
  · unfold sendPageData; split_ifs <;> simp
  · unfold sendPageData; split_ifs <;> simp_all
  · unfold sendPageData; split_ifs <;> simp

theorem frame_pollBestBlock (env : Env) (h : Int) (s : St) :
    Frame env s (pollBestBlock env h s).st := by
  unfold pollBestBlock
  split_ifs <;>
    exact ⟨by simp, Or.inr ⟨s.now, le_refl _, by simp, by simp⟩, by simp [St.now], by simp,
      by simp, by simp, by simp⟩

theorem frame_attempt (env : Env) (c : Call) (h : Int) (e : SyncError) (s : St)
    (hc : c ≠ .GetBestBlock) (hr : ∀ h, c ≠ .RewindStakeDB h) :
    Frame env s (attempt env c h e s).st := by
  unfold attempt; split_ifs <;> exact frame_record env s c _ hc hr

theorem frame_attemptW (env : Env) (c : Call) (h : Int) (e : SyncError) (upd : World → World)
    (s : St) (hc : c ≠ .GetBestBlock) (hr : ∀ h, c ≠ .RewindStakeDB h) :
    Frame env s (attemptW env c h e upd s).st := by
  unfold attemptW; split_ifs
  · exact frame_record env s c _ hc hr
  · exact frame_trans env _ _ _ (frame_setW env s _) (frame_record env _ c _ hc hr)

theorem frame_checkQuit (env : Env) (ib : Int) (s : St) : Frame env s (checkQuit env ib s).st := by
  unfold checkQuit; split_ifs <;> exact frame_record env s _ _ (by simp) (by simp)

theorem frame_progressLogging (env : Env) (cfg : RunCfg) (ib : Int) (s : St) :
    Frame env s (progressLogging env cfg ib s).st := by
  unfold progressLogging
  split_ifs
  · exact frame_refl env s
  · exact Step.bind_rel (frame_trans env) (frame_pollBestBlock env ib s)
      (fun s1 => frame_sendProgressUpdate env _ s1)
  · exact frame_refl env s

theorem frame_getBlock (env : Env) (ib : Int) (s : St) : Frame env s (getBlock env ib s).st :=
  frame_attempt env _ _ _ s (by simp) (by simp)

theorem frame_advanceStakeDB (env : Env) (ib : Int) (s : St) :
    Frame env s (advanceStakeDB env ib s).st := by
  have hread : ∀ s1 : St,
      Frame env s1 ((s1.setStakeDBHeight s1.w.stakeHeight).record .StakeDBHeight true) :=
    fun s1 => frame_trans env _ _ _ (frame_setStakeDBHeight env s1 _)
      (frame_record env _ _ _ (by simp) (by simp))
  simp only [advanceStakeDB]
  split_ifs
  · exact frame_refl env s
  · exact Step.bind_rel (frame_trans env) (frame_attemptW env _ _ _ _ s (by simp) (by simp))
      (fun s1 => hread s1)
  · exact hread s

theorem frame_getChainWork (env : Env) (ib : Int) (s : St) :
    Frame env s (getChainWork env ib s).st :=
  frame_attempt env _ _ _ s (by simp) (by simp)

theorem frame_storeBlock (env : Env) (cfg : RunCfg) (ib : Int) (s : St) :
    Frame env s (storeBlock env cfg ib s).st :=
  Step.bind_rel (frame_trans env) (frame_attemptW env _ _ _ _ s (by simp) (by simp))
    (fun s1 => frame_addCounts env s1 _)

theorem frame_updateExplorerPages (env : Env) (cfg : RunCfg) (ib : Int) (s : St) :
    Frame env s (updateExplorerPages env cfg ib s).st := by
  unfold updateExplorerPages
  split_ifs
  · exact frame_sendPageData env ib s
  · exact frame_refl env s

theorem frame_updateNodeHeight (env : Env) (ib : Int) (s : St) :
    Frame env s (updateNodeHeight env ib s).st := by
  unfold updateNodeHeight
  split_ifs
  · exact frame_pollBestBlock env ib s
  · exact frame_refl env s

/-- An iteration of the import loop keeps the frame. -/
theorem frame_importBlock (env : Env) (cfg : RunCfg) (ib : Int) (s : St) :
    Frame env s (importBlock env cfg ib s).st := by
  unfold importBlock
  refine Step.bind_rel (frame_trans env) (frame_checkQuit env ib s) fun s => ?_
  refine Step.bind_rel (frame_trans env) (frame_progressLogging env cfg ib s) fun s => ?_
  refine Step.bind_rel (frame_trans env) (frame_getBlock env ib s) fun s => ?_
  refine Step.bind_rel (frame_trans env) (frame_advanceStakeDB env ib s) fun s => ?_
  refine Step.bind_rel (frame_trans env) (frame_getChainWork env ib s) fun s => ?_
  refine Step.bind_rel (frame_trans env) (frame_storeBlock env cfg ib s) fun s => ?_
  refine Step.bind_rel (frame_trans env) (frame_updateExplorerPages env cfg ib s) fun s => ?_
  exact frame_updateNodeHeight env ib s

/-! ## Iterations in which nothing fails -/

theorem Step.isStop_bind {x : Step} {f : St → Step} (hx : x.isStop = false)
    (hf : ∀ s, (f s).isStop = false) : (x.bind f).isStop = false := by
  cases x with
  | next s => exact hf s
  | stop h e s => simp [Step.isStop] at hx
  | panic m s => rfl

theorem pollBestBlock_isStop (env : Env) (hf : ∀ t, env.fails t = false) (h : Int) (s : St) :
    (pollBestBlock env h s).isStop = false := by
  simp [pollBestBlock, hf, Step.isStop]

theorem attempt_isStop (env : Env) (hf : ∀ t, env.fails t = false) (c : Call) (h : Int)
    (e : SyncError) (s : St) : (attempt env c h e s).isStop = false := by
  simp [attempt, hf, Step.isStop]

theorem attemptW_isStop (env : Env) (hf : ∀ t, env.fails t = false) (c : Call) (h : Int)
    (e : SyncError) (upd : World → World) (s : St) :
    (attemptW env c h e upd s).isStop = false := by
  simp [attemptW, hf, Step.isStop]

/-- When no call fails and the context stays live, an iteration of the import loop
does not return. -/
theorem importBlock_isStop (env : Env) (hf : ∀ t, env.fails t = false)
    (hd : ∀ t, env.done t = false) (cfg : RunCfg) (ib : Int) (s : St) :
    (importBlock env cfg ib s).isStop = false := by
  unfold importBlock
  refine Step.isStop_bind (by simp [checkQuit, hd, Step.isStop]) fun s => ?_
  refine Step.isStop_bind ?_ fun s => ?_
  · unfold progressLogging
    split_ifs
    · rfl
    · exact Step.isStop_bind (pollBestBlock_isStop env hf _ _) (fun _ => rfl)
    · rfl
  refine Step.isStop_bind (attempt_isStop env hf _ _ _ _) fun s => ?_
  refine Step.isStop_bind ?_ fun s => ?_
  · simp only [advanceStakeDB]
    split_ifs
    · rfl
    · exact Step.isStop_bind (attemptW_isStop env hf _ _ _ _ _) (fun _ => rfl)
    · rfl
  refine Step.isStop_bind (attempt_isStop env hf _ _ _ _) fun s => ?_
  refine Step.isStop_bind
    (Step.isStop_bind (attemptW_isStop env hf _ _ _ _ _) (fun _ => rfl)) fun s => ?_
  refine Step.isStop_bind ?_ fun s => ?_
  · unfold updateExplorerPages; split_ifs <;> rfl
  · unfold updateNodeHeight
    split_ifs
    · exact pollBestBlock_isStop env hf _ _
    · rfl

/-! ## Lists of consecutive heights -/

theorem heightsFromTo_empty (a b : Int) (h : b < a) : heightsFromTo a b = [] := by
  have : (b + 1 - a).toNat = 0 := by omega
  simp [heightsFromTo, this]

theorem heightsFromTo_snoc (a b : Int) (h : a ≤ b + 1) :
    heightsFromTo a (b + 1) = heightsFromTo a b ++ [b + 1] := by
  have h1 : (b + 1 + 1 - a).toNat = (b + 1 - a).toNat + 1 := by omega
  have h2 : a + ((b + 1 - a).toNat : Int) = b + 1 := by omega
  simp only [heightsFromTo, h1, List.range_succ, List.map_append, List.map_cons, List.map_nil, h2]

theorem mem_heightsFromTo (a b x : Int) : x ∈ heightsFromTo a b ↔ a ≤ x ∧ x ≤ b := by
  simp only [heightsFromTo, List.mem_map, List.mem_range]
  constructor
  · rintro ⟨i, hi, rfl⟩
    omega
  · intro h
    exact ⟨(x - a).toNat, by omega, by omega⟩

/-! ## The import loop -/

/-- Induction over the import loop: an invariant `J` of the loop head that every
iteration keeps gives `Q` of the result, provided `Q` holds of every way out. -/
theorem importBlocks_induct (env : Env) (cfg : RunCfg) (J : Int → St → Prop)
    (Q : LoopResult → Prop)
    (hstep : ∀ ib s, J ib s → ib ≤ s.nodeHeight →
      match importBlock env cfg ib s with
      | .next s1 => J (ib + 1) s1
      | .stop h e s1 => Q (.stop h e s1)
      | .panic m s1 => Q (.panic m s1))
    (hexit : ∀ ib s, J ib s → ¬ ib ≤ s.nodeHeight → Q (.done s.nodeHeight s))
    (hfuel : ∀ ib s, J ib s → ib ≤ s.nodeHeight → Q (.outOfFuel s)) :
    ∀ fuel ib s, J ib s → Q (importBlocks env cfg fuel ib s) := by
  intro fuel
  induction fuel with
  | zero =>
    intro ib s hJ
    unfold importBlocks
    split_ifs with h
    · exact hfuel ib s hJ h
    · exact hexit ib s hJ h
  | succ n ih =>
    intro ib s hJ
    unfold importBlocks
    split_ifs with h
    · have := hstep ib s hJ h
      revert this
      cases importBlock env cfg ib s with
      | next s1 => exact fun h1 => ih _ _ h1
      | stop h e s1 => exact id
      | panic m s1 => exact id
    · exact hexit ib s hJ h

end Dcrpg

namespace Dcrpg


@[simp] theorem worldAfterConnect_chainCursor (ib : Int) (s : St) :
    (worldAfterConnect ib s).chainCursor = s.w.chainCursor := by
  unfold worldAfterConnect connectBlockEffect; split_ifs <;> rfl

@[simp] theorem worldAfterConnect_ibdComplete (ib : Int) (s : St) :
    (worldAfterConnect ib s).ibdComplete = s.w.ibdComplete := by
  unfold worldAfterConnect connectBlockEffect; split_ifs <;> rfl

@[simp] theorem worldAfterConnect_dupCheck (ib : Int) (s : St) :
    (worldAfterConnect ib s).dupCheck = s.w.dupCheck := by
  unfold worldAfterConnect connectBlockEffect; split_ifs <;> rfl

@[simp] theorem worldAfterConnect_utxoSize (ib : Int) (s : St) :
    (worldAfterConnect ib s).utxoSize = s.w.utxoSize := by
  unfold worldAfterConnect connectBlockEffect; split_ifs <;> rfl

theorem worldAfterConnect_stakeHeight (ib : Int) (s : St) :
    (worldAfterConnect ib s).stakeHeight =
      if s.stakeDBHeight < ib then ib else s.w.stakeHeight := by
  unfold worldAfterConnect connectBlockEffect; split_ifs <;> rfl

@[simp] theorem worldAfterStore_chainCursor (ib : Int) (s : St) :
    (worldAfterStore ib s).chainCursor = max s.w.chainCursor ib := by
  simp [worldAfterStore, storeBlockEffect]

@[simp] theorem worldAfterStore_stakeHeight (ib : Int) (s : St) :
    (worldAfterStore ib s).stakeHeight = (worldAfterConnect ib s).stakeHeight := rfl

@[simp] theorem worldAfterStore_ibdComplete (ib : Int) (s : St) :
    (worldAfterStore ib s).ibdComplete = s.w.ibdComplete := by
  simp [worldAfterStore, storeBlockEffect]

@[simp] theorem worldAfterStore_dupCheck (ib : Int) (s : St) :
    (worldAfterStore ib s).dupCheck = s.w.dupCheck := by
  simp [worldAfterStore, storeBlockEffect]

@[simp] theorem worldAfterStore_utxoSize (ib : Int) (s : St) :
    (worldAfterStore ib s).utxoSize = s.w.utxoSize := by
  simp [worldAfterStore, storeBlockEffect]

theorem heightsFromTo_step (a ib : Int) (h : a ≤ ib) :
    heightsFromTo a (ib + 1 - 1) = heightsFromTo a (ib - 1) ++ [ib] := by
  have := heightsFromTo_snoc a (ib - 1) (by omega)
  simpa using this

theorem reached_start (start : Int) (s : St) : Reached start s start s := by
  simp only [Reached, heightsFromTo_empty start (start - 1) (by omega)]
  simp +contextual

theorem reached_next (cfg : RunCfg) (start : Int) (s : St) (ib : Int) (sm s1 : St)
    (hr : Reached start s ib sm) (hs : IterSpec cfg ib sm (.next s1)) :
    Reached start s (ib + 1) s1 := by
  obtain ⟨h0, h1, h2, h3, h4, h5, h6, h7, h8, h9, h10⟩ := hr
  obtain ⟨g1, g2, g3, g4, g5, g6, g7, g8, g9, g10⟩ := hs
  refine ⟨by omega, ?_, ?_, ?_, ?_, ?_, ?_, ?_, ?_, ?_, ?_⟩
  · rw [g4, h1, heightsFromTo_step start ib h0, List.append_assoc]
  · rw [g6, h2, heightsFromTo_step start ib h0, List.append_assoc]
  · rw [g7, h3, heightsFromTo_step start ib h0, List.append_assoc]
  · rw [g8, h4, heightsFromTo_step start ib h0, List.append_assoc]
  · rw [g9, h5]
  · intro hc
    have := h6 hc
    rw [g1, worldAfterStore_chainCursor]
    omega
  · rw [g1, worldAfterStore_ibdComplete, h7]
  · rw [g1, worldAfterStore_dupCheck, h8]
  · rw [g1, worldAfterStore_utxoSize, h9]
  · intro e he
    rcases g10 e he with h | ⟨hl, hw⟩
    · exact h10 e h
    · refine Or.inr ⟨hl, ?_⟩
      rcases hw with hw | hw | hw <;> rw [hw] <;> simp [h7, h8]

/-- Every pass of `importBlocks` ends in one of the ways listed by `LoopSpec`. -/
theorem importBlocks_spec (env : Env) (cfg : RunCfg) (fuel : Nat) (start : Int) (s : St) :
    LoopSpec cfg start s (importBlocks env cfg fuel start s) := by
  refine importBlocks_induct env cfg (fun ib sm => Reached start s ib sm) (LoopSpec cfg start s)
    ?_ ?_ ?_ fuel start s (reached_start start s)
  · intro ib sm hJ _
    have hs := importBlock_spec env cfg ib sm
    revert hs
    cases importBlock env cfg ib sm with
    | next s1 => exact fun hs => reached_next cfg start s ib sm s1 hJ hs
    | stop h e s1 => exact fun hs => ⟨ib, sm, hJ, hs⟩
    | panic m s1 => exact fun hs => ⟨ib, sm, hJ, hs⟩
  · intro ib sm hJ hn
    exact ⟨ib, by omega, rfl, hJ⟩
  · intro ib sm hJ _
    exact ⟨ib, hJ⟩

/-- A pass of `importBlocks` keeps the frame. -/
theorem frame_importBlocks (env : Env) (cfg : RunCfg) (fuel : Nat) (start : Int) (s : St) :
    Frame env s (importBlocks env cfg fuel start s).st := by
  refine importBlocks_induct env cfg (fun _ sm => Frame env s sm) (fun r => Frame env s r.st)
    ?_ ?_ ?_ fuel start s (frame_refl env s)
  · intro ib sm hJ _
    have hs := frame_importBlock env cfg ib sm
    revert hs
    cases importBlock env cfg ib sm with
    | next s1 => exact fun hs => frame_trans env _ _ _ hJ hs
    | stop h e s1 => exact fun hs => frame_trans env _ _ _ hJ hs
    | panic m s1 => exact fun hs => frame_trans env _ _ _ hJ hs
  · intro ib sm hJ _; exact hJ
  · intro ib sm hJ _; exact hJ

end Dcrpg

namespace Dcrpg

/-! ## The parts of `SyncChainDB` outside the import loop -/

theorem sideEvents_refl (cls : Call → Bool) (s : St) : SideEvents cls s s :=
  fun _ he => Or.inl he

theorem sideFrame_refl (env : Env) (cls : Call → Bool) (s : St) : SideFrame env cls s s :=
  ⟨frame_refl env s, fun _ => rfl, rfl, rfl, rfl, rfl, rfl, rfl, rfl, rfl, rfl, rfl, rfl, rfl, rfl,
    sideEvents_refl cls s⟩

theorem sideFrame_trans (env : Env) (cls : Call → Bool) (a b c : St)
    (h1 : SideFrame env cls a b) (h2 : SideFrame env cls b c) : SideFrame env cls a c := by
  obtain ⟨f1, n1, c1, k1, d1, t1, u1, v1, w1, o1, p1, q1, r1, x1, y1, e1⟩ := h1
  obtain ⟨f2, n2, c2, k2, d2, t2, u2, v2, w2, o2, p2, q2, r2, x2, y2, e2⟩ := h2
  refine ⟨frame_trans env _ _ _ f1 f2, fun h => (n2 h).trans (n1 h), c2.trans c1, k2.trans k1,
    d2.trans d1, t2.trans t1, u2.trans u1, v2.trans v1, w2.trans w1, o2.trans o1, p2.trans p1,
    q2.trans q1, r2.trans r1, x2.trans x1, y2.trans y1, ?_⟩
  intro e he
  rcases e2 e he with h | ⟨h, h3, h4⟩
  · exact e1 e h
  · exact Or.inr ⟨h, h3.trans c1, h4.trans k1⟩

theorem sideFrame_record (env : Env) (cls : Call → Bool) (s : St) (c : Call) (ok : Bool)
    (hcls : cls c = true) (hside : isSideCall c = true) :
    SideFrame env cls s (s.record c ok) := by
  have hc : c ≠ .GetBestBlock := by rintro rfl; simp [isSideCall] at hside
  have hr : ∀ h, c ≠ .RewindStakeDB h := by rintro h rfl; simp [isSideCall] at hside
  refine ⟨frame_record env s c ok hc hr, fun _ => rfl, rfl, rfl, rfl, rfl, rfl, rfl, rfl,
    ?_, ?_, ?_, ?_, ?_, ?_, ?_⟩
  · cases c <;> simp_all [isSideCall]
  · cases c <;> simp_all [isSideCall]
  · cases c <;> simp_all [isSideCall]
  · cases c <;> simp_all [isSideCall]
  · cases c <;> simp_all [isSideCall]
  · cases c <;> simp_all [isSideCall]
  · intro e he
    simp only [St.record_trace, List.mem_append, List.mem_singleton] at he
    rcases he with h | rfl
    · exact Or.inl h
    · exact Or.inr ⟨hcls, rfl, rfl⟩

theorem sideFrame_setW (env : Env) (cls : Call → Bool) (s : St) (w : World)
    (h1 : w.chainCursor = s.w.chainCursor) (h2 : w.stakeHeight = s.w.stakeHeight) :
    SideFrame env cls s (s.setW w) :=
  ⟨frame_setW env s w, fun _ => rfl, h1, h2, rfl, rfl, rfl, rfl, rfl, rfl, rfl, rfl, rfl, rfl,
    rfl, sideEvents_refl cls s⟩

theorem sideFrame_setW_record (env : Env) (cls : Call → Bool) (s : St) (w : World) (c : Call)
    (ok : Bool) (h1 : w.chainCursor = s.w.chainCursor) (h2 : w.stakeHeight = s.w.stakeHeight)
    (hcls : cls c = true) (hside : isSideCall c = true) :
    SideFrame env cls s ((s.setW w).record c ok) :=
  sideFrame_trans env cls _ _ _ (sideFrame_setW env cls s w h1 h2)
    (sideFrame_record env cls _ c ok hcls hside)

theorem sideFrame_setStage (env : Env) (cls : Call → Bool) (s : St) (n : Nat) :
    SideFrame env cls s (s.setStage n) :=
  ⟨frame_setStage env s n, fun _ => rfl, rfl, rfl, rfl, rfl, rfl, rfl, rfl, rfl, rfl, rfl, rfl,
    rfl, rfl, sideEvents_refl cls s⟩

theorem sideFrame_sendProgressUpdate (env : Env) (cls : Call → Bool) (p : ProgressBarLoad)
    (s : St) (hcls : cls (.SendProgress p) = true) :
    SideFrame env cls s (sendProgressUpdate env p s) := by
  refine ⟨frame_sendProgressUpdate env p s, fun _ => by simp, by simp, by simp, by simp,
    ?_, ?_, ?_, ?_, by simp, by simp, by simp, by simp, by simp, by simp, ?_⟩
  · unfold sendProgressUpdate; split_ifs <;> rfl
  · unfold sendProgressUpdate; split_ifs <;> rfl
  · unfold sendProgressUpdate; split_ifs <;> rfl
  · unfold sendProgressUpdate; split_ifs <;> rfl
  · intro e he
    rw [mem_sendProgressUpdate_trace] at he
    rcases he with h | ⟨_, rfl⟩
    · exact Or.inl h
    · exact Or.inr ⟨hcls, rfl, rfl⟩

theorem sideFrame_attempt (env : Env) (cls : Call → Bool) (c : Call) (h : Int) (e : SyncError)
    (s : St) (hcls : cls c = true) (hside : isSideCall c = true) :
    SideFrame env cls s (attempt env c h e s).st := by
  unfold attempt; split_ifs <;> exact sideFrame_record env cls s c _ hcls hside

theorem sideFrame_attemptW (env : Env) (cls : Call → Bool) (c : Call) (h : Int) (e : SyncError)
    (upd : World → World) (s : St) (hcls : cls c = true) (hside : isSideCall c = true)
    (h1 : (upd s.w).chainCursor = s.w.chainCursor) (h2 : (upd s.w).stakeHeight = s.w.stakeHeight) :
    SideFrame env cls s (attemptW env c h e upd s).st := by
  unfold attemptW; split_ifs
  · exact sideFrame_record env cls s c _ hcls hside
  · exact sideFrame_setW_record env cls s _ c _ h1 h2 hcls hside

theorem sideFrame_pollBestBlock (env : Env) (cls : Call → Bool) (h : Int) (s : St)
    (hcls : cls .GetBestBlock = true) : SideFrame env cls s (pollBestBlock env h s).st := by
  refine ⟨frame_pollBestBlock env h s, fun hn => by simp [hcls] at hn, ?_⟩
  unfold pollBestBlock
  split_ifs <;>
    exact ⟨rfl, rfl, rfl, rfl, rfl, rfl, rfl, by simp, by simp, by simp, by simp, by simp,
      by simp, fun e he => by
        simp only [Step.st_stop, Step.st_next, St.record_trace, St.setNodeHeight_trace,
          List.mem_append, List.mem_singleton] at he
        rcases he with h | rfl
        · exact Or.inl h
        · exact Or.inr ⟨hcls, rfl, rfl⟩⟩

theorem sideFrame_enableDuplicateCheckOnInsert (env : Env) (cls : Call → Bool) (b : Bool)
    (s : St) (hcls : cls (.EnableDuplicateCheckOnInsert b) = true) :
    SideFrame env cls s (enableDuplicateCheckOnInsert b s) := by
  unfold enableDuplicateCheckOnInsert
  refine sideFrame_setW_record env cls s _ _ _ ?_ ?_ hcls ?_ <;> rfl

/-! ### `prepare` -/

theorem sideFrame_warmUtxoCache (env : Env) (s : St) :
    SideFrame env isPrepareCall s (warmUtxoCache env s).st := by
  simp only [warmUtxoCache]
  split_ifs
  · refine sideFrame_trans env _ _ _ _ (sideFrame_record env _ s .UtxoCacheSize true rfl rfl) ?_
    refine Step.bind_rel (sideFrame_trans env _) (sideFrame_attempt env _ _ _ _ _ rfl rfl)
      fun s1 => ?_
    refine sideFrame_setW_record env _ s1 _ _ _ ?_ ?_ ?_ ?_ <;> rfl
  · exact sideFrame_record env _ s .UtxoCacheSize true rfl rfl

theorem sideFrame_prepareIndexes (env : Env) (cfg : RunCfg) (lastBlock : Int) (s : St) :
    SideFrame env isPrepareCall s (prepareIndexes env cfg lastBlock s).st := by
  unfold prepareIndexes
  split_ifs
  · refine Step.bind_rel (sideFrame_trans env _) ?_ fun s1 => ?_
    · unfold deindexAll; split_ifs <;> exact sideFrame_record env _ s .DeindexAll _ rfl rfl
    refine Step.bind_rel (sideFrame_trans env _) (sideFrame_attempt env _ _ _ _ _ rfl rfl)
      fun s2 => ?_
    exact sideFrame_enableDuplicateCheckOnInsert env _ _ s2 rfl
  · exact sideFrame_enableDuplicateCheckOnInsert env _ _ s rfl

theorem sideFrame_clearIBDComplete (env : Env) (cfg : RunCfg) (ibd : Bool) (s : St) :
    SideFrame env isPrepareCall s (clearIBDComplete env cfg ibd s).st := by
  unfold clearIBDComplete
  split_ifs
  · exact sideFrame_attemptW env _ _ _ _ _ s rfl rfl rfl rfl
  · exact sideFrame_refl env _ s

theorem sideFrame_announce (env : Env) (cfg : RunCfg) (s : St) :
    SideFrame env isPrepareCall s (announce env cfg s).st := by
  simp only [announce, Step.st_next]
  refine sideFrame_trans env _ _ _ _ ?_ (sideFrame_setStage env _ _ _)
  split_ifs
  · exact sideFrame_trans env _ _ _ _ (sideFrame_sendProgressUpdate env _ _ s rfl)
      (sideFrame_sendProgressUpdate env _ _ _ rfl)
  · exact sideFrame_sendProgressUpdate env _ _ s rfl

/-- The part `prepare` leaves the heights and the record of the import alone. -/
theorem sideFrame_prepare (env : Env) (cfg : RunCfg) (lastBlock : Int) (ibd : Bool) (s : St) :
    SideFrame env isPrepareCall s (prepare env cfg lastBlock ibd s).st := by
  unfold prepare
  refine Step.bind_rel (sideFrame_trans env _) (sideFrame_warmUtxoCache env s) fun s => ?_
  refine Step.bind_rel (sideFrame_trans env _) (sideFrame_prepareIndexes env cfg lastBlock s)
    fun s => ?_
  refine Step.bind_rel (sideFrame_trans env _) (sideFrame_clearIBDComplete env cfg ibd s)
    fun s => ?_
  exact sideFrame_announce env cfg s

end Dcrpg

namespace Dcrpg

@[simp] theorem okCalls_nil : okCalls [] = [] := rfl

@[simp] theorem okCalls_append (a b : List Event) : okCalls (a ++ b) = okCalls a ++ okCalls b :=
  List.filterMap_append _ _ _

@[simp] theorem okCalls_cons (e : Event) (l : List Event) :
    okCalls (e :: l) = (if e.ok then [e.call] else []) ++ okCalls l := by
  unfold okCalls
  rw [List.filterMap_cons]
  split <;> split <;> simp_all

theorem mem_okCalls_sendProgressUpdate (env : Env) (p : ProgressBarLoad) (s : St) (c : Call)
    (h : c ∈ okCalls s.trace) : c ∈ okCalls (sendProgressUpdate env p s).trace := by
  unfold sendProgressUpdate
  split_ifs <;> simp [h]

@[simp] theorem initSt_now (w : World) (ue bl : Bool) : (initSt w ue bl).now = 0 := rfl

/-- The part `prepare` ends in one of the ways listed by `PrepareSpec`. -/
theorem prepare_spec (env : Env) (cfg : RunCfg) (lastBlock : Int) (ibd : Bool) (s : St) :
    PrepareSpec cfg lastBlock ibd s (prepare env cfg lastBlock ibd s) := by
  unfold prepare
  refine Step.bind_spec
    (fun s1 => s1.w.ibdComplete = s.w.ibdComplete ∧ s1.nodeHeight = s.nodeHeight) ?_
    fun s1 h1 => ?_
  · simp only [warmUtxoCache, attempt, Step.bind_ite, Step.bind_next, Step.bind_stop]
    split_ifs <;> simp [PrepareSpec]
  refine Step.bind_spec
    (fun s2 => s2.w.ibdComplete = s.w.ibdComplete ∧ s2.nodeHeight = s.nodeHeight ∧
      s2.w.dupCheck = (!cfg.reindexing)) ?_ fun s2 h2 => ?_
  · simp only [prepareIndexes, deindexAll, attempt, enableDuplicateCheckOnInsert, Step.bind_ite,
      Step.bind_next, Step.bind_stop]
    split_ifs <;> simp_all [PrepareSpec]
  refine Step.bind_spec
    (fun s3 => s3.w.dupCheck = (!cfg.reindexing) ∧ s3.w.ibdComplete =
      (if ibd = true ∧ (cfg.reindexing = true ∨ cfg.updateAllAddresses = true) then false
        else s.w.ibdComplete)) ?_ fun s3 h3 => ?_
  · simp only [clearIBDComplete, attemptW]
    split_ifs <;> simp_all [PrepareSpec, setIBDEffect]
  · simp only [announce]
    split_ifs <;> simp_all [PrepareSpec]

set_option maxHeartbeats 1000000 in
/-- The part `reconcile` ends in one of the ways listed by `ReconcileSpec`. -/
theorem reconcile_spec (env : Env) (w : World) (ue bl : Bool) :
    ReconcileSpec env w ue bl (reconcile env w ue bl) := by
  simp only [reconcile, pollBestBlock, attempt, readStakeDBHeight, rewindStakeDB, Step.bind_ite,
    Step.bind_next, Step.bind_stop, Step.bind_panic]
  split_ifs <;>
    simp_all [ReconcileSpec, Corrupted, Rewinds, callsOf, initSt, lastPolled, lastPolledFrom,
      St.now]
  rw [if_neg (by omega)]

end Dcrpg

namespace Dcrpg

/-! ### The maintenance stages -/

theorem stageSpec_bind {p1 p2 : List Call} {s : St} {x : Step} {f : St → Step}
    (hx : StageSpec p1 s x) (hf : ∀ s1, StageSpec p2 s1 (f s1)) :
    StageSpec (p1 ++ p2) s (x.bind f) := by
  cases x with
  | next s1 =>
    obtain ⟨hw, hmono, hplan⟩ := hx
    have h2 := hf s1
    simp only [Step.bind_next]
    revert h2
    cases f s1 with
    | next s2 =>
      rintro ⟨gw, gmono, gplan⟩
      refine ⟨gw.trans hw, fun c hc => gmono c (hmono c hc), fun c hc => ?_⟩
      rcases List.mem_append.mp hc with h | h
      · exact gmono c (hplan c h)
      · exact gplan c h
    | stop h e s2 =>
      rintro ⟨gw, ge⟩
      exact ⟨gw.trans hw, ge⟩
    | panic m s2 => exact id
  | stop h e s1 => exact hx
  | panic m s1 => exact hx

theorem signalEndOfLoad_spec (env : Env) (s : St) : StageSpec [] s (signalEndOfLoad env s) := by
  simp only [signalEndOfLoad, StageSpec]
  refine ⟨by simp, fun c hc => ?_, by simp⟩
  exact mem_okCalls_sendProgressUpdate env _ _ c (by simp [hc])

theorem checkCancelled_spec (env : Env) (s : St) : StageSpec [] s (checkCancelled env s) := by
  unfold checkCancelled
  split_ifs <;> simp +contextual [StageSpec, isStageError]

theorem reindexStage_spec (env : Env) (cfg : RunCfg) (s : St) :
    StageSpec (reindexPlan cfg) s (reindexStage env cfg s) := by
  simp only [reindexStage, attempt, nextStage, Step.bind_ite, Step.bind_next, Step.bind_stop]
  split_ifs <;> simp_all +contextual [StageSpec, isStageError, reindexPlan]

theorem addressesStage_spec (env : Env) (cfg : RunCfg) (s : St) :
    StageSpec (addressesPlan cfg) s (addressesStage env cfg s) := by
  simp only [addressesStage, attempt, nextStage, Step.bind_ite, Step.bind_next, Step.bind_stop]
  split_ifs <;> simp_all +contextual [StageSpec, isStageError, addressesPlan]

theorem quickAnalyze_spec (env : Env) (cfg : RunCfg) (s : St) :
    StageSpec (quickPlan cfg) s (quickAnalyze env cfg s) := by
  simp only [quickAnalyze, attempt, nextStage]
  split_ifs <;> simp_all +contextual [StageSpec, isStageError, quickPlan]

/-- The maintenance stages end in one of the ways listed by `StageSpec`: they fall
through only when every call of the applicable stages went through. -/
theorem stages_spec (env : Env) (cfg : RunCfg) (s : St) :
    StageSpec (reindexPlan cfg ++ addressesPlan cfg ++ quickPlan cfg) s (stages env cfg s) := by
  have h := stageSpec_bind (signalEndOfLoad_spec env s) fun s1 =>
    stageSpec_bind (reindexStage_spec env cfg s1) fun s2 =>
    stageSpec_bind (checkCancelled_spec env s2) fun s3 =>
    stageSpec_bind (addressesStage_spec env cfg s3) fun s4 =>
    stageSpec_bind (checkCancelled_spec env s4) fun s5 => quickAnalyze_spec env cfg s5
  simpa [stages] using h

theorem sideFrame_checkCancelled (env : Env) (cls : Call → Bool) (s : St)
    (hcls : cls .CtxDone = true) : SideFrame env cls s (checkCancelled env s).st := by
  unfold checkCancelled
  split_ifs <;> exact sideFrame_record env cls s .CtxDone _ hcls rfl

theorem sideFrame_signalEndOfLoad (env : Env) (s : St) :
    SideFrame env isStageCall s (signalEndOfLoad env s).st := by
  simp only [signalEndOfLoad, Step.st_next]
  exact sideFrame_trans env _ _ _ _ (sideFrame_record env _ s (.SignalHeight _) true rfl rfl)
    (sideFrame_sendProgressUpdate env _ _ _ rfl)

theorem sideFrame_nextStage_attempt (env : Env) (c : Call) (h : Int) (e : SyncError) (s : St)
    (hcls : isStageCall c = true) (hside : isSideCall c = true) :
    SideFrame env isStageCall s (attempt env c h e (nextStage s)).st :=
  sideFrame_trans env _ _ _ _ (sideFrame_setStage env _ s _)
    (sideFrame_attempt env _ c h e _ hcls hside)

theorem sideFrame_reindexStage (env : Env) (cfg : RunCfg) (s : St) :
    SideFrame env isStageCall s (reindexStage env cfg s).st := by
  unfold reindexStage
  split_ifs
  · refine Step.bind_rel (sideFrame_trans env _)
      (sideFrame_nextStage_attempt env _ _ _ s rfl rfl) fun s => ?_
    refine Step.bind_rel (sideFrame_trans env _) (sideFrame_attempt env _ _ _ _ s rfl rfl)
      fun s => ?_
    refine Step.bind_rel (sideFrame_trans env _)
      (sideFrame_nextStage_attempt env _ _ _ s rfl rfl) fun s => ?_
    refine Step.bind_rel (sideFrame_trans env _) (sideFrame_attempt env _ _ _ _ s rfl rfl)
      fun s => ?_
    refine Step.bind_rel (sideFrame_trans env _) (sideFrame_attempt env _ _ _ _ s rfl rfl)
      fun s => ?_
    exact sideFrame_nextStage_attempt env _ _ _ s rfl rfl
  · refine Step.bind_rel (sideFrame_trans env _)
      (sideFrame_nextStage_attempt env _ _ _ s rfl rfl) fun s => ?_
    refine Step.bind_rel (sideFrame_trans env _) (sideFrame_attempt env _ _ _ _ s rfl rfl)
      fun s => ?_
    refine Step.bind_rel (sideFrame_trans env _)
      (sideFrame_nextStage_attempt env _ _ _ s rfl rfl) fun s => ?_
    refine Step.bind_rel (sideFrame_trans env _) (sideFrame_refl env _ s) fun s => ?_
    refine Step.bind_rel (sideFrame_trans env _) (sideFrame_attempt env _ _ _ _ s rfl rfl)
      fun s => ?_
    exact sideFrame_nextStage_attempt env _ _ _ s rfl rfl
  · exact sideFrame_refl env _ s

theorem sideFrame_addressesTail (env : Env) (s : St) :
    SideFrame env isStageCall s
      ((Step.next (s.record .DeindexAddressTableOnMatchingTxHash (!env.fails s.now))).bind fun s =>
        (attempt env .UpdateSpendingInfoInAllAddresses s.nodeHeight .updateSpendingInfoFailed
          s).bind fun s =>
        (attempt env .IndexAddressTableOnMatchingTxHash s.nodeHeight .indexAddressTableFailed
          s).bind fun s =>
        attempt env (.AnalyzeTable .addresses deepStatsTarget) s.nodeHeight
          .analyzeAddressesFailed s).st := by
  refine Step.bind_rel (sideFrame_trans env _)
    (sideFrame_record env _ s .DeindexAddressTableOnMatchingTxHash _ rfl rfl) fun s => ?_
  refine Step.bind_rel (sideFrame_trans env _) (sideFrame_attempt env _ _ _ _ s rfl rfl)
    fun s => ?_
  refine Step.bind_rel (sideFrame_trans env _) (sideFrame_attempt env _ _ _ _ s rfl rfl)
    fun s => ?_
  exact sideFrame_attempt env _ _ _ _ s rfl rfl

theorem sideFrame_addressesStage (env : Env) (cfg : RunCfg) (s : St) :
    SideFrame env isStageCall s (addressesStage env cfg s).st := by
  unfold addressesStage
  split_ifs
  · refine Step.bind_rel (sideFrame_trans env _) ?_ fun s => sideFrame_addressesTail env s
    exact Step.bind_rel (sideFrame_trans env _)
      (sideFrame_nextStage_attempt env _ _ _ s rfl rfl)
      fun s => sideFrame_attempt env _ _ _ _ s rfl rfl
  · exact Step.bind_rel (sideFrame_trans env _) (sideFrame_setStage env _ s _)
      fun s => sideFrame_addressesTail env s
  · exact sideFrame_refl env _ s

theorem sideFrame_quickAnalyze (env : Env) (cfg : RunCfg) (s : St) :
    SideFrame env isStageCall s (quickAnalyze env cfg s).st := by
  unfold quickAnalyze
  split_ifs
  · exact sideFrame_nextStage_attempt env _ _ _ s rfl rfl
  · exact sideFrame_refl env _ s

/-- The maintenance stages leave the heights and the record of the import alone. -/
theorem sideFrame_stages (env : Env) (cfg : RunCfg) (s : St) :
    SideFrame env isStageCall s (stages env cfg s).st := by
  unfold stages
  refine Step.bind_rel (sideFrame_trans env _) (sideFrame_signalEndOfLoad env s) fun s => ?_
  refine Step.bind_rel (sideFrame_trans env _) (sideFrame_reindexStage env cfg s) fun s => ?_
  refine Step.bind_rel (sideFrame_trans env _) (sideFrame_checkCancelled env _ s rfl) fun s => ?_
  refine Step.bind_rel (sideFrame_trans env _) (sideFrame_addressesStage env cfg s) fun s => ?_
  refine Step.bind_rel (sideFrame_trans env _) (sideFrame_checkCancelled env _ s rfl) fun s => ?_
  exact sideFrame_quickAnalyze env cfg s

/-! ### `finalize` and `complete` -/

/-- The part `finalize` ends in one of the ways listed by `FinalizeSpec`. -/
theorem finalize_spec (env : Env) (s : St) : FinalizeSpec s (finalize env s) := by
  simp only [finalize, setIBDComplete, checkCancelled, pollForCatchUp, pollBestBlock, attemptW,
    enableDuplicateCheckOnInsert, Step.bind_ite, Step.bind_next, Step.bind_stop]
  split_ifs <;> simp [FinalizeSpec, setIBDEffect]

/-- The part `finalize` leaves the heights and the record of the import alone. -/
theorem sideFrame_finalize (env : Env) (s : St) :
    SideFrame env isFinalizeCall s (finalize env s).st := by
  unfold finalize
  refine Step.bind_rel (sideFrame_trans env _)
    (sideFrame_attemptW env _ _ _ _ _ s rfl rfl rfl rfl) fun s => ?_
  refine Step.bind_rel (sideFrame_trans env _) (sideFrame_checkCancelled env _ s rfl) fun s => ?_
  refine Step.bind_rel (sideFrame_trans env _)
    (sideFrame_enableDuplicateCheckOnInsert env _ true s rfl) fun s => ?_
  exact sideFrame_pollBestBlock env _ _ s rfl

/-- The final progress message changes nothing but the trace. -/
theorem sideFrame_complete (env : Env) (cfg : RunCfg) (s : St) :
    SideFrame env isCompleteCall s (complete env cfg s).2 := by
  simp only [complete]
  split_ifs
  · exact sideFrame_sendProgressUpdate env _ _ s rfl
  · exact sideFrame_sendProgressUpdate env _ _ s rfl
  · exact sideFrame_refl env _ s

theorem complete_fst (env : Env) (cfg : RunCfg) (s : St) :
    (complete env cfg s).1 = .returned s.nodeHeight none := by
  simp only [complete]
  split_ifs <;> simp

theorem complete_w (env : Env) (cfg : RunCfg) (s : St) : (complete env cfg s).2.w = s.w := by
  simp only [complete]
  split_ifs <;> simp

end Dcrpg

namespace Dcrpg

/-! ## The import loop when nothing fails -/

theorem quietInv_step (env : Env) (cfg : RunCfg) (hf : ∀ t, env.fails t = false)
    (hd : ∀ t, env.done t = false) (hmono : Monotone env.best) (base : List Int)
    (start ib : Int) (s : St) (hJ : QuietInv env base start ib s) (hle : ib ≤ s.nodeHeight) :
    ∃ s1, importBlock env cfg ib s = .next s1 ∧ QuietInv env base start (ib + 1) s1 := by
  obtain ⟨h0, h1, h2, h3, ⟨t0, ht0, hb0⟩, h5, h6, h7⟩ := hJ
  have hspec := importBlock_spec env cfg ib s
  have hstop := importBlock_isStop env hf hd cfg ib s
  have hframe := frame_importBlock env cfg ib s
  revert hspec hstop hframe
  cases importBlock env cfg ib s with
  | stop h e s1 => intro _ hstop; simp [Step.isStop] at hstop
  | panic m s1 =>
    intro hspec
    obtain ⟨_, hlt, hne, _⟩ := hspec
    omega
  | next s1 =>
    rintro ⟨g1, g2, g3, g4, g5, g6, g7, g8, g9, g10⟩ _ ⟨n1, p1, l1, _, _, _, _⟩
    refine ⟨s1, rfl, by omega, ?_, ?_, ?_, ?_, l1 h5, ?_, ?_⟩
    · rw [g2, g1, worldAfterStore_stakeHeight]
    · rw [g2, worldAfterConnect_stakeHeight]
      split_ifs <;> omega
    · rcases p1 with p1 | ⟨t, ht1, ht2, ht3⟩
      · simp only [Step.st_next] at p1; omega
      · simp only [Step.st_next] at ht3
        have : env.best t0 ≤ env.best t := hmono (by omega)
        omega
    · rcases p1 with p1 | ⟨t, ht1, ht2, ht3⟩
      · exact ⟨t0, lt_of_lt_of_le ht0 n1, p1.trans hb0⟩
      · exact ⟨t, ht2, ht3⟩
    · rw [g7, h6, heightsFromTo_step start ib h0, List.append_assoc]
    · rw [g8, h7, heightsFromTo_step start ib h0, List.append_assoc]

/-- With a block source that never goes back and stays below `B`, no failing call and
a live context, a pass of `importBlocks` with enough fuel returns the node height it
polled last, having committed every height up to it, each once and in order. -/
theorem importBlocks_quiet (env : Env) (cfg : RunCfg) (hf : ∀ t, env.fails t = false)
    (hd : ∀ t, env.done t = false) (hmono : Monotone env.best) (B : Int)
    (hB : ∀ t, env.best t ≤ B) (base : List Int) (start : Int) :
    ∀ (fuel : Nat) (ib : Int) (s : St), QuietInv env base start ib s →
      (B + 1 - ib).toNat ≤ fuel →
      ∃ s1, importBlocks env cfg fuel ib s = .done s1.nodeHeight s1 ∧
        start - 1 ≤ s1.nodeHeight ∧
        lastPolled env s1.trace = some s1.nodeHeight ∧
        storeCalls s1.trace = base ++ heightsFromTo start s1.nodeHeight ∧
        storedHeights s1.trace = base ++ heightsFromTo start s1.nodeHeight := by
  intro fuel
  induction fuel with
  | zero =>
    intro ib s hJ hfuel
    obtain ⟨h0, h1, h2, h3, ⟨t0, ht0, hb0⟩, h5, h6, h7⟩ := hJ
    have hb := hB t0
    have hn : ¬ ib ≤ s.nodeHeight := by omega
    have he : s.nodeHeight = ib - 1 := by omega
    refine ⟨s, by simp [importBlocks, hn], by omega, h5, ?_, ?_⟩
    · rw [h6, he]
    · rw [h7, he]
  | succ n ih =>
    intro ib s hJ hfuel
    by_cases hle : ib ≤ s.nodeHeight
    · obtain ⟨s1, hs1, hJ1⟩ := quietInv_step env cfg hf hd hmono base start ib s hJ hle
      obtain ⟨t0, _, hb0⟩ := hJ.2.2.2.2.1
      have hb := hB t0
      obtain ⟨s2, hs2, hrest⟩ := ih (ib + 1) s1 hJ1 (by omega)
      refine ⟨s2, ?_, hrest⟩
      rw [importBlocks, if_pos hle, hs1]
      exact hs2
    · obtain ⟨h0, h1, h2, h3, _, h5, h6, h7⟩ := hJ
      have he : s.nodeHeight = ib - 1 := by omega
      refine ⟨s, by simp [importBlocks, hle], by omega, h5, ?_, ?_⟩
      · rw [h6, he]
      · rw [h7, he]

end Dcrpg

namespace Dcrpg

/-! ## Set-up when nothing fails -/

theorem prepare_isStop (env : Env) (hf : ∀ t, env.fails t = false) (cfg : RunCfg)
    (lastBlock : Int) (ibd : Bool) (s : St) :
    (prepare env cfg lastBlock ibd s).isStop = false := by
  unfold prepare
  refine Step.isStop_bind ?_ fun s => ?_
  · simp only [warmUtxoCache]
    split_ifs
    · exact Step.isStop_bind (attempt_isStop env hf _ _ _ _) (fun _ => rfl)
    · rfl
  refine Step.isStop_bind ?_ fun s => ?_
  · unfold prepareIndexes
    split_ifs
    · refine Step.isStop_bind ?_ fun s => ?_
      · simp [deindexAll, hf, Step.isStop]
      · exact Step.isStop_bind (attempt_isStop env hf _ _ _ _) (fun _ => rfl)
    · rfl
  refine Step.isStop_bind ?_ fun s => ?_
  · unfold clearIBDComplete
    split_ifs
    · exact attemptW_isStop env hf _ _ _ _ _
    · rfl
  · rfl

/-- With no failing call, a store height of at least -1 and the stake database level
with the store, set-up falls through to block import and leaves the heights alone. -/
theorem setup_quiet (env : Env) (hf : ∀ t, env.fails t = false) (w : World)
    (ua ni ue bl : Bool) (hL : -1 ≤ w.chainCursor)
    (hS : w.stakeHeight = max w.chainCursor 0) :
    ∃ s, setup env w ua ni ue bl = .next s ∧ s.w.chainCursor = w.chainCursor ∧
      s.w.stakeHeight = w.stakeHeight ∧ s.stakeDBHeight = w.stakeHeight ∧
      s.nodeHeight = env.best 0 ∧ lastPolled env s.trace = some (env.best 0) ∧ 0 < s.now ∧
      storeCalls s.trace = [] ∧ storedHeights s.trace = [] := by
  have hnr : ¬Rewinds w := by unfold Rewinds; omega
  have hspec := reconcile_spec env w ue bl
  unfold setup
  cases hr : reconcile env w ue bl with
  | stop h e s =>
    rw [hr] at hspec
    simp only [ReconcileSpec, hf, Corrupted] at hspec
    simp at hspec
    omega
  | panic m s =>
    rw [hr] at hspec
    obtain ⟨_, hlt, _⟩ := hspec
    omega
  | next s =>
    rw [hr] at hspec
    obtain ⟨_, _, _, _, _, _, hw, hsdb, hnode, _, hlp, hnow, _, _, _, _, _, _, _, _, _, hsc,
      hsh, _, _⟩ := hspec
    rw [if_neg hnr] at hw
    simp only [Step.bind_next]
    have hp := prepare_spec env (mkCfg w (env.best 0) ua ni) w.chainCursor w.ibdComplete s
    have hstop := prepare_isStop env hf (mkCfg w (env.best 0) ua ni) w.chainCursor
      w.ibdComplete s
    have hside := sideFrame_prepare env (mkCfg w (env.best 0) ua ni) w.chainCursor
      w.ibdComplete s
    revert hp hstop hside
    cases prepare env (mkCfg w (env.best 0) ua ni) w.chainCursor w.ibdComplete s with
    | stop h e s1 => intro _ hstop; simp [Step.isStop] at hstop
    | panic m s1 => intro hp; exact hp.elim
    | next s1 =>
      rintro _ _ ⟨⟨n1, _, l1, _, _, _, _⟩, hn, hc, hk, hd, _, _, _, _, _, _, _, hst, hsd, _, _⟩
      simp only [Step.st_next] at *
      refine ⟨s1, rfl, ?_, ?_, ?_, ?_, ?_, ?_, ?_, ?_⟩
      · rw [hc, hw]
      · rw [hk, hw]
      · rw [hd, hsdb, hw]
      · rw [hn rfl, hnode]
      · have := l1 (by rw [hlp, hnode])
        rw [this, hn rfl, hnode]
      · omega
      · rw [hst, hsc]
      · rw [hsd, hsh]

/-! ## Claims -/

/-- C1. In every run of `SyncChainDB` with store height `L >= -1`, the stake height
consistent with it, a block source whose best height never decreases, is at least
`L` and stays below some bound, no failing call and a live context, set-up falls
through and the first import pass `importBlocks(L+1)`, given enough fuel, returns the
best height `N` it polled last, and the heights passed to `StoreBlock` are exactly
`L+1, ..., N`, in this order, every call succeeding. -/
theorem c1_first_pass_stores_each_height_once (env : Env) (fuel : Nat) (w : World)
    (ua ni ue bl : Bool) (B : Int)
    (hL : -1 ≤ w.chainCursor) (hS : w.stakeHeight = max w.chainCursor 0)
    (hmono : Monotone env.best) (hge : w.chainCursor ≤ env.best 0) (hB : ∀ t, env.best t ≤ B)
    (hf : ∀ t, env.fails t = false) (hd : ∀ t, env.done t = false)
    (hfuel : (B - w.chainCursor).toNat ≤ fuel) :
    ∃ s s1, setup env w ua ni ue bl = .next s ∧
      importBlocks env (mkCfg w (env.best 0) ua ni) fuel (w.chainCursor + 1) s
        = .done s1.nodeHeight s1 ∧
      w.chainCursor ≤ s1.nodeHeight ∧
      lastPolled env s1.trace = some s1.nodeHeight ∧
      storeCalls s1.trace = heightsFromTo (w.chainCursor + 1) s1.nodeHeight ∧
      storedHeights s1.trace = heightsFromTo (w.chainCursor + 1) s1.nodeHeight := by
  obtain ⟨s, hs, hc, hk, hsdb, hnode, hlp, hnow, hst, hsd⟩ :=
    setup_quiet env hf w ua ni ue bl hL hS
  have hJ : QuietInv env [] (w.chainCursor + 1) (w.chainCursor + 1) s := by
    refine ⟨le_refl _, by rw [hsdb, hk], by rw [hsdb]; omega, by rw [hnode]; omega,
      ⟨0, hnow, hnode⟩, by rw [hlp, hnode], ?_, ?_⟩
    · rw [hst, heightsFromTo_empty _ _ (by omega)]; rfl
    · rw [hsd, heightsFromTo_empty _ _ (by omega)]; rfl
  obtain ⟨s1, h1, h2, h3, h4, h5⟩ := importBlocks_quiet env (mkCfg w (env.best 0) ua ni) hf hd
    hmono B hB [] (w.chainCursor + 1) fuel (w.chainCursor + 1) s hJ (by omega)
  exact ⟨s, s1, hs, h1, by omega, h3, by simpa using h4, by simpa using h5⟩

/-- A run of C1: store and stake database at height 50, the block source at 53. -/
theorem c1_first_pass_stores_each_height_once_witness :
    ∃ s s1, setup (quietEnv 53) ⟨50, 50, true, true, 1⟩ false false false false = .next s ∧
      importBlocks (quietEnv 53) (mkCfg ⟨50, 50, true, true, 1⟩ ((quietEnv 53).best 0) false false)
        3 ((50 : Int) + 1) s = .done s1.nodeHeight s1 ∧
      (50 : Int) ≤ s1.nodeHeight ∧
      lastPolled (quietEnv 53) s1.trace = some s1.nodeHeight ∧
      storeCalls s1.trace = heightsFromTo ((50 : Int) + 1) s1.nodeHeight ∧
      storedHeights s1.trace = heightsFromTo ((50 : Int) + 1) s1.nodeHeight :=
  c1_first_pass_stores_each_height_once (quietEnv 53) 3 ⟨50, 50, true, true, 1⟩ false false
    false false 53 (by decide) (by decide) (fun _ _ _ => le_refl _) (by decide)
    (fun _ => le_refl _) (fun _ => rfl) (fun _ => rfl) (by decide)

end Dcrpg

namespace Dcrpg

/-- C4. In every iteration `ib` of the import loop entered with the recorded stake
height `s.stakeDBHeight` below `ib`: `stakeDB.ConnectBlock` is called only if
`ib = stakeDBHeight + 1`; if `ib - stakeDBHeight > 1`, the stake step panics with the
message that recommends purging `2 * (ib - stakeDBHeight)` blocks, and the iteration
ends in that panic unless it returned before the stake step (quit check, failed
poll, failed `GetBlock`), without any call of `ConnectBlock`, `GetChainWork` or
`StoreBlock`. -/
theorem c4_stake_gap_panics (env : Env) (cfg : RunCfg) (ib : Int) (s : St)
    (hgt : s.stakeDBHeight < ib) :
    (connectCalls (importBlock env cfg ib s).st.trace ≠ connectCalls s.trace →
      ib = s.stakeDBHeight + 1) ∧
    (1 < ib - s.stakeDBHeight →
      advanceStakeDB env ib s =
        .panic (.wrongBlock ib s.stakeDBHeight (2 * (ib - s.stakeDBHeight))) s ∧
      connectCalls (importBlock env cfg ib s).st.trace = connectCalls s.trace ∧
      chainWorkCalls (importBlock env cfg ib s).st.trace = chainWorkCalls s.trace ∧
      storeCalls (importBlock env cfg ib s).st.trace = storeCalls s.trace ∧
      ((∃ s1, importBlock env cfg ib s =
          .panic (.wrongBlock ib s.stakeDBHeight (2 * (ib - s.stakeDBHeight))) s1) ∨
        ∃ h e s1, importBlock env cfg ib s = .stop h e s1 ∧
          (e = .cancelledAtHeight ib ∨ e = .getBestBlockFailed ∨
            e = .updateToBlockFailed ib))) := by
  have hspec := importBlock_spec env cfg ib s
  have hadv : 1 < ib - s.stakeDBHeight → advanceStakeDB env ib s =
      .panic (.wrongBlock ib s.stakeDBHeight (2 * (ib - s.stakeDBHeight))) s := by
    intro hgap
    have h1 : ib > s.stakeDBHeight := hgt
    have h2 : ib - s.stakeDBHeight ≠ 1 := by omega
    simp only [advanceStakeDB, if_pos h1, if_pos h2]
  revert hspec
  cases importBlock env cfg ib s with
  | next s1 =>
    rintro ⟨_, _, g3, _, g5, g6, g7, _⟩
    have := g3 hgt
    exact ⟨fun _ => this, fun hgap => by omega⟩
  | panic m s1 =>
    rintro ⟨rfl, _, _, _, _, g5, g6, g7, _⟩
    exact ⟨fun hne => absurd g5 hne, fun hgap => ⟨hadv hgap, g5, g6, g7, Or.inl ⟨s1, rfl⟩⟩⟩
  | stop h e s1 =>
    rintro ⟨_, hcase⟩
    rcases hcase with ⟨rfl, _, _, _, g5, g6, g7, _⟩ | ⟨rfl, _, _, _, g5, g6, g7, _⟩ |
      ⟨_, _, _, g3, _⟩ | ⟨rfl, _, _, _, g5, g6, g7, _⟩ | ⟨_, _, _, g3, _⟩ |
      ⟨_, _, _, g3, _⟩ | ⟨_, _, _, g3, _⟩
    · exact ⟨fun hne => absurd g5 hne,
        fun hgap => ⟨hadv hgap, g5, g6, g7, Or.inr ⟨h, _, s1, rfl, Or.inl rfl⟩⟩⟩
    · exact ⟨fun hne => absurd g5 hne,
        fun hgap => ⟨hadv hgap, g5, g6, g7, Or.inr ⟨h, _, s1, rfl, Or.inr (Or.inl rfl)⟩⟩⟩
    · exact ⟨fun _ => g3 hgt, fun hgap => by have := g3 hgt; omega⟩
    · exact ⟨fun hne => absurd g5 hne,
        fun hgap => ⟨hadv hgap, g5, g6, g7, Or.inr ⟨h, _, s1, rfl, Or.inr (Or.inr rfl)⟩⟩⟩
    · exact ⟨fun _ => g3, fun hgap => by omega⟩
    · exact ⟨fun _ => g3 hgt, fun hgap => by have := g3 hgt; omega⟩
    · exact ⟨fun _ => g3 hgt, fun hgap => by have := g3 hgt; omega⟩

/-- An iteration of C4: the store at 50, the stake database at 40, iteration 51. -/
theorem c4_stake_gap_panics_witness :
    (loopEntry ⟨50, 40, true, true, 1⟩ 53).stakeDBHeight < 51 ∧
    advanceStakeDB (quietEnv 53) 51 (loopEntry ⟨50, 40, true, true, 1⟩ 53) =
      .panic (.wrongBlock 51 40 22) (loopEntry ⟨50, 40, true, true, 1⟩ 53) :=
  ⟨by decide,
    ((c4_stake_gap_panics (quietEnv 53) (mkCfg ⟨50, 40, true, true, 1⟩ 53 false false) 51
      (loopEntry ⟨50, 40, true, true, 1⟩ 53) (by decide)).2 (by decide)).1⟩

end Dcrpg

namespace Dcrpg

/-! ## The import loop with the stake database level with the store -/

theorem heightsInv_worldAfterConnect (ib : Int) (s : St) (h1 : s.stakeDBHeight = s.w.stakeHeight)
    (h2 : HeightsInv s.w) (h3 : ib - 1 ≤ s.w.chainCursor) :
    HeightsInv (worldAfterConnect ib s) := by
  unfold HeightsInv at *
  rw [worldAfterConnect_chainCursor, worldAfterConnect_stakeHeight]
  split_ifs <;> omega

theorem heightsInv_worldAfterStore (ib : Int) (s : St) (h1 : s.stakeDBHeight = s.w.stakeHeight)
    (h2 : HeightsInv s.w) (h3 : ib - 1 ≤ s.w.chainCursor) :
    HeightsInv (worldAfterStore ib s) := by
  unfold HeightsInv at *
  rw [worldAfterStore_chainCursor, worldAfterStore_stakeHeight, worldAfterConnect_stakeHeight]
  split_ifs <;> omega

theorem keepsHeights_iter (ib : Int) (s sm s1 : St) (h1 : sm.stakeDBHeight = sm.w.stakeHeight)
    (h3 : ib - 1 ≤ sm.w.chainCursor) (hk : KeepsHeights s sm) (hev : IterEvents ib sm s1)
    (hw : s1.w = sm.w ∨ s1.w = worldAfterConnect ib sm ∨ s1.w = worldAfterStore ib sm) :
    KeepsHeights s s1 := by
  have hc := heightsInv_worldAfterConnect ib sm h1 hk.1 h3
  have hs := heightsInv_worldAfterStore ib sm h1 hk.1 h3
  refine ⟨?_, fun e he => ?_⟩
  · rcases hw with hw | hw | hw <;> rw [hw]
    · exact hk.1
    · exact hc
    · exact hs
  · rcases hev e he with h | ⟨_, hw | hw | hw⟩
    · exact hk.2 e h
    · exact Or.inr (hw ▸ hk.1)
    · exact Or.inr (hw ▸ hc)
    · exact Or.inr (hw ▸ hs)

theorem goodHead_connects (s sm : St) (ib : Int) (l : List Int)
    (h1 : sm.stakeDBHeight = sm.w.stakeHeight) (h3 : ib - 1 ≤ sm.w.chainCursor)
    (hinv : HeightsInv sm.w) (hle : s.stakeDBHeight ≤ sm.stakeDBHeight)
    (hc : connectCalls sm.trace =
      connectCalls s.trace ++ heightsFromTo (s.stakeDBHeight + 1) sm.stakeDBHeight)
    (hl : l = connectCalls sm.trace ++ (if sm.stakeDBHeight < ib then [ib] else [])) :
    l = connectCalls s.trace ++ heightsFromTo (s.stakeDBHeight + 1)
      (if sm.stakeDBHeight < ib then ib else sm.stakeDBHeight) := by
  unfold HeightsInv at hinv
  split_ifs at hl ⊢ with hlt
  · have hib : ib = sm.stakeDBHeight + 1 := by omega
    rw [hl, hc, hib, heightsFromTo_snoc _ _ (by omega), List.append_assoc]
  · rw [hl, hc, List.append_nil]

/-- A pass of `importBlocks` entered with the local copy of the stake height exact,
the stake database level with the store or one block ahead, and the store at
`start - 1` or above ends in one of the ways listed by `LoopGood`. -/
theorem importBlocks_good (env : Env) (cfg : RunCfg) (fuel : Nat) (start : Int) (s : St)
    (h1 : s.stakeDBHeight = s.w.stakeHeight) (h2 : HeightsInv s.w)
    (h3 : start - 1 ≤ s.w.chainCursor) :
    LoopGood s (importBlocks env cfg fuel start s) := by
  refine importBlocks_induct env cfg (fun ib sm => GoodHead s ib sm) (LoopGood s) ?_ ?_ ?_
    fuel start s ⟨h1, h3, le_refl _, ?_, h2, fun e he => Or.inl he⟩
  · rintro ib sm ⟨j1, j3, jle, jc, jk⟩ _
    have hspec := importBlock_spec env cfg ib sm
    have hinv := jk.1
    have hInv := jk.1
    unfold HeightsInv at hinv
    revert hspec
    cases importBlock env cfg ib sm with
    | next s1 =>
      rintro ⟨g1, g2, g3, _, g5, _, _, _, _, g10⟩
      have hk := keepsHeights_iter ib s sm s1 j1 j3 jk g10 (Or.inr (Or.inr g1))
      have hsdb : s1.stakeDBHeight = if sm.stakeDBHeight < ib then ib else sm.stakeDBHeight := by
        rw [g2, worldAfterConnect_stakeHeight, j1]
      refine ⟨?_, ?_, ?_, ?_, hk⟩
      · rw [g2, g1, worldAfterStore_stakeHeight]
      · rw [g1, worldAfterStore_chainCursor]; omega
      · rw [hsdb]; split_ifs <;> omega
      · rw [hsdb]
        exact goodHead_connects s sm ib _ j1 j3 hInv jle jc g5
    | panic m s1 =>
      rintro ⟨_, hlt, hne, _⟩
      omega
    | stop h e s1 =>
      rintro ⟨hev, hcase⟩
      rcases hcase with ⟨_, _, hw, _, g5, _⟩ | ⟨_, _, hw, _, g5, _⟩ |
        ⟨_, _, hw, _, _, g5, _⟩ | ⟨_, _, hw, _, g5, _⟩ | ⟨_, _, hw, hib, _, g5, _⟩ |
        ⟨_, _, hw, _, _, g5, _⟩ | ⟨_, _, hw, _, _, g5, _⟩
      · exact ⟨keepsHeights_iter ib s sm s1 j1 j3 jk hev (Or.inl hw),
          sm.stakeDBHeight, jle, by rw [g5, jc]⟩
      · exact ⟨keepsHeights_iter ib s sm s1 j1 j3 jk hev (Or.inl hw),
          sm.stakeDBHeight, jle, by rw [g5, jc]⟩
      · exact ⟨keepsHeights_iter ib s sm s1 j1 j3 jk hev (Or.inr (Or.inr hw)),
          _, by split_ifs <;> omega, goodHead_connects s sm ib _ j1 j3 hInv jle jc g5⟩
      · exact ⟨keepsHeights_iter ib s sm s1 j1 j3 jk hev (Or.inl hw),
          sm.stakeDBHeight, jle, by rw [g5, jc]⟩
      · refine ⟨keepsHeights_iter ib s sm s1 j1 j3 jk hev (Or.inl hw),
          sm.stakeDBHeight + 1, by omega, ?_⟩
        rw [g5, jc, hib, heightsFromTo_snoc _ _ (by omega), List.append_assoc]
      · exact ⟨keepsHeights_iter ib s sm s1 j1 j3 jk hev (Or.inr (Or.inl hw)),
          _, by split_ifs <;> omega, goodHead_connects s sm ib _ j1 j3 hInv jle jc g5⟩
      · exact ⟨keepsHeights_iter ib s sm s1 j1 j3 jk hev (Or.inr (Or.inl hw)),
          _, by split_ifs <;> omega, goodHead_connects s sm ib _ j1 j3 hInv jle jc g5⟩
  · rintro ib sm hJ hn
    obtain ⟨j1, j3, jle, jc, jk⟩ := hJ
    exact ⟨by omega, j1, by omega, jle, jc, jk⟩
  · rintro ib sm ⟨j1, j3, jle, jc, jk⟩ _
    exact ⟨jk, sm.stakeDBHeight, jle, jc⟩
  · rw [heightsFromTo_empty _ _ (by omega), List.append_nil]

end Dcrpg

namespace Dcrpg

/-! ## Whole runs -/

/-- The rule for a whole run: an assertion for each point between two parts of
`SyncChainDB`, kept by the part that follows, gives `P` of the result of the run. -/
theorem run_spec (env : Env) (fuel : Nat) (w : World) (ua ni ue bl : Bool)
    (P : Outcome × St → Prop) (G0 G1 G5 : St → Prop) (G2 G3 G4 : Int → St → Prop)
    (hprepare : ∀ s, G0 s → PhasePost G1 P
      (prepare env (mkCfg w (env.best 0) ua ni) w.chainCursor w.ibdComplete s))
    (hpass : ∀ s, G1 s → LoopPost G2 P
      (importBlocks env (mkCfg w (env.best 0) ua ni) fuel
        (mkCfg w (env.best 0) ua ni).startHeight s))
    (hstages : ∀ n s, G2 n s → PhasePost (G3 n) P (stages env (mkCfg w (env.best 0) ua ni) s))
    (hfinalize : ∀ n s, G3 n s → PhasePost (G4 n) P (finalize env s))
    (hcatchUp : ∀ n s, G4 n s → LoopPost (fun _ s1 => G5 s1) P
      (catchUp env (mkCfg w (env.best 0) ua ni) fuel n s))
    (hcomplete : ∀ s, G5 s → P (complete env (mkCfg w (env.best 0) ua ni) s))
    (s0 : St) (hr : reconcile env w ue bl = .next s0) (h0 : G0 s0) :
    P (SyncChainDB env fuel w ua ni ue bl) := by
  simp only [SyncChainDB, setup, hr, Step.bind_next]
  have hp := hprepare s0 h0
  revert hp
  cases prepare env (mkCfg w (env.best 0) ua ni) w.chainCursor w.ibdComplete s0 with
  | stop h e s => exact id
  | panic m s => exact id
  | next s1 =>
    intro g1
    have hl := hpass s1 g1
    revert hl
    simp only []
    cases importBlocks env (mkCfg w (env.best 0) ua ni) fuel
      (mkCfg w (env.best 0) ua ni).startHeight s1 with
    | stop h e s => exact id
    | panic m s => exact id
    | outOfFuel s => exact id
    | done n s2 =>
      intro g2
      have hs := hstages n s2 g2
      revert hs
      simp only [afterImport, maintenance]
      cases stages env (mkCfg w (env.best 0) ua ni) s2 with
      | stop h e s => exact id
      | panic m s => exact id
      | next s3 =>
        intro g3
        have hf := hfinalize n s3 g3
        revert hf
        simp only [Step.bind_next]
        cases finalize env s3 with
        | stop h e s => exact id
        | panic m s => exact id
        | next s4 =>
          intro g4
          have hc := hcatchUp n s4 g4
          revert hc
          simp only []
          cases catchUp env (mkCfg w (env.best 0) ua ni) fuel n s4 with
          | stop h e s => exact id
          | panic m s => exact id
          | outOfFuel s => exact id
          | done n1 s5 => exact fun g5 => hcomplete s5 g5

end Dcrpg

namespace Dcrpg

theorem phasePost_of_rel {R : St → St → Prop} (htrans : ∀ a b c, R a b → R b c → R a c)
    (s0 s : St) (x : Step) (h0 : R s0 s) (hx : R s x.st) :
    PhasePost (fun s1 => R s0 s1) (fun y => R s0 y.2) x := by
  cases x <;> exact htrans _ _ _ h0 hx

theorem loopPost_of_rel {R : St → St → Prop} (htrans : ∀ a b c, R a b → R b c → R a c)
    (s0 s : St) (r : LoopResult) (h0 : R s0 s) (hx : R s r.st) :
    LoopPost (fun _ s1 => R s0 s1) (fun y => R s0 y.2) r := by
  cases r <;> exact htrans _ _ _ h0 hx

theorem frame_catchUp (env : Env) (cfg : RunCfg) (fuel : Nat) (n : Int) (s : St) :
    Frame env s (catchUp env cfg fuel n s).st := by
  unfold catchUp
  split_ifs
  · exact frame_importBlocks env cfg fuel n s
  · exact frame_refl env s

/-- A run that got past `reconcile` keeps the frame from there on. -/
theorem frame_run (env : Env) (fuel : Nat) (w : World) (ua ni ue bl : Bool) (s0 : St)
    (hr : reconcile env w ue bl = .next s0) :
    Frame env s0 (SyncChainDB env fuel w ua ni ue bl).2 := by
  refine run_spec env fuel w ua ni ue bl (fun y => Frame env s0 y.2) (fun s => Frame env s0 s)
    (fun s => Frame env s0 s) (fun s => Frame env s0 s) (fun _ s => Frame env s0 s)
    (fun _ s => Frame env s0 s) (fun _ s => Frame env s0 s) ?_ ?_ ?_ ?_ ?_ ?_ s0 hr
    (frame_refl env s0)
  · exact fun s h => phasePost_of_rel (frame_trans env) s0 s _ h (sideFrame_prepare env _ _ _ s).1
  · exact fun s h => loopPost_of_rel (frame_trans env) s0 s _ h (frame_importBlocks env _ _ _ s)
  · exact fun _ s h => phasePost_of_rel (frame_trans env) s0 s _ h (sideFrame_stages env _ s).1
  · exact fun _ s h => phasePost_of_rel (frame_trans env) s0 s _ h (sideFrame_finalize env s).1
  · exact fun n s h => loopPost_of_rel (frame_trans env) s0 s _ h (frame_catchUp env _ _ n s)
  · exact fun s h => frame_trans env _ _ _ h (sideFrame_complete env _ s).1

/-- The error of a pass of `importBlocks` is one of those of `isImportError`. -/
theorem importBlocks_error (env : Env) (cfg : RunCfg) (fuel : Nat) (start : Int) (s : St)
    (h : Int) (e : SyncError) (s1 : St) (hs : importBlocks env cfg fuel start s = .stop h e s1) :
    isImportError e = true := by
  have hspec := importBlocks_spec env cfg fuel start s
  rw [hs] at hspec
  obtain ⟨ib, sm, _, _, hcase⟩ := hspec
  rcases hcase with ⟨rfl, _⟩ | ⟨rfl, _⟩ | ⟨rfl, _⟩ | ⟨rfl, _⟩ | ⟨rfl, _⟩ | ⟨rfl, _⟩ | ⟨rfl, _⟩ <;>
    rfl

theorem lateError_importBlocks (env : Env) (cfg : RunCfg) (fuel : Nat) (start : Int) (s : St) :
    LoopPost (fun _ _ => True)
      (fun y => ∀ h e, y.1 = .returned h (some e) → isLateError e = true)
      (importBlocks env cfg fuel start s) := by
  have herr := importBlocks_error env cfg fuel start s
  revert herr
  cases importBlocks env cfg fuel start s with
  | done n s1 => exact fun _ => trivial
  | stop h e s1 =>
    intro herr h1 e1 heq
    simp only [Outcome.returned.injEq, Option.some.injEq] at heq
    rw [← heq.2]
    simp [isLateError, herr h e s1 rfl]
  | panic m s1 => intro _ h1 e1 heq; cases heq
  | outOfFuel s1 => intro _ h1 e1 heq; cases heq

/-- Once a run got past `reconcile`, the error it returns, if any, is one of those of
`isLateError`: not one of the errors of `reconcile`. -/
theorem lateError_run (env : Env) (fuel : Nat) (w : World) (ua ni ue bl : Bool) (s0 : St)
    (hr : reconcile env w ue bl = .next s0) (h : Int) (e : SyncError)
    (he : (SyncChainDB env fuel w ua ni ue bl).1 = .returned h (some e)) :
    isLateError e = true := by
  refine run_spec env fuel w ua ni ue bl
    (fun y => ∀ h e, y.1 = .returned h (some e) → isLateError e = true)
    (fun _ => True) (fun _ => True) (fun _ => True) (fun _ _ => True) (fun _ _ => True)
    (fun _ _ => True) ?_ ?_ ?_ ?_ ?_ ?_ s0 hr trivial h e he
  · intro s _
    have hp := prepare_spec env (mkCfg w (env.best 0) ua ni) w.chainCursor w.ibdComplete s
    revert hp
    cases prepare env (mkCfg w (env.best 0) ua ni) w.chainCursor w.ibdComplete s with
    | next s1 => exact fun _ => trivial
    | panic m s1 => exact fun hp => hp.elim
    | stop h1 e1 s1 =>
      rintro ⟨_, hcase⟩ h2 e2 heq
      simp only [Outcome.returned.injEq, Option.some.injEq] at heq
      rw [← heq.2]
      rcases hcase with ⟨rfl, _⟩ | ⟨rfl, _⟩ | ⟨rfl, _⟩ | ⟨rfl, _⟩ <;> rfl
  · exact fun s _ => lateError_importBlocks env _ fuel _ s
  · intro n s _
    have hp := stages_spec env (mkCfg w (env.best 0) ua ni) s
    revert hp
    cases stages env (mkCfg w (env.best 0) ua ni) s with
    | next s1 => exact fun _ => trivial
    | panic m s1 => exact fun hp => hp.elim
    | stop h1 e1 s1 =>
      rintro ⟨_, hcase⟩ h2 e2 heq
      simp only [Outcome.returned.injEq, Option.some.injEq] at heq
      rw [← heq.2]
      rcases hcase with ⟨rfl, _⟩ | ⟨hst, _⟩
      · rfl
      · simp [isLateError, hst]
  · intro n s _
    have hp := finalize_spec env s
    revert hp
    cases finalize env s with
    | next s1 => exact fun _ => trivial
    | panic m s1 => exact fun hp => hp.elim
    | stop h1 e1 s1 =>
      rintro ⟨_, hcase⟩ h2 e2 heq
      simp only [Outcome.returned.injEq, Option.some.injEq] at heq
      rw [← heq.2]
      rcases hcase with ⟨rfl, _⟩ | ⟨rfl, _⟩ | ⟨rfl, _⟩ <;> rfl
  · intro n s _
    unfold catchUp
    split_ifs
    · exact lateError_importBlocks env _ fuel _ s
    · exact trivial
  · intro s _ h2 e2 heq
    rw [complete_fst] at heq
    cases heq

theorem SyncChainDB_of_reconcile_stop (env : Env) (fuel : Nat) (w : World) (ua ni ue bl : Bool)
    (h : Int) (e : SyncError) (s : St) (hr : reconcile env w ue bl = .stop h e s) :
    SyncChainDB env fuel w ua ni ue bl = (.returned h (some e), s) := by
  simp only [SyncChainDB, setup, hr, Step.bind_stop]

theorem SyncChainDB_of_reconcile_panic (env : Env) (fuel : Nat) (w : World) (ua ni ue bl : Bool)
    (m : PanicMsg) (s : St) (hr : reconcile env w ue bl = .panic m s) :
    SyncChainDB env fuel w ua ni ue bl = (.panicked m, s) := by
  simp only [SyncChainDB, setup, hr, Step.bind_panic]

end Dcrpg

namespace Dcrpg

/-- C6, as the claim states it, fails: with the store at height 50 and the stake
database at 130 the gap, 80, does not exceed double the store height, 100, and
`SyncChainDB` still aborts with the "delete stake db" error. -/
theorem c6_counterexample :
    ¬((130 : Int) - 50 > 2 * 50) ∧
    (SyncChainDB (quietEnv 200) 5 ⟨50, 130, true, true, 1⟩ false false false false).1 =
      .returned (-1) (some .deleteStakeDB) := by
  decide

/-- C6, amended. For every store height `L >= -1` and stake height `S > L`, when the
three reads at entry succeed: `SyncChainDB` returns the "delete stake db" error if
and only if `S > 0` and (`L < 0` or `S > 2 * L`), the stake height itself being
compared with double the store height; otherwise, if `S > 0`, it calls
`RewindStakeDB` with target `L`, once; and if `S <= 0` it neither aborts nor
rewinds. -/
theorem c6_corruption_threshold (env : Env) (fuel : Nat) (w : World) (ua ni ue bl : Bool)
    (h0 : env.fails 0 = false) (h1 : env.fails 1 = false) (h2 : env.fails 2 = false)
    (hL : -1 ≤ w.chainCursor) (hS : w.chainCursor < w.stakeHeight) :
    ((∃ h, (SyncChainDB env fuel w ua ni ue bl).1 = .returned h (some .deleteStakeDB)) ↔
      (0 < w.stakeHeight ∧ (w.chainCursor < 0 ∨ w.stakeHeight > 2 * w.chainCursor))) ∧
    (0 < w.stakeHeight → ¬(w.chainCursor < 0 ∨ w.stakeHeight > 2 * w.chainCursor) →
      rewindCalls (SyncChainDB env fuel w ua ni ue bl).2.trace = [w.chainCursor]) ∧
    (w.stakeHeight ≤ 0 → rewindCalls (SyncChainDB env fuel w ua ni ue bl).2.trace = []) := by
  have hspec := reconcile_spec env w ue bl
  cases hr : reconcile env w ue bl with
  | panic m s =>
    rw [hr] at hspec
    obtain ⟨_, hlt, _⟩ := hspec
    omega
  | stop h e s =>
    rw [hr] at hspec
    rw [SyncChainDB_of_reconcile_stop env fuel w ua ni ue bl h e s hr]
    obtain ⟨_, _, _, _, _, _, hrw, hcase⟩ := hspec
    rcases hcase with ⟨_, _, hf, _⟩ | ⟨_, _, hf, _⟩ | ⟨_, _, hf, _⟩ | ⟨rfl, rfl, _, hc, _⟩ |
      ⟨rfl, rfl, _, hrew, _⟩
    · rw [h0] at hf; cases hf
    · rw [h1] at hf; cases hf
    · rw [h2] at hf; cases hf
    · unfold Corrupted at hc
      refine ⟨⟨fun _ => ⟨hc.1.2, hc.2⟩, fun _ => ⟨_, rfl⟩⟩, fun _ hn => absurd hc.2 hn,
        fun hle => ?_⟩
      omega
    · unfold Rewinds at hrew
      refine ⟨⟨?_, fun hc => absurd hc.2 hrew.2⟩, fun _ _ => by simpa using hrw,
        fun hle => ?_⟩
      · rintro ⟨h, heq⟩
        simp at heq
      · omega
  | next s0 =>
    rw [hr] at hspec
    obtain ⟨_, hnc, _, _, _, _, _, _, _, _, _, _, _, _, _, _, _, _, _, _, _, _, _, hrw, _⟩ := hspec
    have hframe := frame_run env fuel w ua ni ue bl s0 hr
    have hrc := hframe.2.2.2.2.2.2
    unfold Corrupted at hnc
    refine ⟨⟨?_, fun hc => absurd ⟨⟨hS, hc.1⟩, hc.2⟩ hnc⟩, fun hpos hn => ?_, fun hle => ?_⟩
    · rintro ⟨h, heq⟩
      have := lateError_run env fuel w ua ni ue bl s0 hr h _ heq
      simp [isLateError, isImportError, isStageError] at this
    · rw [hrc, hrw, if_pos]
      exact ⟨⟨hS, hpos⟩, hn⟩
    · rw [hrc, hrw, if_neg]
      unfold Rewinds
      omega

/-- Runs of C6: store at 50 and stake database at 60, which is rewound, and store at
50 and stake database at 130, which aborts. -/
theorem c6_corruption_threshold_witness :
    rewindCalls (SyncChainDB (quietEnv 53) 5 ⟨50, 60, true, true, 1⟩ false false false false).2.trace
      = [50] ∧
    ∃ h, (SyncChainDB (quietEnv 53) 5 ⟨50, 130, true, true, 1⟩ false false false false).1 =
      .returned h (some .deleteStakeDB) :=
  ⟨(c6_corruption_threshold (quietEnv 53) 5 ⟨50, 60, true, true, 1⟩ false false false false
      rfl rfl rfl (by decide) (by decide)).2.1 (by decide) (by decide),
    (c6_corruption_threshold (quietEnv 53) 5 ⟨50, 130, true, true, 1⟩ false false false false
      rfl rfl rfl (by decide) (by decide)).1.2 (by decide)⟩

/-- C7. For every store height `L >= -1` and stake height `S` with `S > 0`, `S > L`
and (`L < 0` or `S > 2 * L`), `SyncChainDB` returns an error, which is the "delete
stake db" error with height -1 when the three reads at entry succeed, after it called
nothing but these reads and `stakeDB.Height`: it makes no call to `RewindStakeDB`,
`stakeDB.ConnectBlock`, `StoreBlock`, `GetBlock`, `DeindexAll`, `SetIBDComplete` or
`InitUtxoCache`. -/
theorem c7_corruption_aborts_before_import (env : Env) (fuel : Nat) (w : World)
    (ua ni ue bl : Bool) (hL : -1 ≤ w.chainCursor) (hpos : 0 < w.stakeHeight)
    (hS : w.chainCursor < w.stakeHeight)
    (hc : w.chainCursor < 0 ∨ w.stakeHeight > 2 * w.chainCursor) :
    (∃ h e, (SyncChainDB env fuel w ua ni ue bl).1 = .returned h (some e) ∧
      (env.fails 0 = false → env.fails 1 = false → env.fails 2 = false →
        h = -1 ∧ e = .deleteStakeDB)) ∧
    callsOf (SyncChainDB env fuel w ua ni ue bl).2.trace <+:
      [.GetBestBlock, .HeightDB, .IBDComplete, .StakeDBHeight] ∧
    ∀ c ∈ callsOf (SyncChainDB env fuel w ua ni ue bl).2.trace,
      (∀ t, c ≠ .RewindStakeDB t) ∧ (∀ h, c ≠ .ConnectBlock h) ∧ (∀ h b, c ≠ .StoreBlock h b) ∧
      (∀ h, c ≠ .GetBlock h) ∧ c ≠ .DeindexAll ∧ (∀ b, c ≠ .SetIBDComplete b) ∧
      (∀ n, c ≠ .InitUtxoCache n) := by
  have hcor : Corrupted w := ⟨⟨hS, hpos⟩, hc⟩
  have hnr : ¬Rewinds w := fun h => h.2 hc
  have hspec := reconcile_spec env w ue bl
  have hmem : ∀ l : List Call, l <+: [.GetBestBlock, .HeightDB, .IBDComplete, .StakeDBHeight] →
      ∀ c ∈ l, (∀ t, c ≠ .RewindStakeDB t) ∧ (∀ h, c ≠ .ConnectBlock h) ∧
        (∀ h b, c ≠ .StoreBlock h b) ∧ (∀ h, c ≠ .GetBlock h) ∧ c ≠ .DeindexAll ∧
        (∀ b, c ≠ .SetIBDComplete b) ∧ (∀ n, c ≠ .InitUtxoCache n) := by
    intro l hl c hcl
    have := hl.subset hcl
    simp only [List.mem_cons, List.mem_singleton, List.mem_nil_iff, or_false] at this
    rcases this with rfl | rfl | rfl | rfl <;> simp
  cases hr : reconcile env w ue bl with
  | panic m s =>
    rw [hr] at hspec
    obtain ⟨_, hlt, _⟩ := hspec
    omega
  | next s0 =>
    rw [hr] at hspec
    exact absurd hcor hspec.2.1
  | stop h e s =>
    rw [hr] at hspec
    rw [SyncChainDB_of_reconcile_stop env fuel w ua ni ue bl h e s hr]
    obtain ⟨_, _, _, _, _, _, _, hcase⟩ := hspec
    have hpre : callsOf s.trace <+: [.GetBestBlock, .HeightDB, .IBDComplete, .StakeDBHeight] := by
      rcases hcase with ⟨_, _, _, _, hcalls⟩ | ⟨_, _, _, _, hcalls⟩ | ⟨_, _, _, _, hcalls⟩ |
        ⟨_, _, _, _, _, _, _, _, hcalls⟩ | ⟨_, _, _, hrew, _⟩
      · rw [hcalls]; exact ⟨[.HeightDB, .IBDComplete, .StakeDBHeight], rfl⟩
      · rw [hcalls]; exact ⟨[.IBDComplete, .StakeDBHeight], rfl⟩
      · rw [hcalls]; exact ⟨[.StakeDBHeight], rfl⟩
      · rw [hcalls]
      · exact absurd hrew hnr
    refine ⟨⟨h, e, rfl, fun h0 h1 h2 => ?_⟩, hpre, hmem _ hpre⟩
    rcases hcase with ⟨_, _, hf, _⟩ | ⟨_, _, hf, _⟩ | ⟨_, _, hf, _⟩ | ⟨rfl, rfl, _⟩ |
      ⟨_, _, _, hrew, _⟩
    · rw [h0] at hf; cases hf
    · rw [h1] at hf; cases hf
    · rw [h2] at hf; cases hf
    · exact ⟨rfl, rfl⟩
    · exact absurd hrew hnr

/-- The run of scenario E: the stake database at 130, the store at 50. -/
theorem c7_corruption_aborts_before_import_witness :
    (SyncChainDB (quietEnv 200) 5 ⟨50, 130, true, true, 1⟩ false false false false).1 =
      .returned (-1) (some .deleteStakeDB) ∧
    callsOf (SyncChainDB (quietEnv 200) 5 ⟨50, 130, true, true, 1⟩ false false false false).2.trace
      <+: [.GetBestBlock, .HeightDB, .IBDComplete, .StakeDBHeight] := by
  have h := c7_corruption_aborts_before_import (quietEnv 200) 5 ⟨50, 130, true, true, 1⟩
    false false false false (by decide) (by decide) (by decide) (by decide)
  exact ⟨by decide, h.2.1⟩

end Dcrpg

namespace Dcrpg

theorem heightsFromTo_append (a b c : Int) (h1 : a ≤ b + 1) (h2 : b ≤ c) :
    heightsFromTo a b ++ heightsFromTo (b + 1) c = heightsFromTo a c := by
  have key : ∀ n : Nat, heightsFromTo a b ++ heightsFromTo (b + 1) (b + n) =
      heightsFromTo a (b + n) := by
    intro n
    induction n with
    | zero => simp [heightsFromTo_empty (b + 1) b (by omega)]
    | succ n ih =>
      have e1 : b + ((n + 1 : Nat) : Int) = (b + n) + 1 := by push_cast; ring
      rw [e1, heightsFromTo_snoc (b + 1) (b + n) (by omega),
        heightsFromTo_snoc a (b + n) (by omega), ← List.append_assoc, ih]
  have := key (c - b).toNat
  have e : b + ((c - b).toNat : Int) = c := by omega
  rwa [e] at this

theorem keepsHeights_trans (a b c : St) (h1 : KeepsHeights a b) (h2 : KeepsHeights b c) :
    KeepsHeights a c :=
  ⟨h2.1, fun e he => (h2.2 e he).elim (fun h => h1.2 e h) Or.inr⟩

theorem keepsHeights_side (env : Env) (cls : Call → Bool) (s s1 : St) (hinv : HeightsInv s.w)
    (hside : SideFrame env cls s s1) : KeepsHeights s s1 := by
  obtain ⟨_, _, hc, hk, _, _, _, _, _, _, _, _, _, _, _, hev⟩ := hside
  unfold HeightsInv at hinv
  refine ⟨?_, fun e he => ?_⟩
  · unfold HeightsInv; rw [hc, hk]; exact hinv
  · rcases hev e he with h | ⟨_, h1, h2⟩
    · exact Or.inl h
    · right; unfold HeightsInv; rw [h1, h2]; exact hinv

theorem goodHead_side (env : Env) (cls : Call → Bool) (s0 s s1 : St) (ib : Int)
    (hg : GoodHead s0 ib s) (hside : SideFrame env cls s s1) : GoodHead s0 ib s1 := by
  have hk := keepsHeights_side env cls s s1 hg.2.2.2.2.1 hside
  obtain ⟨g1, g2, g3, g4, g5⟩ := hg
  obtain ⟨_, _, hc, hst, hd, _, _, _, _, _, hcc, _⟩ := hside
  exact ⟨by rw [hd, hst, g1], by rw [hc]; exact g2, by rw [hd]; exact g3,
    by rw [hcc, hd, g4], keepsHeights_trans _ _ _ g5 hk⟩

theorem runGood_of_goodHead (s0 s : St) (ib : Int) (o : Outcome) (ho : ∀ m, o ≠ .panicked m)
    (hg : GoodHead s0 ib s) : RunGood s0 (o, s) :=
  ⟨ho, hg.2.2.2.2, s.stakeDBHeight, hg.2.2.1, hg.2.2.2.1⟩

theorem runGood_of_stop (s0 s s1 : St) (ib : Int) (o : Outcome) (ho : ∀ m, o ≠ .panicked m)
    (hg : GoodHead s0 ib s) (hk : KeepsHeights s s1) (b : Int) (hb : s.stakeDBHeight ≤ b)
    (hc : connectCalls s1.trace =
      connectCalls s.trace ++ heightsFromTo (s.stakeDBHeight + 1) b) :
    RunGood s0 (o, s1) := by
  obtain ⟨g1, g2, g3, g4, g5⟩ := hg
  refine ⟨ho, keepsHeights_trans _ _ _ g5 hk, b, by omega, ?_⟩
  simp only []
  rw [hc, g4, List.append_assoc, heightsFromTo_append _ _ _ (by omega) hb]

theorem loopPost_good (env : Env) (cfg : RunCfg) (fuel : Nat) (start : Int) (s0 s : St)
    (hg : GoodHead s0 start s) :
    LoopPost (fun n s1 => GoodHead s0 n s1) (RunGood s0) (importBlocks env cfg fuel start s) := by
  have hl := importBlocks_good env cfg fuel start s hg.1 hg.2.2.2.2.1 hg.2.1
  revert hl
  cases importBlocks env cfg fuel start s with
  | done n s1 =>
    rintro ⟨_, j1, j2, j3, j4, j5⟩
    obtain ⟨g1, g2, g3, g4, g5⟩ := hg
    refine ⟨j1, j2, by omega, ?_, keepsHeights_trans _ _ _ g5 j5⟩
    rw [j4, g4, List.append_assoc, heightsFromTo_append _ _ _ (by omega) j3]
  | stop h e s1 =>
    rintro ⟨hk, b, hb, hc⟩
    exact runGood_of_stop s0 s s1 start _ (fun m hm => by cases hm) hg hk b hb hc
  | panic m s1 => exact fun h => h.elim
  | outOfFuel s1 =>
    rintro ⟨hk, b, hb, hc⟩
    exact runGood_of_stop s0 s s1 start _ (fun m hm => by cases hm) hg hk b hb hc

theorem phasePost_good (env : Env) (cls : Call → Bool) (s0 s : St) (ib : Int) (x : Step)
    (hg : GoodHead s0 ib s) (hside : SideFrame env cls s x.st) (hp : ∀ m s1, x ≠ .panic m s1) :
    PhasePost (fun s1 => GoodHead s0 ib s1) (RunGood s0) x := by
  have := goodHead_side env cls s0 s x.st ib hg hside
  cases x with
  | next s1 => exact this
  | stop h e s1 => exact runGood_of_goodHead s0 s1 ib _ (fun m hm => by cases hm) this
  | panic m s1 => exact absurd rfl (hp m s1)

theorem prepare_ne_panic (env : Env) (cfg : RunCfg) (lb : Int) (ibd : Bool) (s : St) (m : PanicMsg)
    (s1 : St) : prepare env cfg lb ibd s ≠ .panic m s1 := by
  intro h
  have := prepare_spec env cfg lb ibd s
  rw [h] at this
  exact this

theorem stages_ne_panic (env : Env) (cfg : RunCfg) (s : St) (m : PanicMsg) (s1 : St) :
    stages env cfg s ≠ .panic m s1 := by
  intro h
  have := stages_spec env cfg s
  rw [h] at this
  exact this

theorem finalize_ne_panic (env : Env) (s : St) (m : PanicMsg) (s1 : St) :
    finalize env s ≠ .panic m s1 := by
  intro h
  have := finalize_spec env s
  rw [h] at this
  exact this

/-- A run that got past `reconcile` with the stake database level with the store or
one block ahead of it ends in one of the ways listed by `RunGood`. -/
theorem run_good (env : Env) (fuel : Nat) (w : World) (ua ni ue bl : Bool) (s0 : St)
    (hr : reconcile env w ue bl = .next s0) (hinv : HeightsInv s0.w) :
    RunGood s0 (SyncChainDB env fuel w ua ni ue bl) := by
  have hspec := reconcile_spec env w ue bl
  rw [hr] at hspec
  obtain ⟨_, _, _, _, _, _, hw, hsdb, _⟩ := hspec
  have hcur : s0.w.chainCursor = w.chainCursor := by
    rw [hw]; split_ifs <;> rfl
  have hg0 : GoodHead s0 (w.chainCursor + 1) s0 :=
    ⟨hsdb, by omega, le_refl _, by rw [heightsFromTo_empty _ _ (by omega), List.append_nil],
      hinv, fun e he => Or.inl he⟩
  refine run_spec env fuel w ua ni ue bl (RunGood s0)
    (fun s => GoodHead s0 (w.chainCursor + 1) s) (fun s => GoodHead s0 (w.chainCursor + 1) s)
    (fun s => ∃ n, GoodHead s0 n s) (fun n s => GoodHead s0 n s) (fun n s => GoodHead s0 n s)
    (fun n s => GoodHead s0 n s) ?_ ?_ ?_ ?_ ?_ ?_ s0 hr hg0
  · exact fun s hg => phasePost_good env _ s0 s _ _ hg (sideFrame_prepare env _ _ _ s)
      (prepare_ne_panic env _ _ _ s)
  · exact fun s hg => loopPost_good env _ fuel _ s0 s hg
  · exact fun n s hg => phasePost_good env _ s0 s _ _ hg (sideFrame_stages env _ s)
      (stages_ne_panic env _ s)
  · exact fun n s hg => phasePost_good env _ s0 s _ _ hg (sideFrame_finalize env s)
      (finalize_ne_panic env s)
  · intro n s hg
    unfold catchUp
    split_ifs
    · have := loopPost_good env (mkCfg w (env.best 0) ua ni) fuel n s0 s hg
      revert this
      cases importBlocks env (mkCfg w (env.best 0) ua ni) fuel n s with
      | done n1 s1 => exact fun h => ⟨n1, h⟩
      | stop h e s1 => exact id
      | panic m s1 => exact id
      | outOfFuel s1 => exact id
    · exact ⟨n, hg⟩
  · rintro s ⟨n, hg⟩
    have h1 := goodHead_side env _ s0 s _ n hg (sideFrame_complete env (mkCfg w (env.best 0) ua ni) s)
    have h2 := runGood_of_goodHead s0 _ n (complete env (mkCfg w (env.best 0) ua ni) s).1
      (by rw [complete_fst]; intro m hm; cases hm) h1
    exact h2

end Dcrpg

namespace Dcrpg

/-- C3, as the claim states it, fails: in the run with store and stake database at
height 50 and the block source at 51, block 51 is connected to the stake database
before it is committed, so that right after `stakeDB.ConnectBlock` the stake database
is one block ahead of the store; and when `StoreBlock` then fails, `SyncChainDB`
returns in that state. -/
theorem c3_counterexample :
    (∃ e ∈ (SyncChainDB (quietEnv 51) 5 ⟨50, 50, true, true, 1⟩ false false false false).2.trace,
      e.call = .ConnectBlock 51 ∧ e.ok = true ∧
        ¬(0 ≤ e.after.chainCursor - e.after.stakeHeight)) ∧
    (SyncChainDB (failingEnv 51 12) 5 ⟨50, 50, true, true, 1⟩ false false false false).1 =
      .returned 50 (some (.storeBlockFailed 51)) ∧
    ¬(0 ≤ (SyncChainDB (failingEnv 51 12) 5 ⟨50, 50, true, true, 1⟩ false false false false).2.w.chainCursor
      - (SyncChainDB (failingEnv 51 12) 5 ⟨50, 50, true, true, 1⟩ false false false false).2.w.stakeHeight) := by
  decide

/-- C3, amended. In every run of `SyncChainDB` in which the rewind step leaves the
stake database at the height of the primary store or one block above it, at every
later point and at every return `-1 <= ChainCursor - StakeHeight <= 0`: the stake
database is never behind the store and never more than one block ahead of it, and
the run does not panic. -/
theorem c3_stake_at_most_one_ahead (env : Env) (fuel : Nat) (w : World) (ua ni ue bl : Bool)
    (s0 : St) (hr : reconcile env w ue bl = .next s0)
    (hinv : s0.w.stakeHeight - 1 ≤ s0.w.chainCursor ∧ s0.w.chainCursor ≤ s0.w.stakeHeight) :
    (∀ e ∈ (SyncChainDB env fuel w ua ni ue bl).2.trace, e ∈ s0.trace ∨
      (-1 ≤ e.after.chainCursor - e.after.stakeHeight ∧
        e.after.chainCursor - e.after.stakeHeight ≤ 0)) ∧
    (-1 ≤ (SyncChainDB env fuel w ua ni ue bl).2.w.chainCursor
        - (SyncChainDB env fuel w ua ni ue bl).2.w.stakeHeight ∧
      (SyncChainDB env fuel w ua ni ue bl).2.w.chainCursor
        - (SyncChainDB env fuel w ua ni ue bl).2.w.stakeHeight ≤ 0) ∧
    ∀ m, (SyncChainDB env fuel w ua ni ue bl).1 ≠ .panicked m := by
  obtain ⟨hp, ⟨hw, hev⟩, _⟩ := run_good env fuel w ua ni ue bl s0 hr hinv
  refine ⟨fun e he => ?_, ?_, hp⟩
  · rcases hev e he with h | h
    · exact Or.inl h
    · unfold HeightsInv at h; right; omega
  · unfold HeightsInv at hw; omega

/-- A run of C3: store and stake database at height 50, the block source at 53. -/
theorem c3_stake_at_most_one_ahead_witness :
    (-1 ≤ (SyncChainDB (quietEnv 53) 5 ⟨50, 50, true, true, 1⟩ false false false false).2.w.chainCursor
        - (SyncChainDB (quietEnv 53) 5 ⟨50, 50, true, true, 1⟩ false false false false).2.w.stakeHeight ∧
      (SyncChainDB (quietEnv 53) 5 ⟨50, 50, true, true, 1⟩ false false false false).2.w.chainCursor
        - (SyncChainDB (quietEnv 53) 5 ⟨50, 50, true, true, 1⟩ false false false false).2.w.stakeHeight ≤ 0) :=
  (c3_stake_at_most_one_ahead (quietEnv 53) 5 ⟨50, 50, true, true, 1⟩ false false false false
    (reconcile (quietEnv 53) ⟨50, 50, true, true, 1⟩ false false).st rfl (by decide)).2.1

theorem importBlocks_storeCalls (env : Env) (cfg : RunCfg) (fuel : Nat) (start : Int) (s : St) :
    ∃ b, storeCalls (importBlocks env cfg fuel start s).st.trace =
      storeCalls s.trace ++ heightsFromTo start b := by
  have hspec := importBlocks_spec env cfg fuel start s
  have hstep : ∀ ib : Int, start ≤ ib →
      heightsFromTo start (ib - 1) ++ [ib] = heightsFromTo start ib := by
    intro ib hib
    have := heightsFromTo_snoc start (ib - 1) (by omega)
    rw [show ib - 1 + 1 = ib by omega] at this
    exact this.symm
  revert hspec
  cases importBlocks env cfg fuel start s with
  | done n s1 =>
    rintro ⟨ib, _, _, hr⟩
    exact ⟨ib - 1, hr.2.2.2.1⟩
  | outOfFuel s1 =>
    rintro ⟨ib, hr⟩
    exact ⟨ib - 1, hr.2.2.2.1⟩
  | panic m s1 =>
    rintro ⟨ib, sm, hr, hp⟩
    exact ⟨ib - 1, by
      simp only [LoopResult.st]
      rw [hp.2.2.2.2.2.2.2.1, hr.2.2.2.1]⟩
  | stop h e s1 =>
    rintro ⟨ib, sm, ⟨hle, _, _, r3, _⟩, _, hcase⟩
    simp only [LoopResult.st]
    rcases hcase with ⟨_, _, _, _, _, _, g, _⟩ | ⟨_, _, _, _, _, _, g, _⟩ |
      ⟨_, _, _, _, _, _, _, g, _⟩ | ⟨_, _, _, _, _, _, g, _⟩ | ⟨_, _, _, _, _, _, _, g, _⟩ |
      ⟨_, _, _, _, _, _, _, g, _⟩ | ⟨_, _, _, _, _, _, _, g, _⟩
    · exact ⟨ib - 1, by rw [g, r3]⟩
    · exact ⟨ib - 1, by rw [g, r3]⟩
    · exact ⟨ib, by rw [g, r3, List.append_assoc, hstep ib hle]⟩
    · exact ⟨ib - 1, by rw [g, r3]⟩
    · exact ⟨ib - 1, by rw [g, r3]⟩
    · exact ⟨ib - 1, by rw [g, r3]⟩
    · exact ⟨ib, by rw [g, r3, List.append_assoc, hstep ib hle]⟩

/-- C8. For every store height `L >= 1` and stake height `S` with `L < S <= 2 * L`,
when the three reads at entry succeed: `RewindStakeDB` is called with target `L`
exactly once in the run, in the part that precedes every fetch, connection and
commit of a block; and when the rewind leaves the stake database at height `L`, the
run does not panic, the blocks connected to the stake database are `L + 1` and its
successors in order, and so are the blocks the first import pass commits. -/
theorem c8_rewind_then_import (env : Env) (fuel : Nat) (w : World) (ua ni ue bl : Bool)
    (h0 : env.fails 0 = false) (h1 : env.fails 1 = false) (h2 : env.fails 2 = false)
    (hL : 1 ≤ w.chainCursor) (hS : w.chainCursor < w.stakeHeight)
    (hS2 : w.stakeHeight ≤ 2 * w.chainCursor) :
    rewindCalls (SyncChainDB env fuel w ua ni ue bl).2.trace = [w.chainCursor] ∧
    (reconcile env w ue bl).st.trace <+: (SyncChainDB env fuel w ua ni ue bl).2.trace ∧
    rewindCalls (reconcile env w ue bl).st.trace = [w.chainCursor] ∧
    fetchCalls (reconcile env w ue bl).st.trace = [] ∧
    connectCalls (reconcile env w ue bl).st.trace = [] ∧
    storeCalls (reconcile env w ue bl).st.trace = [] ∧
    (env.rewound w.stakeHeight w.chainCursor = w.chainCursor →
      (∀ m, (SyncChainDB env fuel w ua ni ue bl).1 ≠ .panicked m) ∧
      (∃ b, connectCalls (SyncChainDB env fuel w ua ni ue bl).2.trace =
        heightsFromTo (w.chainCursor + 1) b) ∧
      ∀ s1, setup env w ua ni ue bl = .next s1 →
        ∃ b, storeCalls (importBlocks env (mkCfg w (env.best 0) ua ni) fuel
          (w.chainCursor + 1) s1).st.trace = heightsFromTo (w.chainCursor + 1) b) := by
  have hrew : Rewinds w := ⟨⟨hS, by omega⟩, by omega⟩
  have hspec := reconcile_spec env w ue bl
  cases hr : reconcile env w ue bl with
  | panic m s =>
    rw [hr] at hspec
    obtain ⟨_, hlt, _⟩ := hspec
    omega
  | stop h e s =>
    rw [hr] at hspec
    rw [SyncChainDB_of_reconcile_stop env fuel w ua ni ue bl h e s hr]
    obtain ⟨_, hfc, hcc, _, hsc, _, hrw, hcase⟩ := hspec
    rcases hcase with ⟨_, _, hf, _⟩ | ⟨_, _, hf, _⟩ | ⟨_, _, hf, _⟩ | ⟨_, _, _, hc, _⟩ |
      ⟨rfl, rfl, _⟩
    · rw [h0] at hf; cases hf
    · rw [h1] at hf; cases hf
    · rw [h2] at hf; cases hf
    · exact absurd hc.2 hrew.2
    · simp only [Step.st_stop, if_true] at hrw ⊢
      refine ⟨hrw, List.prefix_refl _, hrw, hfc, hcc, hsc, fun _ => ?_⟩
      refine ⟨?_, ⟨w.chainCursor, ?_⟩, ?_⟩
      · intro m hm
        cases hm
      · rw [hcc, heightsFromTo_empty _ _ (by omega)]
      · intro s1 hs1
        simp [setup, hr] at hs1
  | next s0 =>
    rw [hr] at hspec
    obtain ⟨_, _, _, _, _, _, hw, hsdb, _, _, _, _, _, _, _, _, _, _, hfc, hcc, _, hsc, _, hrw,
      _⟩ := hspec
    rw [if_pos hrew] at hw hrw
    have hframe := frame_run env fuel w ua ni ue bl s0 hr
    simp only [Step.st_next]
    refine ⟨by rw [hframe.2.2.2.2.2.2, hrw], hframe.2.2.2.2.2.1, hrw, hfc, hcc, hsc,
      fun hre => ?_⟩
    have hinv : HeightsInv s0.w := by
      unfold HeightsInv
      rw [hw]
      simp only [hre]
      omega
    obtain ⟨hp, _, b, _, hb⟩ := run_good env fuel w ua ni ue bl s0 hr hinv
    have hsdb0 : s0.stakeDBHeight = w.chainCursor := by rw [hsdb, hw]; exact hre
    refine ⟨hp, ⟨b, by rw [hb, hcc, hsdb0, List.nil_append]⟩, fun s1 hs1 => ?_⟩
    simp only [setup, hr, Step.bind_next] at hs1
    have hside := sideFrame_prepare env (mkCfg w (env.best 0) ua ni) w.chainCursor
      w.ibdComplete s0
    rw [hs1] at hside
    have hst := hside.2.2.2.2.2.2.2.2.2.2.2.2.1
    simp only [Step.st_next] at hst
    obtain ⟨b1, hb1⟩ := importBlocks_storeCalls env (mkCfg w (env.best 0) ua ni) fuel
      (w.chainCursor + 1) s1
    refine ⟨b1, ?_⟩
    rw [hb1, hst, hsc, List.nil_append]

/-- The run of scenario D: the stake database at 60, the store at 50, the block
source at 53. -/
theorem c8_rewind_then_import_witness :
    rewindCalls (SyncChainDB (quietEnv 53) 5 ⟨50, 60, true, true, 1⟩ false false false false).2.trace
      = [50] ∧
    connectCalls (SyncChainDB (quietEnv 53) 5 ⟨50, 60, true, true, 1⟩ false false false false).2.trace
      = [51, 52, 53] ∧
    storedHeights (SyncChainDB (quietEnv 53) 5 ⟨50, 60, true, true, 1⟩ false false false false).2.trace
      = [51, 52, 53] :=
  ⟨(c8_rewind_then_import (quietEnv 53) 5 ⟨50, 60, true, true, 1⟩ false false false false
    rfl rfl rfl (by decide) (by decide) (by decide)).1, by decide, by decide⟩

end Dcrpg

namespace Dcrpg

/-! ## The completeness flag -/

theorem okCalls_of_prefix {l1 l2 : List Event} (h : l1 <+: l2) (c : Call)
    (hc : c ∈ okCalls l1) : c ∈ okCalls l2 := by
  obtain ⟨t, rfl⟩ := h
  rw [okCalls_append]
  exact List.mem_append_left _ hc

theorem iterEvents_flag (ib : Int) (sm s1 : St) (h : IterEvents ib sm s1) :
    ∀ e ∈ s1.trace, e ∈ sm.trace ∨ e.after.ibdComplete = sm.w.ibdComplete := by
  intro e he
  rcases h e he with h1 | ⟨_, h2 | h2 | h2⟩
  · exact Or.inl h1
  · right; rw [h2]
  · right; rw [h2, worldAfterConnect_ibdComplete]
  · right; rw [h2, worldAfterStore_ibdComplete]

/-- A pass of `importBlocks` leaves the completeness flag alone, whatever it ends
in. -/
theorem importBlocks_flag (env : Env) (cfg : RunCfg) (fuel : Nat) (start : Int) (s : St) :
    (importBlocks env cfg fuel start s).st.w.ibdComplete = s.w.ibdComplete ∧
    ∀ e ∈ (importBlocks env cfg fuel start s).st.trace,
      e ∈ s.trace ∨ e.after.ibdComplete = s.w.ibdComplete := by
  have hspec := importBlocks_spec env cfg fuel start s
  have hreach : ∀ ib sm, Reached start s ib sm → sm.w.ibdComplete = s.w.ibdComplete ∧
      ∀ e ∈ sm.trace, e ∈ s.trace ∨ e.after.ibdComplete = s.w.ibdComplete := by
    intro ib sm hr
    refine ⟨hr.2.2.2.2.2.2.2.1, fun e he => ?_⟩
    rcases hr.2.2.2.2.2.2.2.2.2.2 e he with h1 | ⟨_, h2, _⟩
    · exact Or.inl h1
    · exact Or.inr h2
  have hiter : ∀ ib sm s1, Reached start s ib sm → IterEvents ib sm s1 →
      ∀ e ∈ s1.trace, e ∈ s.trace ∨ e.after.ibdComplete = s.w.ibdComplete := by
    intro ib sm s1 hr hev e he
    obtain ⟨hw, hes⟩ := hreach ib sm hr
    rcases iterEvents_flag ib sm s1 hev e he with h1 | h1
    · exact hes e h1
    · exact Or.inr (h1.trans hw)
  revert hspec
  cases importBlocks env cfg fuel start s with
  | done n s1 =>
    rintro ⟨ib, _, _, hr⟩
    exact hreach ib s1 hr
  | outOfFuel s1 =>
    rintro ⟨ib, hr⟩
    exact hreach ib s1 hr
  | panic m s1 =>
    rintro ⟨ib, sm, hr, hp⟩
    refine ⟨?_, hiter ib sm s1 hr hp.2.2.2.2.2.2.2.2.2.2⟩
    simp only [LoopResult.st]
    rw [hp.2.2.2.1]
    exact (hreach ib sm hr).1
  | stop h e s1 =>
    rintro ⟨ib, sm, hr, hev, hcase⟩
    refine ⟨?_, hiter ib sm s1 hr hev⟩
    simp only [LoopResult.st]
    have hw := (hreach ib sm hr).1
    rcases hcase with ⟨_, _, g, _⟩ | ⟨_, _, g, _⟩ | ⟨_, _, g, _⟩ | ⟨_, _, g, _⟩ |
      ⟨_, _, g, _⟩ | ⟨_, _, g, _⟩ | ⟨_, _, g, _⟩ <;> rw [g] <;> simpa using hw

theorem catchUp_flag (env : Env) (cfg : RunCfg) (fuel : Nat) (n : Int) (s : St) :
    (catchUp env cfg fuel n s).st.w.ibdComplete = s.w.ibdComplete := by
  unfold catchUp
  split_ifs
  · exact (importBlocks_flag env cfg fuel n s).1
  · rfl

/-- The maintenance stages leave the collaborator state alone, whatever they end
in. -/
theorem stages_w (env : Env) (cfg : RunCfg) (s : St) : (stages env cfg s).st.w = s.w := by
  have h := stages_spec env cfg s
  revert h
  cases stages env cfg s with
  | next s1 => exact fun h => h.1
  | stop h e s1 => exact fun h => h.1
  | panic m s1 => exact fun h => h.elim

/-- What follows a first import pass that left the flag false: the flag is true at the
end only when every call of the applicable maintenance stages went through, and it
is true at every return without error. -/
theorem afterImport_flag (env : Env) (cfg : RunCfg) (fuel : Nat) (n : Int) (s2 : St)
    (hflag : s2.w.ibdComplete = false) :
    ((afterImport env cfg fuel n s2).2.w.ibdComplete = true →
      ∀ c ∈ reindexPlan cfg ++ addressesPlan cfg ++ quickPlan cfg,
        c ∈ okCalls (afterImport env cfg fuel n s2).2.trace) ∧
    (∀ h, (afterImport env cfg fuel n s2).1 = .returned h none →
      (afterImport env cfg fuel n s2).2.w.ibdComplete = true) := by
  have hst := stages_spec env cfg s2
  revert hst
  simp only [afterImport, maintenance]
  cases stages env cfg s2 with
  | panic m s => exact fun h => h.elim
  | stop h e s =>
    rintro ⟨hw, _⟩
    simp only [Step.bind_stop]
    refine ⟨fun ht => ?_, fun h1 he => by cases he⟩
    rw [hw, hflag] at ht
    cases ht
  | next s3 =>
    rintro ⟨hw3, _, hplan⟩
    simp only [Step.bind_next]
    have hf := finalize_spec env s3
    have hff := (sideFrame_finalize env s3).1.2.2.2.2.2.1
    revert hf hff
    cases finalize env s3 with
    | panic m s => exact fun h => h.elim
    | stop h e s =>
      rintro ⟨_, hcase⟩ hpre
      simp only [Step.st_stop] at hpre
      refine ⟨fun ht c hc => okCalls_of_prefix hpre c (hplan c hc), fun h1 he => by cases he⟩
    | next s4 =>
      rintro ⟨ht4, _⟩ hpre
      simp only [Step.st_next] at hpre
      have hc := catchUp_flag env cfg fuel n s4
      have hcf := (frame_catchUp env cfg fuel n s4).2.2.2.2.2.1
      revert hc hcf
      simp only []
      cases catchUp env cfg fuel n s4 with
      | stop h e s =>
        intro hc hcf
        simp only [LoopResult.st] at hc hcf ⊢
        exact ⟨fun _ c hc1 => okCalls_of_prefix (hpre.trans hcf) c (hplan c hc1),
          fun h1 he => by cases he⟩
      | panic m s =>
        intro hc hcf
        simp only [LoopResult.st] at hc hcf ⊢
        exact ⟨fun _ c hc1 => okCalls_of_prefix (hpre.trans hcf) c (hplan c hc1),
          fun h1 he => by cases he⟩
      | outOfFuel s =>
        intro hc hcf
        simp only [LoopResult.st] at hc hcf ⊢
        exact ⟨fun _ c hc1 => okCalls_of_prefix (hpre.trans hcf) c (hplan c hc1),
          fun h1 he => by cases he⟩
      | done n1 s5 =>
        intro hc hcf
        simp only [LoopResult.st] at hc hcf ⊢
        have hcw := complete_w env cfg s5
        have hcp := (sideFrame_complete env cfg s5).1.2.2.2.2.2.1
        refine ⟨fun _ c hc1 =>
          okCalls_of_prefix ((hpre.trans hcf).trans hcp) c (hplan c hc1), fun h1 _ => ?_⟩
        rw [hcw, hc, ht4]

/-- When reindexing or the bulk update is in effect, set-up leaves the flag false and
has made no `StoreBlock` call. -/
theorem setup_flag (env : Env) (w : World) (ua ni ue bl : Bool)
    (hbulk : (mkCfg w (env.best 0) ua ni).reindexing = true ∨
      (mkCfg w (env.best 0) ua ni).updateAllAddresses = true)
    (s1 : St) (hs : setup env w ua ni ue bl = .next s1) :
    s1.w.ibdComplete = false ∧ storeCalls s1.trace = [] := by
  have hspec := reconcile_spec env w ue bl
  unfold setup at hs
  revert hspec hs
  cases reconcile env w ue bl with
  | stop h e s => intro hs _; simp only [Step.bind_stop] at hs; cases hs
  | panic m s => intro hs _; simp only [Step.bind_panic] at hs; cases hs
  | next s0 =>
    intro hs hspec
    simp only [Step.bind_next] at hs
    obtain ⟨_, _, _, _, _, _, hw, _, _, _, _, _, _, _, _, _, _, _, _, _, _, hsc, _⟩ := hspec
    have hp := prepare_spec env (mkCfg w (env.best 0) ua ni) w.chainCursor w.ibdComplete s0
    have hside := sideFrame_prepare env (mkCfg w (env.best 0) ua ni) w.chainCursor
      w.ibdComplete s0
    rw [hs] at hp hside
    obtain ⟨_, hflag, _⟩ := hp
    have hst := hside.2.2.2.2.2.2.2.2.2.2.2.2.1
    simp only [Step.st_next] at hst
    refine ⟨?_, by rw [hst, hsc]⟩
    rw [hflag]
    have hw0 : s0.w.ibdComplete = w.ibdComplete := by rw [hw]; split_ifs <;> rfl
    rw [hw0]
    cases hi : w.ibdComplete with
    | false => simp
    | true =>
      rw [if_pos ⟨rfl, hbulk⟩]

end Dcrpg

namespace Dcrpg

/-! ## How the parts of a run make up its result -/

theorem SyncChainDB_of_pass_stop (env : Env) (fuel : Nat) (w : World) (ua ni ue bl : Bool)
    (s1 : St) (hs : setup env w ua ni ue bl = .next s1) (h : Int) (e : SyncError) (s2 : St)
    (hi : importBlocks env (mkCfg w (env.best 0) ua ni) fuel
      (mkCfg w (env.best 0) ua ni).startHeight s1 = .stop h e s2) :
    SyncChainDB env fuel w ua ni ue bl = (.returned h (some e), s2) := by
  simp only [SyncChainDB, hs, hi]

theorem SyncChainDB_of_pass_done (env : Env) (fuel : Nat) (w : World) (ua ni ue bl : Bool)
    (s1 : St) (hs : setup env w ua ni ue bl = .next s1) (n : Int) (s2 : St)
    (hi : importBlocks env (mkCfg w (env.best 0) ua ni) fuel
      (mkCfg w (env.best 0) ua ni).startHeight s1 = .done n s2) :
    SyncChainDB env fuel w ua ni ue bl =
      afterImport env (mkCfg w (env.best 0) ua ni) fuel n s2 := by
  simp only [SyncChainDB, hs, hi]

theorem SyncChainDB_pass_st (env : Env) (fuel : Nat) (w : World) (ua ni ue bl : Bool)
    (s1 : St) (hs : setup env w ua ni ue bl = .next s1)
    (hi : ∀ n s2, importBlocks env (mkCfg w (env.best 0) ua ni) fuel
      (mkCfg w (env.best 0) ua ni).startHeight s1 ≠ .done n s2) :
    (SyncChainDB env fuel w ua ni ue bl).2 =
      (importBlocks env (mkCfg w (env.best 0) ua ni) fuel
        (mkCfg w (env.best 0) ua ni).startHeight s1).st := by
  simp only [SyncChainDB, hs]
  revert hi
  cases importBlocks env (mkCfg w (env.best 0) ua ni) fuel
      (mkCfg w (env.best 0) ua ni).startHeight s1 with
  | done n s2 => exact fun hi => absurd rfl (hi n s2)
  | stop h e s2 => exact fun _ => rfl
  | panic m s2 => exact fun _ => rfl
  | outOfFuel s2 => exact fun _ => rfl

theorem afterImport_of_stages_stop (env : Env) (cfg : RunCfg) (fuel : Nat) (n : Int)
    (s2 : St) (h : Int) (e : SyncError) (s3 : St) (hst : stages env cfg s2 = .stop h e s3) :
    afterImport env cfg fuel n s2 = (.returned h (some e), s3) := by
  simp only [afterImport, maintenance, hst, Step.bind_stop]

theorem afterImport_of_finalize_stop (env : Env) (cfg : RunCfg) (fuel : Nat) (n : Int)
    (s2 s3 : St) (hst : stages env cfg s2 = .next s3) (h : Int) (e : SyncError) (s4 : St)
    (hf : finalize env s3 = .stop h e s4) :
    afterImport env cfg fuel n s2 = (.returned h (some e), s4) := by
  simp only [afterImport, maintenance, hst, Step.bind_next, hf]

end Dcrpg

namespace Dcrpg

/-- C9, as the claim states it, fails. With the bulk address update asked for, store
and stake database at height 50, the block source at 53 until the poll before the
catch-up, then at 55, and `StoreBlock` failing for height 54 in the catch-up pass:
the run returns that error of block import with the flag `meta.ibd_complete` true,
`SetIBDComplete(true)` of line 1170 having run before the catch-up of line 1191. -/
theorem c9_counterexample :
    (mkCfg ⟨50, 50, true, true, 1⟩ 53 true false).updateAllAddresses = true ∧
    (SyncChainDB (risingFailingEnv 53 55 39 50) 5 ⟨50, 50, true, true, 1⟩ true false false
        false).1 = .returned 53 (some (.storeBlockFailed 54)) ∧
    (SyncChainDB (risingFailingEnv 53 55 39 50) 5 ⟨50, 50, true, true, 1⟩ true false false
        false).2.w.ibdComplete = true ∧
    storedHeights (SyncChainDB (risingFailingEnv 53 55 39 50) 5 ⟨50, 50, true, true, 1⟩ true
        false false false).2.trace = [51, 52, 53, 53] := by
  decide

/-- C9, amended. In every run of `SyncChainDB` in which reindexing or the bulk address
update is in effect and set-up falls through to block import: the flag
`meta.ibd_complete` is false when set-up ends, no `StoreBlock` call made yet; the
first import pass leaves it false after each of its calls and at its end, so that a
run that returns an error from it returns with the flag false; the maintenance
stages leave it false, so that a run that returns an error from them returns with
the flag false, and they fall through only when every call of the applicable stages
went through, after which `SetIBDComplete(true)` sets it: a run that returns the
error of `SetIBDComplete` has the flag false, one that returns from the cancellation
check or the poll that follow it has it true, and a run that returns an error from
the catch-up pass, which imports blocks after the flag was set, has it true. The
flag is true at the end of the run only if the first pass returned without error and
every call of the applicable stages went through; and it is true at every return
without error. -/
theorem c9_flag_true_only_after_maintenance (env : Env) (fuel : Nat) (w : World)
    (ua ni ue bl : Bool)
    (hbulk : (mkCfg w (env.best 0) ua ni).reindexing = true ∨
      (mkCfg w (env.best 0) ua ni).updateAllAddresses = true)
    (s1 : St) (hs : setup env w ua ni ue bl = .next s1) :
    (s1.w.ibdComplete = false ∧ storeCalls s1.trace = []) ∧
    ((importBlocks env (mkCfg w (env.best 0) ua ni) fuel
        (mkCfg w (env.best 0) ua ni).startHeight s1).st.w.ibdComplete = false ∧
      ∀ e ∈ (importBlocks env (mkCfg w (env.best 0) ua ni) fuel
          (mkCfg w (env.best 0) ua ni).startHeight s1).st.trace,
        e ∈ s1.trace ∨ e.after.ibdComplete = false) ∧
    (∀ h e s2, importBlocks env (mkCfg w (env.best 0) ua ni) fuel
        (mkCfg w (env.best 0) ua ni).startHeight s1 = .stop h e s2 →
      SyncChainDB env fuel w ua ni ue bl = (.returned h (some e), s2) ∧
        s2.w.ibdComplete = false) ∧
    (∀ n s2, importBlocks env (mkCfg w (env.best 0) ua ni) fuel
        (mkCfg w (env.best 0) ua ni).startHeight s1 = .done n s2 →
      (∀ h e s3, stages env (mkCfg w (env.best 0) ua ni) s2 = .stop h e s3 →
        SyncChainDB env fuel w ua ni ue bl = (.returned h (some e), s3) ∧
          s3.w.ibdComplete = false) ∧
      ∀ s3, stages env (mkCfg w (env.best 0) ua ni) s2 = .next s3 →
        s3.w.ibdComplete = false ∧
        (∀ c ∈ reindexPlan (mkCfg w (env.best 0) ua ni) ++
            addressesPlan (mkCfg w (env.best 0) ua ni) ++
            quickPlan (mkCfg w (env.best 0) ua ni), c ∈ okCalls s3.trace) ∧
        (∀ h e s4, finalize env s3 = .stop h e s4 →
          SyncChainDB env fuel w ua ni ue bl = (.returned h (some e), s4) ∧
            ((e = .setIBDCompleteFailed ∧ s4.w.ibdComplete = false) ∨
              (e ≠ .setIBDCompleteFailed ∧ s4.w.ibdComplete = true))) ∧
        ∀ s4, finalize env s3 = .next s4 → s4.w.ibdComplete = true ∧
          ∀ h e s5, catchUp env (mkCfg w (env.best 0) ua ni) fuel n s4 = .stop h e s5 →
            SyncChainDB env fuel w ua ni ue bl = (.returned h (some e), s5) ∧
              s5.w.ibdComplete = true) ∧
    ((SyncChainDB env fuel w ua ni ue bl).2.w.ibdComplete = true →
      (∃ n s2, importBlocks env (mkCfg w (env.best 0) ua ni) fuel
        (mkCfg w (env.best 0) ua ni).startHeight s1 = .done n s2) ∧
      ∀ c ∈ reindexPlan (mkCfg w (env.best 0) ua ni) ++
          addressesPlan (mkCfg w (env.best 0) ua ni) ++
          quickPlan (mkCfg w (env.best 0) ua ni),
        c ∈ okCalls (SyncChainDB env fuel w ua ni ue bl).2.trace) ∧
    (∀ h, (SyncChainDB env fuel w ua ni ue bl).1 = .returned h none →
      (SyncChainDB env fuel w ua ni ue bl).2.w.ibdComplete = true) := by
  obtain ⟨hflag1, hsc1⟩ := setup_flag env w ua ni ue bl hbulk s1 hs
  have hpass := importBlocks_flag env (mkCfg w (env.best 0) ua ni) fuel
    (mkCfg w (env.best 0) ua ni).startHeight s1
  rw [hflag1] at hpass
  have hdone : ∀ n s2, importBlocks env (mkCfg w (env.best 0) ua ni) fuel
      (mkCfg w (env.best 0) ua ni).startHeight s1 = .done n s2 → s2.w.ibdComplete = false := by
    intro n s2 hi
    have := hpass.1
    rw [hi] at this
    exact this
  refine ⟨⟨hflag1, hsc1⟩, hpass, ?_, ?_, ?_, ?_⟩
  · intro h e s2 hi
    refine ⟨SyncChainDB_of_pass_stop env fuel w ua ni ue bl s1 hs h e s2 hi, ?_⟩
    have := hpass.1
    rw [hi] at this
    exact this
  · intro n s2 hi
    have hw := stages_w env (mkCfg w (env.best 0) ua ni) s2
    refine ⟨fun h e s3 hst => ?_, fun s3 hst => ?_⟩
    · rw [SyncChainDB_of_pass_done env fuel w ua ni ue bl s1 hs n s2 hi,
        afterImport_of_stages_stop env _ fuel n s2 h e s3 hst]
      rw [hst] at hw
      simp only [Step.st_stop] at hw
      exact ⟨rfl, by rw [hw]; exact hdone n s2 hi⟩
    · have hsp := stages_spec env (mkCfg w (env.best 0) ua ni) s2
      rw [hst] at hsp hw
      simp only [Step.st_next] at hw
      have hrun := SyncChainDB_of_pass_done env fuel w ua ni ue bl s1 hs n s2 hi
      have hfs := finalize_spec env s3
      have h3 : s3.w.ibdComplete = false := by rw [hw]; exact hdone n s2 hi
      refine ⟨h3, hsp.2.2, fun h e s4 hf => ?_, fun s4 hf => ?_⟩
      · rw [hf] at hfs
        refine ⟨by rw [hrun]; simp only [afterImport, maintenance, hst, Step.bind_next, hf], ?_⟩
        rcases hfs.2 with ⟨he, hw4⟩ | ⟨he, ht, _⟩ | ⟨he, ht, _⟩
        · exact Or.inl ⟨he, by rw [hw4]; exact h3⟩
        · exact Or.inr ⟨by rw [he]; simp, ht⟩
        · exact Or.inr ⟨by rw [he]; simp, ht⟩
      · rw [hf] at hfs
        refine ⟨hfs.1, fun h e s5 hcu => ?_⟩
        refine ⟨by
          rw [hrun]
          simp only [afterImport, maintenance, hst, Step.bind_next, hf, hcu], ?_⟩
        have hc := catchUp_flag env (mkCfg w (env.best 0) ua ni) fuel n s4
        rw [hcu] at hc
        exact hc.trans hfs.1
  · intro ht
    by_cases hd : ∃ n s2, importBlocks env (mkCfg w (env.best 0) ua ni) fuel
        (mkCfg w (env.best 0) ua ni).startHeight s1 = .done n s2
    · refine ⟨hd, ?_⟩
      obtain ⟨n, s2, hi⟩ := hd
      rw [SyncChainDB_of_pass_done env fuel w ua ni ue bl s1 hs n s2 hi] at ht ⊢
      exact (afterImport_flag env _ fuel n s2 (hdone n s2 hi)).1 ht
    · exfalso
      rw [SyncChainDB_pass_st env fuel w ua ni ue bl s1 hs
        (fun n s2 hi => hd ⟨n, s2, hi⟩), hpass.1] at ht
      cases ht
  · intro h he
    by_cases hd : ∃ n s2, importBlocks env (mkCfg w (env.best 0) ua ni) fuel
        (mkCfg w (env.best 0) ua ni).startHeight s1 = .done n s2
    · obtain ⟨n, s2, hi⟩ := hd
      rw [SyncChainDB_of_pass_done env fuel w ua ni ue bl s1 hs n s2 hi] at he ⊢
      exact (afterImport_flag env _ fuel n s2 (hdone n s2 hi)).2 h he
    · exfalso
      simp only [SyncChainDB, hs] at he
      revert hd he
      cases importBlocks env (mkCfg w (env.best 0) ua ni) fuel
          (mkCfg w (env.best 0) ua ni).startHeight s1 with
      | done n s2 => exact fun hd _ => hd ⟨n, s2, rfl⟩
      | stop h1 e s2 => intro _ he; cases he
      | panic m s2 => intro _ he; cases he
      | outOfFuel s2 => intro _ he; cases he

/-- A run of C9: the bulk address update asked for, store and stake database at
height 50, the block source at 53; the run returns 53 without error. -/
theorem c9_flag_true_only_after_maintenance_witness :
    (SyncChainDB (quietEnv 53) 5 ⟨50, 50, true, true, 1⟩ true false false false).2.w.ibdComplete
      = true :=
  (c9_flag_true_only_after_maintenance (quietEnv 53) 5 ⟨50, 50, true, true, 1⟩ true false false
    false (Or.inr rfl)
    (setup (quietEnv 53) ⟨50, 50, true, true, 1⟩ true false false false).st rfl).2.2.2.2.2 53 rfl

/-- C10, as the claim states it, fails. With the bulk address update in effect, a
cancellation seen by the third between-stage check, which follows
`SetIBDComplete(true)`, makes `SyncChainDB` return the cancellation error with the
flag true; and in a run with the flag true at entry and neither reindexing nor the
bulk update, a cancellation in the import loop returns with the flag still true. -/
theorem c10_counterexample :
    ((SyncChainDB (cancelledEnv 53 37) 5 ⟨50, 50, true, true, 1⟩ true false false false).1 =
        .returned 53 (some .syncCancelled) ∧
      (SyncChainDB (cancelledEnv 53 37) 5 ⟨50, 50, true, true, 1⟩ true false false false).2.w.ibdComplete
        = true) ∧
    ((SyncChainDB (cancelledEnv 53 6) 5 ⟨50, 50, true, true, 1⟩ false false false false).1 =
        .returned 50 (some (.cancelledAtHeight 51)) ∧
      (SyncChainDB (cancelledEnv 53 6) 5 ⟨50, 50, true, true, 1⟩ false false false false).2.w.ibdComplete
        = true) := by
  decide

/-- C10, amended. In every run of `SyncChainDB` in which reindexing or the bulk
address update is in effect and set-up falls through to block import: when the run
returns because the context was cancelled in the first import pass, or at one of the
two cancellation checks between the maintenance stages, the flag
`meta.ibd_complete` is false on return; when it returns because of the cancellation
check that follows `SetIBDComplete(true)`, the flag is true on return. -/
theorem c10_cancel_before_flag_set (env : Env) (fuel : Nat) (w : World) (ua ni ue bl : Bool)
    (hbulk : (mkCfg w (env.best 0) ua ni).reindexing = true ∨
      (mkCfg w (env.best 0) ua ni).updateAllAddresses = true)
    (s1 : St) (hs : setup env w ua ni ue bl = .next s1) :
    (∀ h ib s2, importBlocks env (mkCfg w (env.best 0) ua ni) fuel
        (mkCfg w (env.best 0) ua ni).startHeight s1 = .stop h (.cancelledAtHeight ib) s2 →
      SyncChainDB env fuel w ua ni ue bl = (.returned h (some (.cancelledAtHeight ib)), s2) ∧
        h = ib - 1 ∧ s2.w.ibdComplete = false) ∧
    (∀ n s2, importBlocks env (mkCfg w (env.best 0) ua ni) fuel
        (mkCfg w (env.best 0) ua ni).startHeight s1 = .done n s2 →
      (∀ h s3, stages env (mkCfg w (env.best 0) ua ni) s2 = .stop h .syncCancelled s3 →
        SyncChainDB env fuel w ua ni ue bl = (.returned h (some .syncCancelled), s3) ∧
          s3.w.ibdComplete = false) ∧
      ∀ s3, stages env (mkCfg w (env.best 0) ua ni) s2 = .next s3 →
        ∀ h s4, finalize env s3 = .stop h .syncCancelled s4 →
          SyncChainDB env fuel w ua ni ue bl = (.returned h (some .syncCancelled), s4) ∧
            s4.w.ibdComplete = true) := by
  obtain ⟨hflag1, _⟩ := setup_flag env w ua ni ue bl hbulk s1 hs
  have hpass := (importBlocks_flag env (mkCfg w (env.best 0) ua ni) fuel
    (mkCfg w (env.best 0) ua ni).startHeight s1).1
  rw [hflag1] at hpass
  refine ⟨fun h ib s2 hi => ?_, fun n s2 hi => ⟨fun h s3 hst => ?_, fun s3 hst h s4 hf => ?_⟩⟩
  · refine ⟨SyncChainDB_of_pass_stop env fuel w ua ni ue bl s1 hs h _ s2 hi, ?_, ?_⟩
    · have hspec := importBlocks_spec env (mkCfg w (env.best 0) ua ni) fuel
        (mkCfg w (env.best 0) ua ni).startHeight s1
      rw [hi] at hspec
      obtain ⟨ib1, sm, _, _, hcase⟩ := hspec
      rcases hcase with ⟨he, hh, _⟩ | ⟨he, _⟩ | ⟨he, _⟩ | ⟨he, _⟩ | ⟨he, _⟩ | ⟨he, _⟩ |
        ⟨he, _⟩
      · cases he
        exact hh
      all_goals cases he
    · rw [hi] at hpass
      exact hpass
  · rw [SyncChainDB_of_pass_done env fuel w ua ni ue bl s1 hs n s2 hi,
      afterImport_of_stages_stop env _ fuel n s2 h _ s3 hst]
    have hw := stages_w env (mkCfg w (env.best 0) ua ni) s2
    rw [hst] at hw
    rw [hi] at hpass
    simp only [Step.st_stop, LoopResult.st] at hw hpass
    exact ⟨rfl, by rw [hw]; exact hpass⟩
  · rw [SyncChainDB_of_pass_done env fuel w ua ni ue bl s1 hs n s2 hi,
      afterImport_of_finalize_stop env _ fuel n s2 s3 hst h _ s4 hf]
    have hfs := finalize_spec env s3
    rw [hf] at hfs
    obtain ⟨_, hcase⟩ := hfs
    rcases hcase with ⟨he, _⟩ | ⟨_, ht, _⟩ | ⟨he, _⟩
    · cases he
    · exact ⟨rfl, ht⟩
    · cases he

/-- A run of C10: the bulk address update asked for, store and stake database at
height 50, the block source at 53, the context cancelled when the second iteration
of the import loop begins. -/
theorem c10_cancel_before_flag_set_witness :
    SyncChainDB (cancelledEnv 53 14) 5 ⟨50, 50, true, true, 1⟩ true false false false =
      (.returned 51 (some (.cancelledAtHeight 52)),
        (importBlocks (cancelledEnv 53 14)
          (mkCfg ⟨50, 50, true, true, 1⟩ ((cancelledEnv 53 14).best 0) true false) 5
          (mkCfg ⟨50, 50, true, true, 1⟩ ((cancelledEnv 53 14).best 0) true false).startHeight
          (setup (cancelledEnv 53 14) ⟨50, 50, true, true, 1⟩ true false false false).st).st) ∧
    (51 : Int) = 52 - 1 ∧
    (importBlocks (cancelledEnv 53 14)
      (mkCfg ⟨50, 50, true, true, 1⟩ ((cancelledEnv 53 14).best 0) true false) 5
      (mkCfg ⟨50, 50, true, true, 1⟩ ((cancelledEnv 53 14).best 0) true false).startHeight
      (setup (cancelledEnv 53 14) ⟨50, 50, true, true, 1⟩ true false false false).st).st.w.ibdComplete
      = false :=
  (c10_cancel_before_flag_set (cancelledEnv 53 14) 5 ⟨50, 50, true, true, 1⟩ true false false
    false (Or.inr rfl)
    (setup (cancelledEnv 53 14) ⟨50, 50, true, true, 1⟩ true false false false).st rfl).1
    51 52 _ rfl

end Dcrpg

namespace Dcrpg

/-! ## The height returned with an error -/

/-- With a block source that never goes back, a pass entered with
`start - 1 <= nodeHeight` that returns without error returns the height below the
loop head it reached: it committed every height up to the one it returns. -/
theorem importBlocks_level (env : Env) (cfg : RunCfg) (hmono : Monotone env.best) (fuel : Nat)
    (start : Int) (s : St) (hge : start - 1 ≤ s.nodeHeight)
    (hp : ∃ t, t < s.now ∧ s.nodeHeight = env.best t) (n : Int) (s1 : St)
    (hi : importBlocks env cfg fuel start s = .done n s1) :
    Reached start s (n + 1) s1 := by
  refine importBlocks_induct env cfg
    (fun ib sm => Reached start s ib sm ∧ ib - 1 ≤ sm.nodeHeight ∧
      ∃ t, t < sm.now ∧ sm.nodeHeight = env.best t)
    (fun r => ∀ n s1, r = .done n s1 → Reached start s (n + 1) s1)
    ?_ ?_ ?_ fuel start s ⟨reached_start start s, hge, hp⟩ n s1 hi
  · rintro ib sm ⟨hJ, hl, t0, ht0, hb0⟩ hle
    have hs := importBlock_spec env cfg ib sm
    have hf := frame_importBlock env cfg ib sm
    revert hs hf
    cases importBlock env cfg ib sm with
    | stop h e s2 => intro _ _ n s1 h; cases h
    | panic m s2 => intro _ _ n s1 h; cases h
    | next s2 =>
      rintro hs ⟨n1, p1, _⟩
      simp only [Step.st_next] at n1 p1
      refine ⟨reached_next cfg start s ib sm s2 hJ hs, ?_⟩
      rcases p1 with p1 | ⟨t, ht1, ht2, ht3⟩
      · exact ⟨by omega, t0, by omega, by rw [p1, hb0]⟩
      · have : env.best t0 ≤ env.best t := hmono (by omega)
        exact ⟨by omega, t, ht2, ht3⟩
  · rintro ib sm ⟨hJ, hl, _⟩ hn n s1 h
    cases h
    have : ib = sm.nodeHeight + 1 := by omega
    rw [← this]
    exact hJ
  · intro ib sm _ _ n s1 h
    cases h

/-- Set-up, when it falls through, leaves the store at its height at entry with no
block committed, `nodeHeight` being the height polled first. -/
theorem setup_entry (env : Env) (w : World) (ua ni ue bl : Bool) (s1 : St)
    (hs : setup env w ua ni ue bl = .next s1) :
    s1.w.chainCursor = w.chainCursor ∧ s1.nodeHeight = env.best 0 ∧ 0 < s1.now ∧
      storedHeights s1.trace = [] := by
  have hspec := reconcile_spec env w ue bl
  unfold setup at hs
  revert hspec hs
  cases reconcile env w ue bl with
  | stop h e s => intro hs _; simp only [Step.bind_stop] at hs; cases hs
  | panic m s => intro hs _; simp only [Step.bind_panic] at hs; cases hs
  | next s0 =>
    intro hs hspec
    simp only [Step.bind_next] at hs
    obtain ⟨_, _, _, _, _, _, hw, _, hnode, _, _, hnow, _, _, _, _, _, _, _, _, _, _, hsh, _⟩ :=
      hspec
    have hside := sideFrame_prepare env (mkCfg w (env.best 0) ua ni) w.chainCursor
      w.ibdComplete s0
    rw [hs] at hside
    simp only [Step.st_next] at hside
    obtain ⟨⟨n1, _⟩, hn, hc, _, _, _, _, _, _, _, _, _, _, hsd, _⟩ := hside
    refine ⟨?_, by rw [hn rfl, hnode], by omega, by rw [hsd, hsh]⟩
    rw [hc, hw]
    split_ifs <;> rfl

theorem earlyError_of_importError (e : SyncError) (h : isImportError e = true) :
    isEarlyError e = false := by
  cases e <;> simp_all [isImportError, isEarlyError]

theorem earlyError_of_stageError (e : SyncError) (h : isStageError e = true) :
    isEarlyError e = false := by
  cases e <;> simp_all [isStageError, isEarlyError]

theorem earlyError_importBlocks (env : Env) (cfg : RunCfg) (fuel : Nat) (start : Int) (s : St)
    (Q : Int → Outcome × St → Prop) :
    LoopPost (fun _ _ => True)
      (fun y => ∀ h e, y.1 = .returned h (some e) → isEarlyError e = true → Q h y)
      (importBlocks env cfg fuel start s) := by
  have herr := importBlocks_error env cfg fuel start s
  revert herr
  cases importBlocks env cfg fuel start s with
  | done n s1 => exact fun _ => trivial
  | stop h e s1 =>
    intro herr h1 e1 heq hearly
    simp only [Outcome.returned.injEq, Option.some.injEq] at heq
    rw [← heq.2, earlyError_of_importError e (herr h e s1 rfl)] at hearly
    cases hearly
  | panic m s1 => intro _ h1 e1 heq; cases heq
  | outOfFuel s1 => intro _ h1 e1 heq; cases heq

/-- An error of `isEarlyError` comes with the store height at entry, the store at
that height and no block committed. -/
theorem earlyError_run (env : Env) (fuel : Nat) (w : World) (ua ni ue bl : Bool)
    (h : Int) (e : SyncError)
    (he : (SyncChainDB env fuel w ua ni ue bl).1 = .returned h (some e))
    (hearly : isEarlyError e = true) :
    h = w.chainCursor ∧ (SyncChainDB env fuel w ua ni ue bl).2.w.chainCursor = w.chainCursor ∧
      storedHeights (SyncChainDB env fuel w ua ni ue bl).2.trace = [] := by
  have hspec := reconcile_spec env w ue bl
  cases hr : reconcile env w ue bl with
  | panic m s =>
    rw [SyncChainDB_of_reconcile_panic env fuel w ua ni ue bl m s hr] at he
    cases he
  | stop h1 e1 s =>
    rw [hr] at hspec
    rw [SyncChainDB_of_reconcile_stop env fuel w ua ni ue bl h1 e1 s hr] at he ⊢
    simp only [Outcome.returned.injEq, Option.some.injEq] at he
    obtain ⟨rfl, rfl⟩ := he
    obtain ⟨hc, _, _, _, _, hsh, _, hcase⟩ := hspec
    refine ⟨?_, hc, hsh⟩
    rcases hcase with ⟨rfl, _⟩ | ⟨rfl, _⟩ | ⟨_, hh, _⟩ | ⟨rfl, _⟩ | ⟨_, hh, _⟩
    · cases hearly
    · cases hearly
    · exact hh
    · cases hearly
    · exact hh
  | next s0 =>
    rw [hr] at hspec
    obtain ⟨_, _, _, _, _, _, hw, _, _, _, _, _, _, _, _, _, _, _, _, _, _, _, hsh, _⟩ := hspec
    have hc0 : s0.w.chainCursor = w.chainCursor := by rw [hw]; split_ifs <;> rfl
    refine run_spec env fuel w ua ni ue bl
      (fun y => ∀ h e, y.1 = .returned h (some e) → isEarlyError e = true →
        h = w.chainCursor ∧ y.2.w.chainCursor = w.chainCursor ∧ storedHeights y.2.trace = [])
      (fun s => s = s0) (fun _ => True) (fun _ => True) (fun _ _ => True) (fun _ _ => True)
      (fun _ _ => True) ?_ ?_ ?_ ?_ ?_ ?_ s0 hr rfl h e he hearly
    · rintro s rfl
      have hp := prepare_spec env (mkCfg w (env.best 0) ua ni) w.chainCursor w.ibdComplete s
      have hside := sideFrame_prepare env (mkCfg w (env.best 0) ua ni) w.chainCursor
        w.ibdComplete s
      revert hp hside
      cases prepare env (mkCfg w (env.best 0) ua ni) w.chainCursor w.ibdComplete s with
      | next s1 => exact fun _ _ => trivial
      | panic m s1 => exact fun hp => hp.elim
      | stop h1 e1 s1 =>
        rintro ⟨_, hcase⟩ hside h2 e2 heq hearly2
        simp only [Step.st_stop] at hside
        simp only [Outcome.returned.injEq, Option.some.injEq] at heq
        obtain ⟨rfl, rfl⟩ := heq
        refine ⟨?_, by rw [hside.2.2.1, hc0], by rw [hside.2.2.2.2.2.2.2.2.2.2.2.2.2.1, hsh]⟩
        rcases hcase with ⟨rfl, _⟩ | ⟨_, hh⟩ | ⟨_, hh⟩ | ⟨rfl, _⟩
        · cases hearly2
        · exact hh
        · exact hh
        · cases hearly2
    · exact fun s _ => earlyError_importBlocks env _ fuel _ s _
    · intro n s _
      have hp := stages_spec env (mkCfg w (env.best 0) ua ni) s
      revert hp
      cases stages env (mkCfg w (env.best 0) ua ni) s with
      | next s1 => exact fun _ => trivial
      | panic m s1 => exact fun hp => hp.elim
      | stop h1 e1 s1 =>
        rintro ⟨_, hcase⟩ h2 e2 heq hearly2
        simp only [Outcome.returned.injEq, Option.some.injEq] at heq
        rw [← heq.2] at hearly2
        rcases hcase with ⟨rfl, _⟩ | ⟨hst, _⟩
        · cases hearly2
        · rw [earlyError_of_stageError e1 hst] at hearly2
          cases hearly2
    · intro n s _
      have hp := finalize_spec env s
      revert hp
      cases finalize env s with
      | next s1 => exact fun _ => trivial
      | panic m s1 => exact fun hp => hp.elim
      | stop h1 e1 s1 =>
        rintro ⟨_, hcase⟩ h2 e2 heq hearly2
        simp only [Outcome.returned.injEq, Option.some.injEq] at heq
        rw [← heq.2] at hearly2
        rcases hcase with ⟨rfl, _⟩ | ⟨rfl, _⟩ | ⟨rfl, _⟩ <;> cases hearly2
    · intro n s _
      unfold catchUp
      split_ifs
      · exact earlyError_importBlocks env _ fuel _ s _
      · exact trivial
    · intro s _ h2 e2 heq
      rw [complete_fst] at heq
      cases heq

end Dcrpg

namespace Dcrpg

/-- C5, as the claim states it, fails. With the store at height 50 and no block
committed in the run, `SyncChainDB` returns -1, not 50: with the "delete stake db"
error of line 753 when the stake database is at height 130; with the error of
`RetrieveUTXOs`, line 783, when the UTXO cache is empty and that call fails; and with
the error of the first `GetBestBlock`, line 715. -/
theorem c5_counterexample :
    ((SyncChainDB (quietEnv 53) 5 ⟨50, 130, true, true, 1⟩ false false false false).1 =
        .returned (-1) (some .deleteStakeDB) ∧
      (SyncChainDB (quietEnv 53) 5 ⟨50, 130, true, true, 1⟩ false false false false).2.w.chainCursor
        = 50) ∧
    ((SyncChainDB (failingEnv 53 5) 5 ⟨50, 50, true, true, 0⟩ false false false false).1 =
        .returned (-1) (some .retrieveUTXOs) ∧
      (SyncChainDB (failingEnv 53 5) 5 ⟨50, 50, true, true, 0⟩ false false false false).2.w.chainCursor
        = 50 ∧
      storedHeights
        (SyncChainDB (failingEnv 53 5) 5 ⟨50, 50, true, true, 0⟩ false false false false).2.trace
        = []) ∧
    ((SyncChainDB (failingEnv 53 0) 5 ⟨50, 50, true, true, 1⟩ false false false false).1 =
        .returned (-1) (some .getBestBlockFailed) ∧
      (SyncChainDB (failingEnv 53 0) 5 ⟨50, 50, true, true, 1⟩ false false false false).2.w.chainCursor
        = 50) := by
  decide

/-- C5, amended. `SyncChainDB` returns the height of the primary store at the time
of the return, the blocks committed in the run being exactly those from the store
height at entry plus one up to the height returned, in these cases: with the error
of `IBDComplete`, of `RewindStakeDB`, of `DeindexAll` or of the temporary index; with
an error of the first import pass other than that of `GetBestBlock`; and, when the
best height of the block source never decreases and is not below the store height at
entry, with an error of the maintenance stages other than that of
`DeleteDuplicates`. -/
theorem c5_error_returns_store_height (env : Env) (fuel : Nat) (w : World)
    (ua ni ue bl : Bool) :
    (∀ h e, (SyncChainDB env fuel w ua ni ue bl).1 = .returned h (some e) →
      isEarlyError e = true →
      h = w.chainCursor ∧ (SyncChainDB env fuel w ua ni ue bl).2.w.chainCursor = h ∧
        storedHeights (SyncChainDB env fuel w ua ni ue bl).2.trace = []) ∧
    (∀ s1, setup env w ua ni ue bl = .next s1 →
      (∀ h e s2, importBlocks env (mkCfg w (env.best 0) ua ni) fuel
          (mkCfg w (env.best 0) ua ni).startHeight s1 = .stop h e s2 →
        e ≠ .getBestBlockFailed →
        SyncChainDB env fuel w ua ni ue bl = (.returned h (some e), s2) ∧
          s2.w.chainCursor = h ∧
          storedHeights s2.trace = heightsFromTo (w.chainCursor + 1) h) ∧
      (Monotone env.best → w.chainCursor ≤ env.best 0 →
        ∀ n s2, importBlocks env (mkCfg w (env.best 0) ua ni) fuel
          (mkCfg w (env.best 0) ua ni).startHeight s1 = .done n s2 →
        ∀ h e s3, stages env (mkCfg w (env.best 0) ua ni) s2 = .stop h e s3 →
          e ≠ .deleteDuplicatesFailed →
          SyncChainDB env fuel w ua ni ue bl = (.returned h (some e), s3) ∧
            s3.w.chainCursor = h ∧
            storedHeights s3.trace = heightsFromTo (w.chainCursor + 1) h)) := by
  refine ⟨fun h e he hearly => ?_, fun s1 hs => ?_⟩
  · obtain ⟨h1, h2, h3⟩ := earlyError_run env fuel w ua ni ue bl h e he hearly
    exact ⟨h1, by rw [h2, h1], h3⟩
  obtain ⟨hc1, hn1, hnow1, hsh1⟩ := setup_entry env w ua ni ue bl s1 hs
  have hstart : (mkCfg w (env.best 0) ua ni).startHeight = w.chainCursor + 1 := rfl
  refine ⟨fun h e s2 hi hne => ?_, fun hmono hge n s2 hi h e s3 hst hne => ?_⟩
  · refine ⟨SyncChainDB_of_pass_stop env fuel w ua ni ue bl s1 hs h e s2 hi, ?_⟩
    have hspec := importBlocks_spec env (mkCfg w (env.best 0) ua ni) fuel
      (mkCfg w (env.best 0) ua ni).startHeight s1
    rw [hi] at hspec
    obtain ⟨ib, sm, ⟨_, _, _, _, r4, _, r6, _⟩, _, hcase⟩ := hspec
    rw [hstart] at r4 r6
    have hcm : sm.w.chainCursor = ib - 1 := r6 (by rw [hc1]; omega)
    rw [hsh1, List.nil_append] at r4
    rcases hcase with ⟨_, hh, hw, _, _, _, _, g, _⟩ | ⟨he, _⟩ | ⟨he, _⟩ |
      ⟨_, hh, hw, _, _, _, _, g, _⟩ | ⟨_, hh, hw, _, _, _, _, _, g, _⟩ |
      ⟨_, hh, hw, _, _, _, _, _, g, _⟩ | ⟨_, hh, hw, _, _, _, _, _, g, _⟩
    · exact ⟨by rw [hw, hcm, hh], by rw [g, r4, hh]⟩
    · exact absurd he hne
    · exact absurd he hne
    · exact ⟨by rw [hw, hcm, hh], by rw [g, r4, hh]⟩
    · exact ⟨by rw [hw, hcm, hh], by rw [g, r4, hh]⟩
    · exact ⟨by rw [hw, worldAfterConnect_chainCursor, hcm, hh], by rw [g, r4, hh]⟩
    · exact ⟨by rw [hw, worldAfterConnect_chainCursor, hcm, hh], by rw [g, r4, hh]⟩
  · have hreach := importBlocks_level env (mkCfg w (env.best 0) ua ni) hmono fuel
      (mkCfg w (env.best 0) ua ni).startHeight s1 (by rw [hstart, hn1]; omega)
      ⟨0, hnow1, hn1⟩ n s2 hi
    have hspec := importBlocks_spec env (mkCfg w (env.best 0) ua ni) fuel
      (mkCfg w (env.best 0) ua ni).startHeight s1
    rw [hi] at hspec
    obtain ⟨_, _, hnode, _⟩ := hspec
    obtain ⟨_, _, _, _, r4, _, r6, _⟩ := hreach
    rw [hstart] at r4 r6
    have hc2 : s2.w.chainCursor = n := by
      have := r6 (by rw [hc1]; omega)
      omega
    rw [hsh1, List.nil_append, show n + 1 - 1 = n by omega] at r4
    have hsp := stages_spec env (mkCfg w (env.best 0) ua ni) s2
    have hside := sideFrame_stages env (mkCfg w (env.best 0) ua ni) s2
    rw [hst] at hsp hside
    simp only [Step.st_stop] at hside
    obtain ⟨hw3, hcase⟩ := hsp
    have hh : h = n := by
      rcases hcase with ⟨he, _⟩ | ⟨_, hh⟩
      · exact absurd he hne
      · rw [hh, hside.2.1 rfl, ← hnode]
    rw [SyncChainDB_of_pass_done env fuel w ua ni ue bl s1 hs n s2 hi,
      afterImport_of_stages_stop env _ fuel n s2 h e s3 hst]
    exact ⟨rfl, by rw [hw3, hc2, hh], by rw [hside.2.2.2.2.2.2.2.2.2.2.2.2.2.1, r4, hh]⟩

/-- A run of C5: a run that reindexes, with the store at height 50 and the source at
53, in which `IndexAll` fails after the first import pass. -/
theorem c5_error_returns_store_height_witness :
    SyncChainDB (failingEnv 53 31) 5 ⟨50, 50, false, true, 1⟩ false false false false =
      (.returned 53 (some .indexAllFailed),
        (stages (failingEnv 53 31)
          (mkCfg ⟨50, 50, false, true, 1⟩ ((failingEnv 53 31).best 0) false false)
          (importBlocks (failingEnv 53 31)
            (mkCfg ⟨50, 50, false, true, 1⟩ ((failingEnv 53 31).best 0) false false) 5
            (mkCfg ⟨50, 50, false, true, 1⟩ ((failingEnv 53 31).best 0) false false).startHeight
            (setup (failingEnv 53 31) ⟨50, 50, false, true, 1⟩ false false false
              false).st).st).st) ∧
    (stages (failingEnv 53 31)
      (mkCfg ⟨50, 50, false, true, 1⟩ ((failingEnv 53 31).best 0) false false)
      (importBlocks (failingEnv 53 31)
        (mkCfg ⟨50, 50, false, true, 1⟩ ((failingEnv 53 31).best 0) false false) 5
        (mkCfg ⟨50, 50, false, true, 1⟩ ((failingEnv 53 31).best 0) false false).startHeight
        (setup (failingEnv 53 31) ⟨50, 50, false, true, 1⟩ false false false
          false).st).st).st.w.chainCursor = 53 ∧
    storedHeights (stages (failingEnv 53 31)
      (mkCfg ⟨50, 50, false, true, 1⟩ ((failingEnv 53 31).best 0) false false)
      (importBlocks (failingEnv 53 31)
        (mkCfg ⟨50, 50, false, true, 1⟩ ((failingEnv 53 31).best 0) false false) 5
        (mkCfg ⟨50, 50, false, true, 1⟩ ((failingEnv 53 31).best 0) false false).startHeight
        (setup (failingEnv 53 31) ⟨50, 50, false, true, 1⟩ false false false
          false).st).st).st.trace = heightsFromTo ((50 : Int) + 1) 53 :=
  ((c5_error_returns_store_height (failingEnv 53 31) 5 ⟨50, 50, false, true, 1⟩ false false
    false false).2 _ rfl).2 (fun _ _ _ => le_refl _) (by decide) 53 _ rfl 53 .indexAllFailed _
    rfl (by decide)

end Dcrpg

namespace Dcrpg

/-- With the flag `meta.ibd_complete` false at entry, the local variables fixed before
block import do not depend on the two arguments: lines 765-777 force both. -/
theorem mkCfg_forced (w : World) (nodeHeight : Int) (ua ni : Bool)
    (hflag : w.ibdComplete = false) :
    mkCfg w nodeHeight ua ni = mkCfg w nodeHeight true true := by
  simp [mkCfg, hflag]

/-- C11. For every initial state in which the flag `meta.ibd_complete` is false,
every environment and every fuel, `SyncChainDB` makes the same calls with the same
outcomes, in the same order, ends in the same state and returns the same result for
each of the four values of `(updateAllAddresses, newIndexes)` as for `(true, true)`;
and in such a run reindexing and the bulk address update are both in effect. -/
theorem c11_incomplete_run_forces_both (env : Env) (fuel : Nat) (w : World)
    (ua ni ue bl : Bool) (hflag : w.ibdComplete = false) :
    (SyncChainDB env fuel w ua ni ue bl).1 = (SyncChainDB env fuel w true true ue bl).1 ∧
    (SyncChainDB env fuel w ua ni ue bl).2.trace =
      (SyncChainDB env fuel w true true ue bl).2.trace ∧
    (SyncChainDB env fuel w ua ni ue bl).2.w = (SyncChainDB env fuel w true true ue bl).2.w ∧
    (mkCfg w (env.best 0) ua ni).reindexing = true ∧
    (mkCfg w (env.best 0) ua ni).updateAllAddresses = true := by
  have h : SyncChainDB env fuel w ua ni ue bl = SyncChainDB env fuel w true true ue bl := by
    simp only [SyncChainDB, setup, mkCfg_forced w (env.best 0) ua ni hflag]
  rw [h]
  refine ⟨rfl, rfl, rfl, ?_, ?_⟩ <;> simp [mkCfg, hflag]

/-- A run of C11: a store at height 50 left incomplete, the source at 53, no flag
asked for; the calls are those of the run with both flags. -/
theorem c11_incomplete_run_forces_both_witness :
    (SyncChainDB (quietEnv 53) 5 ⟨50, 50, false, true, 1⟩ false false false false).2.trace =
      (SyncChainDB (quietEnv 53) 5 ⟨50, 50, false, true, 1⟩ true true false false).2.trace :=
  (c11_incomplete_run_forces_both (quietEnv 53) 5 ⟨50, 50, false, true, 1⟩ false false false
    false rfl).2.1

end Dcrpg

namespace Dcrpg

/-! ## Relations kept by every elementary action -/

section closed

variable {env : Env} {cls : Call → Bool} {R : St → St → Prop}

theorem closed_record (hR : StepClosed env cls R) (s : St) (c : Call) (ok : Bool)
    (hc : cls c = true) (hs : isSend c = false) (he : effect c s.w = s.w) :
    R s (s.record c ok) := by
  cases ok with
  | false => exact hR.failed s c hc hs
  | true =>
    have := hR.passed s c hc hs
    rw [he] at this
    exact this

theorem closed_attempt (hR : StepClosed env cls R) (c : Call) (h : Int) (e : SyncError)
    (s : St) (hc : cls c = true) (hs : isSend c = false) (he : ∀ w, effect c w = w) :
    R s (attempt env c h e s).st := by
  unfold attempt
  split_ifs <;> exact closed_record hR s c _ hc hs (he _)

theorem closed_attemptW (hR : StepClosed env cls R) (c : Call) (h : Int) (e : SyncError)
    (upd : World → World) (s : St) (hc : cls c = true) (hs : isSend c = false)
    (he : ∀ w, upd w = effect c w) :
    R s (attemptW env c h e upd s).st := by
  unfold attemptW
  split_ifs
  · exact hR.failed s c hc hs
  · simp only [Step.st_next]
    rw [he]
    exact hR.passed s c hc hs

theorem closed_pollBestBlock (hR : StepClosed env cls R) (h : Int) (s : St)
    (hc : cls .GetBestBlock = true) : R s (pollBestBlock env h s).st := by
  unfold pollBestBlock
  simp only []
  split_ifs <;>
    exact hR.trans _ _ _ (hR.nodeHeight s _) (closed_record hR _ _ _ hc rfl rfl)

theorem closed_checkQuit (hR : StepClosed env cls R) (ib : Int) (s : St)
    (hc : cls .CtxDone = true) : R s (checkQuit env ib s).st := by
  unfold checkQuit
  split_ifs <;> exact closed_record hR _ _ _ hc rfl rfl

theorem closed_progressLogging (hR : StepClosed env cls R) (cfg : RunCfg) (ib : Int)
    (s : St) (hc : cls .GetBestBlock = true) (hp : ∀ p, cls (.SendProgress p) = true) :
    R s (progressLogging env cfg ib s).st := by
  unfold progressLogging
  split_ifs
  · exact hR.refl s
  · exact Step.bind_rel hR.trans (closed_pollBestBlock hR ib s hc)
      (fun s1 => hR.progress s1 _ (hp _))
  · exact hR.refl s

theorem closed_getBlock (hR : StepClosed env cls R) (ib : Int) (s : St)
    (hc : cls (.GetBlock ib) = true) : R s (getBlock env ib s).st :=
  closed_attempt hR _ _ _ s hc rfl (fun _ => rfl)

theorem closed_advanceStakeDB (hR : StepClosed env cls R) (ib : Int) (s : St)
    (hc : cls (.ConnectBlock ib) = true) (hh : cls .StakeDBHeight = true) :
    R s (advanceStakeDB env ib s).st := by
  have hread : ∀ s1 : St,
      R s1 ((s1.setStakeDBHeight s1.w.stakeHeight).record .StakeDBHeight true) :=
    fun s1 => hR.trans _ _ _ (hR.stakeDBHeight s1 _) (closed_record hR _ _ _ hh rfl rfl)
  simp only [advanceStakeDB]
  split_ifs
  · exact hR.refl s
  · exact Step.bind_rel hR.trans (closed_attemptW hR _ _ _ _ s hc rfl (fun _ => rfl))
      (fun s1 => hread s1)
  · exact hread s

theorem closed_getChainWork (hR : StepClosed env cls R) (ib : Int) (s : St)
    (hc : cls (.GetChainWork ib) = true) : R s (getChainWork env ib s).st :=
  closed_attempt hR _ _ _ s hc rfl (fun _ => rfl)

theorem closed_storeBlock (hR : StepClosed env cls R) (cfg : RunCfg) (ib : Int) (s : St)
    (hc : ∀ b, cls (.StoreBlock ib b) = true) : R s (storeBlock env cfg ib s).st := by
  unfold storeBlock
  exact Step.bind_rel hR.trans (closed_attemptW hR _ _ _ _ s (hc _) rfl (fun _ => rfl))
    (fun s1 => hR.counts s1 _)

theorem closed_updateExplorerPages (hR : StepClosed env cls R) (cfg : RunCfg) (ib : Int)
    (s : St) (hc : cls (.SendPageData ib) = true) :
    R s (updateExplorerPages env cfg ib s).st := by
  unfold updateExplorerPages
  split_ifs
  · exact hR.page s ib hc
  · exact hR.refl s

theorem closed_updateNodeHeight (hR : StepClosed env cls R) (ib : Int) (s : St)
    (hc : cls .GetBestBlock = true) : R s (updateNodeHeight env ib s).st := by
  unfold updateNodeHeight
  split_ifs
  · exact closed_pollBestBlock hR ib s hc
  · exact hR.refl s

/-- An iteration of the import loop keeps every relation closed for the calls of the
loop. -/
theorem closed_importBlock (hR : StepClosed env cls R)
    (hcls : ∀ c, isLoopCall c = true → cls c = true) (cfg : RunCfg) (ib : Int) (s : St) :
    R s (importBlock env cfg ib s).st := by
  unfold importBlock
  refine Step.bind_rel hR.trans (closed_checkQuit hR ib s (hcls _ rfl)) fun s => ?_
  refine Step.bind_rel hR.trans
    (closed_progressLogging hR cfg ib s (hcls _ rfl) (fun _ => hcls _ rfl)) fun s => ?_
  refine Step.bind_rel hR.trans (closed_getBlock hR ib s (hcls _ rfl)) fun s => ?_
  refine Step.bind_rel hR.trans (closed_advanceStakeDB hR ib s (hcls _ rfl) (hcls _ rfl)) fun s => ?_
  refine Step.bind_rel hR.trans (closed_getChainWork hR ib s (hcls _ rfl)) fun s => ?_
  refine Step.bind_rel hR.trans (closed_storeBlock hR cfg ib s (fun _ => hcls _ rfl)) fun s => ?_
  refine Step.bind_rel hR.trans (closed_updateExplorerPages hR cfg ib s (hcls _ rfl)) fun s => ?_
  exact closed_updateNodeHeight hR ib s (hcls _ rfl)

/-- A pass of `importBlocks` keeps every relation closed for the calls of the loop. -/
theorem closed_importBlocks (hR : StepClosed env cls R)
    (hcls : ∀ c, isLoopCall c = true → cls c = true) (cfg : RunCfg) (fuel : Nat) (start : Int)
    (s : St) : R s (importBlocks env cfg fuel start s).st := by
  refine importBlocks_induct env cfg (fun _ sm => R s sm) (fun r => R s r.st)
    ?_ ?_ ?_ fuel start s (hR.refl s)
  · intro ib sm hJ _
    have hs := closed_importBlock hR hcls cfg ib sm
    revert hs
    cases importBlock env cfg ib sm with
    | next s1 => exact fun hs => hR.trans _ _ _ hJ hs
    | stop h e s1 => exact fun hs => hR.trans _ _ _ hJ hs
    | panic m s1 => exact fun hs => hR.trans _ _ _ hJ hs
  · intro ib sm hJ _; exact hJ
  · intro ib sm hJ _; exact hJ

theorem closed_catchUp (hR : StepClosed env cls R)
    (hcls : ∀ c, isLoopCall c = true → cls c = true) (cfg : RunCfg) (fuel : Nat) (n : Int)
    (s : St) : R s (catchUp env cfg fuel n s).st := by
  unfold catchUp
  split_ifs
  · exact closed_importBlocks hR hcls cfg fuel n s
  · exact hR.refl s

end closed

end Dcrpg

namespace Dcrpg

section closed

variable {env : Env} {cls : Call → Bool} {R : St → St → Prop}

theorem closed_warmUtxoCache (hR : StepClosed env cls R) (s : St)
    (h1 : cls .UtxoCacheSize = true) (h2 : cls .RetrieveUTXOs = true)
    (h3 : ∀ n, cls (.InitUtxoCache n) = true) :
    R s (warmUtxoCache env s).st := by
  simp only [warmUtxoCache]
  split_ifs
  · refine hR.trans _ _ _ (closed_record hR s .UtxoCacheSize true h1 rfl rfl) ?_
    exact Step.bind_rel hR.trans (closed_attempt hR _ _ _ _ h2 rfl (fun _ => rfl))
      (fun s1 => hR.passed s1 (.InitUtxoCache env.utxos) (h3 _) rfl)
  · exact closed_record hR s .UtxoCacheSize true h1 rfl rfl

theorem closed_enableDuplicateCheckOnInsert (hR : StepClosed env cls R) (b : Bool) (s : St)
    (hc : cls (.EnableDuplicateCheckOnInsert b) = true) :
    R s (enableDuplicateCheckOnInsert b s) :=
  hR.passed s (.EnableDuplicateCheckOnInsert b) hc rfl

theorem closed_deindexAll (hR : StepClosed env cls R) (lastBlock : Int) (s : St)
    (hc : cls .DeindexAll = true) : R s (deindexAll env lastBlock s).st := by
  unfold deindexAll
  split_ifs <;> exact closed_record hR s .DeindexAll _ hc rfl rfl

theorem closed_prepareIndexes (hR : StepClosed env cls R) (cfg : RunCfg) (lastBlock : Int)
    (s : St) (hcls : ∀ c, isPrepareCall c = true → cls c = true) :
    R s (prepareIndexes env cfg lastBlock s).st := by
  unfold prepareIndexes
  split_ifs
  · refine Step.bind_rel hR.trans (closed_deindexAll hR lastBlock s (hcls _ rfl)) fun s => ?_
    exact Step.bind_rel hR.trans (closed_attempt hR _ _ _ _ (hcls _ rfl) rfl (fun _ => rfl))
      (fun s1 => closed_enableDuplicateCheckOnInsert hR false s1 (hcls _ rfl))
  · exact closed_enableDuplicateCheckOnInsert hR true s (hcls _ rfl)

theorem closed_clearIBDComplete (hR : StepClosed env cls R) (cfg : RunCfg) (ibd : Bool)
    (s : St) (hc : cls (.SetIBDComplete false) = true) :
    R s (clearIBDComplete env cfg ibd s).st := by
  unfold clearIBDComplete
  split_ifs
  · exact closed_attemptW hR _ _ _ _ s hc rfl (fun _ => rfl)
  · exact hR.refl s

theorem closed_announce (hR : StepClosed env cls R) (cfg : RunCfg) (s : St)
    (hp : ∀ p, cls (.SendProgress p) = true) : R s (announce env cfg s).st := by
  simp only [announce, Step.st_next]
  refine hR.trans _ _ _ ?_ (hR.stage _ _)
  split_ifs
  · exact hR.trans _ _ _ (hR.progress s _ (hp _)) (hR.progress _ _ (hp _))
  · exact hR.progress s _ (hp _)

/-- The part of set-up that follows `reconcile` keeps every relation closed for its
calls. -/
theorem closed_prepare (hR : StepClosed env cls R)
    (hcls : ∀ c, isPrepareCall c = true → cls c = true) (cfg : RunCfg) (lastBlock : Int)
    (ibd : Bool) (s : St) : R s (prepare env cfg lastBlock ibd s).st := by
  unfold prepare
  refine Step.bind_rel hR.trans
    (closed_warmUtxoCache hR s (hcls _ rfl) (hcls _ rfl) (fun _ => hcls _ rfl)) fun s => ?_
  refine Step.bind_rel hR.trans (closed_prepareIndexes hR cfg lastBlock s hcls) fun s => ?_
  refine Step.bind_rel hR.trans (closed_clearIBDComplete hR cfg ibd s (hcls _ rfl)) fun s => ?_
  exact closed_announce hR cfg s (fun _ => hcls _ rfl)

theorem closed_checkCancelled (hR : StepClosed env cls R) (s : St)
    (hc : cls .CtxDone = true) : R s (checkCancelled env s).st := by
  unfold checkCancelled
  split_ifs <;> exact closed_record hR _ _ _ hc rfl rfl

theorem closed_signalEndOfLoad (hR : StepClosed env cls R) (s : St)
    (hc : ∀ h, cls (.SignalHeight h) = true) (hp : ∀ p, cls (.SendProgress p) = true) :
    R s (signalEndOfLoad env s).st := by
  simp only [signalEndOfLoad, Step.st_next]
  exact hR.trans _ _ _ (closed_record hR s _ true (hc _) rfl rfl) (hR.progress _ _ (hp _))

theorem closed_nextStage_attempt (hR : StepClosed env cls R) (c : Call) (h : Int)
    (e : SyncError) (s : St) (hc : cls c = true) (hs : isSend c = false)
    (he : ∀ w, effect c w = w) : R s (attempt env c h e (nextStage s)).st :=
  hR.trans _ _ _ (hR.stage s _) (closed_attempt hR c h e _ hc hs he)

theorem closed_reindexStage (hR : StepClosed env cls R) (cfg : RunCfg) (s : St)
    (hcls : ∀ c, isStageCall c = true → cls c = true) :
    R s (reindexStage env cfg s).st := by
  unfold reindexStage
  split_ifs
  · refine Step.bind_rel hR.trans
      (closed_nextStage_attempt hR _ _ _ s (hcls _ rfl) rfl (fun _ => rfl)) fun s => ?_
    refine Step.bind_rel hR.trans
      (closed_attempt hR _ _ _ s (hcls _ rfl) rfl (fun _ => rfl)) fun s => ?_
    refine Step.bind_rel hR.trans
      (closed_nextStage_attempt hR _ _ _ s (hcls _ rfl) rfl (fun _ => rfl)) fun s => ?_
    refine Step.bind_rel hR.trans
      (closed_attempt hR _ _ _ s (hcls _ rfl) rfl (fun _ => rfl)) fun s => ?_
    refine Step.bind_rel hR.trans
      (closed_attempt hR _ _ _ s (hcls _ rfl) rfl (fun _ => rfl)) fun s => ?_
    exact closed_nextStage_attempt hR _ _ _ s (hcls _ rfl) rfl (fun _ => rfl)
  · refine Step.bind_rel hR.trans
      (closed_nextStage_attempt hR _ _ _ s (hcls _ rfl) rfl (fun _ => rfl)) fun s => ?_
    refine Step.bind_rel hR.trans
      (closed_attempt hR _ _ _ s (hcls _ rfl) rfl (fun _ => rfl)) fun s => ?_
    refine Step.bind_rel hR.trans
      (closed_nextStage_attempt hR _ _ _ s (hcls _ rfl) rfl (fun _ => rfl)) fun s => ?_
    refine Step.bind_rel hR.trans (hR.refl s) fun s => ?_
    refine Step.bind_rel hR.trans
      (closed_attempt hR _ _ _ s (hcls _ rfl) rfl (fun _ => rfl)) fun s => ?_
    exact closed_nextStage_attempt hR _ _ _ s (hcls _ rfl) rfl (fun _ => rfl)
  · exact hR.refl s

theorem closed_addressesTail (hR : StepClosed env cls R) (s : St)
    (hcls : ∀ c, isStageCall c = true → cls c = true) :
    R s
      ((Step.next (s.record .DeindexAddressTableOnMatchingTxHash (!env.fails s.now))).bind fun s =>
        (attempt env .UpdateSpendingInfoInAllAddresses s.nodeHeight .updateSpendingInfoFailed
          s).bind fun s =>
        (attempt env .IndexAddressTableOnMatchingTxHash s.nodeHeight .indexAddressTableFailed
          s).bind fun s =>
        attempt env (.AnalyzeTable .addresses deepStatsTarget) s.nodeHeight
          .analyzeAddressesFailed s).st := by
  refine Step.bind_rel hR.trans
    (closed_record hR s .DeindexAddressTableOnMatchingTxHash _ (hcls _ rfl) rfl rfl)
    fun s => ?_
  refine Step.bind_rel hR.trans
    (closed_attempt hR _ _ _ s (hcls _ rfl) rfl (fun _ => rfl)) fun s => ?_
  refine Step.bind_rel hR.trans
    (closed_attempt hR _ _ _ s (hcls _ rfl) rfl (fun _ => rfl)) fun s => ?_
  exact closed_attempt hR _ _ _ s (hcls _ rfl) rfl (fun _ => rfl)

theorem closed_addressesStage (hR : StepClosed env cls R) (cfg : RunCfg) (s : St)
    (hcls : ∀ c, isStageCall c = true → cls c = true) :
    R s (addressesStage env cfg s).st := by
  unfold addressesStage
  split_ifs
  · refine Step.bind_rel hR.trans ?_ fun s => closed_addressesTail hR s hcls
    exact Step.bind_rel hR.trans
      (closed_nextStage_attempt hR _ _ _ s (hcls _ rfl) rfl (fun _ => rfl))
      (fun s1 => closed_attempt hR _ _ _ s1 (hcls _ rfl) rfl (fun _ => rfl))
  · exact Step.bind_rel hR.trans (hR.stage s _) fun s => closed_addressesTail hR s hcls
  · exact hR.refl s

theorem closed_quickAnalyze (hR : StepClosed env cls R) (cfg : RunCfg) (s : St)
    (hc : ∀ n, cls (.AnalyzeAllTables n) = true) : R s (quickAnalyze env cfg s).st := by
  unfold quickAnalyze
  split_ifs
  · exact closed_nextStage_attempt hR _ _ _ s (hc _) rfl (fun _ => rfl)
  · exact hR.refl s

/-- The maintenance stages keep every relation closed for their calls. -/
theorem closed_stages (hR : StepClosed env cls R)
    (hcls : ∀ c, isStageCall c = true → cls c = true) (cfg : RunCfg) (s : St) :
    R s (stages env cfg s).st := by
  unfold stages
  refine Step.bind_rel hR.trans
    (closed_signalEndOfLoad hR s (fun _ => hcls _ rfl) (fun _ => hcls _ rfl)) fun s => ?_
  refine Step.bind_rel hR.trans (closed_reindexStage hR cfg s hcls) fun s => ?_
  refine Step.bind_rel hR.trans (closed_checkCancelled hR s (hcls _ rfl)) fun s => ?_
  refine Step.bind_rel hR.trans (closed_addressesStage hR cfg s hcls) fun s => ?_
  refine Step.bind_rel hR.trans (closed_checkCancelled hR s (hcls _ rfl)) fun s => ?_
  exact closed_quickAnalyze hR cfg s (fun _ => hcls _ rfl)

/-- The part between the maintenance stages and the catch-up pass keeps every relation
closed for its calls. -/
theorem closed_finalize (hR : StepClosed env cls R)
    (hcls : ∀ c, isFinalizeCall c = true → cls c = true) (s : St) :
    R s (finalize env s).st := by
  unfold finalize
  refine Step.bind_rel hR.trans ?_ fun s => ?_
  · exact closed_attemptW hR _ _ _ _ s (hcls _ rfl) rfl (fun _ => rfl)
  refine Step.bind_rel hR.trans (closed_checkCancelled hR s (hcls _ rfl)) fun s => ?_
  refine Step.bind_rel hR.trans
    (closed_enableDuplicateCheckOnInsert hR true s (hcls _ rfl)) fun s => ?_
  exact closed_pollBestBlock hR _ s (hcls _ rfl)

theorem closed_complete (hR : StepClosed env cls R) (cfg : RunCfg) (s : St)
    (hp : ∀ p, cls (.SendProgress p) = true) : R s (complete env cfg s).2 := by
  simp only [complete]
  split_ifs
  · exact hR.progress s _ (hp _)
  · exact hR.progress s _ (hp _)
  · exact hR.refl s

/-- A run that got past `reconcile` keeps, from there on, every relation closed for
all calls. -/
theorem closed_run (hR : StepClosed env cls R) (hcls : ∀ c, cls c = true) (fuel : Nat)
    (w : World) (ua ni ue bl : Bool) (s0 : St) (hr : reconcile env w ue bl = .next s0) :
    R s0 (SyncChainDB env fuel w ua ni ue bl).2 := by
  refine run_spec env fuel w ua ni ue bl (fun y => R s0 y.2) (fun s => R s0 s)
    (fun s => R s0 s) (fun s => R s0 s) (fun _ s => R s0 s)
    (fun _ s => R s0 s) (fun _ s => R s0 s) ?_ ?_ ?_ ?_ ?_ ?_ s0 hr (hR.refl s0)
  · exact fun s h => phasePost_of_rel hR.trans s0 s _ h
      (closed_prepare hR (fun c _ => hcls c) _ _ _ s)
  · exact fun s h => loopPost_of_rel hR.trans s0 s _ h
      (closed_importBlocks hR (fun c _ => hcls c) _ _ _ s)
  · exact fun _ s h => phasePost_of_rel hR.trans s0 s _ h
      (closed_stages hR (fun c _ => hcls c) _ s)
  · exact fun _ s h => phasePost_of_rel hR.trans s0 s _ h
      (closed_finalize hR (fun c _ => hcls c) s)
  · exact fun n s h => loopPost_of_rel hR.trans s0 s _ h
      (closed_catchUp hR (fun c _ => hcls c) _ _ n s)
  · exact fun s h => hR.trans _ _ _ h (closed_complete hR _ s (fun _ => hcls _))

end closed

end Dcrpg

namespace Dcrpg

/-! ## The log of the maintenance calls -/

/-- A projection of the trace that leaves out the calls of the class `cls` is kept by
every elementary action for a call of that class. -/
theorem closed_filterMap {β : Type} (env : Env) (cls : Call → Bool) (g : Event → Option β)
    (hg : ∀ e, cls e.call = true → g e = none) :
    StepClosed env cls (fun s s1 => s1.trace.filterMap g = s.trace.filterMap g) where
  refl := fun _ => rfl
  trans := fun _ _ _ h1 h2 => h2.trans h1
  failed := fun s c hc _ => by simp [List.filterMap_append, hg ⟨c, false, s.w⟩ hc]
  passed := fun s c hc _ => by simp [List.filterMap_append, hg ⟨c, true, effect c s.w⟩ hc]
  nodeHeight := fun _ _ => rfl
  stakeDBHeight := fun _ _ => rfl
  stage := fun _ _ => rfl
  counts := fun _ _ => rfl
  progress := fun s p hc => sendProgressUpdate_filterMap g env p s (fun ok w => hg ⟨_, ok, w⟩ hc)
  page := fun s h hc => sendPageData_filterMap g env h s (fun ok w => hg ⟨_, ok, w⟩ hc)

@[simp] theorem stageLog_nil : stageLog [] = [] := rfl

@[simp] theorem stageLog_append (a b : List Event) :
    stageLog (a ++ b) = stageLog a ++ stageLog b := List.filterMap_append _ _ _

@[simp] theorem stageLog_cons (e : Event) (l : List Event) :
    stageLog (e :: l) =
      (if isMaintenanceCall e.call then [(e.call, e.ok)] else []) ++ stageLog l := by
  unfold stageLog
  rw [List.filterMap_cons]
  split_ifs <;> simp_all

@[simp] theorem planRun_nil_left (l : List (Call × Bool)) : planRun [] l = false := rfl

@[simp] theorem planRun_none (cs : List (Option Call)) (l : List (Call × Bool)) :
    planRun (none :: cs) l = (l.isEmpty || planRun cs l) := rfl

@[simp] theorem planRun_some_nil (c : Call) (cs : List (Option Call)) :
    planRun (some c :: cs) [] = false := rfl

@[simp] theorem planRun_some_cons (c : Call) (cs : List (Option Call)) (a : Call × Bool)
    (l : List (Call × Bool)) :
    planRun (some c :: cs) (a :: l) =
      (decide (a.1 = c) &&
        (if a.2 then planRun cs l else (l.isEmpty || (isTolerated c && planRun cs l)))) := rfl

theorem reindexStage_script (env : Env) (cfg : RunCfg) (s : St) :
    ScriptSpec ((reindexScript cfg).map some) s (reindexStage env cfg s) := by
  simp only [reindexStage, attempt, nextStage, Step.bind_ite, Step.bind_next, Step.bind_stop]
  split_ifs <;>
    simp_all [ScriptSpec, reindexScript, planDone, isMaintenanceCall, isTolerated,
      List.reduceOption]

theorem prepareIndexes_script (env : Env) (cfg : RunCfg) (lastBlock : Int) (s : St) :
    ScriptSpec ((prepareScript cfg).map some) s (prepareIndexes env cfg lastBlock s) := by
  simp only [prepareIndexes, deindexAll, attempt, enableDuplicateCheckOnInsert, Step.bind_ite,
    Step.bind_next, Step.bind_stop]
  split_ifs <;>
    simp_all [ScriptSpec, prepareScript, planDone, isMaintenanceCall, isTolerated,
      List.reduceOption]

theorem addressesStage_script (env : Env) (cfg : RunCfg) (s : St) :
    ScriptSpec ((addressesScript cfg).map some) s (addressesStage env cfg s) := by
  simp only [addressesStage, attempt, nextStage, Step.bind_ite, Step.bind_next, Step.bind_stop]
  split_ifs <;>
    simp_all [ScriptSpec, addressesScript, planDone, isMaintenanceCall, isTolerated,
      List.reduceOption]

theorem quickAnalyze_script (env : Env) (cfg : RunCfg) (s : St) :
    ScriptSpec ((quickScript cfg).map some) s (quickAnalyze env cfg s) := by
  simp only [quickAnalyze, attempt, nextStage]
  split_ifs <;>
    simp_all [ScriptSpec, quickScript, planDone, isMaintenanceCall, isTolerated,
      List.reduceOption]

end Dcrpg

namespace Dcrpg

theorem planRun_mono (p q : List (Option Call)) :
    ∀ l, planRun p l = true → planRun (p ++ q) l = true := by
  induction p with
  | nil => intro l h; simp at h
  | cons c cs ih =>
    intro l h
    cases c with
    | none =>
      simp only [List.cons_append, planRun_none, Bool.or_eq_true] at h ⊢
      exact h.imp id (ih l)
    | some c =>
      cases l with
      | nil => simp at h
      | cons a l =>
        simp only [List.cons_append, planRun_some_cons, Bool.and_eq_true] at h ⊢
        refine ⟨h.1, ?_⟩
        have h2 := h.2
        split_ifs at h2 ⊢
        · exact ih l h2
        · simp only [Bool.or_eq_true, Bool.and_eq_true] at h2 ⊢
          exact h2.imp id (fun h3 => ⟨h3.1, ih l h3.2⟩)

theorem planDone_nil_iff (l : List (Call × Bool)) : planDone [] l ↔ l = [] := by
  constructor
  · rintro ⟨h, _⟩
    simpa using h
  · rintro rfl
    exact ⟨rfl, by simp⟩

theorem planDone_cons_iff (c : Call) (cs : List Call) (l : List (Call × Bool)) :
    planDone (c :: cs) l ↔
      ∃ ok l1, l = (c, ok) :: l1 ∧ (ok = true ∨ isTolerated c = true) ∧ planDone cs l1 := by
  constructor
  · rintro ⟨h, hok⟩
    cases l with
    | nil => simp at h
    | cons a l1 =>
      simp only [List.map_cons, List.cons.injEq] at h
      obtain ⟨h1, h2⟩ := h
      refine ⟨a.2, l1, ?_, ?_, h2, fun b hb => hok b (List.mem_cons_of_mem _ hb)⟩
      · rw [← h1]
      · have := hok a (List.mem_cons_self _ _)
        rw [h1] at this
        exact this
  · rintro ⟨ok, l1, rfl, hok, h1, h2⟩
    refine ⟨by simp [h1], fun b hb => ?_⟩
    rcases List.mem_cons.1 hb with rfl | hb
    · exact hok
    · exact h2 b hb

theorem planRun_of_done (q : List (Option Call)) (l2 : List (Call × Bool))
    (hq : planRun q l2 = true) :
    ∀ (p : List (Option Call)) (l1 : List (Call × Bool)), planDone p.reduceOption l1 →
      planRun (p ++ q) (l1 ++ l2) = true := by
  intro p
  induction p with
  | nil =>
    intro l1 h
    rw [List.reduceOption_nil, planDone_nil_iff] at h
    subst h
    simpa using hq
  | cons c cs ih =>
    intro l1 h
    cases c with
    | none =>
      rw [List.reduceOption_cons_of_none] at h
      simp only [List.cons_append, planRun_none, Bool.or_eq_true]
      exact Or.inr (ih l1 h)
    | some c =>
      rw [List.reduceOption_cons_of_some, planDone_cons_iff] at h
      obtain ⟨ok, l, rfl, hok, hd⟩ := h
      have hrest := ih l hd
      simp only [List.cons_append, planRun_some_cons, decide_True, Bool.true_and]
      split_ifs with hk
      · exact hrest
      · simp only [Bool.or_eq_true, Bool.and_eq_true]
        rcases hok with hok | hok
        · exact absurd hok hk
        · exact Or.inr ⟨hok, hrest⟩

theorem planDone_append (p q : List Call) (l1 l2 : List (Call × Bool))
    (h1 : planDone p l1) (h2 : planDone q l2) : planDone (p ++ q) (l1 ++ l2) := by
  refine ⟨by rw [List.map_append, h1.1, h2.1], fun a ha => ?_⟩
  rcases List.mem_append.1 ha with h | h
  · exact h1.2 a h
  · exact h2.2 a h

/-- Sequencing rule for the log of the maintenance calls. -/
theorem scriptSpec_bind {sc1 sc2 : List (Option Call)} {s : St} {x : Step} {f : St → Step}
    (hx : ScriptSpec sc1 s x) (hf : ∀ s1, ScriptSpec sc2 s1 (f s1)) :
    ScriptSpec (sc1 ++ sc2) s (x.bind f) := by
  cases x with
  | stop h e s1 =>
    obtain ⟨l, hl, hr⟩ := hx
    exact ⟨l, hl, planRun_mono _ _ l hr⟩
  | panic m s1 =>
    obtain ⟨l, hl, hr⟩ := hx
    exact ⟨l, hl, planRun_mono _ _ l hr⟩
  | next s1 =>
    obtain ⟨l1, hl1, hd⟩ := hx
    have h2 := hf s1
    simp only [Step.bind_next]
    revert h2
    cases f s1 with
    | next s2 =>
      rintro ⟨l2, hl2, hd2⟩
      refine ⟨l1 ++ l2, by rw [hl2, hl1, List.append_assoc], ?_⟩
      rw [List.reduceOption_append]
      exact planDone_append _ _ _ _ hd hd2
    | stop h e s2 =>
      rintro ⟨l2, hl2, hr2⟩
      exact ⟨l1 ++ l2, by rw [hl2, hl1, List.append_assoc], planRun_of_done _ _ hr2 _ _ hd⟩
    | panic m s2 =>
      rintro ⟨l2, hl2, hr2⟩
      exact ⟨l1 ++ l2, by rw [hl2, hl1, List.append_assoc], planRun_of_done _ _ hr2 _ _ hd⟩

/-- A part that leaves the log of the maintenance calls alone has the script of a
single stopping point. -/
theorem scriptSpec_of_eq {s : St} {x : Step} (h : stageLog x.st.trace = stageLog s.trace) :
    ScriptSpec [none] s x := by
  cases x with
  | next s1 => exact ⟨[], by simpa using h, by simp [planDone]⟩
  | stop h1 e s1 => exact ⟨[], by simpa using h, by simp⟩
  | panic m s1 => exact ⟨[], by simpa using h, by simp⟩

/-- The relation "the log of the maintenance calls is the same" is kept by the
elementary actions for every other call. -/
theorem closed_stageLog (env : Env) :
    StepClosed env (fun c => !isMaintenanceCall c)
      (fun s s1 => stageLog s1.trace = stageLog s.trace) :=
  closed_filterMap env _ _ (fun e he => by
    simp only [Bool.not_eq_true'] at he
    simp [he])

theorem prepare_script (env : Env) (cfg : RunCfg) (lastBlock : Int) (ibd : Bool) (s : St) :
    ScriptSpec (prepareMarked cfg) s (prepare env cfg lastBlock ibd s) :=
  scriptSpec_bind
    (scriptSpec_of_eq (closed_warmUtxoCache (closed_stageLog env) s rfl rfl (fun _ => rfl)))
    fun s1 => scriptSpec_bind (prepareIndexes_script env cfg lastBlock s1)
    fun s2 => scriptSpec_bind
      (scriptSpec_of_eq (closed_clearIBDComplete (closed_stageLog env) cfg ibd s2 rfl))
    fun s3 => scriptSpec_of_eq (closed_announce (closed_stageLog env) cfg s3 (fun _ => rfl))

theorem stages_script (env : Env) (cfg : RunCfg) (s : St) :
    ScriptSpec (stagesMarked cfg) s (stages env cfg s) :=
  scriptSpec_bind
    (scriptSpec_of_eq
      (closed_signalEndOfLoad (closed_stageLog env) s (fun _ => rfl) (fun _ => rfl)))
    fun s1 => scriptSpec_bind (reindexStage_script env cfg s1)
    fun s2 => scriptSpec_bind
      (scriptSpec_of_eq (closed_checkCancelled (closed_stageLog env) s2 rfl))
    fun s3 => scriptSpec_bind (addressesStage_script env cfg s3)
    fun s4 => scriptSpec_bind
      (scriptSpec_of_eq (closed_checkCancelled (closed_stageLog env) s4 rfl))
    fun s5 => quickAnalyze_script env cfg s5

theorem prepareMarked_calls (cfg : RunCfg) :
    (prepareMarked cfg).reduceOption = prepareScript cfg := by
  simp [prepareMarked, List.reduceOption_append, List.reduceOption]

theorem stagesMarked_calls (cfg : RunCfg) :
    (stagesMarked cfg).reduceOption =
      reindexScript cfg ++ (addressesScript cfg ++ quickScript cfg) := by
  simp [stagesMarked, List.reduceOption_append, List.reduceOption]

end Dcrpg

namespace Dcrpg

/-- Every call of `reconcile` is one of `isReconcileCall`, whatever it ends in. -/
theorem reconcile_calls (env : Env) (w : World) (ue bl : Bool) :
    ∀ e ∈ (reconcile env w ue bl).st.trace, isReconcileCall e.call = true := by
  have hspec := reconcile_spec env w ue bl
  have key : ∀ (tr : List Event) (cs : List Call), callsOf tr = cs →
      (∀ c ∈ cs, isReconcileCall c = true) → ∀ e ∈ tr, isReconcileCall e.call = true := by
    intro tr cs h hc e he
    exact hc _ (h ▸ List.mem_map_of_mem Event.call he)
  revert hspec
  cases reconcile env w ue bl with
  | next s =>
    intro hspec
    refine key _ _ hspec.2.2.2.2.2.2.2.2.2.1 ?_
    split_ifs <;> simp [isReconcileCall]
  | stop h e s =>
    rintro ⟨_, _, _, _, _, _, _, hcase⟩
    rcases hcase with ⟨_, _, _, _, hc⟩ | ⟨_, _, _, _, hc⟩ | ⟨_, _, _, _, hc⟩ |
      ⟨_, _, _, _, _, _, _, _, hc⟩ | ⟨_, _, _, _, _, hc⟩ <;>
      exact key _ _ hc (by simp [isReconcileCall])
  | panic m s =>
    rintro ⟨_, _, _, _, hc⟩
    exact key _ _ hc (by simp [isReconcileCall])

/-- A projection of the trace that leaves out the calls of `reconcile` is empty when
`reconcile` ends. -/
theorem reconcile_filterMap {β : Type} (env : Env) (w : World) (ue bl : Bool)
    (g : Event → Option β) (hg : ∀ e, isReconcileCall e.call = true → g e = none) :
    (reconcile env w ue bl).st.trace.filterMap g = [] := by
  rw [List.filterMap_eq_nil_iff]
  exact fun e he => hg e (reconcile_calls env w ue bl e he)

theorem reconcile_stageLog (env : Env) (w : World) (ue bl : Bool) :
    stageLog (reconcile env w ue bl).st.trace = [] :=
  reconcile_filterMap env w ue bl _ (fun e he => by
    cases hc : e.call <;> simp_all [isReconcileCall, isMaintenanceCall])

/-- The log of a run that stopped: the scripts of the parts gone through, then the
log of the part that stopped. -/
theorem logPost_stop (cfg : RunCfg) (A q : List (Option Call)) (L l : List (Call × Bool))
    (y : Outcome × St) (hsplit : scriptMarked cfg = A ++ q) (hA : planDone A.reduceOption L)
    (hq : planRun q l = true) (hy : ∀ h, y.1 ≠ .returned h none)
    (hlog : stageLog y.2.trace = L ++ l) : LogPost cfg y := by
  refine ⟨fun h he => absurd he (hy h), fun _ => ?_⟩
  rw [hsplit, hlog]
  exact planRun_of_done q l hq A L hA

theorem reduceOption_none_cons (l : List (Option Call)) :
    ([none] ++ l).reduceOption = l.reduceOption := by
  rw [List.singleton_append, List.reduceOption_cons_of_none]

theorem reduceOption_append_none (l : List (Option Call)) :
    (l ++ [none]).reduceOption = l.reduceOption := by
  rw [List.reduceOption_append, List.reduceOption_cons_of_none, List.reduceOption_nil,
    List.append_nil]

theorem marked_calls_prepare (cfg : RunCfg) :
    ([none] ++ prepareMarked cfg).reduceOption = prepareScript cfg := by
  rw [reduceOption_none_cons, prepareMarked_calls]

theorem marked_calls_pass (cfg : RunCfg) :
    (([none] ++ prepareMarked cfg) ++ [none]).reduceOption = prepareScript cfg := by
  rw [reduceOption_append_none, marked_calls_prepare]

theorem marked_calls_stages (cfg : RunCfg) :
    ((([none] ++ prepareMarked cfg) ++ [none]) ++ stagesMarked cfg).reduceOption =
      script cfg := by
  rw [List.reduceOption_append, marked_calls_pass, stagesMarked_calls, script]

theorem marked_calls_finalize (cfg : RunCfg) :
    (((([none] ++ prepareMarked cfg) ++ [none]) ++ stagesMarked cfg) ++ [none]).reduceOption =
      script cfg := by
  rw [reduceOption_append_none, marked_calls_stages]

/-- The log of the maintenance calls of a run of `SyncChainDB`: the whole script of
the run when it returns without error, the log of a stop otherwise. -/
theorem run_script (env : Env) (fuel : Nat) (w : World) (ua ni ue bl : Bool) :
    LogPost (mkCfg w (env.best 0) ua ni) (SyncChainDB env fuel w ua ni ue bl) := by
  have hlog := reconcile_stageLog env w ue bl
  cases hr : reconcile env w ue bl with
  | stop h e s =>
    rw [hr] at hlog
    rw [SyncChainDB_of_reconcile_stop env fuel w ua ni ue bl h e s hr]
    exact logPost_stop _ [] _ [] [] _ rfl (by rw [List.reduceOption_nil, planDone_nil_iff])
      (by simp [scriptMarked]) (fun h2 he => by cases he) (by simpa using hlog)
  | panic m s =>
    rw [hr] at hlog
    rw [SyncChainDB_of_reconcile_panic env fuel w ua ni ue bl m s hr]
    exact logPost_stop _ [] _ [] [] _ rfl (by rw [List.reduceOption_nil, planDone_nil_iff])
      (by simp [scriptMarked]) (fun h2 he => by cases he) (by simpa using hlog)
  | next s0 =>
    rw [hr] at hlog
    simp only [Step.st_next] at hlog
    refine run_spec env fuel w ua ni ue bl (LogPost (mkCfg w (env.best 0) ua ni))
      (fun s => stageLog s.trace = [])
      (fun s => planDone (prepareScript (mkCfg w (env.best 0) ua ni)) (stageLog s.trace))
      (fun s => planDone (script (mkCfg w (env.best 0) ua ni)) (stageLog s.trace))
      (fun _ s => planDone (prepareScript (mkCfg w (env.best 0) ua ni)) (stageLog s.trace))
      (fun _ s => planDone (script (mkCfg w (env.best 0) ua ni)) (stageLog s.trace))
      (fun _ s => planDone (script (mkCfg w (env.best 0) ua ni)) (stageLog s.trace))
      ?_ ?_ ?_ ?_ ?_ ?_ s0 hr hlog
    · intro s hs
      have h := prepare_script env (mkCfg w (env.best 0) ua ni) w.chainCursor w.ibdComplete s
      revert h
      cases prepare env (mkCfg w (env.best 0) ua ni) w.chainCursor w.ibdComplete s with
      | next s1 =>
        rintro ⟨l, hl, hd⟩
        rw [hs, List.nil_append] at hl
        show planDone _ (stageLog s1.trace)
        rw [hl, ← prepareMarked_calls]
        exact hd
      | stop h1 e s1 =>
        rintro ⟨l, hl, hd⟩
        exact logPost_stop _ [none] _ [] l _ rfl
          (by rw [List.reduceOption_cons_of_none, List.reduceOption_nil, planDone_nil_iff])
          (planRun_mono _ _ l hd) (fun h2 he => by cases he) (by rw [hl, hs])
      | panic m s1 =>
        rintro ⟨l, hl, hd⟩
        exact logPost_stop _ [none] _ [] l _ rfl
          (by rw [List.reduceOption_cons_of_none, List.reduceOption_nil, planDone_nil_iff])
          (planRun_mono _ _ l hd) (fun h2 he => by cases he) (by rw [hl, hs])
    · intro s hs
      have h := closed_importBlocks (closed_stageLog env) (fun c hc => by
          cases c <;> simp_all [isLoopCall, isMaintenanceCall])
        (mkCfg w (env.best 0) ua ni) fuel (mkCfg w (env.best 0) ua ni).startHeight s
      have hstop : ∀ y : Outcome × St, (∀ h, y.1 ≠ .returned h none) →
          stageLog y.2.trace = stageLog s.trace → LogPost (mkCfg w (env.best 0) ua ni) y :=
        fun y hy hl => logPost_stop (mkCfg w (env.best 0) ua ni)
          ([none] ++ prepareMarked (mkCfg w (env.best 0) ua ni))
          ([none] ++ (stagesMarked (mkCfg w (env.best 0) ua ni) ++ ([none] ++ [none])))
          (stageLog s.trace) [] y (by simp [scriptMarked])
          (by rw [marked_calls_prepare]; exact hs) (by simp) hy (by simpa using hl)
      revert h
      cases importBlocks env (mkCfg w (env.best 0) ua ni) fuel
          (mkCfg w (env.best 0) ua ni).startHeight s with
      | done n s1 =>
        intro h
        show planDone _ (stageLog s1.trace)
        simp only [LoopResult.st] at h
        rw [h]
        exact hs
      | stop h1 e s1 => exact fun h => hstop _ (fun h2 he => by cases he) h
      | panic m s1 => exact fun h => hstop _ (fun h2 he => by cases he) h
      | outOfFuel s1 => exact fun h => hstop _ (fun h2 he => by cases he) h
    · intro n s hs
      have h := stages_script env (mkCfg w (env.best 0) ua ni) s
      have hA : planDone (([none] ++ prepareMarked (mkCfg w (env.best 0) ua ni)) ++
          [none]).reduceOption (stageLog s.trace) := by
        rw [marked_calls_pass]
        exact hs
      revert h
      cases stages env (mkCfg w (env.best 0) ua ni) s with
      | next s1 =>
        rintro ⟨l, hl, hd⟩
        show planDone _ (stageLog s1.trace)
        rw [hl, script]
        rw [stagesMarked_calls] at hd
        exact planDone_append _ _ _ _ hs hd
      | stop h1 e s1 =>
        rintro ⟨l, hl, hd⟩
        exact logPost_stop _ _
          (stagesMarked (mkCfg w (env.best 0) ua ni) ++ ([none] ++ [none])) _ l _
          (by simp [scriptMarked]) hA (planRun_mono _ _ l hd) (fun h2 he => by cases he) hl
      | panic m s1 =>
        rintro ⟨l, hl, hd⟩
        exact logPost_stop _ _
          (stagesMarked (mkCfg w (env.best 0) ua ni) ++ ([none] ++ [none])) _ l _
          (by simp [scriptMarked]) hA (planRun_mono _ _ l hd) (fun h2 he => by cases he) hl
    · intro n s hs
      have h := closed_finalize (closed_stageLog env) (fun c hc => by
          cases c <;> simp_all [isFinalizeCall, isMaintenanceCall]) s
      have hstop : ∀ y : Outcome × St, (∀ h, y.1 ≠ .returned h none) →
          stageLog y.2.trace = stageLog s.trace → LogPost (mkCfg w (env.best 0) ua ni) y :=
        fun y hy hl => logPost_stop (mkCfg w (env.best 0) ua ni)
          ((([none] ++ prepareMarked (mkCfg w (env.best 0) ua ni)) ++ [none]) ++
            stagesMarked (mkCfg w (env.best 0) ua ni)) ([none] ++ [none])
          (stageLog s.trace) [] y (by simp [scriptMarked])
          (by rw [marked_calls_stages]; exact hs) (by simp) hy (by simpa using hl)
      revert h
      cases finalize env s with
      | next s1 =>
        intro h
        show planDone _ (stageLog s1.trace)
        simp only [Step.st_next] at h
        rw [h]
        exact hs
      | stop h1 e s1 => exact fun h => hstop _ (fun h2 he => by cases he) h
      | panic m s1 => exact fun h => hstop _ (fun h2 he => by cases he) h
    · intro n s hs
      have h := closed_catchUp (closed_stageLog env) (fun c hc => by
          cases c <;> simp_all [isLoopCall, isMaintenanceCall])
        (mkCfg w (env.best 0) ua ni) fuel n s
      have hstop : ∀ y : Outcome × St, (∀ h, y.1 ≠ .returned h none) →
          stageLog y.2.trace = stageLog s.trace → LogPost (mkCfg w (env.best 0) ua ni) y :=
        fun y hy hl => logPost_stop (mkCfg w (env.best 0) ua ni)
          (((([none] ++ prepareMarked (mkCfg w (env.best 0) ua ni)) ++ [none]) ++
            stagesMarked (mkCfg w (env.best 0) ua ni)) ++ [none]) [none]
          (stageLog s.trace) [] y (by simp [scriptMarked])
          (by rw [marked_calls_finalize]; exact hs) (by simp) hy (by simpa using hl)
      revert h
      cases catchUp env (mkCfg w (env.best 0) ua ni) fuel n s with
      | done n1 s1 =>
        intro h
        show planDone _ (stageLog s1.trace)
        simp only [LoopResult.st] at h
        rw [h]
        exact hs
      | stop h1 e s1 => exact fun h => hstop _ (fun h2 he => by cases he) h
      | panic m s1 => exact fun h => hstop _ (fun h2 he => by cases he) h
      | outOfFuel s1 => exact fun h => hstop _ (fun h2 he => by cases he) h
    · intro s hs
      have h := closed_complete (closed_stageLog env) (mkCfg w (env.best 0) ua ni) s
        (fun _ => rfl)
      simp only at h
      refine ⟨fun _ _ => by rw [h]; exact hs, fun hy => ?_⟩
      exact absurd (complete_fst env _ s) (hy _)

end Dcrpg

namespace Dcrpg

theorem mem_stopLogs : ∀ (sc : List (Option Call)) (l : List (Call × Bool)),
    planRun sc l = true → l ∈ stopLogs sc := by
  intro sc
  induction sc with
  | nil => intro l h; simp at h
  | cons c cs ih =>
    intro l h
    cases c with
    | none =>
      simp only [planRun_none, Bool.or_eq_true, List.isEmpty_iff] at h
      rcases h with rfl | h
      · exact List.mem_cons_self _ _
      · exact List.mem_cons_of_mem _ (ih l h)
    | some c =>
      cases l with
      | nil => simp at h
      | cons a l =>
        obtain ⟨c1, ok⟩ := a
        simp only [planRun_some_cons, Bool.and_eq_true, decide_eq_true_eq] at h
        obtain ⟨rfl, h2⟩ := h
        rw [stopLogs]
        cases ok with
        | true =>
          simp only [if_true] at h2
          exact List.mem_cons_of_mem _
            (List.mem_append_left _ (List.mem_map.2 ⟨l, ih l h2, rfl⟩))
        | false =>
          simp only [Bool.false_eq_true, if_false, Bool.or_eq_true, List.isEmpty_iff,
            Bool.and_eq_true] at h2
          rcases h2 with rfl | ⟨ht, h3⟩
          · exact List.mem_cons_self _ _
          · refine List.mem_cons_of_mem _ (List.mem_append_right _ ?_)
            rw [if_pos ht]
            exact List.mem_map.2 ⟨l, ih l h3, rfl⟩

theorem mem_doneLogs : ∀ (p : List Call) (l : List (Call × Bool)),
    planDone p l → l ∈ doneLogs p := by
  intro p
  induction p with
  | nil =>
    intro l h
    rw [planDone_nil_iff] at h
    subst h
    simp [doneLogs]
  | cons c cs ih =>
    intro l h
    rw [planDone_cons_iff] at h
    obtain ⟨ok, l1, rfl, hok, hd⟩ := h
    simp only [doneLogs, List.mem_append, List.mem_map]
    cases ok with
    | true => exact Or.inl ⟨l1, ih l1 hd, rfl⟩
    | false =>
      rcases hok with hok | hok
      · cases hok
      · refine Or.inr ?_
        rw [if_pos hok]
        exact List.mem_map.2 ⟨l1, ih l1 hd, rfl⟩

/-- The log of the maintenance calls of a run is one of `runLogs`, and one of those
that go through the whole script when the run returns without error. -/
theorem run_logs (env : Env) (fuel : Nat) (w : World) (ua ni ue bl : Bool) :
    stageLog (SyncChainDB env fuel w ua ni ue bl).2.trace ∈
      runLogs (mkCfg w (env.best 0) ua ni).reindexing
        (mkCfg w (env.best 0) ua ni).updateAllAddresses
        (mkCfg w (env.best 0) ua ni).requireAnalyze ∧
    (∀ h, (SyncChainDB env fuel w ua ni ue bl).1 = .returned h none →
      stageLog (SyncChainDB env fuel w ua ni ue bl).2.trace ∈
        doneLogs (script (mkCfg w (env.best 0) ua ni))) := by
  obtain ⟨h1, h2⟩ := run_script env fuel w ua ni ue bl
  have hdone : ∀ h, (SyncChainDB env fuel w ua ni ue bl).1 = .returned h none →
      stageLog (SyncChainDB env fuel w ua ni ue bl).2.trace ∈
        doneLogs (script (mkCfg w (env.best 0) ua ni)) :=
    fun h he => mem_doneLogs _ _ (h1 h he)
  refine ⟨?_, hdone⟩
  by_cases hs : ∃ h, (SyncChainDB env fuel w ua ni ue bl).1 = .returned h none
  · obtain ⟨h, he⟩ := hs
    exact List.mem_append_right _ (hdone h he)
  · exact List.mem_append_left _ (mem_stopLogs _ _ (h2 (fun h he => hs ⟨h, he⟩)))

end Dcrpg

namespace Dcrpg

set_option maxRecDepth 100000 in
theorem logs_dedup_before_index (r u q ok : Bool) :
    ∀ l ∈ runLogs r u q,
      ((Call.IndexAll, ok) ∈ l → List.Sublist
        [(Call.DropTmpIndex, true), (Call.DeleteDuplicates, true), (Call.IndexAll, ok)] l) ∧
      ((Call.IndexTicketsTable, ok) ∈ l → List.Sublist
        [(Call.DropTmpIndex, true), (Call.DeleteDuplicates, true),
          (Call.IndexTicketsTable, ok)] l) ∧
      ((Call.DeleteDuplicates, false) ∈ l →
        (Call.IndexAll, ok) ∉ l ∧ (Call.IndexTicketsTable, ok) ∉ l) ∧
      (l.map Prod.fst).count Call.IndexAll ≤ 1 ∧
      (l.map Prod.fst).count Call.IndexTicketsTable ≤ 1 ∧
      (l.map Prod.fst).count Call.DeleteDuplicates ≤ 1 := by
  cases r <;> cases u <;> cases q <;> cases ok <;> decide

/-- C12. In every run of `SyncChainDB`, in the log of the maintenance calls (the calls
in call order, each with its outcome): every call of `IndexAll` and every call of
`IndexTicketsTable` comes after a call of `DeleteDuplicates` that succeeded, itself
after a drop of the temporary index that succeeded; when `DeleteDuplicates` failed,
neither `IndexAll` nor `IndexTicketsTable` is called; and each of the three is called
at most once. -/
theorem c12_dedup_before_index (env : Env) (fuel : Nat) (w : World) (ua ni ue bl ok : Bool) :
    ((Call.IndexAll, ok) ∈ stageLog (SyncChainDB env fuel w ua ni ue bl).2.trace →
      List.Sublist
        [(Call.DropTmpIndex, true), (Call.DeleteDuplicates, true), (Call.IndexAll, ok)]
        (stageLog (SyncChainDB env fuel w ua ni ue bl).2.trace)) ∧
    ((Call.IndexTicketsTable, ok) ∈ stageLog (SyncChainDB env fuel w ua ni ue bl).2.trace →
      List.Sublist
        [(Call.DropTmpIndex, true), (Call.DeleteDuplicates, true), (Call.IndexTicketsTable, ok)]
        (stageLog (SyncChainDB env fuel w ua ni ue bl).2.trace)) ∧
    ((Call.DeleteDuplicates, false) ∈ stageLog (SyncChainDB env fuel w ua ni ue bl).2.trace →
      (Call.IndexAll, ok) ∉ stageLog (SyncChainDB env fuel w ua ni ue bl).2.trace ∧
      (Call.IndexTicketsTable, ok) ∉ stageLog (SyncChainDB env fuel w ua ni ue bl).2.trace) ∧
    ((stageLog (SyncChainDB env fuel w ua ni ue bl).2.trace).map Prod.fst).count
      Call.IndexAll ≤ 1 ∧
    ((stageLog (SyncChainDB env fuel w ua ni ue bl).2.trace).map Prod.fst).count
      Call.IndexTicketsTable ≤ 1 ∧
    ((stageLog (SyncChainDB env fuel w ua ni ue bl).2.trace).map Prod.fst).count
      Call.DeleteDuplicates ≤ 1 :=
  logs_dedup_before_index _ _ _ ok _ (run_logs env fuel w ua ni ue bl).1

set_option maxRecDepth 100000 in
theorem logs_backfill_without_index (r q ok : Bool) :
    ∀ l ∈ runLogs r true q,
      ((Call.UpdateSpendingInfoInAllAddresses, ok) ∈ l →
        (List.Sublist [(Call.DeindexAddressTableOnMatchingTxHash, true),
            (Call.UpdateSpendingInfoInAllAddresses, ok)] l ∨
          List.Sublist [(Call.DeindexAddressTableOnMatchingTxHash, false),
            (Call.UpdateSpendingInfoInAllAddresses, ok)] l) ∧
        ¬List.Sublist [(Call.IndexAddressTableOnMatchingTxHash, true),
            (Call.UpdateSpendingInfoInAllAddresses, ok)] l ∧
        ¬List.Sublist [(Call.IndexAddressTableOnMatchingTxHash, false),
            (Call.UpdateSpendingInfoInAllAddresses, ok)] l) ∧
      ((Call.IndexAddressTableOnMatchingTxHash, ok) ∈ l →
        List.Sublist [(Call.UpdateSpendingInfoInAllAddresses, true),
          (Call.IndexAddressTableOnMatchingTxHash, ok)] l) ∧
      ((Call.UpdateSpendingInfoInAllAddresses, true) ∈ l →
        Call.IndexAddressTableOnMatchingTxHash ∈ l.map Prod.fst) ∧
      ((Call.AnalyzeTable Table.addresses deepStatsTarget, ok) ∈ l →
        List.Sublist [(Call.IndexAddressTableOnMatchingTxHash, true),
          (Call.AnalyzeTable Table.addresses deepStatsTarget, ok)] l) ∧
      (l.map Prod.fst).count Call.IndexAddressTableOnMatchingTxHash ≤ 1 ∧
      (l.map Prod.fst).count Call.UpdateSpendingInfoInAllAddresses ≤ 1 := by
  cases r <;> cases q <;> cases ok <;> decide

/-- C13. In every run of `SyncChainDB` in which the bulk address update is in effect,
in the log of the maintenance calls: a call of `UpdateSpendingInfoInAllAddresses`
comes after a call of `DeindexAddressTableOnMatchingTxHash` and after no call of
`IndexAddressTableOnMatchingTxHash`, which is thus not called in the reindexing
stage; a call of `IndexAddressTableOnMatchingTxHash` comes after the backfill that
succeeded; a backfill that succeeded is followed by that call; the ANALYZE of the
addresses table comes after that call, gone through; and the index call and the
backfill are made at most once. -/
theorem c13_backfill_without_index (env : Env) (fuel : Nat) (w : World) (ua ni ue bl ok : Bool)
    (hbulk : (mkCfg w (env.best 0) ua ni).updateAllAddresses = true) :
    ((Call.UpdateSpendingInfoInAllAddresses, ok) ∈
        stageLog (SyncChainDB env fuel w ua ni ue bl).2.trace →
      (List.Sublist [(Call.DeindexAddressTableOnMatchingTxHash, true),
          (Call.UpdateSpendingInfoInAllAddresses, ok)]
          (stageLog (SyncChainDB env fuel w ua ni ue bl).2.trace) ∨
        List.Sublist [(Call.DeindexAddressTableOnMatchingTxHash, false),
          (Call.UpdateSpendingInfoInAllAddresses, ok)]
          (stageLog (SyncChainDB env fuel w ua ni ue bl).2.trace)) ∧
      ¬List.Sublist [(Call.IndexAddressTableOnMatchingTxHash, true),
          (Call.UpdateSpendingInfoInAllAddresses, ok)]
          (stageLog (SyncChainDB env fuel w ua ni ue bl).2.trace) ∧
      ¬List.Sublist [(Call.IndexAddressTableOnMatchingTxHash, false),
          (Call.UpdateSpendingInfoInAllAddresses, ok)]
          (stageLog (SyncChainDB env fuel w ua ni ue bl).2.trace)) ∧
    ((Call.IndexAddressTableOnMatchingTxHash, ok) ∈
        stageLog (SyncChainDB env fuel w ua ni ue bl).2.trace →
      List.Sublist [(Call.UpdateSpendingInfoInAllAddresses, true),
        (Call.IndexAddressTableOnMatchingTxHash, ok)]
        (stageLog (SyncChainDB env fuel w ua ni ue bl).2.trace)) ∧
    ((Call.UpdateSpendingInfoInAllAddresses, true) ∈
        stageLog (SyncChainDB env fuel w ua ni ue bl).2.trace →
      Call.IndexAddressTableOnMatchingTxHash ∈
        (stageLog (SyncChainDB env fuel w ua ni ue bl).2.trace).map Prod.fst) ∧
    ((Call.AnalyzeTable Table.addresses deepStatsTarget, ok) ∈
        stageLog (SyncChainDB env fuel w ua ni ue bl).2.trace →
      List.Sublist [(Call.IndexAddressTableOnMatchingTxHash, true),
        (Call.AnalyzeTable Table.addresses deepStatsTarget, ok)]
        (stageLog (SyncChainDB env fuel w ua ni ue bl).2.trace)) ∧
    ((stageLog (SyncChainDB env fuel w ua ni ue bl).2.trace).map Prod.fst).count
      Call.IndexAddressTableOnMatchingTxHash ≤ 1 ∧
    ((stageLog (SyncChainDB env fuel w ua ni ue bl).2.trace).map Prod.fst).count
      Call.UpdateSpendingInfoInAllAddresses ≤ 1 := by
  have h := (run_logs env fuel w ua ni ue bl).1
  rw [hbulk] at h
  exact logs_backfill_without_index _ _ ok _ h

/-- A run of C13: the bulk address update asked for, store and stake database at
height 50, the block source at 53. -/
theorem c13_backfill_without_index_witness :
    ((stageLog (SyncChainDB (quietEnv 53) 5 ⟨50, 50, true, true, 1⟩ true false false
      false).2.trace).map Prod.fst).count Call.IndexAddressTableOnMatchingTxHash ≤ 1 :=
  (c13_backfill_without_index (quietEnv 53) 5 ⟨50, 50, true, true, 1⟩ true false false false
    true rfl).2.2.2.2.1

end Dcrpg

namespace Dcrpg

/-! ## Whole runs when nothing fails -/

theorem next_of_not_stop (x : Step) (h1 : x.isStop = false) (h2 : ∀ m s, x ≠ .panic m s) :
    ∃ s1, x = .next s1 := by
  cases x with
  | next s1 => exact ⟨s1, rfl⟩
  | stop h e s1 => simp [Step.isStop] at h1
  | panic m s1 => exact absurd rfl (h2 m s1)

theorem checkCancelled_isStop (env : Env) (hd : ∀ t, env.done t = false) (s : St) :
    (checkCancelled env s).isStop = false := by
  simp [checkCancelled, hd, Step.isStop]

theorem stages_isStop (env : Env) (hf : ∀ t, env.fails t = false)
    (hd : ∀ t, env.done t = false) (cfg : RunCfg) (s : St) :
    (stages env cfg s).isStop = false := by
  unfold stages
  refine Step.isStop_bind rfl fun s => ?_
  refine Step.isStop_bind ?_ fun s => ?_
  · unfold reindexStage
    split_ifs
    · refine Step.isStop_bind (attempt_isStop env hf _ _ _ _) fun s => ?_
      refine Step.isStop_bind (attempt_isStop env hf _ _ _ _) fun s => ?_
      refine Step.isStop_bind (attempt_isStop env hf _ _ _ _) fun s => ?_
      refine Step.isStop_bind (attempt_isStop env hf _ _ _ _) fun s => ?_
      refine Step.isStop_bind (attempt_isStop env hf _ _ _ _) fun s => ?_
      exact attempt_isStop env hf _ _ _ _
    · refine Step.isStop_bind (attempt_isStop env hf _ _ _ _) fun s => ?_
      refine Step.isStop_bind (attempt_isStop env hf _ _ _ _) fun s => ?_
      refine Step.isStop_bind (attempt_isStop env hf _ _ _ _) fun s => ?_
      refine Step.isStop_bind rfl fun s => ?_
      refine Step.isStop_bind (attempt_isStop env hf _ _ _ _) fun s => ?_
      exact attempt_isStop env hf _ _ _ _
    · rfl
  refine Step.isStop_bind (checkCancelled_isStop env hd s) fun s => ?_
  refine Step.isStop_bind ?_ fun s => ?_
  · have htail : ∀ s : St,
        ((Step.next (s.record .DeindexAddressTableOnMatchingTxHash
          (!env.fails s.now))).bind fun s =>
        (attempt env .UpdateSpendingInfoInAllAddresses s.nodeHeight .updateSpendingInfoFailed
          s).bind fun s =>
        (attempt env .IndexAddressTableOnMatchingTxHash s.nodeHeight .indexAddressTableFailed
          s).bind fun s =>
        attempt env (.AnalyzeTable .addresses deepStatsTarget) s.nodeHeight
          .analyzeAddressesFailed s).isStop = false := by
      intro s
      refine Step.isStop_bind rfl fun s => ?_
      refine Step.isStop_bind (attempt_isStop env hf _ _ _ _) fun s => ?_
      refine Step.isStop_bind (attempt_isStop env hf _ _ _ _) fun s => ?_
      exact attempt_isStop env hf _ _ _ _
    unfold addressesStage
    split_ifs
    · refine Step.isStop_bind ?_ htail
      exact Step.isStop_bind (attempt_isStop env hf _ _ _ _)
        (fun s => attempt_isStop env hf _ _ _ _)
    · exact Step.isStop_bind rfl htail
    · rfl
  refine Step.isStop_bind (checkCancelled_isStop env hd s) fun s => ?_
  unfold quickAnalyze
  split_ifs
  · exact attempt_isStop env hf _ _ _ _
  · rfl

theorem finalize_isStop (env : Env) (hf : ∀ t, env.fails t = false)
    (hd : ∀ t, env.done t = false) (s : St) : (finalize env s).isStop = false := by
  unfold finalize
  refine Step.isStop_bind (attemptW_isStop env hf _ _ _ _ _) fun s => ?_
  refine Step.isStop_bind (checkCancelled_isStop env hd s) fun s => ?_
  refine Step.isStop_bind rfl fun s => ?_
  exact pollBestBlock_isStop env hf _ s

/-- With a block source that never goes back and stays below `B`, no failing call and
a live context, a pass of `importBlocks` with enough fuel returns the node height it
polled last and leaves the loop head just above it. -/
theorem importBlocks_quiet_inv (env : Env) (cfg : RunCfg) (hf : ∀ t, env.fails t = false)
    (hd : ∀ t, env.done t = false) (hmono : Monotone env.best) (B : Int)
    (hB : ∀ t, env.best t ≤ B) (base : List Int) (start : Int) :
    ∀ (fuel : Nat) (ib : Int) (s : St), QuietInv env base start ib s →
      (B + 1 - ib).toNat ≤ fuel →
      ∃ s1, importBlocks env cfg fuel ib s = .done s1.nodeHeight s1 ∧
        QuietInv env base start (s1.nodeHeight + 1) s1 := by
  intro fuel
  induction fuel with
  | zero =>
    intro ib s hJ hfuel
    obtain ⟨t0, ht0, hb0⟩ := hJ.2.2.2.2.1
    have hb := hB t0
    have h3 := hJ.2.2.2.1
    have hn : ¬ ib ≤ s.nodeHeight := by omega
    have he : ib = s.nodeHeight + 1 := by omega
    exact ⟨s, by simp [importBlocks, hn], he ▸ hJ⟩
  | succ n ih =>
    intro ib s hJ hfuel
    by_cases hle : ib ≤ s.nodeHeight
    · obtain ⟨s1, hs1, hJ1⟩ := quietInv_step env cfg hf hd hmono base start ib s hJ hle
      obtain ⟨t0, _, hb0⟩ := hJ.2.2.2.2.1
      have hb := hB t0
      obtain ⟨s2, hs2, hrest⟩ := ih (ib + 1) s1 hJ1 (by omega)
      refine ⟨s2, ?_, hrest⟩
      rw [importBlocks, if_pos hle, hs1]
      exact hs2
    · have h3 := hJ.2.2.2.1
      have he : ib = s.nodeHeight + 1 := by omega
      exact ⟨s, by simp [importBlocks, hle], he ▸ hJ⟩

/-- The parts of `SyncChainDB` outside the import loop keep the loop head where it is,
when the block source never goes back. -/
theorem quietInv_side (env : Env) (hmono : Monotone env.best) (cls : Call → Bool)
    (base : List Int) (start ib : Int) (s s1 : St) (hJ : QuietInv env base start ib s)
    (hside : SideFrame env cls s s1) : QuietInv env base start ib s1 := by
  obtain ⟨h0, h1, h2, h3, ⟨t0, ht0, hb0⟩, h5, h6, h7⟩ := hJ
  obtain ⟨⟨n1, p1, l1, _, _, _, _⟩, _, _, hk, hd, _, _, _, _, _, _, _, hst, hsd, _, _⟩ := hside
  refine ⟨h0, by rw [hd, hk, h1], by rw [hd]; exact h2, ?_, ?_, l1 h5, by rw [hst, h6],
    by rw [hsd, h7]⟩
  · rcases p1 with p1 | ⟨t, ht1, ht2, ht3⟩
    · omega
    · have : env.best t0 ≤ env.best t := hmono (by omega)
      omega
  · rcases p1 with p1 | ⟨t, ht1, ht2, ht3⟩
    · exact ⟨t0, by omega, by rw [p1, hb0]⟩
    · exact ⟨t, ht2, ht3⟩

end Dcrpg

namespace Dcrpg

/-- With store height `L >= -1`, the stake height consistent with it, a block source
whose best height never decreases, is at least `L` and stays below `B`, no failing
call, a live context and enough fuel, `SyncChainDB` returns without error the height
polled last; the first import pass commits `L+1 .. n`, `n` being the height it
returns, and the catch-up pass, when the source moved on meanwhile, `n .. N`. -/
theorem run_quiet (env : Env) (fuel : Nat) (w : World) (ua ni ue bl : Bool) (B : Int)
    (hL : -1 ≤ w.chainCursor) (hS : w.stakeHeight = max w.chainCursor 0)
    (hmono : Monotone env.best) (hge : w.chainCursor ≤ env.best 0) (hB : ∀ t, env.best t ≤ B)
    (hf : ∀ t, env.fails t = false) (hd : ∀ t, env.done t = false)
    (hfuel : (B + 1 - w.chainCursor).toNat ≤ fuel) :
    ∃ n s, SyncChainDB env fuel w ua ni ue bl = (.returned s.nodeHeight none, s) ∧
      w.chainCursor ≤ n ∧ n ≤ s.nodeHeight ∧ (∃ t, s.nodeHeight = env.best t) ∧
      lastPolled env s.trace = some s.nodeHeight ∧
      storeCalls s.trace = heightsFromTo (w.chainCursor + 1) n ++
        (if n < s.nodeHeight then heightsFromTo n s.nodeHeight else []) ∧
      storedHeights s.trace = heightsFromTo (w.chainCursor + 1) n ++
        (if n < s.nodeHeight then heightsFromTo n s.nodeHeight else []) := by
  obtain ⟨s1, hs, hc, hk, hsdb, hnode, hlp, hnow, hst, hsd⟩ :=
    setup_quiet env hf w ua ni ue bl hL hS
  have hJ : QuietInv env [] (w.chainCursor + 1) (w.chainCursor + 1) s1 := by
    refine ⟨le_refl _, by rw [hsdb, hk], by rw [hsdb]; omega, by rw [hnode]; omega,
      ⟨0, hnow, hnode⟩, by rw [hlp, hnode], ?_, ?_⟩
    · rw [hst, heightsFromTo_empty _ _ (by omega)]; rfl
    · rw [hsd, heightsFromTo_empty _ _ (by omega)]; rfl
  obtain ⟨s2, hi, hJ2⟩ := importBlocks_quiet_inv env (mkCfg w (env.best 0) ua ni) hf hd hmono
    B hB [] (w.chainCursor + 1) fuel (w.chainCursor + 1) s1 hJ (by omega)
  obtain ⟨s3, hst3⟩ := next_of_not_stop _ (stages_isStop env hf hd (mkCfg w (env.best 0) ua ni) s2)
    (stages_ne_panic env _ s2)
  have hside3 := sideFrame_stages env (mkCfg w (env.best 0) ua ni) s2
  rw [hst3] at hside3
  have hJ3 := quietInv_side env hmono _ _ _ _ s2 s3 hJ2 hside3
  obtain ⟨s4, hfin⟩ := next_of_not_stop _ (finalize_isStop env hf hd s3)
    (finalize_ne_panic env s3)
  have hside4 := sideFrame_finalize env s3
  rw [hfin] at hside4
  have hJ4 := quietInv_side env hmono _ _ _ _ s3 s4 hJ3 hside4
  have hn3 : s3.nodeHeight = s2.nodeHeight := hside3.2.1 rfl
  have hrun : SyncChainDB env fuel w ua ni ue bl =
      match catchUp env (mkCfg w (env.best 0) ua ni) fuel s2.nodeHeight s4 with
      | .stop h e s5 => (.returned h (some e), s5)
      | .panic m s5 => (.panicked m, s5)
      | .outOfFuel s5 => (.outOfFuel, s5)
      | .done _ s5 => complete env (mkCfg w (env.best 0) ua ni) s5 := by
    have hstart : (mkCfg w (env.best 0) ua ni).startHeight = w.chainCursor + 1 := rfl
    simp only [SyncChainDB, hs, hstart, hi, afterImport, maintenance, hst3, Step.bind_next, hfin]
  obtain ⟨j0, j1, j2, j3, j4, j5, j6, j7⟩ := hJ4
  have hb0 : w.chainCursor ≤ s2.nodeHeight := by
    have := hJ2.1
    omega
  have hfinish : ∀ s5 : St, s5.nodeHeight = s4.nodeHeight ∨ s4.nodeHeight > s2.nodeHeight →
      s2.nodeHeight ≤ s5.nodeHeight → (∃ t, s5.nodeHeight = env.best t) →
      lastPolled env s5.trace = some s5.nodeHeight →
      storeCalls s5.trace = heightsFromTo (w.chainCursor + 1) s2.nodeHeight ++
        (if s2.nodeHeight < s5.nodeHeight then heightsFromTo s2.nodeHeight s5.nodeHeight
          else []) →
      storedHeights s5.trace = heightsFromTo (w.chainCursor + 1) s2.nodeHeight ++
        (if s2.nodeHeight < s5.nodeHeight then heightsFromTo s2.nodeHeight s5.nodeHeight
          else []) →
      ∃ n s, complete env (mkCfg w (env.best 0) ua ni) s5 = (.returned s.nodeHeight none, s) ∧
        w.chainCursor ≤ n ∧ n ≤ s.nodeHeight ∧ (∃ t, s.nodeHeight = env.best t) ∧
        lastPolled env s.trace = some s.nodeHeight ∧
        storeCalls s.trace = heightsFromTo (w.chainCursor + 1) n ++
          (if n < s.nodeHeight then heightsFromTo n s.nodeHeight else []) ∧
        storedHeights s.trace = heightsFromTo (w.chainCursor + 1) n ++
          (if n < s.nodeHeight then heightsFromTo n s.nodeHeight else []) := by
    intro s5 _ hle hbt hlp5 hsc5 hsh5
    have hcs := sideFrame_complete env (mkCfg w (env.best 0) ua ni) s5
    have hn6 : (complete env (mkCfg w (env.best 0) ua ni) s5).2.nodeHeight = s5.nodeHeight :=
      hcs.2.1 rfl
    refine ⟨s2.nodeHeight, (complete env (mkCfg w (env.best 0) ua ni) s5).2, ?_, hb0, ?_, ?_,
      ?_, ?_, ?_⟩
    · rw [hn6]
      exact Prod.ext (complete_fst env _ s5) rfl
    · rw [hn6]; exact hle
    · rw [hn6]; exact hbt
    · exact hcs.1.2.2.1 hlp5
    · rw [hn6, hcs.2.2.2.2.2.2.2.2.2.2.2.2.1, hsc5]
    · rw [hn6, hcs.2.2.2.2.2.2.2.2.2.2.2.2.2.1, hsh5]
  rw [hrun]
  by_cases hgt : s4.nodeHeight > s2.nodeHeight
  · have hJc : QuietInv env (heightsFromTo (w.chainCursor + 1) s2.nodeHeight) s2.nodeHeight
        s2.nodeHeight s4 := by
      refine ⟨le_refl _, j1, by omega, by omega, j4, j5, ?_, ?_⟩
      · rw [j6, heightsFromTo_empty s2.nodeHeight _ (by omega)]
        simp
      · rw [j7, heightsFromTo_empty s2.nodeHeight _ (by omega)]
        simp
    obtain ⟨s5, hi5, hJ5⟩ := importBlocks_quiet_inv env (mkCfg w (env.best 0) ua ni) hf hd hmono
      B hB _ s2.nodeHeight fuel s2.nodeHeight s4 hJc (by omega)
    simp only [catchUp, if_pos hgt, hi5]
    obtain ⟨k0, k1, k2, k3, k4, k5, k6, k7⟩ := hJ5
    have hlt : s2.nodeHeight < s5.nodeHeight := by
      have := frame_importBlocks env (mkCfg w (env.best 0) ua ni) fuel s2.nodeHeight s4
      rw [hi5] at this
      obtain ⟨_, p1, _⟩ := this
      simp only [LoopResult.st] at p1
      obtain ⟨t4, ht4, hb4⟩ := j4
      rcases p1 with p1 | ⟨t, ht1, ht2, ht3⟩
      · omega
      · have : env.best t4 ≤ env.best t := hmono (by omega)
        omega
    refine hfinish s5 (Or.inr hgt) (by omega) (k4.imp fun t ht => ht.2) k5 ?_ ?_
    · rw [k6, if_pos hlt, show s5.nodeHeight + 1 - 1 = s5.nodeHeight by omega]
    · rw [k7, if_pos hlt, show s5.nodeHeight + 1 - 1 = s5.nodeHeight by omega]
  · simp only [catchUp, if_neg hgt]
    have heq : s4.nodeHeight = s2.nodeHeight := by omega
    refine hfinish s4 (Or.inl rfl) (by omega) (j4.imp fun t ht => ht.2) j5 ?_ ?_
    · rw [j6, if_neg (by omega), show s2.nodeHeight + 1 - 1 = s2.nodeHeight by omega]
      simp
    · rw [j7, if_neg (by omega), show s2.nodeHeight + 1 - 1 = s2.nodeHeight by omega]
      simp

end Dcrpg

namespace Dcrpg

/-- C14, at a concrete input: with the store at height 50 and the block source at 53
until the last poll, then at 55, the first import pass commits 51, 52 and 53, and the
catch-up pass, entered as `importBlocks(endHeight)` with `endHeight = 53`, commits
53 again before 54 and 55; with one transaction per block the run total is 6 for 5
blocks. -/
theorem c14_catch_up_recommits_end_height :
    (SyncChainDB (risingEnv 53 55 29) 5 ⟨50, 50, true, true, 1⟩ false false false false).1 =
      .returned 55 none ∧
    storeCalls
      (SyncChainDB (risingEnv 53 55 29) 5 ⟨50, 50, true, true, 1⟩ false false false false).2.trace
      = [51, 52, 53, 53, 54, 55] ∧
    storedHeights
      (SyncChainDB (risingEnv 53 55 29) 5 ⟨50, 50, true, true, 1⟩ false false false false).2.trace
      = [51, 52, 53, 53, 54, 55] ∧
    (SyncChainDB (risingEnv 53 55 29) 5 ⟨50, 50, true, true, 1⟩ false false false false).2.totalTxs
      = 6 := by
  decide

set_option maxRecDepth 100000 in
theorem logs_no_reindexing (u q : Bool) :
    ∀ l ∈ runLogs false u q, ∀ a ∈ l, a.1 ∉ reindexingCalls := by
  cases u <;> cases q <;> decide

set_option maxRecDepth 100000 in
theorem logs_reindexing_done (u q : Bool) :
    ∀ l ∈ doneLogs (script (flagsCfg true u q)),
      List.Sublist reindexingCalls (l.map Prod.fst) ∧
        ∀ c ∈ reindexingCalls, c = Call.DeindexAll ∨ (c, true) ∈ l := by
  cases u <;> cases q <;> decide

theorem mkCfg_reindexing (w : World) (nodeHeight : Int) (ua ni : Bool) :
    (mkCfg w nodeHeight ua ni).reindexing = true ↔
      (ni = true ∨ w.chainCursor = -1 ∨ w.ibdComplete = false) := by
  simp [mkCfg, or_assoc]

/-- C15. In every run of `SyncChainDB`: reindexing is in effect if and only if
`newIndexes` is set, or the store is empty (height -1), or the flag
`meta.ibd_complete` was false at entry; when it is not, none of `DeindexAll`, the
creation and the drop of the temporary index, `DeleteDuplicates`, `IndexAll`,
`IndexTicketsTable` and the deep ANALYZE is called; when it is, set-up that falls
through has called `DeindexAll` and created the temporary index, no block committed
yet, and a run that returns without error has called all seven, in this order, each
but `DeindexAll` with success. -/
theorem c15_reindexing_iff (env : Env) (fuel : Nat) (w : World) (ua ni ue bl : Bool) :
    ((mkCfg w (env.best 0) ua ni).reindexing = true ↔
      (ni = true ∨ w.chainCursor = -1 ∨ w.ibdComplete = false)) ∧
    (¬(ni = true ∨ w.chainCursor = -1 ∨ w.ibdComplete = false) →
      ∀ a ∈ stageLog (SyncChainDB env fuel w ua ni ue bl).2.trace, a.1 ∉ reindexingCalls) ∧
    ((ni = true ∨ w.chainCursor = -1 ∨ w.ibdComplete = false) →
      (∀ s1, setup env w ua ni ue bl = .next s1 →
        (stageLog s1.trace).map Prod.fst = [Call.DeindexAll, Call.CreateTmpIndex] ∧
          storedHeights s1.trace = []) ∧
      ∀ h, (SyncChainDB env fuel w ua ni ue bl).1 = .returned h none →
        List.Sublist reindexingCalls
          ((stageLog (SyncChainDB env fuel w ua ni ue bl).2.trace).map Prod.fst) ∧
        ∀ c ∈ reindexingCalls, c = Call.DeindexAll ∨
          (c, true) ∈ stageLog (SyncChainDB env fuel w ua ni ue bl).2.trace) := by
  have hiff := mkCfg_reindexing w (env.best 0) ua ni
  obtain ⟨hlogs, hdone⟩ := run_logs env fuel w ua ni ue bl
  refine ⟨hiff, fun hn => ?_, fun hy => ⟨fun s1 hs => ?_, fun h he => ?_⟩⟩
  · have hr : (mkCfg w (env.best 0) ua ni).reindexing = false := by
      cases hc : (mkCfg w (env.best 0) ua ni).reindexing with
      | false => rfl
      | true => exact absurd (hiff.1 hc) hn
    rw [hr] at hlogs
    exact logs_no_reindexing _ _ _ hlogs
  · have hr := hiff.2 hy
    refine ⟨?_, (setup_entry env w ua ni ue bl s1 hs).2.2.2⟩
    have hlog0 := reconcile_stageLog env w ue bl
    unfold setup at hs
    revert hlog0 hs
    cases reconcile env w ue bl with
    | stop h e s => intro hs _; simp only [Step.bind_stop] at hs; cases hs
    | panic m s => intro hs _; simp only [Step.bind_panic] at hs; cases hs
    | next s0 =>
      intro hs hlog0
      simp only [Step.bind_next] at hs
      simp only [Step.st_next] at hlog0
      have hp := prepare_script env (mkCfg w (env.best 0) ua ni) w.chainCursor w.ibdComplete s0
      rw [hs] at hp
      obtain ⟨l, hl, hd⟩ := hp
      rw [hlog0, List.nil_append] at hl
      rw [prepareMarked_calls, prepareScript, if_pos hr] at hd
      rw [hl, hd.1]
  · have hr := hiff.2 hy
    have hmem := hdone h he
    have hscript : script (mkCfg w (env.best 0) ua ni) =
        script (flagsCfg true (mkCfg w (env.best 0) ua ni).updateAllAddresses
          (mkCfg w (env.best 0) ua ni).requireAnalyze) := by
      simp only [script, prepareScript, reindexScript, addressesScript, quickScript, flagsCfg,
        hr]
    rw [hscript] at hmem
    exact logs_reindexing_done _ _ _ hmem

/-- The two scenarios of C15: an empty store with the source at height 3, which
reindexes, and a store at height 50 with the source at 53 and no flags, which does
not. -/
theorem c15_reindexing_iff_witness :
    (List.Sublist reindexingCalls
        ((stageLog (SyncChainDB (quietEnv 3) 5 ⟨-1, 0, true, true, 0⟩ false false false
          false).2.trace).map Prod.fst) ∧
      ∀ c ∈ reindexingCalls, c = Call.DeindexAll ∨
        (c, true) ∈ stageLog (SyncChainDB (quietEnv 3) 5 ⟨-1, 0, true, true, 0⟩ false false false
          false).2.trace) ∧
    ∀ a ∈ stageLog (SyncChainDB (quietEnv 53) 5 ⟨50, 50, true, true, 1⟩ false false false
      false).2.trace, a.1 ∉ reindexingCalls :=
  ⟨((c15_reindexing_iff (quietEnv 3) 5 ⟨-1, 0, true, true, 0⟩ false false false false).2.2
      (Or.inr (Or.inl rfl))).2 3 rfl,
    (c15_reindexing_iff (quietEnv 53) 5 ⟨50, 50, true, true, 1⟩ false false false false).2.1
      (by decide)⟩

end Dcrpg

namespace Dcrpg

/-- A pass entered with the node height below its first height does nothing. -/
theorem importBlocks_none (env : Env) (cfg : RunCfg) (fuel : Nat) (start : Int) (s : St)
    (h : s.nodeHeight < start) : importBlocks env cfg fuel start s = .done s.nodeHeight s := by
  cases fuel <;> simp [importBlocks, not_le.2 h]

theorem reconcile_totals (env : Env) (w : World) (ue bl : Bool) :
    (reconcile env w ue bl).st.totalTxs = 0 ∧ (reconcile env w ue bl).st.totalVins = 0 ∧
    (reconcile env w ue bl).st.totalVouts = 0 ∧
    (reconcile env w ue bl).st.totalAddresses = 0 := by
  simp only [reconcile, pollBestBlock, attempt, readStakeDBHeight, rewindStakeDB, Step.bind_ite,
    Step.bind_next, Step.bind_stop, Step.bind_panic]
  split_ifs <;> simp [initSt]

theorem idle_side (env : Env) (cls : Call → Bool) (s s1 : St) (h : Idle s)
    (hside : SideFrame env cls s s1) : Idle s1 := by
  obtain ⟨h1, h2, h3, h4, h5, h6, h7⟩ := h
  obtain ⟨_, _, _, _, _, t1, t2, t3, t4, c1, c2, _, c4, _⟩ := hside
  exact ⟨by rw [c1, h1], by rw [c2, h2], by rw [c4, h3], by rw [t1, h4], by rw [t2, h5],
    by rw [t3, h6], by rw [t4, h7]⟩

/-- With the store, the stake database and the block source at the same height, the
flag set and no flag asked for, a run fetches, connects and commits no block and
leaves the totals at zero, whatever else happens. -/
theorem run_idle (env : Env) (fuel : Nat) (w : World) (ue bl : Bool)
    (hL : 0 ≤ w.chainCursor) (hbest : ∀ t, env.best t = w.chainCursor) :
    Idle (SyncChainDB env fuel w false false ue bl).2 := by
  have hspec := reconcile_spec env w ue bl
  have htot := reconcile_totals env w ue bl
  cases hr : reconcile env w ue bl with
  | panic m s =>
    rw [hr] at hspec
    obtain ⟨_, hlt, _⟩ := hspec
    omega
  | stop h e s =>
    rw [hr] at hspec htot
    rw [SyncChainDB_of_reconcile_stop env fuel w false false ue bl h e s hr]
    obtain ⟨_, hfc, hcc, _, hsc, _⟩ := hspec
    exact ⟨hfc, hcc, hsc, htot⟩
  | next s0 =>
    rw [hr] at hspec htot
    obtain ⟨_, _, _, _, _, _, _, _, hnode, _, _, _, _, _, _, _, _, _, hfc, hcc, _, hsc, _⟩ := hspec
    rw [hbest 0] at hnode
    have h0 : Idle s0 := ⟨hfc, hcc, hsc, htot⟩
    refine run_spec env fuel w false false ue bl (fun y => Idle y.2)
      (fun s => Idle s ∧ s.nodeHeight = w.chainCursor)
      (fun s => Idle s ∧ s.nodeHeight = w.chainCursor) (fun s => Idle s)
      (fun n s => Idle s ∧ s.nodeHeight = w.chainCursor ∧ n = w.chainCursor)
      (fun n s => Idle s ∧ s.nodeHeight = w.chainCursor ∧ n = w.chainCursor)
      (fun n s => Idle s ∧ s.nodeHeight = w.chainCursor ∧ n = w.chainCursor)
      ?_ ?_ ?_ ?_ ?_ ?_ s0 hr ⟨h0, hnode⟩
    · rintro s ⟨hi, hn⟩
      have hside := sideFrame_prepare env (mkCfg w (env.best 0) false false) w.chainCursor
        w.ibdComplete s
      revert hside
      cases prepare env (mkCfg w (env.best 0) false false) w.chainCursor w.ibdComplete s with
      | next s1 => exact fun hside => ⟨idle_side env _ s s1 hi hside, (hside.2.1 rfl).trans hn⟩
      | stop h e s1 => exact fun hside => idle_side env _ s s1 hi hside
      | panic m s1 => exact fun hside => idle_side env _ s s1 hi hside
    · rintro s ⟨hi, hn⟩
      have hstart : (mkCfg w (env.best 0) false false).startHeight = w.chainCursor + 1 := rfl
      rw [hstart, importBlocks_none env _ fuel _ s (by omega)]
      exact ⟨hi, hn, hn⟩
    · rintro n s ⟨hi, hn, hnn⟩
      have hside := sideFrame_stages env (mkCfg w (env.best 0) false false) s
      revert hside
      cases stages env (mkCfg w (env.best 0) false false) s with
      | next s1 =>
        exact fun hside => ⟨idle_side env _ s s1 hi hside, (hside.2.1 rfl).trans hn, hnn⟩
      | stop h e s1 => exact fun hside => idle_side env _ s s1 hi hside
      | panic m s1 => exact fun hside => idle_side env _ s s1 hi hside
    · rintro n s ⟨hi, hn, hnn⟩
      have hside := sideFrame_finalize env s
      revert hside
      cases finalize env s with
      | next s1 =>
        intro hside
        refine ⟨idle_side env _ s s1 hi hside, ?_, hnn⟩
        rcases hside.1.2.1 with p | ⟨t, _, _, ht⟩
        · exact p.trans hn
        · exact ht.trans (hbest t)
      | stop h e s1 => exact fun hside => idle_side env _ s s1 hi hside
      | panic m s1 => exact fun hside => idle_side env _ s s1 hi hside
    · rintro n s ⟨hi, hn, hnn⟩
      have : ¬ s.nodeHeight > n := by omega
      simp only [catchUp, if_neg this]
      exact hi
    · intro s hi
      exact idle_side env _ s _ hi (sideFrame_complete env _ s)

/-- With store, stake database and source level, no failing call and a live context,
the run returns the common height, whatever the fuel. -/
theorem run_idle_returns (env : Env) (fuel : Nat) (w : World) (ue bl : Bool)
    (hL : 0 ≤ w.chainCursor) (hS : w.stakeHeight = w.chainCursor)
    (hbest : ∀ t, env.best t = w.chainCursor)
    (hf : ∀ t, env.fails t = false) (hd : ∀ t, env.done t = false) :
    (SyncChainDB env fuel w false false ue bl).1 = .returned w.chainCursor none := by
  obtain ⟨s1, hs, _, _, _, hnode, _⟩ :=
    setup_quiet env hf w false false ue bl (by omega) (by rw [hS]; omega)
  rw [hbest 0] at hnode
  have hstart : (mkCfg w (env.best 0) false false).startHeight = w.chainCursor + 1 := rfl
  have hi := importBlocks_none env (mkCfg w (env.best 0) false false) fuel
    (w.chainCursor + 1) s1 (by omega)
  obtain ⟨s3, hst3⟩ := next_of_not_stop _
    (stages_isStop env hf hd (mkCfg w (env.best 0) false false) s1) (stages_ne_panic env _ s1)
  have hside3 := sideFrame_stages env (mkCfg w (env.best 0) false false) s1
  rw [hst3] at hside3
  obtain ⟨s4, hfin⟩ := next_of_not_stop _ (finalize_isStop env hf hd s3)
    (finalize_ne_panic env s3)
  have hside4 := sideFrame_finalize env s3
  rw [hfin] at hside4
  have hn4 : s4.nodeHeight = w.chainCursor := by
    rcases hside4.1.2.1 with p | ⟨t, _, _, ht⟩
    · exact p.trans ((hside3.2.1 rfl).trans hnode)
    · exact ht.trans (hbest t)
  have hng : ¬ s4.nodeHeight > s1.nodeHeight := by omega
  have hrun : SyncChainDB env fuel w false false ue bl =
      complete env (mkCfg w (env.best 0) false false) s4 := by
    simp only [SyncChainDB, hs, hstart, hi, afterImport, maintenance, hst3, Step.bind_next, hfin,
      catchUp, if_neg hng]
  rw [hrun, complete_fst, hn4]

set_option maxRecDepth 100000 in
theorem logs_idle : ∀ l ∈ runLogs false false false, l = [] := by
  decide

/-- C16. For every height `L >= 0`, when the store height, the stake height and the
best height of the block source all equal `L`, the flag `meta.ibd_complete` is set and
neither flag is asked for: `SyncChainDB` fetches, connects and commits no block,
leaves the four run totals at zero and makes no maintenance call (no index work, no
removal of duplicates, no ANALYZE, no backfill); and when no call fails and the
context stays live it returns `(L, nil)`. -/
theorem c16_idle_run (env : Env) (fuel : Nat) (w : World) (ue bl : Bool)
    (hL : 0 ≤ w.chainCursor) (hS : w.stakeHeight = w.chainCursor)
    (hbest : ∀ t, env.best t = w.chainCursor) (hflag : w.ibdComplete = true) :
    fetchCalls (SyncChainDB env fuel w false false ue bl).2.trace = [] ∧
    connectCalls (SyncChainDB env fuel w false false ue bl).2.trace = [] ∧
    storeCalls (SyncChainDB env fuel w false false ue bl).2.trace = [] ∧
    (SyncChainDB env fuel w false false ue bl).2.totalTxs = 0 ∧
    (SyncChainDB env fuel w false false ue bl).2.totalVins = 0 ∧
    (SyncChainDB env fuel w false false ue bl).2.totalVouts = 0 ∧
    (SyncChainDB env fuel w false false ue bl).2.totalAddresses = 0 ∧
    stageLog (SyncChainDB env fuel w false false ue bl).2.trace = [] ∧
    ((∀ t, env.fails t = false) → (∀ t, env.done t = false) →
      (SyncChainDB env fuel w false false ue bl).1 = .returned w.chainCursor none) := by
  obtain ⟨i1, i2, i3, i4, i5, i6, i7⟩ := run_idle env fuel w ue bl hL hbest
  refine ⟨i1, i2, i3, i4, i5, i6, i7, ?_, fun hf hd => ?_⟩
  · have hlogs := (run_logs env fuel w false false ue bl).1
    have hne : (w.chainCursor == -1) = false := by
      rw [beq_eq_false_iff_ne]
      omega
    have h1 : (mkCfg w (env.best 0) false false).reindexing = false := by
      simp [mkCfg, hflag, hne]
    have h2 : (mkCfg w (env.best 0) false false).updateAllAddresses = false := by
      simp [mkCfg, hflag]
    have h3 : (mkCfg w (env.best 0) false false).requireAnalyze = false := by
      simp [mkCfg, hflag, hne, hbest 0]
    rw [h1, h2, h3] at hlogs
    exact logs_idle _ hlogs
  · exact run_idle_returns env fuel w ue bl hL hS hbest hf hd

/-- Scenario B, a run of C16: store, stake database and source at height 100. -/
theorem c16_idle_run_witness :
    (SyncChainDB (quietEnv 100) 0 ⟨100, 100, true, true, 1⟩ false false false false).1 =
      .returned 100 none :=
  (c16_idle_run (quietEnv 100) 0 ⟨100, 100, true, true, 1⟩ false false (by decide) rfl
    (fun _ => rfl) rfl).2.2.2.2.2.2.2.2 (fun _ => rfl) (fun _ => rfl)

end Dcrpg

namespace Dcrpg

/-! ## The duplicate check toggle -/

theorem effect_dupCheck (d : Bool) (c : Call) (w : World) (hc : keepsDupCheck d c = true)
    (hw : w.dupCheck = d) : (effect c w).dupCheck = d := by
  cases c <;>
    simp_all [effect, keepsDupCheck, connectBlockEffect, storeBlockEffect, setIBDEffect]

theorem closed_dupCheck (env : Env) (d : Bool) :
    StepClosed env (keepsDupCheck d) (DupCheckKept d) where
  refl := fun _ => ⟨[], by simp, fun h => ⟨h, by simp⟩⟩
  trans := by
    rintro a b c ⟨e1, h1, k1⟩ ⟨e2, h2, k2⟩
    refine ⟨e1 ++ e2, by rw [h2, h1, List.append_assoc], fun h => ?_⟩
    obtain ⟨hb, he1⟩ := k1 h
    obtain ⟨hc, he2⟩ := k2 hb
    refine ⟨hc, fun e he => ?_⟩
    rcases List.mem_append.1 he with he | he
    · exact he1 e he
    · exact he2 e he
  failed := fun s c _ _ => ⟨[⟨c, false, s.w⟩], rfl, fun h => ⟨h, by simpa using h⟩⟩
  passed := fun s c hc _ => ⟨[⟨c, true, effect c s.w⟩], rfl, fun h =>
    ⟨effect_dupCheck d c s.w hc h, by simpa using effect_dupCheck d c s.w hc h⟩⟩
  nodeHeight := fun _ _ => ⟨[], by simp, fun h => ⟨h, by simp⟩⟩
  stakeDBHeight := fun _ _ => ⟨[], by simp, fun h => ⟨h, by simp⟩⟩
  stage := fun _ _ => ⟨[], by simp, fun h => ⟨h, by simp⟩⟩
  counts := fun _ _ => ⟨[], by simp [St.addCounts], fun h => ⟨h, by simp⟩⟩
  progress := fun s p _ => by
    unfold sendProgressUpdate
    split_ifs
    · exact ⟨[⟨.SendProgress p, false, s.w⟩], rfl, fun h => ⟨h, by simpa using h⟩⟩
    · exact ⟨[⟨.SendProgress p, true, s.w⟩], rfl, fun h => ⟨h, by simpa using h⟩⟩
    · exact ⟨[], by simp, fun h => ⟨h, by simp⟩⟩
  page := fun s p _ => by
    unfold sendPageData
    split_ifs
    · exact ⟨[⟨.SendPageData p, false, s.w⟩], rfl, fun h => ⟨h, by simpa using h⟩⟩
    · exact ⟨[⟨.SendPageData p, true, s.w⟩], rfl, fun h => ⟨h, by simpa using h⟩⟩
    · exact ⟨[], by simp, fun h => ⟨h, by simp⟩⟩

theorem keepsDupCheck_loop (d : Bool) (c : Call) (h : isLoopCall c = true) :
    keepsDupCheck d c = true := by
  cases c <;> simp_all [isLoopCall, keepsDupCheck]

theorem prepareIndexes_dupCheck (env : Env) (cfg : RunCfg) (lastBlock : Int) (s s1 : St)
    (h : prepareIndexes env cfg lastBlock s = .next s1) : s1.w.dupCheck = !cfg.reindexing := by
  revert h
  simp only [prepareIndexes, deindexAll, attempt, enableDuplicateCheckOnInsert, Step.bind_ite,
    Step.bind_next, Step.bind_stop]
  split_ifs <;> intro h <;> simp_all <;> subst h <;> simp

/-- Set-up that falls through leaves the duplicate check off when the run is
reindexing and on when it is not. -/
theorem prepare_dupCheck (env : Env) (cfg : RunCfg) (lastBlock : Int) (ibd : Bool) (s s1 : St)
    (h : prepare env cfg lastBlock ibd s = .next s1) : s1.w.dupCheck = !cfg.reindexing := by
  unfold prepare at h
  cases hw : warmUtxoCache env s with
  | stop _ _ _ => rw [hw] at h; cases h
  | panic _ _ => rw [hw] at h; cases h
  | next sa =>
    rw [hw, Step.bind_next] at h
    cases hp : prepareIndexes env cfg lastBlock sa with
    | stop _ _ _ => rw [hp] at h; cases h
    | panic _ _ => rw [hp] at h; cases h
    | next sb =>
      rw [hp, Step.bind_next] at h
      have hb := prepareIndexes_dupCheck env cfg lastBlock sa sb hp
      have hR := closed_dupCheck env (!cfg.reindexing)
      have hrest : DupCheckKept (!cfg.reindexing) sb
          ((clearIBDComplete env cfg ibd sb).bind fun s => announce env cfg s).st :=
        Step.bind_rel hR.trans (closed_clearIBDComplete hR cfg ibd sb rfl)
          (fun s => closed_announce hR cfg s (fun _ => rfl))
      rw [h] at hrest
      obtain ⟨_, _, hk⟩ := hrest
      exact (hk hb).1

/-- The part before the catch-up, when it falls through, leaves the duplicate check
on. -/
theorem finalize_dupCheck (env : Env) (s s4 : St) (h : finalize env s = .next s4) :
    s4.w.dupCheck = true := by
  revert h
  simp only [finalize, setIBDComplete, attemptW, checkCancelled, enableDuplicateCheckOnInsert,
    pollForCatchUp, pollBestBlock, Step.bind_ite, Step.bind_next, Step.bind_stop]
  split_ifs <;> intro h <;> simp_all
  subst h
  simp

theorem run_dupCheck (env : Env) (fuel : Nat) (w : World) (ua ni ue bl : Bool) (h : Int)
    (he : (SyncChainDB env fuel w ua ni ue bl).1 = .returned h none) :
    (SyncChainDB env fuel w ua ni ue bl).2.w.dupCheck = true := by
  cases hr : reconcile env w ue bl with
  | stop h1 e s =>
    rw [SyncChainDB_of_reconcile_stop env fuel w ua ni ue bl h1 e s hr] at he
    cases he
  | panic m s =>
    rw [SyncChainDB_of_reconcile_panic env fuel w ua ni ue bl m s hr] at he
    cases he
  | next s0 =>
    refine run_spec env fuel w ua ni ue bl
      (fun y => (∃ h, y.1 = .returned h none) → y.2.w.dupCheck = true)
      (fun _ => True) (fun _ => True) (fun s => s.w.dupCheck = true)
      (fun _ _ => True) (fun _ _ => True) (fun _ s => s.w.dupCheck = true)
      ?_ ?_ ?_ ?_ ?_ ?_ s0 hr trivial ⟨h, he⟩
    · intro s _
      cases prepare env (mkCfg w (env.best 0) ua ni) w.chainCursor w.ibdComplete s with
      | next s1 => trivial
      | stop h e s1 => rintro ⟨_, hx⟩; cases hx
      | panic m s1 => rintro ⟨_, hx⟩; cases hx
    · intro s _
      cases importBlocks env (mkCfg w (env.best 0) ua ni) fuel
        (mkCfg w (env.best 0) ua ni).startHeight s with
      | done n s1 => trivial
      | stop h e s1 => rintro ⟨_, hx⟩; cases hx
      | panic m s1 => rintro ⟨_, hx⟩; cases hx
      | outOfFuel s1 => rintro ⟨_, hx⟩; cases hx
    · intro n s _
      cases stages env (mkCfg w (env.best 0) ua ni) s with
      | next s1 => trivial
      | stop h e s1 => rintro ⟨_, hx⟩; cases hx
      | panic m s1 => rintro ⟨_, hx⟩; cases hx
    · intro n s _
      cases hf : finalize env s with
      | next s1 => exact finalize_dupCheck env s s1 hf
      | stop h e s1 => rintro ⟨_, hx⟩; cases hx
      | panic m s1 => rintro ⟨_, hx⟩; cases hx
    · intro n s hd
      have hk := closed_catchUp (closed_dupCheck env true) (keepsDupCheck_loop true)
        (mkCfg w (env.best 0) ua ni) fuel n s
      obtain ⟨_, _, hk⟩ := hk
      revert hk
      cases catchUp env (mkCfg w (env.best 0) ua ni) fuel n s with
      | done n s1 => exact fun hk => (hk hd).1
      | stop h e s1 => rintro _ ⟨_, hx⟩; cases hx
      | panic m s1 => rintro _ ⟨_, hx⟩; cases hx
      | outOfFuel s1 => rintro _ ⟨_, hx⟩; cases hx
    · intro s hd _
      rw [complete_w]
      exact hd

/-- C17. In every run of `SyncChainDB`: reindexing is in effect if and only if
`newIndexes` is set, or the store is empty, or the flag `meta.ibd_complete` was false
at entry; right after every call of the first import pass, each `StoreBlock` among
them, the duplicate check is off when the run is reindexing and on when it is not;
right after every call of the catch-up pass, which starts from a state `finalize`
fell through to, it is on; and it is on when the run returns without error. -/
theorem c17_duplicate_check (env : Env) (fuel : Nat) (w : World) (ua ni ue bl : Bool) :
    ((mkCfg w (env.best 0) ua ni).reindexing = true ↔
      (ni = true ∨ w.chainCursor = -1 ∨ w.ibdComplete = false)) ∧
    (∀ s1, setup env w ua ni ue bl = .next s1 →
      ∃ evs, (importBlocks env (mkCfg w (env.best 0) ua ni) fuel
          (mkCfg w (env.best 0) ua ni).startHeight s1).st.trace = s1.trace ++ evs ∧
        ∀ e ∈ evs, e.after.dupCheck = !(mkCfg w (env.best 0) ua ni).reindexing) ∧
    (∀ s3 s4 n, finalize env s3 = .next s4 →
      ∃ evs, (catchUp env (mkCfg w (env.best 0) ua ni) fuel n s4).st.trace = s4.trace ++ evs ∧
        ∀ e ∈ evs, e.after.dupCheck = true) ∧
    (∀ h, (SyncChainDB env fuel w ua ni ue bl).1 = .returned h none →
      (SyncChainDB env fuel w ua ni ue bl).2.w.dupCheck = true) := by
  refine ⟨mkCfg_reindexing w (env.best 0) ua ni, fun s1 hs => ?_, fun s3 s4 n hf => ?_,
    fun h he => run_dupCheck env fuel w ua ni ue bl h he⟩
  · have hd : s1.w.dupCheck = !(mkCfg w (env.best 0) ua ni).reindexing := by
      unfold setup at hs
      cases hr : reconcile env w ue bl with
      | stop _ _ _ => rw [hr] at hs; cases hs
      | panic _ _ => rw [hr] at hs; cases hs
      | next s0 =>
        rw [hr, Step.bind_next] at hs
        exact prepare_dupCheck env _ _ _ s0 s1 hs
    obtain ⟨evs, ht, hk⟩ := closed_importBlocks
      (closed_dupCheck env (!(mkCfg w (env.best 0) ua ni).reindexing))
      (keepsDupCheck_loop _) (mkCfg w (env.best 0) ua ni) fuel
      (mkCfg w (env.best 0) ua ni).startHeight s1
    exact ⟨evs, ht, (hk hd).2⟩
  · obtain ⟨evs, ht, hk⟩ := closed_catchUp (closed_dupCheck env true) (keepsDupCheck_loop true)
      (mkCfg w (env.best 0) ua ni) fuel n s4
    exact ⟨evs, ht, (hk (finalize_dupCheck env s3 s4 hf)).2⟩

end Dcrpg

namespace Dcrpg

theorem script_flags (cfg : RunCfg) :
    script cfg = script (flagsCfg cfg.reindexing cfg.updateAllAddresses cfg.requireAnalyze) := by
  simp only [script, prepareScript, reindexScript, addressesScript, quickScript, flagsCfg]

set_option maxRecDepth 100000 in
theorem logs_bulk_then_quick :
    ∀ l ∈ doneLogs (script (flagsCfg false true true)),
      ((Call.AnalyzeTable .vouts deepStatsTarget, true) ∈ l ∧
        (Call.AnalyzeTable .transactions deepStatsTarget, true) ∈ l ∧
        (Call.AnalyzeTable .addresses deepStatsTarget, true) ∈ l) ∧
      (Call.AnalyzeAllTables quickStatsTarget, true) ∈ l := by
  decide

set_option maxRecDepth 100000 in
theorem logs_quick (r u q ok : Bool) :
    ∀ l ∈ runLogs r u q,
      ((Call.AnalyzeAllTables quickStatsTarget, ok) ∈ l → r = false ∧ q = true) ∧
      (l.map Prod.fst).count (Call.AnalyzeAllTables quickStatsTarget) ≤ 1 := by
  cases r <;> cases u <;> cases q <;> cases ok <;> decide

set_option maxRecDepth 100000 in
theorem logs_quick_done (u : Bool) :
    ∀ l ∈ doneLogs (script (flagsCfg false u true)),
      (Call.AnalyzeAllTables quickStatsTarget, true) ∈ l := by
  cases u <;> decide

theorem mkCfg_quick (w : World) (nodeHeight : Int) (ua ni : Bool) :
    ((mkCfg w nodeHeight ua ni).reindexing = false ∧
      (mkCfg w nodeHeight ua ni).requireAnalyze = true) ↔
    ((ni = false ∧ w.chainCursor ≠ -1 ∧ w.ibdComplete = true) ∧
      nodeHeight - w.chainCursor > 10000) := by
  simp only [mkCfg]
  cases ni <;> cases w.ibdComplete <;> by_cases h : w.chainCursor = -1 <;> simp [h]

/-- C18, a run against it: store at height 50 with the flag set, source at height
10051 (10001 blocks ahead), `updateAllAddresses` asked for and `newIndexes` not. The
run returns `(10051, nil)`; the bulk update of the addresses table has refreshed the
statistics of the vouts, transactions and addresses tables with the deep target, and
the quick ANALYZE of all tables has run all the same. -/
theorem c18_counterexample :
    (SyncChainDB (quietEnv 10051) 10002 ⟨50, 50, true, true, 1⟩ true false false false).1 =
      .returned 10051 none ∧
    ((Call.AnalyzeTable .vouts deepStatsTarget, true) ∈
        stageLog (SyncChainDB (quietEnv 10051) 10002 ⟨50, 50, true, true, 1⟩ true false false
          false).2.trace ∧
      (Call.AnalyzeTable .transactions deepStatsTarget, true) ∈
        stageLog (SyncChainDB (quietEnv 10051) 10002 ⟨50, 50, true, true, 1⟩ true false false
          false).2.trace ∧
      (Call.AnalyzeTable .addresses deepStatsTarget, true) ∈
        stageLog (SyncChainDB (quietEnv 10051) 10002 ⟨50, 50, true, true, 1⟩ true false false
          false).2.trace) ∧
    (Call.AnalyzeAllTables quickStatsTarget, true) ∈
      stageLog (SyncChainDB (quietEnv 10051) 10002 ⟨50, 50, true, true, 1⟩ true false false
        false).2.trace := by
  obtain ⟨n, s, hrun, _, _, ⟨t, ht⟩, _⟩ := run_quiet (quietEnv 10051) 10002
    ⟨50, 50, true, true, 1⟩ true false false false 10051 (by decide) (by decide)
    (fun _ _ _ => le_refl _) (by decide) (fun _ => le_refl _) (fun _ => rfl) (fun _ => rfl)
    (by decide)
  have hret : (SyncChainDB (quietEnv 10051) 10002 ⟨50, 50, true, true, 1⟩ true false false
      false).1 = .returned 10051 none := by
    rw [hrun, ht]
    rfl
  have hmem := (run_logs (quietEnv 10051) 10002 ⟨50, 50, true, true, 1⟩ true false false
    false).2 _ hret
  rw [script_flags] at hmem
  exact ⟨hret, logs_bulk_then_quick _ hmem⟩

/-- C18, as the code has it. In every run of `SyncChainDB` the quick ANALYZE
(`AnalyzeAllTables` with target 250) is called at most once, and only when the run is
not reindexing (`newIndexes` not set, store not empty, flag set at entry) and the
node height polled first exceeds the store height by more than 10000; a run under
these conditions that returns without error has called it, with success, whether or
not the bulk update of the addresses table ran. -/
theorem c18_quick_analyze (env : Env) (fuel : Nat) (w : World) (ua ni ue bl ok : Bool) :
    ((Call.AnalyzeAllTables quickStatsTarget, ok) ∈
        stageLog (SyncChainDB env fuel w ua ni ue bl).2.trace →
      (ni = false ∧ w.chainCursor ≠ -1 ∧ w.ibdComplete = true) ∧
        env.best 0 - w.chainCursor > 10000) ∧
    ((ni = false ∧ w.chainCursor ≠ -1 ∧ w.ibdComplete = true) →
      env.best 0 - w.chainCursor > 10000 →
      ∀ h, (SyncChainDB env fuel w ua ni ue bl).1 = .returned h none →
        (Call.AnalyzeAllTables quickStatsTarget, true) ∈
          stageLog (SyncChainDB env fuel w ua ni ue bl).2.trace) ∧
    ((stageLog (SyncChainDB env fuel w ua ni ue bl).2.trace).map Prod.fst).count
      (Call.AnalyzeAllTables quickStatsTarget) ≤ 1 := by
  obtain ⟨hlogs, hdone⟩ := run_logs env fuel w ua ni ue bl
  have hq := logs_quick _ _ _ ok _ hlogs
  refine ⟨fun hm => (mkCfg_quick w (env.best 0) ua ni).1 (hq.1 hm), fun h1 h2 h he => ?_, hq.2⟩
  have hmem := hdone h he
  obtain ⟨hr, hreq⟩ := (mkCfg_quick w (env.best 0) ua ni).2 ⟨h1, h2⟩
  rw [script_flags, hr, hreq] at hmem
  exact logs_quick_done _ _ hmem

end Dcrpg

namespace Dcrpg

/-! ## The two sinks -/

section sinks

variable {isOpen : St → Bool} {log : List Event → List Bool}

theorem sinkKept_same (s s1 : St) (ho : isOpen s1 = isOpen s) (hl : log s1.trace = log s.trace) :
    SinkKept isOpen log s s1 := by
  refine ⟨fun h => ⟨0, ?_⟩, fun h => ⟨ho.trans h, hl⟩⟩
  rw [hl, ho, h]
  simp

theorem sinkKept_sent (s s1 : St) (h0 : isOpen s = true) (ho : isOpen s1 = true)
    (hl : log s1.trace = log s.trace ++ [true]) : SinkKept isOpen log s s1 := by
  refine ⟨fun _ => ⟨1, ?_⟩, fun h => ?_⟩
  · rw [hl, ho]
    simp
  · rw [h0] at h
    cases h

theorem sinkKept_full (s s1 : St) (h0 : isOpen s = true) (ho : isOpen s1 = false)
    (hl : log s1.trace = log s.trace ++ [false]) : SinkKept isOpen log s s1 := by
  refine ⟨fun _ => ⟨0, ?_⟩, fun h => ?_⟩
  · rw [hl, ho]
    simp
  · rw [h0] at h
    cases h

theorem sinkKept_trans (a b c : St) (h1 : SinkKept isOpen log a b)
    (h2 : SinkKept isOpen log b c) : SinkKept isOpen log a c := by
  refine ⟨fun ha => ?_, fun ha => ?_⟩
  · obtain ⟨n, hn⟩ := h1.1 ha
    cases hb : isOpen b with
    | true =>
      obtain ⟨m, hm⟩ := h2.1 hb
      refine ⟨n + m, ?_⟩
      rw [hm, hn, hb, List.replicate_add]
      simp only [if_true, List.append_nil, List.append_assoc]
    | false =>
      obtain ⟨hc, hl⟩ := h2.2 hb
      refine ⟨n, ?_⟩
      rw [hl, hn, hb, hc]
  · obtain ⟨hb, hl⟩ := h1.2 ha
    obtain ⟨hc, hl2⟩ := h2.2 hb
    exact ⟨hc, hl2.trans hl⟩

end sinks

/-- The sink `barLoad` through a run: `SinkKept` is kept by every elementary action. -/
theorem closed_barLoad (env : Env) :
    StepClosed env (fun _ => true) (SinkKept St.barLoad progressLog) where
  refl := fun s => sinkKept_same s s rfl rfl
  trans := sinkKept_trans
  failed := fun s c _ hs => sinkKept_same _ _ rfl (by
    cases c <;> simp_all [progressLog, isSend, List.filterMap_append])
  passed := fun s c _ hs => sinkKept_same _ _ rfl (by
    cases c <;> simp_all [progressLog, isSend, List.filterMap_append])
  nodeHeight := fun _ _ => sinkKept_same _ _ rfl rfl
  stakeDBHeight := fun _ _ => sinkKept_same _ _ rfl rfl
  stage := fun _ _ => sinkKept_same _ _ rfl rfl
  counts := fun _ _ => sinkKept_same _ _ rfl rfl
  progress := fun s p _ => by
    unfold sendProgressUpdate
    split_ifs with h1 h2
    · exact sinkKept_full _ _ h1 rfl (by simp [progressLog, List.filterMap_append])
    · exact sinkKept_sent _ _ h1 h1 (by simp [progressLog, List.filterMap_append])
    · exact sinkKept_same _ _ rfl rfl
  page := fun s h _ => by
    refine sinkKept_same _ _ ?_ (sendPageData_filterMap _ env h s (fun _ _ => rfl))
    unfold sendPageData
    split_ifs <;> rfl

/-- The sink `updateExplorer` through a run. -/
theorem closed_updateExplorer (env : Env) :
    StepClosed env (fun _ => true) (SinkKept St.updateExplorer pageLog) where
  refl := fun s => sinkKept_same s s rfl rfl
  trans := sinkKept_trans
  failed := fun s c _ hs => sinkKept_same _ _ rfl (by
    cases c <;> simp_all [pageLog, isSend, List.filterMap_append])
  passed := fun s c _ hs => sinkKept_same _ _ rfl (by
    cases c <;> simp_all [pageLog, isSend, List.filterMap_append])
  nodeHeight := fun _ _ => sinkKept_same _ _ rfl rfl
  stakeDBHeight := fun _ _ => sinkKept_same _ _ rfl rfl
  stage := fun _ _ => sinkKept_same _ _ rfl rfl
  counts := fun _ _ => sinkKept_same _ _ rfl rfl
  progress := fun s p _ => by
    refine sinkKept_same _ _ ?_ (sendProgressUpdate_filterMap _ env p s (fun _ _ => rfl))
    unfold sendProgressUpdate
    split_ifs <;> rfl
  page := fun s h _ => by
    unfold sendPageData
    split_ifs with h1 h2
    · exact sinkKept_full _ _ h1 rfl (by simp [pageLog, List.filterMap_append])
    · exact sinkKept_sent _ _ h1 h1 (by simp [pageLog, List.filterMap_append])
    · exact sinkKept_same _ _ rfl rfl

/-- In a list of delivered sends closed by at most one failed send, nothing follows a
failed send. -/
theorem nothing_after_full (t : List Bool) (ht : t = [] ∨ t = [false]) :
    ∀ (n : Nat) (xs ys : List Bool), xs ++ false :: ys = List.replicate n true ++ t →
      ys = [] := by
  intro n
  induction n with
  | zero =>
    intro xs ys h
    rcases ht with rfl | rfl
    · simp at h
    · cases xs with
      | nil => simpa using h
      | cons x xs =>
        simp only [List.replicate_zero, List.nil_append, List.cons_append, List.cons.injEq] at h
        exact absurd h.2 (by simp)
  | succ n ih =>
    intro xs ys h
    cases xs with
    | nil => simp [List.replicate_succ] at h
    | cons x xs =>
      simp only [List.replicate_succ, List.cons_append, List.cons.injEq] at h
      exact ih xs ys h.2

/-- The sends of a whole run on a sink kept by every action: none when the sink was
nil at entry; otherwise delivered sends closed by at most one failed send. -/
theorem run_sink (env : Env) (fuel : Nat) (w : World) (ua ni ue bl : Bool)
    (isOpen : St → Bool) (log : List Event → List Bool) (g : Event → Option Bool)
    (hlog : ∀ tr, log tr = tr.filterMap g)
    (hg : ∀ e, isReconcileCall e.call = true → g e = none)
    (hR : StepClosed env (fun _ => true) (SinkKept isOpen log)) (b : Bool)
    (hb : ∀ s0, reconcile env w ue bl = .next s0 → isOpen s0 = b) :
    (b = false → log (SyncChainDB env fuel w ua ni ue bl).2.trace = []) ∧
    ∃ n t, (t = [] ∨ t = [false]) ∧
      log (SyncChainDB env fuel w ua ni ue bl).2.trace = List.replicate n true ++ t := by
  have h0 := reconcile_filterMap env w ue bl g hg
  rw [← hlog] at h0
  cases hr : reconcile env w ue bl with
  | stop h e s =>
    rw [hr] at h0
    rw [SyncChainDB_of_reconcile_stop env fuel w ua ni ue bl h e s hr]
    exact ⟨fun _ => h0, 0, [], Or.inl rfl, h0⟩
  | panic m s =>
    rw [hr] at h0
    rw [SyncChainDB_of_reconcile_panic env fuel w ua ni ue bl m s hr]
    exact ⟨fun _ => h0, 0, [], Or.inl rfl, h0⟩
  | next s0 =>
    rw [hr] at h0
    simp only [Step.st_next] at h0
    have hk := closed_run hR (fun _ => rfl) fuel w ua ni ue bl s0 hr
    have hb0 := hb s0 hr
    cases b with
    | false =>
      have h1 := (hk.2 hb0).2
      rw [h0] at h1
      exact ⟨fun _ => h1, 0, [], Or.inl rfl, h1⟩
    | true =>
      obtain ⟨n, hn⟩ := hk.1 hb0
      rw [h0, List.nil_append] at hn
      refine ⟨(fun h => by cases h), n, _, ?_, hn⟩
      split_ifs
      · exact Or.inl rfl
      · exact Or.inr rfl

/-- C19. For each of the two sinks of `SyncChainDB`, `barLoad` through
`sendProgressUpdate` and `updateExplorer` through `sendPageData`: a send into a full
buffer returns, with the channel variable set to nil and the failed send as the only
trace; in every run, whatever the buffers do later, no send on the sink follows a
send that found the buffer full; and a sink that was nil at entry sees no send. -/
theorem c19_sinks_disabled_on_full (env : Env) (fuel : Nat) (w : World) (ua ni ue bl : Bool) :
    (∀ s p, s.barLoad = true → env.full s.now = true →
      (sendProgressUpdate env p s).barLoad = false ∧
      (sendProgressUpdate env p s).trace = s.trace ++ [⟨.SendProgress p, false, s.w⟩]) ∧
    (∀ a e b p, (SyncChainDB env fuel w ua ni ue bl).2.trace = a ++ e :: b →
      e.call = .SendProgress p → e.ok = false → progressLog b = []) ∧
    (bl = false → progressLog (SyncChainDB env fuel w ua ni ue bl).2.trace = []) ∧
    (∀ s h, s.updateExplorer = true → env.full s.now = true →
      (sendPageData env h s).updateExplorer = false ∧
      (sendPageData env h s).trace = s.trace ++ [⟨.SendPageData h, false, s.w⟩]) ∧
    (∀ a e b h, (SyncChainDB env fuel w ua ni ue bl).2.trace = a ++ e :: b →
      e.call = .SendPageData h → e.ok = false → pageLog b = []) ∧
    (ue = false → pageLog (SyncChainDB env fuel w ua ni ue bl).2.trace = []) := by
  have hspec := reconcile_spec env w ue bl
  obtain ⟨p1, n1, t1, ht1, hl1⟩ := run_sink env fuel w ua ni ue bl St.barLoad progressLog _
    (fun _ => rfl) (fun e he => by cases hc : e.call <;> simp_all [isReconcileCall])
    (closed_barLoad env) bl (fun s0 hr => by
      rw [hr] at hspec
      exact hspec.2.2.2.2.2.2.2.2.2.2.2.2.1)
  obtain ⟨p2, n2, t2, ht2, hl2⟩ := run_sink env fuel w ua ni ue bl St.updateExplorer pageLog _
    (fun _ => rfl) (fun e he => by cases hc : e.call <;> simp_all [isReconcileCall])
    (closed_updateExplorer env) ue (fun s0 hr => by
      rw [hr] at hspec
      exact hspec.2.2.2.2.2.2.2.2.2.2.2.2.2.1)
  refine ⟨fun s p hs hf => ?_, fun a e b p htr hc hok => ?_, p1, fun s h hs hf => ?_,
    fun a e b h htr hc hok => ?_, p2⟩
  · simp [sendProgressUpdate, hs, hf]
  · rw [htr] at hl1
    have : progressLog (a ++ e :: b) = progressLog a ++ false :: progressLog b := by
      simp [progressLog, List.filterMap_append, List.filterMap_cons, hc, hok]
    rw [this] at hl1
    exact nothing_after_full t1 ht1 n1 _ _ hl1
  · simp [sendPageData, hs, hf]
  · rw [htr] at hl2
    have : pageLog (a ++ e :: b) = pageLog a ++ false :: pageLog b := by
      simp [pageLog, List.filterMap_append, List.filterMap_cons, hc, hok]
    rw [this] at hl2
    exact nothing_after_full t2 ht2 n2 _ _ hl2

end Dcrpg

namespace Dcrpg

/-! ## The page update of the import loop -/

theorem closed_pageQuiet (env : Env) : StepClosed env isFetchCall PageQuiet where
  refl := fun _ => ⟨rfl, rfl, rfl⟩
  trans := fun _ _ _ h1 h2 => ⟨h2.1.trans h1.1, h2.2.1.trans h1.2.1, h2.2.2.trans h1.2.2⟩
  failed := fun s c hc _ => by
    cases c <;> simp_all [PageQuiet, isFetchCall, storedHeights, pageCalls,
      List.filterMap_append]
  passed := fun s c hc _ => by
    cases c <;> simp_all [PageQuiet, isFetchCall, storedHeights, pageCalls,
      List.filterMap_append]
  nodeHeight := fun _ _ => ⟨rfl, rfl, rfl⟩
  stakeDBHeight := fun _ _ => ⟨rfl, rfl, rfl⟩
  stage := fun _ _ => ⟨rfl, rfl, rfl⟩
  counts := fun _ _ => ⟨rfl, rfl, rfl⟩
  progress := fun s p _ => by
    refine ⟨sendProgressUpdate_filterMap _ env p s (fun _ _ => rfl),
      sendProgressUpdate_filterMap _ env p s (fun _ _ => rfl), ?_⟩
    unfold sendProgressUpdate
    split_ifs <;> rfl
  page := fun s h hc => by simp [isFetchCall] at hc

/-- C20, a run against it: store at height 59 with the flag set, source at height 60,
`updateAllAddresses` asked for and the sink `updateExplorer` supplied. The run
commits the block at height 60, a multiple of 20, and returns `(60, nil)` with the
sink still enabled, and no hash was offered to it; the same run without
`updateAllAddresses` offers the hash of block 60. -/
theorem c20_counterexample :
    (SyncChainDB (quietEnv 60) 5 ⟨59, 59, true, true, 1⟩ true false true false).1 =
      .returned 60 none ∧
    storedHeights
      (SyncChainDB (quietEnv 60) 5 ⟨59, 59, true, true, 1⟩ true false true false).2.trace =
      [60] ∧
    (SyncChainDB (quietEnv 60) 5 ⟨59, 59, true, true, 1⟩ true false true false).2.updateExplorer =
      true ∧
    pageCalls
      (SyncChainDB (quietEnv 60) 5 ⟨59, 59, true, true, 1⟩ true false true false).2.trace =
      [] ∧
    pageCalls
      (SyncChainDB (quietEnv 60) 5 ⟨59, 59, true, true, 1⟩ false false true false).2.trace =
      [60] := by
  decide

theorem ne_append_singleton {α : Type} (l : List α) (a : α) : l ≠ l ++ [a] := by
  intro h
  have := congrArg List.length h
  simp at this

theorem pageSpec_of_quiet (cfg : RunCfg) (ib : Int) (s s1 : St) (h : PageQuiet s s1) :
    PageSpec cfg ib s s1 := by
  obtain ⟨h1, h2, _⟩ := h
  unfold PageSpec
  rw [h1, h2, if_neg (fun hc => ne_append_singleton _ _ hc.1), List.append_nil]

theorem pageSpec_pre (cfg : RunCfg) (ib : Int) (s : St) :
    ∀ x : Step, PageQuiet s x.st →
      match x with
      | .next s1 => PageQuiet s s1
      | .stop h e s1 => PageSpec cfg ib s (Step.stop h e s1).st
      | .panic m s1 => PageSpec cfg ib s (Step.panic m s1).st
  | .next _, hx => hx
  | .stop _ _ s1, hx => pageSpec_of_quiet cfg ib s s1 hx
  | .panic _ s1, hx => pageSpec_of_quiet cfg ib s s1 hx

theorem pageSpec_post (cfg : RunCfg) (ib : Int) (s s6 s7 : St)
    (h1 : storedHeights s6.trace = storedHeights s.trace ++ [ib])
    (h2 : pageCalls s6.trace = pageCalls s.trace ++
      (if cfg.updateAllAddresses = false ∧ ib.tmod 20 = 0 ∧ s.updateExplorer = true
        then [ib] else []))
    (hx : PageQuiet s6 s7) : PageSpec cfg ib s s7 := by
  unfold PageSpec
  rw [hx.1, hx.2.1, h1, h2]
  simp

theorem updateExplorerPages_pages (env : Env) (cfg : RunCfg) (ib : Int) (s : St) :
    ∃ s1, updateExplorerPages env cfg ib s = .next s1 ∧
      storedHeights s1.trace = storedHeights s.trace ∧
      pageCalls s1.trace = pageCalls s.trace ++
        (if cfg.updateAllAddresses = false ∧ ib.tmod 20 = 0 ∧ s.updateExplorer = true
          then [ib] else []) := by
  cases hua : cfg.updateAllAddresses <;> by_cases hm : ib.tmod 20 = 0 <;>
    cases hu : s.updateExplorer <;> by_cases hf : env.full s.now = true <;>
    simp [updateExplorerPages, sendPageData, hua, hm, hu, hf, pageCalls, storedHeights,
      List.filterMap_append]

theorem importBlock_pageSpec (env : Env) (cfg : RunCfg) (ib : Int) (s : St) :
    PageSpec cfg ib s (importBlock env cfg ib s).st := by
  have hR := closed_pageQuiet env
  unfold importBlock
  refine @Step.bind_spec (fun x => PageSpec cfg ib s x.st) _ _ (fun s1 => PageQuiet s s1)
    (pageSpec_pre cfg ib s _ (closed_checkQuit hR ib s rfl)) fun s1 h1 => ?_
  refine @Step.bind_spec (fun x => PageSpec cfg ib s x.st) _ _ (fun s1 => PageQuiet s s1)
    (pageSpec_pre cfg ib s _
      (hR.trans _ _ _ h1 (closed_progressLogging hR cfg ib s1 rfl (fun _ => rfl))))
    fun s2 h2 => ?_
  refine @Step.bind_spec (fun x => PageSpec cfg ib s x.st) _ _ (fun s1 => PageQuiet s s1)
    (pageSpec_pre cfg ib s _ (hR.trans _ _ _ h2 (closed_getBlock hR ib s2 rfl)))
    fun s3 h3 => ?_
  refine @Step.bind_spec (fun x => PageSpec cfg ib s x.st) _ _ (fun s1 => PageQuiet s s1)
    (pageSpec_pre cfg ib s _ (hR.trans _ _ _ h3 (closed_advanceStakeDB hR ib s3 rfl rfl)))
    fun s4 h4 => ?_
  refine @Step.bind_spec (fun x => PageSpec cfg ib s x.st) _ _ (fun s1 => PageQuiet s s1)
    (pageSpec_pre cfg ib s _ (hR.trans _ _ _ h4 (closed_getChainWork hR ib s4 rfl)))
    fun s5 h5 => ?_
  obtain ⟨k1, k2, k3⟩ := h5
  refine @Step.bind_spec (fun x => PageSpec cfg ib s x.st) _ _
    (fun s6 => storedHeights s6.trace = storedHeights s.trace ++ [ib] ∧
      pageCalls s6.trace = pageCalls s.trace ∧ s6.updateExplorer = s.updateExplorer) ?_
    fun s6 h6 => ?_
  · simp only [storeBlock, attemptW]
    split_ifs
    · simp only [Step.bind_stop]
      refine pageSpec_of_quiet cfg ib s _ ⟨?_, ?_, k3⟩
      · simp [storedHeights, List.filterMap_append] at k1 ⊢
        exact k1
      · simp [pageCalls, List.filterMap_append] at k2 ⊢
        exact k2
    · simp only [Step.bind_next]
      refine ⟨?_, ?_, k3⟩
      · simp [storedHeights, List.filterMap_append] at k1 ⊢
        exact k1
      · simp [pageCalls, List.filterMap_append] at k2 ⊢
        exact k2
  obtain ⟨m1, m2, m3⟩ := h6
  obtain ⟨s7, e7, n1, n2⟩ := updateExplorerPages_pages env cfg ib s6
  rw [e7, Step.bind_next]
  rw [m1] at n1
  rw [m2, m3] at n2
  exact pageSpec_post cfg ib s s7 _ n1 n2 (closed_updateNodeHeight hR ib s7 rfl)

/-- C20, as the code has it. In every iteration `ib` of the import loop, whatever it
ends in: the hash of the block is offered to `updateExplorer` if and only if the
iteration commits the block, `updateAllAddresses` is not in effect, `ib` is a
multiple of 20 and the channel variable is not nil when the iteration starts; no
other hash is offered. -/
theorem c20_page_update (env : Env) (cfg : RunCfg) (ib : Int) (s : St) :
    pageCalls (importBlock env cfg ib s).st.trace = pageCalls s.trace ++
      (if storedHeights (importBlock env cfg ib s).st.trace = storedHeights s.trace ++ [ib] ∧
          cfg.updateAllAddresses = false ∧ ib.tmod 20 = 0 ∧ s.updateExplorer = true
        then [ib] else []) :=
  importBlock_pageSpec env cfg ib s

end Dcrpg

namespace Dcrpg

/-! ## The stage counter -/

theorem stageAdd_bind {k1 k2 : Nat} {s : St} {x : Step} {f : St → Step}
    (hx : StageAdd k1 s x) (hf : ∀ s1, StageAdd k2 s1 (f s1)) :
    StageAdd (k1 + k2) s (x.bind f) := by
  cases x with
  | next s1 =>
    have h2 := hf s1
    simp only [StageAdd] at hx
    simp only [Step.bind_next]
    revert h2
    cases f s1 <;> simp only [StageAdd] <;> omega
  | stop h e s1 =>
    simp only [StageAdd, Step.bind_stop] at hx ⊢
    omega
  | panic m s1 =>
    simp only [StageAdd, Step.bind_panic] at hx ⊢
    omega

theorem stageAdd_zero (s : St) (x : Step) (h : x.st.stage = s.stage) : StageAdd 0 s x := by
  cases x <;> simp only [StageAdd, Step.st] at h ⊢ <;> omega

theorem attempt_stage (env : Env) (c : Call) (h : Int) (e : SyncError) (s : St) :
    (attempt env c h e s).st.stage = s.stage := by
  unfold attempt
  split_ifs <;> rfl

theorem attemptW_stage (env : Env) (c : Call) (h : Int) (e : SyncError) (upd : World → World)
    (s : St) : (attemptW env c h e upd s).st.stage = s.stage := by
  unfold attemptW
  split_ifs <;> rfl

theorem pollBestBlock_stage (env : Env) (h : Int) (s : St) :
    (pollBestBlock env h s).st.stage = s.stage := by
  unfold pollBestBlock
  simp only []
  split_ifs <;> rfl

theorem bind_stage {x : Step} {f : St → Step} {s : St} (hx : x.st.stage = s.stage)
    (hf : ∀ s1, (f s1).st.stage = s1.stage) : (x.bind f).st.stage = s.stage :=
  @Step.bind_rel (fun a b => b.stage = a.stage) (fun _ _ _ h1 h2 => h2.trans h1) x f s hx hf

theorem importBlock_stage (env : Env) (cfg : RunCfg) (ib : Int) (s : St) :
    (importBlock env cfg ib s).st.stage = s.stage := by
  unfold importBlock
  refine bind_stage (by unfold checkQuit; split_ifs <;> rfl) fun s => ?_
  refine bind_stage ?_ fun s => ?_
  · unfold progressLogging
    split_ifs
    · rfl
    · exact bind_stage (pollBestBlock_stage env ib s) fun s1 => by simp
    · rfl
  refine bind_stage (attempt_stage env _ _ _ s) fun s => ?_
  refine bind_stage ?_ fun s => ?_
  · simp only [advanceStakeDB]
    split_ifs <;> first | rfl | exact attemptW_stage env _ _ _ _ _ |
      exact bind_stage (attemptW_stage env _ _ _ _ _) fun s1 => rfl
  refine bind_stage (attempt_stage env _ _ _ s) fun s => ?_
  refine bind_stage (bind_stage (attemptW_stage env _ _ _ _ s) fun s1 => rfl) fun s => ?_
  refine bind_stage ?_ fun s => ?_
  · unfold updateExplorerPages
    split_ifs
    · simp
    · rfl
  · unfold updateNodeHeight
    split_ifs
    · exact pollBestBlock_stage env ib s
    · rfl

theorem importBlocks_stage (env : Env) (cfg : RunCfg) (fuel : Nat) (start : Int) (s : St) :
    (importBlocks env cfg fuel start s).st.stage = s.stage := by
  refine importBlocks_induct env cfg (fun _ sm => sm.stage = s.stage)
    (fun r => r.st.stage = s.stage) ?_ ?_ ?_ fuel start s rfl
  · intro ib sm hJ _
    have hs := importBlock_stage env cfg ib sm
    revert hs
    cases importBlock env cfg ib sm <;> exact fun hs => hs.trans hJ
  · exact fun _ _ hJ _ => hJ
  · exact fun _ _ hJ _ => hJ

theorem catchUp_stage (env : Env) (cfg : RunCfg) (fuel : Nat) (n : Int) (s : St) :
    (catchUp env cfg fuel n s).st.stage = s.stage := by
  unfold catchUp
  split_ifs
  · exact importBlocks_stage env cfg fuel n s
  · rfl

theorem reconcile_stage (env : Env) (w : World) (ue bl : Bool) :
    (reconcile env w ue bl).st.stage = 0 := by
  simp only [reconcile, pollBestBlock, attempt, readStakeDBHeight, rewindStakeDB, Step.bind_ite,
    Step.bind_next, Step.bind_stop, Step.bind_panic]
  split_ifs <;> simp [initSt]

theorem warmUtxoCache_stage (env : Env) (s : St) : (warmUtxoCache env s).st.stage = s.stage := by
  simp only [warmUtxoCache]
  split_ifs
  · exact bind_stage (attempt_stage env _ _ _ _) fun s1 => rfl
  · rfl

theorem prepareIndexes_stage (env : Env) (cfg : RunCfg) (lastBlock : Int) (s : St) :
    (prepareIndexes env cfg lastBlock s).st.stage = s.stage := by
  unfold prepareIndexes
  split_ifs
  · refine bind_stage ?_ fun s1 => bind_stage (attempt_stage env _ _ _ s1) fun s2 => rfl
    unfold deindexAll
    split_ifs <;> rfl
  · rfl

theorem clearIBDComplete_stage (env : Env) (cfg : RunCfg) (ibd : Bool) (s : St) :
    (clearIBDComplete env cfg ibd s).st.stage = s.stage := by
  unfold clearIBDComplete
  split_ifs
  · exact attemptW_stage env _ _ _ _ s
  · rfl

/-- Set-up after `reconcile`: the counter is 1 when block import starts, and as it
was when set-up returns. -/
theorem prepare_stage (env : Env) (cfg : RunCfg) (lastBlock : Int) (ibd : Bool) (s : St) :
    match prepare env cfg lastBlock ibd s with
    | .next s1 => s1.stage = 1
    | .stop _ _ s1 => s1.stage = s.stage
    | .panic _ s1 => s1.stage = s.stage := by
  unfold prepare
  have h1 := warmUtxoCache_stage env s
  revert h1
  cases warmUtxoCache env s with
  | stop h e s1 => exact id
  | panic m s1 => exact id
  | next s1 =>
    intro h1
    simp only [Step.st] at h1
    simp only [Step.bind_next]
    have h2 := prepareIndexes_stage env cfg lastBlock s1
    revert h2
    cases prepareIndexes env cfg lastBlock s1 with
    | stop h e s2 => exact fun h2 => h2.trans h1
    | panic m s2 => exact fun h2 => h2.trans h1
    | next s2 =>
      intro h2
      simp only [Step.st] at h2
      simp only [Step.bind_next]
      have h3 := clearIBDComplete_stage env cfg ibd s2
      revert h3
      cases clearIBDComplete env cfg ibd s2 with
      | stop h e s3 => exact fun h3 => h3.trans (h2.trans h1)
      | panic m s3 => exact fun h3 => h3.trans (h2.trans h1)
      | next s3 =>
        intro _
        simp [announce]

theorem checkCancelled_stageAdd (env : Env) (s : St) : StageAdd 0 s (checkCancelled env s) := by
  refine stageAdd_zero s _ ?_
  unfold checkCancelled
  split_ifs <;> rfl

theorem signalEndOfLoad_stageAdd (env : Env) (s : St) :
    StageAdd 0 s (signalEndOfLoad env s) := by
  refine stageAdd_zero s _ ?_
  simp [signalEndOfLoad]

theorem nextStage_attempt_stageAdd (env : Env) (c : Call) (h : Int) (e : SyncError) (s : St) :
    StageAdd 1 s (attempt env c h e (nextStage s)) := by
  unfold attempt
  split_ifs <;> simp [StageAdd, nextStage]

theorem attempt_stageAdd (env : Env) (c : Call) (h : Int) (e : SyncError) (s : St) :
    StageAdd 0 s (attempt env c h e s) :=
  stageAdd_zero s _ (attempt_stage env c h e s)

theorem reindexStage_stageAdd (env : Env) (cfg : RunCfg) (s : St) :
    StageAdd (if cfg.reindexing then 3 else 0) s (reindexStage env cfg s) := by
  unfold reindexStage
  split_ifs with hr hu
  · exact stageAdd_bind (nextStage_attempt_stageAdd env _ _ _ s) fun s1 =>
      stageAdd_bind (attempt_stageAdd env _ _ _ s1) fun s2 =>
      stageAdd_bind (nextStage_attempt_stageAdd env _ _ _ s2) fun s3 =>
      stageAdd_bind (attempt_stageAdd env _ _ _ s3) fun s4 =>
      stageAdd_bind (attempt_stageAdd env _ _ _ s4) fun s5 =>
      nextStage_attempt_stageAdd env _ _ _ s5
  · exact stageAdd_bind (nextStage_attempt_stageAdd env _ _ _ s) fun s1 =>
      stageAdd_bind (attempt_stageAdd env _ _ _ s1) fun s2 =>
      stageAdd_bind (nextStage_attempt_stageAdd env _ _ _ s2) fun s3 =>
      @stageAdd_bind 0 _ _ _ _ (by simp [StageAdd]) fun s4 =>
      stageAdd_bind (attempt_stageAdd env _ _ _ s4) fun s5 =>
      nextStage_attempt_stageAdd env _ _ _ s5
  · simp [StageAdd]

theorem addressesStage_stageAdd (env : Env) (cfg : RunCfg) (s : St) :
    StageAdd (if cfg.updateAllAddresses then 1 else 0) s (addressesStage env cfg s) := by
  unfold addressesStage
  have tail : ∀ s1 : St, StageAdd 0 s1
      ((Step.next (s1.record .DeindexAddressTableOnMatchingTxHash (!env.fails s1.now))).bind
        fun s =>
        (attempt env .UpdateSpendingInfoInAllAddresses s.nodeHeight .updateSpendingInfoFailed
          s).bind fun s =>
        (attempt env .IndexAddressTableOnMatchingTxHash s.nodeHeight .indexAddressTableFailed
          s).bind fun s =>
        attempt env (.AnalyzeTable .addresses deepStatsTarget) s.nodeHeight
          .analyzeAddressesFailed s) := fun s1 =>
    @stageAdd_bind 0 0 _ _ _ (by simp [StageAdd]) fun s2 =>
      @stageAdd_bind 0 0 _ _ _ (attempt_stageAdd env _ _ _ s2) fun s3 =>
      @stageAdd_bind 0 0 _ _ _ (attempt_stageAdd env _ _ _ s3) fun s4 =>
      attempt_stageAdd env _ _ _ s4
  split_ifs with hu hr
  · exact @stageAdd_bind 1 0 _ _ _
      (@stageAdd_bind 1 0 _ _ _ (nextStage_attempt_stageAdd env _ _ _ s) fun s1 =>
        attempt_stageAdd env _ _ _ s1) tail
  · exact @stageAdd_bind 1 0 _ _ _ (by simp [StageAdd, nextStage]) tail
  · simp [StageAdd]

theorem quickAnalyze_stageAdd (env : Env) (cfg : RunCfg) (s : St) :
    StageAdd (if !cfg.reindexing ∧ cfg.requireAnalyze then 1 else 0) s
      (quickAnalyze env cfg s) := by
  unfold quickAnalyze
  split_ifs
  · exact nextStage_attempt_stageAdd env _ _ _ s
  · simp [StageAdd]

/-- The maintenance stages make `stageSteps cfg` steps `stage++` when they fall
through, and at most as many when they return. -/
theorem stages_stageAdd (env : Env) (cfg : RunCfg) (s : St) :
    StageAdd (stageSteps cfg) s (stages env cfg s) := by
  unfold stages
  have h := @stageAdd_bind 0 _ _ _ _ (signalEndOfLoad_stageAdd env s) fun s1 =>
    stageAdd_bind (reindexStage_stageAdd env cfg s1) fun s2 =>
    @stageAdd_bind 0 _ _ _ _ (checkCancelled_stageAdd env s2) fun s3 =>
    stageAdd_bind (addressesStage_stageAdd env cfg s3) fun s4 =>
    @stageAdd_bind 0 _ _ _ _ (checkCancelled_stageAdd env s4) fun s5 =>
    quickAnalyze_stageAdd env cfg s5
  simpa [stageSteps] using h

theorem finalize_stage (env : Env) (s : St) : (finalize env s).st.stage = s.stage := by
  unfold finalize
  refine bind_stage (attemptW_stage env _ _ _ _ s) fun s1 => ?_
  refine bind_stage ?_ fun s2 => ?_
  · unfold checkCancelled
    split_ifs <;> rfl
  · exact bind_stage rfl fun s3 => pollBestBlock_stage env _ s3

theorem complete_stage (env : Env) (cfg : RunCfg) (s : St) :
    (complete env cfg s).2.stage = s.stage := by
  simp only [complete]
  split_ifs <;> simp

theorem mkCfg_stages (w : World) (nodeHeight : Int) (ua ni : Bool) :
    (mkCfg w nodeHeight ua ni).stages = 1 + stageSteps (mkCfg w nodeHeight ua ni) := by
  obtain ⟨L, S, flag, d, u⟩ := w
  simp only [mkCfg, stageSteps]
  cases ni <;> cases ua <;> cases flag <;> by_cases h : L = -1 <;>
    by_cases h2 : nodeHeight - L > 10000 <;> simp [h, h2]

theorem mkCfg_stages_eq (w : World) (nodeHeight : Int) (ua ni : Bool) :
    (mkCfg w nodeHeight ua ni).stages =
      1 + (if ni = true ∨ w.chainCursor = -1 ∨ w.ibdComplete = false then 3
        else if nodeHeight - w.chainCursor > 10000 then 1 else 0) +
      (if ua = true ∨ w.ibdComplete = false then 1 else 0) := by
  obtain ⟨L, S, flag, d, u⟩ := w
  simp only [mkCfg]
  cases ni <;> cases ua <;> cases flag <;> by_cases h : L = -1 <;>
    by_cases h2 : nodeHeight - L > 10000 <;> simp [h, h2]

/-- The stage counter at the end of a run: never above the total, and equal to it when
the run returns without error. -/
theorem run_stage (env : Env) (fuel : Nat) (w : World) (ua ni ue bl : Bool) :
    (SyncChainDB env fuel w ua ni ue bl).2.stage ≤ (mkCfg w (env.best 0) ua ni).stages ∧
    ∀ h, (SyncChainDB env fuel w ua ni ue bl).1 = .returned h none →
      (SyncChainDB env fuel w ua ni ue bl).2.stage = (mkCfg w (env.best 0) ua ni).stages := by
  have htot := mkCfg_stages w (env.best 0) ua ni
  have h0 := reconcile_stage env w ue bl
  cases hr : reconcile env w ue bl with
  | stop h e s =>
    rw [hr] at h0
    rw [SyncChainDB_of_reconcile_stop env fuel w ua ni ue bl h e s hr]
    simp only [Step.st] at h0
    exact ⟨by simp only [h0]; omega, fun h1 he => by cases he⟩
  | panic m s =>
    rw [hr] at h0
    rw [SyncChainDB_of_reconcile_panic env fuel w ua ni ue bl m s hr]
    simp only [Step.st] at h0
    exact ⟨by simp only [h0]; omega, fun h1 he => by cases he⟩
  | next s0 =>
    rw [hr] at h0
    simp only [Step.st] at h0
    refine run_spec env fuel w ua ni ue bl
      (fun y => y.2.stage ≤ (mkCfg w (env.best 0) ua ni).stages ∧
        ∀ h, y.1 = .returned h none → y.2.stage = (mkCfg w (env.best 0) ua ni).stages)
      (fun s => s.stage = 0) (fun s => s.stage = 1)
      (fun s => s.stage = (mkCfg w (env.best 0) ua ni).stages)
      (fun _ s => s.stage = 1)
      (fun _ s => s.stage = (mkCfg w (env.best 0) ua ni).stages)
      (fun _ s => s.stage = (mkCfg w (env.best 0) ua ni).stages)
      ?_ ?_ ?_ ?_ ?_ ?_ s0 hr h0
    · intro s hs
      have hp := prepare_stage env (mkCfg w (env.best 0) ua ni) w.chainCursor w.ibdComplete s
      revert hp
      cases prepare env (mkCfg w (env.best 0) ua ni) w.chainCursor w.ibdComplete s with
      | next s1 => exact id
      | stop h e s1 =>
        intro hp
        simp only [hs] at hp
        exact ⟨by simp only [hp]; omega, fun h1 he => by cases he⟩
      | panic m s1 =>
        intro hp
        simp only [hs] at hp
        exact ⟨by simp only [hp]; omega, fun h1 he => by cases he⟩
    · intro s hs
      have hp := importBlocks_stage env (mkCfg w (env.best 0) ua ni) fuel
        (mkCfg w (env.best 0) ua ni).startHeight s
      revert hp
      cases importBlocks env (mkCfg w (env.best 0) ua ni) fuel
        (mkCfg w (env.best 0) ua ni).startHeight s with
      | done n s1 => exact fun hp => hp.trans hs
      | stop h e s1 =>
        intro hp
        simp only [LoopResult.st, hs] at hp
        exact ⟨by simp only [hp]; omega, fun h1 he => by cases he⟩
      | panic m s1 =>
        intro hp
        simp only [LoopResult.st, hs] at hp
        exact ⟨by simp only [hp]; omega, fun h1 he => by cases he⟩
      | outOfFuel s1 =>
        intro hp
        simp only [LoopResult.st, hs] at hp
        exact ⟨by simp only [hp]; omega, fun h1 he => by cases he⟩
    · intro n s hs
      have hp := stages_stageAdd env (mkCfg w (env.best 0) ua ni) s
      revert hp
      cases stages env (mkCfg w (env.best 0) ua ni) s with
      | next s1 =>
        intro hp
        simp only [StageAdd, hs] at hp
        show s1.stage = _
        omega
      | stop h e s1 =>
        intro hp
        simp only [StageAdd, hs] at hp
        exact ⟨by show s1.stage ≤ _; omega, fun h1 he => by cases he⟩
      | panic m s1 =>
        intro hp
        simp only [StageAdd, hs] at hp
        exact ⟨by show s1.stage ≤ _; omega, fun h1 he => by cases he⟩
    · intro n s hs
      have hp := finalize_stage env s
      revert hp
      cases finalize env s with
      | next s1 => exact fun hp => hp.trans hs
      | stop h e s1 =>
        intro hp
        simp only [Step.st] at hp
        exact ⟨by show s1.stage ≤ _; omega, fun h1 he => by cases he⟩
      | panic m s1 =>
        intro hp
        simp only [Step.st] at hp
        exact ⟨by show s1.stage ≤ _; omega, fun h1 he => by cases he⟩
    · intro n s hs
      have hp := catchUp_stage env (mkCfg w (env.best 0) ua ni) fuel n s
      revert hp
      cases catchUp env (mkCfg w (env.best 0) ua ni) fuel n s with
      | done n s1 => exact fun hp => hp.trans hs
      | stop h e s1 =>
        intro hp
        simp only [LoopResult.st] at hp
        exact ⟨by show s1.stage ≤ _; omega, fun h1 he => by cases he⟩
      | panic m s1 =>
        intro hp
        simp only [LoopResult.st] at hp
        exact ⟨by show s1.stage ≤ _; omega, fun h1 he => by cases he⟩
      | outOfFuel s1 =>
        intro hp
        simp only [LoopResult.st] at hp
        exact ⟨by show s1.stage ≤ _; omega, fun h1 he => by cases he⟩
    · intro s hs
      have hc := complete_stage env (mkCfg w (env.best 0) ua ni) s
      exact ⟨by omega, fun _ _ => hc.trans hs⟩

/-- C21. For every combination of inputs of `SyncChainDB`: the stage total is 1, plus
3 when the run is reindexing (`newIndexes` set, store empty, or flag false at entry)
and otherwise 1 when the node height polled first exceeds the store height by more
than 10000, plus 1 when the bulk address update is in effect (asked for, or flag false
at entry); the counter is 1 when block import starts; at the end of every run,
whatever fails and wherever the run stops, the counter is at most the total; and it
equals the total when the run returns without error. -/
theorem c21_stage_count (env : Env) (fuel : Nat) (w : World) (ua ni ue bl : Bool) :
    (mkCfg w (env.best 0) ua ni).stages =
      1 + (if ni = true ∨ w.chainCursor = -1 ∨ w.ibdComplete = false then 3
        else if env.best 0 - w.chainCursor > 10000 then 1 else 0) +
      (if ua = true ∨ w.ibdComplete = false then 1 else 0) ∧
    (∀ s1, setup env w ua ni ue bl = .next s1 → s1.stage = 1) ∧
    (SyncChainDB env fuel w ua ni ue bl).2.stage ≤ (mkCfg w (env.best 0) ua ni).stages ∧
    (∀ h, (SyncChainDB env fuel w ua ni ue bl).1 = .returned h none →
      (SyncChainDB env fuel w ua ni ue bl).2.stage = (mkCfg w (env.best 0) ua ni).stages) := by
  refine ⟨mkCfg_stages_eq w (env.best 0) ua ni, fun s1 hs => ?_,
    (run_stage env fuel w ua ni ue bl).1, (run_stage env fuel w ua ni ue bl).2⟩
  unfold setup at hs
  cases hr : reconcile env w ue bl with
  | stop _ _ _ => rw [hr] at hs; cases hs
  | panic _ _ => rw [hr] at hs; cases hs
  | next s0 =>
    rw [hr, Step.bind_next] at hs
    have hp := prepare_stage env (mkCfg w (env.best 0) ua ni) w.chainCursor w.ibdComplete s0
    rw [hs] at hp
    exact hp

end Dcrpg

namespace Dcrpg

/-! ## `supplementUnknownTicketError` -/

theorem ticketSuffix_head : ∃ tl, ticketSuffix = ' ' :: tl ∧ isWordChar ' ' = false :=
  ⟨_, rfl, by decide⟩

/-- A match at the head of `cs` is the prefix text, a run of word characters, and the
suffix text. -/
theorem matchUnknownTicketAt_some (cs g : List Char) (h : matchUnknownTicketAt cs = some g) :
    (∃ post, cs = ticketPrefix ++ g ++ ticketSuffix ++ post) ∧ ∀ c ∈ g, isWordChar c = true := by
  unfold matchUnknownTicketAt at h
  by_cases h1 : ticketPrefix.isPrefixOf cs = true
  swap
  · rw [if_neg h1] at h
    cases h
  rw [if_pos h1] at h
  by_cases h2 : ticketSuffix.isPrefixOf
      (List.dropWhile isWordChar (List.drop ticketPrefix.length cs)) = true
  swap
  · simp only [if_neg h2] at h
    cases h
  simp only [if_pos h2, Option.some.injEq] at h
  subst h
  rw [List.isPrefixOf_iff_prefix] at h1 h2
  obtain ⟨rest, hrest⟩ := h1
  obtain ⟨post, hpost⟩ := h2
  have hdrop : List.drop ticketPrefix.length cs = rest := by
    rw [← hrest, List.drop_left]
  rw [hdrop] at hpost ⊢
  refine ⟨⟨post, ?_⟩, fun c hc => (List.mem_takeWhile_imp hc)⟩
  rw [← hrest, List.append_assoc, List.append_assoc, hpost, List.takeWhile_append_dropWhile]

/-- The prefix text, a run of word characters, the suffix text: a match at the head,
with that run as the group. -/
theorem matchUnknownTicketAt_of_eq (g post : List Char) (hg : ∀ c ∈ g, isWordChar c = true) :
    matchUnknownTicketAt (ticketPrefix ++ g ++ ticketSuffix ++ post) = some g := by
  obtain ⟨tl, htl, hsp⟩ := ticketSuffix_head
  have hdrop : List.drop ticketPrefix.length (ticketPrefix ++ g ++ ticketSuffix ++ post) =
      g ++ (ticketSuffix ++ post) := by
    rw [List.append_assoc, List.append_assoc, List.drop_left]
  have htake : List.takeWhile isWordChar (g ++ (ticketSuffix ++ post)) = g := by
    rw [List.takeWhile_append_of_pos hg, htl]
    simp [List.takeWhile, hsp]
  have hdw : List.dropWhile isWordChar (g ++ (ticketSuffix ++ post)) = ticketSuffix ++ post := by
    rw [List.dropWhile_append_of_pos hg, htl]
    simp [List.dropWhile, hsp]
  have h1 : ticketPrefix.isPrefixOf (ticketPrefix ++ g ++ ticketSuffix ++ post) = true := by
    rw [List.isPrefixOf_iff_prefix, List.append_assoc, List.append_assoc]
    exact List.prefix_append _ _
  have h2 : ticketSuffix.isPrefixOf (ticketSuffix ++ post) = true := by
    rw [List.isPrefixOf_iff_prefix]
    exact List.prefix_append _ _
  unfold matchUnknownTicketAt
  simp only [h1, if_true, hdrop, hdw, h2, htake]

/-- The group found is that of a match somewhere in the text. -/
theorem findUnknownTicket_some : ∀ (cs g : List Char), findUnknownTicket cs = some g →
    (∃ pre post, cs = pre ++ ticketPrefix ++ g ++ ticketSuffix ++ post) ∧
      ∀ c ∈ g, isWordChar c = true := by
  intro cs
  induction cs with
  | nil => intro g h; cases h
  | cons c cs ih =>
    intro g h
    unfold findUnknownTicket at h
    cases hm : matchUnknownTicketAt (c :: cs) with
    | some g1 =>
      rw [hm] at h
      simp only [Option.some.injEq] at h
      subst h
      obtain ⟨⟨post, hp⟩, hw⟩ := matchUnknownTicketAt_some _ _ hm
      exact ⟨⟨[], post, by simpa using hp⟩, hw⟩
    | none =>
      rw [hm] at h
      obtain ⟨⟨pre, post, hp⟩, hw⟩ := ih g h
      exact ⟨⟨c :: pre, post, by simp [hp]⟩, hw⟩

/-- A text with a match somewhere has a group found. -/
theorem findUnknownTicket_of_eq (g post : List Char) (hg : ∀ c ∈ g, isWordChar c = true) :
    ∀ pre : List Char,
      (findUnknownTicket (pre ++ ticketPrefix ++ g ++ ticketSuffix ++ post)).isSome = true := by
  intro pre
  induction pre with
  | nil =>
    have hm := matchUnknownTicketAt_of_eq g post hg
    cases hcs : ([] ++ ticketPrefix ++ g ++ ticketSuffix ++ post) with
    | nil =>
      have : ticketPrefix = [] := by
        simp only [List.nil_append, List.append_eq_nil] at hcs
        exact hcs.1.1.1
      cases this
    | cons c cs =>
      rw [List.nil_append] at hcs
      rw [hcs] at hm
      unfold findUnknownTicket
      rw [hm]
      rfl
  | cons c pre ih =>
    simp only [List.cons_append]
    unfold findUnknownTicket
    cases matchUnknownTicketAt
      (c :: (pre ++ ticketPrefix ++ g ++ ticketSuffix ++ post)) with
    | some g1 => rfl
    | none => exact ih

theorem length_heightsFromTo (a b : Int) : (heightsFromTo a b).length = (b + 1 - a).toNat := by
  simp [heightsFromTo]

/-- C22. For every error `err` passed to `supplementUnknownTicketError`: when its
message has no part `unknown ticket <word> spent in block`, or the word of the
leftmost such part is no hash for `chainhash.NewHashFromStr`, or the lookup of the
ticket at the block source fails, the error is returned unchanged; otherwise the
message returned is that of `err` followed by the hint with the block `b` in which
the ticket was mined and the purge depth `StakeHeight - b + 1`, which counts the
blocks from `b` to the tip of the stake database when `b` is not above the block after
that tip. A part found is the two texts around a run of word characters, and a message
with such a part has one found. -/
theorem c22_supplement_unknown_ticket (env : TicketEnv) (err : String) :
    ((∀ pre g post, err.toList = pre ++ ticketPrefix ++ g ++ ticketSuffix ++ post →
        ∃ c ∈ g, isWordChar c = false) →
      supplementUnknownTicketError env err = err) ∧
    (∀ g, findUnknownTicket err.toList = some g → env.newHashFromStr (String.mk g) = none →
      supplementUnknownTicketError env err = err) ∧
    (∀ g h, findUnknownTicket err.toList = some g → env.newHashFromStr (String.mk g) = some h →
      env.getRawTransactionVerbose h = none → supplementUnknownTicketError env err = err) ∧
    (∀ g h b, findUnknownTicket err.toList = some g →
      env.newHashFromStr (String.mk g) = some h → env.getRawTransactionVerbose h = some b →
      supplementUnknownTicketError env err =
          err ++ purgeHint b ((env.stakeHeight : Int) - b + 1) ∧
        (b ≤ (env.stakeHeight : Int) + 1 →
          (env.stakeHeight : Int) - b + 1 = ((heightsFromTo b env.stakeHeight).length : Int))) ∧
    (∀ g, findUnknownTicket err.toList = some g →
      (∃ pre post, err.toList = pre ++ ticketPrefix ++ g ++ ticketSuffix ++ post) ∧
        ∀ c ∈ g, isWordChar c = true) ∧
    (∀ pre g post, err.toList = pre ++ ticketPrefix ++ g ++ ticketSuffix ++ post →
      (∀ c ∈ g, isWordChar c = true) → (findUnknownTicket err.toList).isSome = true) := by
  refine ⟨fun hno => ?_, fun g hg hn => ?_, fun g h hg hn hl => ?_, fun g h b hg hn hl => ?_,
    fun g hg => findUnknownTicket_some _ g hg,
    fun pre g post he hw => he ▸ findUnknownTicket_of_eq g post hw pre⟩
  · cases hf : findUnknownTicket err.toList with
    | none => simp only [supplementUnknownTicketError, parseUnknownTicketError, hf]
    | some g =>
      exfalso
      obtain ⟨⟨pre, post, hp⟩, hw⟩ := findUnknownTicket_some _ g hf
      obtain ⟨c, hc, hcw⟩ := hno pre g post hp
      rw [hw c hc] at hcw
      cases hcw
  · simp only [supplementUnknownTicketError, parseUnknownTicketError, hg, hn]
  · simp only [supplementUnknownTicketError, parseUnknownTicketError, hg, hn, hl]
  · refine ⟨by simp only [supplementUnknownTicketError, parseUnknownTicketError, hg, hn, hl],
      fun hb => ?_⟩
    rw [length_heightsFromTo]
    omega

/-- A message of the stake database with the ticket `abc123`, which the block source
has in block 100, the stake database being at height 120: the hint names block 100
and 21 blocks to purge. -/
theorem c22_supplement_unknown_ticket_witness :
    supplementUnknownTicketError
        ⟨fun s => if s = "abc123" then some 7 else none, fun _ => some 100, 120⟩
        "ConnectBlock failed: unknown ticket abc123 spent in block 0000 at height 121" =
      "ConnectBlock failed: unknown ticket abc123 spent in block 0000 at height 121" ++
        purgeHint 100 21 :=
  ((c22_supplement_unknown_ticket
    ⟨fun s => if s = "abc123" then some 7 else none, fun _ => some 100, 120⟩
    "ConnectBlock failed: unknown ticket abc123 spent in block 0000 at height 121").2.2.2.1
    "abc123".toList 7 100 (by decide) (by decide) rfl).1

end Dcrpg

namespace Dcrpg

/-! ## The warm-up of the UTXO cache -/

theorem effect_utxoSize (c : Call) (w : World) (hc : isNoUtxoLoad c = true) :
    (effect c w).utxoSize = w.utxoSize := by
  cases c <;>
    simp_all [effect, isNoUtxoLoad, connectBlockEffect, storeBlockEffect, setIBDEffect]

theorem closed_utxoQuiet (env : Env) : StepClosed env isNoUtxoLoad UtxoQuiet where
  refl := fun _ => ⟨rfl, rfl⟩
  trans := fun _ _ _ h1 h2 => ⟨h2.1.trans h1.1, h2.2.trans h1.2⟩
  failed := fun s c hc _ => by
    cases c <;> simp_all [UtxoQuiet, isNoUtxoLoad, utxoLog, List.filterMap_append]
  passed := fun s c hc _ => by
    refine ⟨?_, effect_utxoSize c s.w hc⟩
    cases c <;> simp_all [isNoUtxoLoad, utxoLog, List.filterMap_append]
  nodeHeight := fun _ _ => ⟨rfl, rfl⟩
  stakeDBHeight := fun _ _ => ⟨rfl, rfl⟩
  stage := fun _ _ => ⟨rfl, rfl⟩
  counts := fun _ _ => ⟨rfl, rfl⟩
  progress := fun s p _ =>
    ⟨sendProgressUpdate_filterMap _ env p s (fun _ _ => rfl), by simp⟩
  page := fun s h _ => ⟨sendPageData_filterMap _ env h s (fun _ _ => rfl), by simp⟩

/-- The warm-up step: the size of the cache is read; a cache that is not empty is
left as it is, with no other call; for an empty cache `RetrieveUTXOs` is called, and
when it went through `InitUtxoCache` with what it returned. -/
theorem warmUtxoCache_spec (env : Env) (s : St) :
    utxoLog (warmUtxoCache env s).st.trace = utxoLog s.trace ++ warmUpLog env s ∧
    (warmUtxoCache env s).st.w.utxoSize = warmUpSize env s ∧
    (s.w.utxoSize ≠ 0 → warmUtxoCache env s = .next (s.record .UtxoCacheSize true)) ∧
    (s.w.utxoSize = 0 → env.fails (s.now + 1) = true →
      ∃ s1, warmUtxoCache env s = .stop (-1) .retrieveUTXOs s1) := by
  by_cases h0 : s.w.utxoSize = 0
  · cases hf : env.fails (s.now + 1) <;>
      simp [warmUtxoCache, attempt, warmUpLog, warmUpSize, utxoLog, List.filterMap_append, h0,
        hf]
  · simp [warmUtxoCache, warmUpLog, warmUpSize, utxoLog, List.filterMap_append, h0]

theorem utxoQuiet_keeps (X : List (Call × Bool)) (Y : Nat) (s s1 : St)
    (h : utxoLog s.trace = X ∧ s.w.utxoSize = Y) (hq : UtxoQuiet s s1) :
    utxoLog s1.trace = X ∧ s1.w.utxoSize = Y :=
  ⟨hq.1.trans h.1, hq.2.trans h.2⟩

theorem isNoUtxoLoad_loop (c : Call) (h : isLoopCall c = true) : isNoUtxoLoad c = true := by
  cases c <;> simp_all [isLoopCall, isNoUtxoLoad]

theorem isNoUtxoLoad_stage (c : Call) (h : isStageCall c = true) : isNoUtxoLoad c = true := by
  cases c <;> simp_all [isStageCall, isNoUtxoLoad]

theorem isNoUtxoLoad_finalize (c : Call) (h : isFinalizeCall c = true) :
    isNoUtxoLoad c = true := by
  cases c <;> simp_all [isFinalizeCall, isNoUtxoLoad]

/-- Set-up after the warm-up loads nothing. -/
theorem afterWarmUp_utxoQuiet (env : Env) (cfg : RunCfg) (lastBlock : Int) (ibd : Bool)
    (s : St) :
    UtxoQuiet s ((prepareIndexes env cfg lastBlock s).bind fun s =>
      (clearIBDComplete env cfg ibd s).bind fun s => announce env cfg s).st := by
  have hR := closed_utxoQuiet env
  refine Step.bind_rel hR.trans ?_ fun s1 =>
    Step.bind_rel hR.trans (closed_clearIBDComplete hR cfg ibd s1 rfl)
      fun s2 => closed_announce hR cfg s2 (fun _ => rfl)
  unfold prepareIndexes
  split_ifs
  · refine Step.bind_rel hR.trans (closed_deindexAll hR lastBlock s rfl) fun s => ?_
    exact Step.bind_rel hR.trans (closed_attempt hR _ _ _ _ rfl rfl (fun _ => rfl))
      (fun s1 => closed_enableDuplicateCheckOnInsert hR false s1 rfl)
  · exact closed_enableDuplicateCheckOnInsert hR true s rfl

/-- The loads of a whole run that reached the warm-up in state `s0` are those of the
warm-up, and so is the size of the cache at the end. -/
theorem run_utxo (env : Env) (fuel : Nat) (w : World) (ua ni ue bl : Bool) (s0 : St)
    (hr : reconcile env w ue bl = .next s0) :
    utxoLog (SyncChainDB env fuel w ua ni ue bl).2.trace = warmUpLog env s0 ∧
    (SyncChainDB env fuel w ua ni ue bl).2.w.utxoSize = warmUpSize env s0 := by
  have hR := closed_utxoQuiet env
  have h0 : utxoLog s0.trace = [] := by
    have := reconcile_filterMap env w ue bl
      (fun e => match e.call with
        | .RetrieveUTXOs => some (e.call, e.ok)
        | .InitUtxoCache _ => some (e.call, e.ok)
        | _ => none)
      (fun e he => by cases hc : e.call <;> simp_all [isReconcileCall])
    rw [hr] at this
    exact this
  refine run_spec env fuel w ua ni ue bl
    (fun y => utxoLog y.2.trace = warmUpLog env s0 ∧ y.2.w.utxoSize = warmUpSize env s0)
    (fun s => s = s0)
    (fun s => utxoLog s.trace = warmUpLog env s0 ∧ s.w.utxoSize = warmUpSize env s0)
    (fun s => utxoLog s.trace = warmUpLog env s0 ∧ s.w.utxoSize = warmUpSize env s0)
    (fun _ s => utxoLog s.trace = warmUpLog env s0 ∧ s.w.utxoSize = warmUpSize env s0)
    (fun _ s => utxoLog s.trace = warmUpLog env s0 ∧ s.w.utxoSize = warmUpSize env s0)
    (fun _ s => utxoLog s.trace = warmUpLog env s0 ∧ s.w.utxoSize = warmUpSize env s0)
    ?_ ?_ ?_ ?_ ?_ ?_ s0 hr rfl
  · rintro s rfl
    obtain ⟨w1, w2, _, _⟩ := warmUtxoCache_spec env s
    rw [h0, List.nil_append] at w1
    unfold prepare
    revert w1 w2
    cases warmUtxoCache env s with
    | stop h e s1 => exact fun w1 w2 => ⟨w1, w2⟩
    | panic m s1 => exact fun w1 w2 => ⟨w1, w2⟩
    | next s1 =>
      intro w1 w2
      simp only [Step.st] at w1 w2
      simp only [Step.bind_next]
      have hq := afterWarmUp_utxoQuiet env (mkCfg w (env.best 0) ua ni) w.chainCursor
        w.ibdComplete s1
      revert hq
      cases ((prepareIndexes env (mkCfg w (env.best 0) ua ni) w.chainCursor s1).bind fun s =>
        (clearIBDComplete env (mkCfg w (env.best 0) ua ni) w.ibdComplete s).bind fun s =>
          announce env (mkCfg w (env.best 0) ua ni) s) <;>
        exact fun hq => utxoQuiet_keeps _ _ _ _ ⟨w1, w2⟩ hq
  · intro s hs
    have hq := closed_importBlocks hR isNoUtxoLoad_loop (mkCfg w (env.best 0) ua ni) fuel
      (mkCfg w (env.best 0) ua ni).startHeight s
    revert hq
    cases importBlocks env (mkCfg w (env.best 0) ua ni) fuel
      (mkCfg w (env.best 0) ua ni).startHeight s <;>
      exact fun hq => utxoQuiet_keeps _ _ _ _ hs hq
  · intro n s hs
    have hq := closed_stages hR isNoUtxoLoad_stage (mkCfg w (env.best 0) ua ni) s
    revert hq
    cases stages env (mkCfg w (env.best 0) ua ni) s <;>
      exact fun hq => utxoQuiet_keeps _ _ _ _ hs hq
  · intro n s hs
    have hq := closed_finalize hR isNoUtxoLoad_finalize s
    revert hq
    cases finalize env s <;> exact fun hq => utxoQuiet_keeps _ _ _ _ hs hq
  · intro n s hs
    have hq := closed_catchUp hR isNoUtxoLoad_loop (mkCfg w (env.best 0) ua ni) fuel n s
    revert hq
    cases catchUp env (mkCfg w (env.best 0) ua ni) fuel n s <;>
      exact fun hq => utxoQuiet_keeps _ _ _ _ hs hq
  · intro s hs
    exact utxoQuiet_keeps _ _ _ _ hs (closed_complete hR _ s (fun _ => rfl))

/-- C23. In every run of `SyncChainDB` that reaches the warm-up step, in state `s0`
with the cache of the size it had at entry: when the cache is not empty the run calls
neither `RetrieveUTXOs` nor `InitUtxoCache`, the warm-up step is the read of the size
alone, and the size is the same at the end of the run; when the cache is empty the
run calls `RetrieveUTXOs` once, and `InitUtxoCache` once after it, with what it
returned, if and only if that call went through. -/
theorem c23_utxo_warm_up (env : Env) (fuel : Nat) (w : World) (ua ni ue bl : Bool) (s0 : St)
    (hr : reconcile env w ue bl = .next s0) :
    s0.w.utxoSize = w.utxoSize ∧
    (w.utxoSize ≠ 0 →
      utxoLog (SyncChainDB env fuel w ua ni ue bl).2.trace = [] ∧
      warmUtxoCache env s0 = .next (s0.record .UtxoCacheSize true) ∧
      (SyncChainDB env fuel w ua ni ue bl).2.w.utxoSize = w.utxoSize) ∧
    (w.utxoSize = 0 → env.fails (s0.now + 1) = false →
      utxoLog (SyncChainDB env fuel w ua ni ue bl).2.trace =
        [(.RetrieveUTXOs, true), (.InitUtxoCache env.utxos, true)] ∧
      (SyncChainDB env fuel w ua ni ue bl).2.w.utxoSize = env.utxos) ∧
    (w.utxoSize = 0 → env.fails (s0.now + 1) = true →
      utxoLog (SyncChainDB env fuel w ua ni ue bl).2.trace = [(.RetrieveUTXOs, false)] ∧
      (SyncChainDB env fuel w ua ni ue bl).1 = .returned (-1) (some .retrieveUTXOs)) := by
  have hspec := reconcile_spec env w ue bl
  rw [hr] at hspec
  have hw : s0.w.utxoSize = w.utxoSize := by
    rw [hspec.2.2.2.2.2.2.1]
    split_ifs <;> rfl
  obtain ⟨h1, h2⟩ := run_utxo env fuel w ua ni ue bl s0 hr
  refine ⟨hw, fun hne => ?_, fun h0 hf => ?_, fun h0 hf => ?_⟩
  · have hne0 : s0.w.utxoSize ≠ 0 := by rw [hw]; exact hne
    refine ⟨?_, (warmUtxoCache_spec env s0).2.2.1 hne0, ?_⟩
    · rw [h1, warmUpLog, if_neg hne0]
    · rw [h2, warmUpSize, if_neg (fun h => hne0 h.1), hw]
  · have h00 : s0.w.utxoSize = 0 := by rw [hw]; exact h0
    refine ⟨?_, ?_⟩
    · rw [h1, warmUpLog, if_pos h00, hf]
      rfl
    · rw [h2, warmUpSize, if_pos ⟨h00, hf⟩]
  · have h00 : s0.w.utxoSize = 0 := by rw [hw]; exact h0
    refine ⟨?_, ?_⟩
    · rw [h1, warmUpLog, if_pos h00, hf]
      rfl
    · obtain ⟨s1, hs1⟩ := (warmUtxoCache_spec env s0).2.2.2 h00 hf
      simp only [SyncChainDB, setup, hr, Step.bind_next, prepare, hs1, Step.bind_stop]

/-- Two runs of C23 with the store at 50 and the source at 53: with an empty cache
the run loads it, with a cache of one entry it does not. -/
theorem c23_utxo_warm_up_witness :
    utxoLog (SyncChainDB (quietEnv 53) 5 ⟨50, 50, true, true, 0⟩ false false false false).2.trace =
      [(.RetrieveUTXOs, true), (.InitUtxoCache 0, true)] ∧
    utxoLog (SyncChainDB (quietEnv 53) 5 ⟨50, 50, true, true, 1⟩ false false false false).2.trace =
      [] :=
  ⟨((c23_utxo_warm_up (quietEnv 53) 5 ⟨50, 50, true, true, 0⟩ false false false false
      (reconcile (quietEnv 53) ⟨50, 50, true, true, 0⟩ false false).st rfl).2.2.1 rfl rfl).1,
    ((c23_utxo_warm_up (quietEnv 53) 5 ⟨50, 50, true, true, 1⟩ false false false false
      (reconcile (quietEnv 53) ⟨50, 50, true, true, 1⟩ false false).st rfl).2.1 (by decide)).1⟩

end Dcrpg

namespace Dcrpg

/-! ## The flag and the duplicate check at the end of a run -/

theorem flagSetIn_append (a b : List Event) :
    flagSetIn (a ++ b) ↔ flagSetIn a ∨ flagSetIn b := by
  simp only [flagSetIn, List.mem_append]
  constructor
  · rintro ⟨e, he | he, h⟩
    · exact Or.inl ⟨e, he, h⟩
    · exact Or.inr ⟨e, he, h⟩
  · rintro (⟨e, he, h⟩ | ⟨e, he, h⟩)
    · exact ⟨e, Or.inl he, h⟩
    · exact ⟨e, Or.inr he, h⟩

theorem flagKept_record (s : St) (c : Call) (ok : Bool) (w : World)
    (h : c ≠ .SetIBDComplete true ∨ ok = false) :
    FlagKept s ((s.setW w).record c ok) := by
  intro hf
  simp only [St.record_trace, St.setW_trace] at hf
  rcases (flagSetIn_append _ _).1 hf with hf | ⟨e, he, h1, h2⟩
  · exact hf
  · rw [List.mem_singleton] at he
    subst he
    rcases h with h | h
    · exact absurd h1 h
    · simp only at h2
      rw [h] at h2
      cases h2

theorem closed_flagKept (env : Env) : StepClosed env isNoFlagSet FlagKept where
  refl := fun _ => id
  trans := fun _ _ _ h1 h2 h => h1 (h2 h)
  failed := fun s c _ _ => flagKept_record s c false s.w (Or.inr rfl)
  passed := fun s c hc _ => flagKept_record s c true _ (Or.inl (by
    rintro rfl
    simp [isNoFlagSet] at hc))
  nodeHeight := fun _ _ => id
  stakeDBHeight := fun _ _ => id
  stage := fun _ _ => id
  counts := fun _ _ => id
  progress := fun s p _ => by
    unfold sendProgressUpdate
    split_ifs
    · exact flagKept_record s _ false s.w (Or.inl (by simp))
    · exact flagKept_record s _ true s.w (Or.inl (by simp))
    · exact id
  page := fun s h _ => by
    unfold sendPageData
    split_ifs
    · exact flagKept_record s _ false s.w (Or.inl (by simp))
    · exact flagKept_record s _ true s.w (Or.inl (by simp))
    · exact id

theorem isNoFlagSet_prepare (c : Call) (h : isPrepareCall c = true) : isNoFlagSet c = true := by
  cases c with
  | SetIBDComplete b => cases b <;> simp_all [isPrepareCall, isNoFlagSet]
  | _ => simp_all [isPrepareCall, isNoFlagSet]

theorem isNoFlagSet_loop (c : Call) (h : isLoopCall c = true) : isNoFlagSet c = true := by
  cases c <;> simp_all [isLoopCall, isNoFlagSet]

theorem isNoFlagSet_stage (c : Call) (h : isStageCall c = true) : isNoFlagSet c = true := by
  cases c <;> simp_all [isStageCall, isNoFlagSet]

theorem keepsDupCheck_stage (d : Bool) (c : Call) (h : isStageCall c = true) :
    keepsDupCheck d c = true := by
  cases c <;> simp_all [isStageCall, keepsDupCheck]

/-- The part of lines 1169-1188 entered in state `s`: when it falls through the
duplicate check is on; when it returns, either `SetIBDComplete(true)` failed, or the
error is the cancellation of lines 1174-1178 and the duplicate check is as it was, or
the duplicate check is on. -/
theorem finalize_flag_dupCheck (env : Env) (s : St) :
    match finalize env s with
    | .next s1 => s1.w.dupCheck = true
    | .stop _ e s1 =>
      (FlagKept s s1 ∧ s1.w.dupCheck = s.w.dupCheck) ∨
        (e = .syncCancelled ∧ s1.w.dupCheck = s.w.dupCheck) ∨ s1.w.dupCheck = true
    | .panic _ _ => False := by
  simp only [finalize, setIBDComplete, attemptW, checkCancelled, enableDuplicateCheckOnInsert,
    pollForCatchUp, pollBestBlock, Step.bind_ite, Step.bind_next, Step.bind_stop]
  split_ifs
  · exact Or.inl ⟨flagKept_record s _ false s.w (Or.inr rfl), rfl⟩
  · exact Or.inr (Or.inl ⟨rfl, by simp [setIBDEffect]⟩)
  · exact Or.inr (Or.inr (by simp))
  · simp

/-- The flag and the duplicate check at the end of a run: when `SetIBDComplete(true)`
went through in the run, the duplicate check is on, or the run is reindexing and
returns the cancellation error. -/
theorem run_flag_dupCheck (env : Env) (fuel : Nat) (w : World) (ua ni ue bl : Bool)
    (hset : flagSetIn (SyncChainDB env fuel w ua ni ue bl).2.trace) :
    (SyncChainDB env fuel w ua ni ue bl).2.w.dupCheck = true ∨
      ((mkCfg w (env.best 0) ua ni).reindexing = true ∧
        ∃ h, (SyncChainDB env fuel w ua ni ue bl).1 = .returned h (some .syncCancelled)) := by
  have hF := closed_flagKept env
  have h0 : ¬flagSetIn (reconcile env w ue bl).st.trace := by
    rintro ⟨e, he, h1, _⟩
    have := reconcile_calls env w ue bl e he
    rw [h1] at this
    cases this
  cases hr : reconcile env w ue bl with
  | stop h e s =>
    rw [hr] at h0
    rw [SyncChainDB_of_reconcile_stop env fuel w ua ni ue bl h e s hr] at hset
    exact absurd hset h0
  | panic m s =>
    rw [hr] at h0
    rw [SyncChainDB_of_reconcile_panic env fuel w ua ni ue bl m s hr] at hset
    exact absurd hset h0
  | next s0 =>
    rw [hr] at h0
    simp only [Step.st] at h0
    refine run_spec env fuel w ua ni ue bl
      (fun y => flagSetIn y.2.trace → y.2.w.dupCheck = true ∨
        ((mkCfg w (env.best 0) ua ni).reindexing = true ∧
          ∃ h, y.1 = .returned h (some .syncCancelled)))
      (fun s => ¬flagSetIn s.trace)
      (fun s => ¬flagSetIn s.trace ∧ s.w.dupCheck = !(mkCfg w (env.best 0) ua ni).reindexing)
      (fun s => s.w.dupCheck = true)
      (fun _ s => ¬flagSetIn s.trace ∧
        s.w.dupCheck = !(mkCfg w (env.best 0) ua ni).reindexing)
      (fun _ s => ¬flagSetIn s.trace ∧
        s.w.dupCheck = !(mkCfg w (env.best 0) ua ni).reindexing)
      (fun _ s => s.w.dupCheck = true)
      ?_ ?_ ?_ ?_ ?_ ?_ s0 hr h0 hset
    · intro s hs
      have hk := closed_prepare hF isNoFlagSet_prepare (mkCfg w (env.best 0) ua ni)
        w.chainCursor w.ibdComplete s
      have hd := prepare_dupCheck env (mkCfg w (env.best 0) ua ni) w.chainCursor
        w.ibdComplete s
      revert hk hd
      cases prepare env (mkCfg w (env.best 0) ua ni) w.chainCursor w.ibdComplete s with
      | next s1 => exact fun hk hd => ⟨fun h => hs (hk h), hd s1 rfl⟩
      | stop h e s1 => exact fun hk _ hf => absurd (hk hf) hs
      | panic m s1 => exact fun hk _ hf => absurd (hk hf) hs
    · rintro s ⟨hs, hd⟩
      have hk := closed_importBlocks hF isNoFlagSet_loop (mkCfg w (env.best 0) ua ni) fuel
        (mkCfg w (env.best 0) ua ni).startHeight s
      obtain ⟨_, _, hdk⟩ := closed_importBlocks (closed_dupCheck env
        (!(mkCfg w (env.best 0) ua ni).reindexing)) (keepsDupCheck_loop _)
        (mkCfg w (env.best 0) ua ni) fuel (mkCfg w (env.best 0) ua ni).startHeight s
      revert hk hdk
      cases importBlocks env (mkCfg w (env.best 0) ua ni) fuel
        (mkCfg w (env.best 0) ua ni).startHeight s with
      | done n s1 => exact fun hk hdk => ⟨fun h => hs (hk h), (hdk hd).1⟩
      | stop h e s1 => exact fun hk _ hf => absurd (hk hf) hs
      | panic m s1 => exact fun hk _ hf => absurd (hk hf) hs
      | outOfFuel s1 => exact fun hk _ hf => absurd (hk hf) hs
    · rintro n s ⟨hs, hd⟩
      have hk := closed_stages hF isNoFlagSet_stage (mkCfg w (env.best 0) ua ni) s
      obtain ⟨_, _, hdk⟩ := closed_stages (closed_dupCheck env
        (!(mkCfg w (env.best 0) ua ni).reindexing)) (keepsDupCheck_stage _)
        (mkCfg w (env.best 0) ua ni) s
      revert hk hdk
      cases stages env (mkCfg w (env.best 0) ua ni) s with
      | next s1 => exact fun hk hdk => ⟨fun h => hs (hk h), (hdk hd).1⟩
      | stop h e s1 => exact fun hk _ hf => absurd (hk hf) hs
      | panic m s1 => exact fun hk _ hf => absurd (hk hf) hs
    · rintro n s ⟨hs, hd⟩
      have hfin := finalize_flag_dupCheck env s
      revert hfin
      cases finalize env s with
      | next s1 => exact id
      | panic m s1 => exact fun hfin => hfin.elim
      | stop h e s1 =>
        intro hfin hf
        rcases hfin with ⟨hk, _⟩ | ⟨he, hsame⟩ | hon
        · exact absurd (hk hf) hs
        · cases hre : (mkCfg w (env.best 0) ua ni).reindexing with
          | true => exact Or.inr ⟨rfl, h, by rw [he]⟩
          | false =>
            refine Or.inl ?_
            show s1.w.dupCheck = true
            rw [hsame, hd, hre]
            rfl
        · exact Or.inl hon
    · intro n s hd
      obtain ⟨_, _, hdk⟩ := closed_catchUp (closed_dupCheck env true) (keepsDupCheck_loop true)
        (mkCfg w (env.best 0) ua ni) fuel n s
      revert hdk
      cases catchUp env (mkCfg w (env.best 0) ua ni) fuel n s with
      | done n s1 => exact fun hdk => (hdk hd).1
      | stop h e s1 => exact fun hdk _ => Or.inl (hdk hd).1
      | panic m s1 => exact fun hdk _ => Or.inl (hdk hd).1
      | outOfFuel s1 => exact fun hdk _ => Or.inl (hdk hd).1
    · intro s hd _
      refine Or.inl ?_
      rw [complete_w]
      exact hd

/-- C25, a run against it: an empty store with the source at height 0, so that the
run is reindexing, and the context cancelled right after `SetIBDComplete(true)`. The
check of lines 1174-1178 returns the cancellation error before line 1182 is reached:
the run returns with the flag set in this run and the duplicate check still off. -/
theorem c25_counterexample :
    (SyncChainDB (cancelledEnv 0 28) 5 ⟨-1, 0, false, true, 0⟩ false false false false).1 =
      .returned 0 (some .syncCancelled) ∧
    flagSetIn
      (SyncChainDB (cancelledEnv 0 28) 5 ⟨-1, 0, false, true, 0⟩ false false false false).2.trace ∧
    (SyncChainDB (cancelledEnv 0 28) 5 ⟨-1, 0, false, true, 0⟩ false false false
      false).2.w.ibdComplete = true ∧
    (SyncChainDB (cancelledEnv 0 28) 5 ⟨-1, 0, false, true, 0⟩ false false false
      false).2.w.dupCheck = false := by
  decide

/-- C25, as the code has it. Whenever a run of `SyncChainDB` ends after
`SetIBDComplete(true)` went through in it, the duplicate check is on, but for one
return: that of the cancellation check of lines 1174-1178 in a reindexing run. So it
is on when the run returns without error, when the error is not the cancellation
error, and in every run that is not reindexing. -/
theorem c25_flag_then_duplicate_check (env : Env) (fuel : Nat) (w : World)
    (ua ni ue bl : Bool)
    (hset : flagSetIn (SyncChainDB env fuel w ua ni ue bl).2.trace) :
    ((SyncChainDB env fuel w ua ni ue bl).2.w.dupCheck = true ∨
      ((ni = true ∨ w.chainCursor = -1 ∨ w.ibdComplete = false) ∧
        ∃ h, (SyncChainDB env fuel w ua ni ue bl).1 = .returned h (some .syncCancelled))) ∧
    ((∀ h, (SyncChainDB env fuel w ua ni ue bl).1 ≠ .returned h (some .syncCancelled)) →
      (SyncChainDB env fuel w ua ni ue bl).2.w.dupCheck = true) ∧
    (¬(ni = true ∨ w.chainCursor = -1 ∨ w.ibdComplete = false) →
      (SyncChainDB env fuel w ua ni ue bl).2.w.dupCheck = true) := by
  have h := run_flag_dupCheck env fuel w ua ni ue bl hset
  have hiff := mkCfg_reindexing w (env.best 0) ua ni
  refine ⟨?_, fun hne => ?_, fun hnr => ?_⟩
  · rcases h with h | ⟨h1, h2⟩
    · exact Or.inl h
    · exact Or.inr ⟨hiff.1 h1, h2⟩
  · rcases h with h | ⟨_, h1, h2⟩
    · exact h
    · exact absurd h2 (hne h1)
  · rcases h with h | ⟨h1, _⟩
    · exact h
    · exact absurd (hiff.1 h1) hnr

/-- A run of C25 that returns without error: store at 50, source at 53. -/
theorem c25_flag_then_duplicate_check_witness :
    (SyncChainDB (quietEnv 53) 5 ⟨50, 50, true, true, 1⟩ false false false false).2.w.dupCheck =
      true :=
  (c25_flag_then_duplicate_check (quietEnv 53) 5 ⟨50, 50, true, true, 1⟩ false false false false
    (by decide)).2.2 (by decide)

/-- C26, at concrete inputs. With an empty primary store (height -1) and the stake
database at height 5, `SyncChainDB` returns -1 with the error "delete stake db" after
the reads at entry: `RewindStakeDB` is not called, the stake database stays at height
5 and nothing is imported. With the store at 50 and the stake database at 130 it does
the same. With the store at 50 and the stake database at 60 it calls
`RewindStakeDB(50)` and goes on. -/
theorem c26_empty_store_aborts :
    ((SyncChainDB (quietEnv 10) 5 ⟨-1, 5, false, true, 0⟩ false false false false).1 =
        .returned (-1) (some .deleteStakeDB) ∧
      rewindCalls
        (SyncChainDB (quietEnv 10) 5 ⟨-1, 5, false, true, 0⟩ false false false false).2.trace =
        [] ∧
      (SyncChainDB (quietEnv 10) 5 ⟨-1, 5, false, true, 0⟩ false false false
        false).2.w.stakeHeight = 5 ∧
      fetchCalls
        (SyncChainDB (quietEnv 10) 5 ⟨-1, 5, false, true, 0⟩ false false false false).2.trace =
        []) ∧
    ((SyncChainDB (quietEnv 53) 5 ⟨50, 130, true, true, 1⟩ false false false false).1 =
        .returned (-1) (some .deleteStakeDB) ∧
      rewindCalls
        (SyncChainDB (quietEnv 53) 5 ⟨50, 130, true, true, 1⟩ false false false false).2.trace =
        []) ∧
    ((SyncChainDB (quietEnv 53) 5 ⟨50, 60, true, true, 1⟩ false false false false).1 =
        .returned 53 none ∧
      rewindCalls
        (SyncChainDB (quietEnv 53) 5 ⟨50, 60, true, true, 1⟩ false false false false).2.trace =
        [50]) := by
  decide

end Dcrpg

namespace Dcrpg

/-! ## The month loop of the summary tables -/

/-- An iteration of the month loop when no query fails: the month of `startTime` is
visited, and the loop goes on with `startTime.AddDate(0, 1, 0)` unless `startTime` is
of the year and month of `now`, whatever `CheckSavedSummary` answers. -/
theorem summaryMonthLoop_succ (saved : Date → Bool) (now startTime : Date) (fuel : Nat)
    (visited : List (Int × Nat)) :
    summaryMonthLoop saved (fun _ => false) now (fuel + 1) startTime visited =
      if now.month = startTime.month ∧ now.year = startTime.year then
        .done (visited ++ [(startTime.year, startTime.month)])
      else summaryMonthLoop saved (fun _ => false) now fuel (addOneMonth startTime)
        (visited ++ [(startTime.year, startTime.month)]) := by
  simp only [summaryMonthLoop]
  cases saved startTime <;> simp

theorem daysIn_ge (y : Int) (m : Nat) : 28 ≤ daysIn y m := by
  unfold daysIn
  split <;> try split_ifs <;> omega
  all_goals omega

/-- Adding a month to a date whose day is at most 28 gives the same day of the month
after. -/
theorem addOneMonth_of_le (t : Date) (hd : t.day ≤ 28) (hm : 1 ≤ t.month ∧ t.month ≤ 12) :
    (addOneMonth t).day = t.day ∧
    (1 ≤ (addOneMonth t).month ∧ (addOneMonth t).month ≤ 12) ∧
    12 * (addOneMonth t).year + ((addOneMonth t).month : Int) =
      12 * t.year + (t.month : Int) + 1 := by
  have h28 := daysIn_ge (if t.month = 12 then t.year + 1 else t.year)
    (if t.month = 12 then 1 else t.month + 1)
  have hle : t.day ≤ daysIn (if t.month = 12 then t.year + 1 else t.year)
      (if t.month = 12 then 1 else t.month + 1) := le_trans hd h28
  simp only [addOneMonth, if_pos hle]
  split_ifs with h12
  · rw [h12]
    refine ⟨trivial, by omega, ?_⟩
    push_cast
    omega
  · refine ⟨trivial, by omega, ?_⟩
    push_cast
    omega

/-- Once `startTime` is in a month after that of `now`, on a day up to the 28th, the
loop never ends: with any fuel it runs out of fuel, and every month it visits is after
that of `now`. -/
theorem summaryMonthLoop_passed (saved : Date → Bool) (now : Date) :
    ∀ (fuel : Nat) (startTime : Date) (visited : List (Int × Nat)),
      12 * now.year + (now.month : Int) < 12 * startTime.year + (startTime.month : Int) →
      startTime.day ≤ 28 → (1 ≤ startTime.month ∧ startTime.month ≤ 12) →
      ∃ more, summaryMonthLoop saved (fun _ => false) now fuel startTime visited =
          .outOfFuel (visited ++ more) ∧
        ∀ p ∈ more, 12 * now.year + (now.month : Int) < 12 * p.1 + (p.2 : Int) := by
  intro fuel
  induction fuel with
  | zero =>
    intro t v _ _ _
    exact ⟨[], by simp [summaryMonthLoop], by simp⟩
  | succ fuel ih =>
    intro t v hlt hd hm
    have hne : ¬(now.month = t.month ∧ now.year = t.year) := by
      rintro ⟨h1, h2⟩
      rw [h1, h2] at hlt
      omega
    rw [summaryMonthLoop_succ, if_neg hne]
    obtain ⟨a1, a2, a3⟩ := addOneMonth_of_le t hd hm
    obtain ⟨more, h1, h2⟩ := ih (addOneMonth t) (v ++ [(t.year, t.month)]) (by omega)
      (by omega) a2
    refine ⟨(t.year, t.month) :: more, ?_, ?_⟩
    · rw [h1, List.append_assoc]
      rfl
    · intro p hp
      rcases List.mem_cons.1 hp with rfl | hp
      · exact hlt
      · exact h2 p hp

/-- C27, at concrete inputs. With the first row on 31 January 2024 and no query
failing: `AddDate(0, 1, 0)` gives 31 February, normalised to 2 March, so February is
never visited. When `now` is 15 February 2024 the test of the loop never holds: for
every fuel the loop is still running, after January and months past February only.
When `now` is 15 April 2024 the loop ends after January, March and April. -/
theorem c27_month_loop_skips_february (saved : Date → Bool) (fuel : Nat) :
    addOneMonth ⟨2024, 1, 31⟩ = ⟨2024, 3, 2⟩ ∧
    (∃ visited, summaryMonthLoop saved (fun _ => false) ⟨2024, 2, 15⟩ fuel ⟨2024, 1, 31⟩ [] =
        .outOfFuel visited ∧ (2024, 2) ∉ visited) ∧
    summaryMonthLoop saved (fun _ => false) ⟨2024, 4, 15⟩ 3 ⟨2024, 1, 31⟩ [] =
      .done [(2024, 1), (2024, 3), (2024, 4)] := by
  have hadd : addOneMonth ⟨2024, 1, 31⟩ = ⟨2024, 3, 2⟩ := by decide
  refine ⟨hadd, ?_, ?_⟩
  · cases fuel with
    | zero => exact ⟨[], rfl, by simp⟩
    | succ fuel =>
      rw [summaryMonthLoop_succ, if_neg (by decide), hadd]
      obtain ⟨more, h1, h2⟩ := summaryMonthLoop_passed saved ⟨2024, 2, 15⟩ fuel ⟨2024, 3, 2⟩
        ([] ++ [(2024, 1)]) (by decide) (by decide) (by decide)
      refine ⟨_, h1, ?_⟩
      intro hmem
      rcases List.mem_append.1 hmem with h | h
      · simp at h
      · have := h2 _ h
        simp at this
  · rw [summaryMonthLoop_succ, if_neg (by decide), hadd, summaryMonthLoop_succ,
      if_neg (by decide), summaryMonthLoop_succ, if_pos (by decide)]
    rfl

end Dcrpg

namespace Dcrpg

/-! ## A run entered at the height a failed pass returned -/

/-- Set-up falls through to block import when no call fails, the store height is at
least -1 and the stake database is not ahead of the store by more than `SyncChainDB`
repairs. -/
theorem setup_falls_through (env : Env) (hf : ∀ t, env.fails t = false) (w : World)
    (ua ni ue bl : Bool) (hL : -1 ≤ w.chainCursor) (hnc : ¬Corrupted w) :
    ∃ s, setup env w ua ni ue bl = .next s := by
  have hspec := reconcile_spec env w ue bl
  unfold setup
  cases hr : reconcile env w ue bl with
  | stop h e s =>
    rw [hr] at hspec
    obtain ⟨_, _, _, _, _, _, _, hcase⟩ := hspec
    rcases hcase with ⟨_, _, h0, _⟩ | ⟨_, _, h0, _⟩ | ⟨_, _, h0, _⟩ | ⟨_, _, _, hc, _⟩ |
      ⟨_, _, _, _, h0, _⟩
    · rw [hf] at h0; cases h0
    · rw [hf] at h0; cases h0
    · rw [hf] at h0; cases h0
    · exact absurd hc hnc
    · rw [hf] at h0; cases h0
  | panic m s =>
    rw [hr] at hspec
    obtain ⟨_, hlt, _⟩ := hspec
    omega
  | next s =>
    simp only [Step.bind_next]
    exact next_of_not_stop _ (prepare_isStop env hf _ _ _ s) (prepare_ne_panic env _ _ _ s)

/-- Set-up, when it falls through, has the stake database not ahead of the store by
more than `SyncChainDB` repairs, leaves the store at its height at entry, and has
fetched and committed no block. -/
theorem setup_clean (env : Env) (w : World) (ua ni ue bl : Bool) (s1 : St)
    (hs : setup env w ua ni ue bl = .next s1) :
    ¬Corrupted w ∧ s1.w.chainCursor = w.chainCursor ∧ fetchCalls s1.trace = [] ∧
      storeCalls s1.trace = [] ∧ storedHeights s1.trace = [] := by
  have hspec := reconcile_spec env w ue bl
  unfold setup at hs
  revert hspec hs
  cases reconcile env w ue bl with
  | stop h e s => intro hs _; simp only [Step.bind_stop] at hs; cases hs
  | panic m s => intro hs _; simp only [Step.bind_panic] at hs; cases hs
  | next s0 =>
    intro hs hspec
    simp only [Step.bind_next] at hs
    obtain ⟨_, hnc, _, _, _, _, hw, _, _, _, _, _, _, _, _, _, _, _, hfc, _, _, hsc, hsh, _⟩ :=
      hspec
    have hside := sideFrame_prepare env (mkCfg w (env.best 0) ua ni) w.chainCursor
      w.ibdComplete s0
    rw [hs] at hside
    simp only [Step.st_next] at hside
    obtain ⟨_, _, hc, _, _, _, _, _, _, hf, _, _, hst, hsd, _⟩ := hside
    refine ⟨hnc, ?_, by rw [hf, hfc], by rw [hst, hsc], by rw [hsd, hsh]⟩
    rw [hc, hw]
    split_ifs <;> rfl

/-- The blocks of a pass of `importBlocks`, whatever it ends in: the heights
committed are `start .. k` for some `k`, and the heights fetched are these, or these
and `k + 1`. -/
theorem importBlocks_heights (env : Env) (cfg : RunCfg) (fuel : Nat) (start : Int) (s : St) :
    ∃ k, start - 1 ≤ k ∧
      storedHeights (importBlocks env cfg fuel start s).st.trace =
        storedHeights s.trace ++ heightsFromTo start k ∧
      (fetchCalls (importBlocks env cfg fuel start s).st.trace =
          fetchCalls s.trace ++ heightsFromTo start k ∨
        fetchCalls (importBlocks env cfg fuel start s).st.trace =
          fetchCalls s.trace ++ heightsFromTo start (k + 1)) := by
  have hspec := importBlocks_spec env cfg fuel start s
  have hstep : ∀ ib : Int, start ≤ ib →
      heightsFromTo start (ib - 1) ++ [ib] = heightsFromTo start ib := by
    intro ib hib
    have := heightsFromTo_snoc start (ib - 1) (by omega)
    rw [show ib - 1 + 1 = ib by omega] at this
    exact this.symm
  revert hspec
  cases importBlocks env cfg fuel start s with
  | done n s1 =>
    rintro ⟨ib, _, _, hle, r1, _, _, r4, _⟩
    exact ⟨ib - 1, by omega, r4, Or.inl r1⟩
  | outOfFuel s1 =>
    rintro ⟨ib, hle, r1, _, _, r4, _⟩
    exact ⟨ib - 1, by omega, r4, Or.inl r1⟩
  | panic m s1 =>
    rintro ⟨ib, sm, ⟨hle, r1, _, _, r4, _⟩, _, _, _, _, g1, _, _, _, g5, _⟩
    refine ⟨ib - 1, by omega, by simp only [LoopResult.st]; rw [g5, r4], Or.inr ?_⟩
    simp only [LoopResult.st]
    rw [g1, r1, List.append_assoc, hstep ib hle, show ib - 1 + 1 = ib by omega]
  | stop h e s1 =>
    rintro ⟨ib, sm, ⟨hle, r1, _, _, r4, _⟩, _, hcase⟩
    simp only [LoopResult.st]
    rcases hcase with ⟨_, _, _, g1, _, _, _, g5, _⟩ | ⟨_, _, _, g1, _, _, _, g5, _⟩ |
      ⟨_, _, _, _, g1, _, _, _, g5, _⟩ | ⟨_, _, _, g1, _, _, _, g5, _⟩ |
      ⟨_, _, _, _, g1, _, _, _, g5, _⟩ | ⟨_, _, _, _, g1, _, _, _, g5, _⟩ |
      ⟨_, _, _, _, g1, _, _, _, g5, _⟩
    · exact ⟨ib - 1, by omega, by rw [g5, r4], Or.inl (by rw [g1, r1])⟩
    · exact ⟨ib - 1, by omega, by rw [g5, r4], Or.inl (by rw [g1, r1])⟩
    · exact ⟨ib, by omega, by rw [g5, r4, List.append_assoc, hstep ib hle],
        Or.inl (by rw [g1, r1, List.append_assoc, hstep ib hle])⟩
    · exact ⟨ib - 1, by omega, by rw [g5, r4], Or.inr (by
        rw [g1, r1, List.append_assoc, hstep ib hle, show ib - 1 + 1 = ib by omega])⟩
    · exact ⟨ib - 1, by omega, by rw [g5, r4], Or.inr (by
        rw [g1, r1, List.append_assoc, hstep ib hle, show ib - 1 + 1 = ib by omega])⟩
    · exact ⟨ib - 1, by omega, by rw [g5, r4], Or.inr (by
        rw [g1, r1, List.append_assoc, hstep ib hle, show ib - 1 + 1 = ib by omega])⟩
    · exact ⟨ib - 1, by omega, by rw [g5, r4], Or.inr (by
        rw [g1, r1, List.append_assoc, hstep ib hle, show ib - 1 + 1 = ib by omega])⟩

/-- A run entered with the store at height `L`: when set-up falls through, the
first import pass starts at `L + 1`, committing the heights `L + 1 .. k` for some `k`
and fetching these, or these and `k + 1`; when no call fails and `L` is at least -1,
set-up falls through if and only if the stake database is not ahead of the store by
more than `SyncChainDB` repairs; and when it is and the three reads at entry succeed,
the run returns -1 with the "delete stake db" error, no block fetched or committed. -/
theorem run_from_height (env : Env) (fuel : Nat) (w : World) (ua ni ue bl : Bool) :
    (∀ s1, setup env w ua ni ue bl = .next s1 →
      ∃ k, w.chainCursor ≤ k ∧
        storedHeights (importBlocks env (mkCfg w (env.best 0) ua ni) fuel
          (mkCfg w (env.best 0) ua ni).startHeight s1).st.trace =
            heightsFromTo (w.chainCursor + 1) k ∧
        (fetchCalls (importBlocks env (mkCfg w (env.best 0) ua ni) fuel
            (mkCfg w (env.best 0) ua ni).startHeight s1).st.trace =
              heightsFromTo (w.chainCursor + 1) k ∨
          fetchCalls (importBlocks env (mkCfg w (env.best 0) ua ni) fuel
            (mkCfg w (env.best 0) ua ni).startHeight s1).st.trace =
              heightsFromTo (w.chainCursor + 1) (k + 1))) ∧
    (-1 ≤ w.chainCursor → (∀ t, env.fails t = false) →
      ((∃ s1, setup env w ua ni ue bl = .next s1) ↔ ¬Corrupted w)) ∧
    (-1 ≤ w.chainCursor → Corrupted w →
      env.fails 0 = false → env.fails 1 = false → env.fails 2 = false →
      (SyncChainDB env fuel w ua ni ue bl).1 = .returned (-1) (some .deleteStakeDB) ∧
        (SyncChainDB env fuel w ua ni ue bl).2.w = w ∧
        fetchCalls (SyncChainDB env fuel w ua ni ue bl).2.trace = [] ∧
        storedHeights (SyncChainDB env fuel w ua ni ue bl).2.trace = []) := by
  refine ⟨fun s1 hs => ?_, fun hL hf => ⟨?_, setup_falls_through env hf w ua ni ue bl hL⟩,
    fun hL hc h0 h1 h2 => ?_⟩
  · obtain ⟨_, _, hf, _, hsd⟩ := setup_clean env w ua ni ue bl s1 hs
    have hstart : (mkCfg w (env.best 0) ua ni).startHeight = w.chainCursor + 1 := rfl
    obtain ⟨k, hk, h1, h2⟩ := importBlocks_heights env (mkCfg w (env.best 0) ua ni) fuel
      (mkCfg w (env.best 0) ua ni).startHeight s1
    rw [hstart] at hk h1 h2 ⊢
    rw [hsd, List.nil_append] at h1
    rw [hf, List.nil_append, List.nil_append] at h2
    exact ⟨k, by omega, h1, h2⟩
  · rintro ⟨s1, hs⟩
    exact (setup_clean env w ua ni ue bl s1 hs).1
  · have hspec := reconcile_spec env w ue bl
    cases hr : reconcile env w ue bl with
    | panic m s =>
      rw [hr] at hspec
      obtain ⟨_, hlt, _⟩ := hspec
      omega
    | next s0 =>
      rw [hr] at hspec
      exact absurd hc hspec.2.1
    | stop h e s =>
      rw [hr] at hspec
      rw [SyncChainDB_of_reconcile_stop env fuel w ua ni ue bl h e s hr]
      obtain ⟨_, hfc, _, _, _, hsd, _, hcase⟩ := hspec
      rcases hcase with ⟨_, _, hf, _⟩ | ⟨_, _, hf, _⟩ | ⟨_, _, hf, _⟩ | ⟨rfl, rfl, _, _, hw, _⟩ |
        ⟨_, _, _, hrew, _⟩
      · rw [h0] at hf; cases hf
      · rw [h1] at hf; cases hf
      · rw [h2] at hf; cases hf
      · exact ⟨rfl, hw, hfc, hsd⟩
      · exact absurd hc.2 hrew.2

/-- C2, as the claim states it, fails. With the store and the stake database at
height 0 and the block source at 1, `StoreBlock` failing for height 1: the run
returns 0 with that error after `stakeDB.ConnectBlock(1)` went through, the store at
0 and the stake database at 1; and the next run, entered in that state with no call
failing, returns -1 with the "delete stake db" error of line 753 and fetches no
block, instead of resuming at height 1. The same holds when `GetChainWork` fails for
height 1. -/
theorem c2_counterexample :
    ((SyncChainDB (failingEnv 1 12) 5 ⟨0, 0, true, true, 1⟩ false false false false).1 =
        .returned 0 (some (.storeBlockFailed 1)) ∧
      (SyncChainDB (failingEnv 1 12) 5 ⟨0, 0, true, true, 1⟩ false false false false).2.w =
        ⟨0, 1, true, true, 1⟩ ∧
      (SyncChainDB (quietEnv 1) 5 ⟨0, 1, true, true, 1⟩ false false false false).1 =
        .returned (-1) (some .deleteStakeDB) ∧
      fetchCalls (SyncChainDB (quietEnv 1) 5 ⟨0, 1, true, true, 1⟩ false false false false).2.trace
        = []) ∧
    ((SyncChainDB (failingEnv 1 11) 5 ⟨0, 0, true, true, 1⟩ false false false false).1 =
        .returned 0 (some (.getChainWorkFailed 1)) ∧
      (SyncChainDB (failingEnv 1 11) 5 ⟨0, 0, true, true, 1⟩ false false false false).2.w =
        ⟨0, 1, true, true, 1⟩) := by
  decide

/-- C2, amended. In every pass of `importBlocks`, from any state and with any
environment: if the quit check, `GetBlock`, `stakeDB.ConnectBlock`, `GetChainWork` or
`StoreBlock` fails, at iteration `ib` say, the pass returns `ib - 1` with the error of
that call, the failed call being the last of them; `StoreBlock` succeeded for exactly
the heights `start .. ib - 1`, no block above `ib` was fetched and none stored; the
store, when it was at `start - 1`, is at `ib - 1`. A run of `SyncChainDB` entered
with the store at height `ib - 1` whose set-up falls through starts its import at
`ib`: its first pass commits the heights `ib .. k` for some `k`, and fetches these, or
these and `k + 1`. When no call fails and `ib` is at least 0, set-up falls through
if and only if the stake database is not ahead of the store by more than
`SyncChainDB` repairs (lines 751-752); when it is, the run returns -1 with the
"delete stake db" error and fetches and commits no block. In the state the failed
pass leaves, when the pass was entered with the stake database level with the store
at `start - 1` or one block ahead, this is so exactly when `ib = 1` and the stake
database is at height 1. -/
theorem c2_abort_returns_previous_height (env : Env) (cfg : RunCfg) (fuel : Nat) (start : Int)
    (s : St)
    (hfail : abortCalls (importBlocks env cfg fuel start s).st.trace ≠ abortCalls s.trace) :
    ∃ ib c e s1, start ≤ ib ∧ importBlocks env cfg fuel start s = .stop (ib - 1) e s1 ∧
      abortCalls s1.trace = abortCalls s.trace ++ [c] ∧
      ((c = .CtxDone ∧ e = .cancelledAtHeight ib) ∨
        (c = .GetBlock ib ∧ e = .updateToBlockFailed ib) ∨
        (c = .ConnectBlock ib ∧ e = .connectBlockFailed ib) ∨
        (c = .GetChainWork ib ∧ e = .getChainWorkFailed ib) ∨
        (c = .StoreBlock ib (!cfg.updateAllAddresses) ∧ e = .storeBlockFailed ib)) ∧
      storedHeights s1.trace = storedHeights s.trace ++ heightsFromTo start (ib - 1) ∧
      fetchCalls s1.trace = fetchCalls s.trace ++ heightsFromTo start (ib - 1) ++
        (if c = .CtxDone then [] else [ib]) ∧
      storeCalls s1.trace = storeCalls s.trace ++ heightsFromTo start (ib - 1) ++
        (if e = .storeBlockFailed ib then [ib] else []) ∧
      (s.w.chainCursor = start - 1 → s1.w.chainCursor = ib - 1) ∧
      (∀ (env2 : Env) (fuel2 : Nat) (w2 : World) (ua ni ue bl : Bool),
        w2.chainCursor = ib - 1 →
        (∀ s2, setup env2 w2 ua ni ue bl = .next s2 →
          (mkCfg w2 (env2.best 0) ua ni).startHeight = ib ∧
          ∃ k, ib - 1 ≤ k ∧
            storedHeights (importBlocks env2 (mkCfg w2 (env2.best 0) ua ni) fuel2
              (mkCfg w2 (env2.best 0) ua ni).startHeight s2).st.trace = heightsFromTo ib k ∧
            (fetchCalls (importBlocks env2 (mkCfg w2 (env2.best 0) ua ni) fuel2
                (mkCfg w2 (env2.best 0) ua ni).startHeight s2).st.trace = heightsFromTo ib k ∨
              fetchCalls (importBlocks env2 (mkCfg w2 (env2.best 0) ua ni) fuel2
                (mkCfg w2 (env2.best 0) ua ni).startHeight s2).st.trace =
                  heightsFromTo ib (k + 1))) ∧
        (0 ≤ ib → (∀ t, env2.fails t = false) →
          ((∃ s2, setup env2 w2 ua ni ue bl = .next s2) ↔ ¬Corrupted w2)) ∧
        (0 ≤ ib → Corrupted w2 →
          env2.fails 0 = false → env2.fails 1 = false → env2.fails 2 = false →
          (SyncChainDB env2 fuel2 w2 ua ni ue bl).1 = .returned (-1) (some .deleteStakeDB) ∧
            (SyncChainDB env2 fuel2 w2 ua ni ue bl).2.w = w2 ∧
            fetchCalls (SyncChainDB env2 fuel2 w2 ua ni ue bl).2.trace = [] ∧
            storedHeights (SyncChainDB env2 fuel2 w2 ua ni ue bl).2.trace = [])) ∧
      (s.stakeDBHeight = s.w.stakeHeight → HeightsInv s.w → s.w.chainCursor = start - 1 →
        (Corrupted s1.w ↔ ib = 1 ∧ s1.w.stakeHeight = 1)) := by
  have hspec := importBlocks_spec env cfg fuel start s
  have hre : ∀ (ib : Int) (env2 : Env) (fuel2 : Nat) (w2 : World) (ua ni ue bl : Bool),
      w2.chainCursor = ib - 1 →
      (∀ s2, setup env2 w2 ua ni ue bl = .next s2 →
        (mkCfg w2 (env2.best 0) ua ni).startHeight = ib ∧
        ∃ k, ib - 1 ≤ k ∧
          storedHeights (importBlocks env2 (mkCfg w2 (env2.best 0) ua ni) fuel2
            (mkCfg w2 (env2.best 0) ua ni).startHeight s2).st.trace = heightsFromTo ib k ∧
          (fetchCalls (importBlocks env2 (mkCfg w2 (env2.best 0) ua ni) fuel2
              (mkCfg w2 (env2.best 0) ua ni).startHeight s2).st.trace = heightsFromTo ib k ∨
            fetchCalls (importBlocks env2 (mkCfg w2 (env2.best 0) ua ni) fuel2
              (mkCfg w2 (env2.best 0) ua ni).startHeight s2).st.trace =
                heightsFromTo ib (k + 1))) ∧
      (0 ≤ ib → (∀ t, env2.fails t = false) →
        ((∃ s2, setup env2 w2 ua ni ue bl = .next s2) ↔ ¬Corrupted w2)) ∧
      (0 ≤ ib → Corrupted w2 →
        env2.fails 0 = false → env2.fails 1 = false → env2.fails 2 = false →
        (SyncChainDB env2 fuel2 w2 ua ni ue bl).1 = .returned (-1) (some .deleteStakeDB) ∧
          (SyncChainDB env2 fuel2 w2 ua ni ue bl).2.w = w2 ∧
          fetchCalls (SyncChainDB env2 fuel2 w2 ua ni ue bl).2.trace = [] ∧
          storedHeights (SyncChainDB env2 fuel2 w2 ua ni ue bl).2.trace = []) := by
    intro ib env2 fuel2 w2 ua ni ue bl hw2
    obtain ⟨r1, r2, r3⟩ := run_from_height env2 fuel2 w2 ua ni ue bl
    have hib : w2.chainCursor + 1 = ib := by omega
    rw [hib] at r1
    refine ⟨fun s2 hs2 => ⟨?_, ?_⟩, fun h0 => r2 (by omega), fun h0 => r3 (by omega)⟩
    · show w2.chainCursor + 1 = ib
      exact hib
    · obtain ⟨k, hk, h1, h2⟩ := r1 s2 hs2
      exact ⟨k, by omega, h1, h2⟩
  have hgood : s.stakeDBHeight = s.w.stakeHeight → HeightsInv s.w →
      s.w.chainCursor = start - 1 → LoopGood s (importBlocks env cfg fuel start s) :=
    fun h1 h2 h3 => importBlocks_good env cfg fuel start s h1 h2 (by omega)
  revert hspec hfail hgood
  cases importBlocks env cfg fuel start s with
  | done n s1 =>
    rintro hfail ⟨ib, _, _, hr⟩ _
    exact absurd hr.2.2.2.2.2.1 hfail
  | outOfFuel s1 =>
    rintro hfail ⟨ib, hr⟩ _
    exact absurd hr.2.2.2.2.2.1 hfail
  | panic m s1 =>
    rintro hfail ⟨ib, sm, hr, hp⟩ _
    exact absurd (hp.2.2.2.2.2.2.2.2.2.1.trans hr.2.2.2.2.2.1) hfail
  | stop h e s1 =>
    rintro hfail ⟨ib, sm, ⟨h0, r1, r2, r3, r4, r5, r6, _⟩, _, hcase⟩ hgood
    have hcor : (s.w.chainCursor = start - 1 → s1.w.chainCursor = ib - 1) →
        s.stakeDBHeight = s.w.stakeHeight → HeightsInv s.w → s.w.chainCursor = start - 1 →
        (Corrupted s1.w ↔ ib = 1 ∧ s1.w.stakeHeight = 1) := by
      intro hcur h1 h2 h3
      have hk : HeightsInv s1.w := (hgood h1 h2 h3).1.1
      have hc := hcur h3
      unfold HeightsInv at hk
      unfold Corrupted
      omega
    rcases hcase with ⟨rfl, rfl, hw, g1, _, _, g4, g5, g6⟩ | ⟨_, _, _, _, _, _, _, _, g6⟩ |
      ⟨_, _, _, _, _, _, _, _, _, g6⟩ | ⟨rfl, rfl, hw, g1, _, _, g4, g5, g6⟩ |
      ⟨rfl, rfl, hw, _, g1, _, _, g4, g5, g6⟩ | ⟨rfl, rfl, hw, _, g1, _, _, g4, g5, g6⟩ |
      ⟨rfl, rfl, hw, _, g1, _, _, g4, g5, g6⟩
    · have hcur : s.w.chainCursor = start - 1 → s1.w.chainCursor = ib - 1 :=
        fun hc => by rw [hw]; exact r6 hc
      exact ⟨ib, .CtxDone, _, s1, h0, rfl, by rw [g6, r5], by simp, by rw [g5, r4],
        by simp [g1, r1], by simp [g4, r3], hcur, hre ib, hcor hcur⟩
    · exact absurd (g6.trans r5) hfail
    · exact absurd (g6.trans r5) hfail
    · have hcur : s.w.chainCursor = start - 1 → s1.w.chainCursor = ib - 1 :=
        fun hc => by rw [hw]; exact r6 hc
      exact ⟨ib, .GetBlock ib, _, s1, h0, rfl, by rw [g6, r5], by simp, by rw [g5, r4],
        by simp [g1, r1], by simp [g4, r3], hcur, hre ib, hcor hcur⟩
    · have hcur : s.w.chainCursor = start - 1 → s1.w.chainCursor = ib - 1 :=
        fun hc => by rw [hw]; exact r6 hc
      exact ⟨ib, .ConnectBlock ib, _, s1, h0, rfl, by rw [g6, r5], by simp, by rw [g5, r4],
        by simp [g1, r1], by simp [g4, r3], hcur, hre ib, hcor hcur⟩
    · have hcur : s.w.chainCursor = start - 1 → s1.w.chainCursor = ib - 1 :=
        fun hc => by rw [hw, worldAfterConnect_chainCursor]; exact r6 hc
      exact ⟨ib, .GetChainWork ib, _, s1, h0, rfl, by rw [g6, r5], by simp, by rw [g5, r4],
        by simp [g1, r1], by simp [g4, r3], hcur, hre ib, hcor hcur⟩
    · have hcur : s.w.chainCursor = start - 1 → s1.w.chainCursor = ib - 1 :=
        fun hc => by rw [hw, worldAfterConnect_chainCursor]; exact r6 hc
      exact ⟨ib, .StoreBlock ib (!cfg.updateAllAddresses), _, s1, h0, rfl, by rw [g6, r5],
        by simp, by rw [g5, r4], by simp [g1, r1], by simp [g4, r3], hcur, hre ib, hcor hcur⟩

/-- A pass of C2: the store at 50, the loop entered at 51 with the node at 53, and
`GetBlock` failing for height 52. -/
theorem c2_abort_returns_previous_height_witness :
    abortCalls (importBlocks (failingEnv 53 8) (mkCfg ⟨50, 50, true, true, 1⟩ 53 false false) 5 51
        (loopEntry ⟨50, 50, true, true, 1⟩ 53)).st.trace
      ≠ abortCalls (loopEntry ⟨50, 50, true, true, 1⟩ 53).trace ∧
    ∃ ib c e s1, (51 : Int) ≤ ib ∧
      importBlocks (failingEnv 53 8) (mkCfg ⟨50, 50, true, true, 1⟩ 53 false false) 5 51
        (loopEntry ⟨50, 50, true, true, 1⟩ 53) = .stop (ib - 1) e s1 ∧
      abortCalls s1.trace = abortCalls (loopEntry ⟨50, 50, true, true, 1⟩ 53).trace ++ [c] :=
  ⟨by decide, by
    obtain ⟨ib, c, e, s1, h0, h1, h2, _⟩ := c2_abort_returns_previous_height (failingEnv 53 8)
      (mkCfg ⟨50, 50, true, true, 1⟩ 53 false false) 5 51 (loopEntry ⟨50, 50, true, true, 1⟩ 53)
      (by decide)
    exact ⟨ib, c, e, s1, h0, h1, h2⟩⟩

end Dcrpg

namespace Dcrpg

/-! ## `int64` arithmetic -/

theorem wrap64_of_range (n : Int) (h1 : -9223372036854775808 ≤ n)
    (h2 : n ≤ 9223372036854775807) : wrap64 n = n := by
  unfold wrap64
  omega

theorem wrap64_range (n : Int) :
    -9223372036854775808 ≤ wrap64 n ∧ wrap64 n ≤ 9223372036854775807 := by
  unfold wrap64
  omega

theorem wrap64_add_wrap64 (a b : Int) : wrap64 (wrap64 a + b) = wrap64 (a + b) := by
  unfold wrap64
  omega

end Dcrpg

namespace Dcrpg

/-! ## `GetStartRevertIndexAddressRow` -/

theorem revertIndexFrom_none (m : Date) :
    ∀ (rows : List AddressesMonthRowsCount) (count : Int),
      (∀ x ∈ rows, ¬sameMonth x m) → revertIndexFrom m count rows = -1 := by
  intro rows
  induction rows with
  | nil => intro _ _; rfl
  | cons r rows ih =>
    intro count h
    have hr : ¬(r.Month.month = m.month ∧ r.Month.year = m.year) := h r (List.mem_cons_self _ _)
    simp only [revertIndexFrom, if_neg hr]
    exact ih _ fun x hx => h x (List.mem_cons_of_mem _ hx)

theorem revertIndexFrom_found (m : Date) (r : AddressesMonthRowsCount)
    (post : List AddressesMonthRowsCount) (hr : sameMonth r m) :
    ∀ (pre : List AddressesMonthRowsCount) (count : Int),
      (∀ x ∈ pre, ¬sameMonth x m) →
      revertIndexFrom m count (pre ++ r :: post) =
        wrap64 (count + ((pre ++ [r]).map AddressesMonthRowsCount.Count).sum) := by
  intro pre
  induction pre with
  | nil =>
    intro count _
    have hr1 : r.Month.month = m.month ∧ r.Month.year = m.year := hr
    simp [revertIndexFrom, hr1]
  | cons x pre ih =>
    intro count h
    have hx : ¬(x.Month.month = m.month ∧ x.Month.year = m.year) := h x (List.mem_cons_self _ _)
    have hi := ih (wrap64 (count + x.Count)) fun y hy => h y (List.mem_cons_of_mem _ hy)
    show revertIndexFrom m count (x :: (pre ++ r :: post)) = _
    simp only [revertIndexFrom, if_neg hx, hi, List.cons_append, List.map_cons, List.sum_cons,
      wrap64_add_wrap64]
    congr 1
    omega

/-- The sum of line 621 at the `int64` limit: with the counts 9223372036854775807 and
1 the running sum wraps around to -9223372036854775808. -/
theorem revertIndexFrom_wraps :
    GetStartRevertIndexAddressRow
      [⟨⟨2024, 1, 1⟩, 9223372036854775807⟩, ⟨⟨2024, 2, 1⟩, 1⟩] ⟨2024, 2, 15⟩ =
        -9223372036854775808 := by
  decide

/-- C29. For every list of rows and every time `m`: when `rows` is `pre`, then a row
`r` of the year and month of `m`, then `post`, and no row of `pre` is of that year and
month, `GetStartRevertIndexAddressRow` returns the `int64` sum of `Count` over `pre`
and `r`, whatever `post` is, which is the sum itself when that lies in the `int64`
range from -9223372036854775808 to 9223372036854775807; and when no row is of the
year and month of `m` it returns -1. -/
theorem c29_revert_index (m : Date) :
    (∀ (pre post : List AddressesMonthRowsCount) (r : AddressesMonthRowsCount),
      (∀ x ∈ pre, ¬sameMonth x m) → sameMonth r m →
      GetStartRevertIndexAddressRow (pre ++ r :: post) m =
          wrap64 ((pre ++ [r]).map AddressesMonthRowsCount.Count).sum ∧
        (-9223372036854775808 ≤ ((pre ++ [r]).map AddressesMonthRowsCount.Count).sum →
          ((pre ++ [r]).map AddressesMonthRowsCount.Count).sum ≤ 9223372036854775807 →
          GetStartRevertIndexAddressRow (pre ++ r :: post) m =
            ((pre ++ [r]).map AddressesMonthRowsCount.Count).sum)) ∧
    (∀ rows : List AddressesMonthRowsCount, (∀ x ∈ rows, ¬sameMonth x m) →
      GetStartRevertIndexAddressRow rows m = -1) := by
  refine ⟨fun pre post r hpre hr => ?_, fun rows h => revertIndexFrom_none m rows 0 h⟩
  have h : GetStartRevertIndexAddressRow (pre ++ r :: post) m =
      wrap64 ((pre ++ [r]).map AddressesMonthRowsCount.Count).sum := by
    unfold GetStartRevertIndexAddressRow
    rw [revertIndexFrom_found m r post hr pre 0 hpre, zero_add]
  exact ⟨h, fun h1 h2 => by rw [h, wrap64_of_range _ h1 h2]⟩

end Dcrpg

namespace Dcrpg

/-! ## `syncCoinAgeBandsTable` -/

@[simp] theorem rangeHeights_nil : rangeHeights [] = [] := rfl

theorem rangeHeights_append (a b : List (Int × Int)) :
    rangeHeights (a ++ b) = rangeHeights a ++ rangeHeights b := by
  simp [rangeHeights]

theorem rangeHeights_singleton (c : Int × Int) : rangeHeights [c] = heightsFromTo c.1 c.2 := by
  simp [rangeHeights]

/-- The loop of `syncCoinAgeBandsTable` from the head with counter `fromHeight`,
`lastHeight` being an `int64` value and `maxHeight` at most 9223372036854775757, so
that no sum of the loop wraps: the calls made so far being ranges of 1 to 50 heights
that cover the heights from `lastHeight + 1` up to the counter, the loop ends with
`return nil` or with the error of the first call that fails; and the calls made by
then are such ranges too, up to `maxHeight` in the first case and up to the end of
the failed range in the second. -/
theorem coinAgeBandsLoop_spec (batchErr : Nat → Option String) (maxHeight lastHeight : Int)
    (hlast : -9223372036854775808 ≤ lastHeight) (hmax : maxHeight ≤ 9223372036854775757) :
    ∀ (fuel : Nat) (fromHeight : Int) (calls : List (Int × Int)),
      lastHeight + 1 ≤ fromHeight →
      (maxHeight + 1 - fromHeight).toNat ≤ fuel →
      rangeHeights calls = heightsFromTo (lastHeight + 1) (min (fromHeight - 1) maxHeight) →
      (∀ c ∈ calls, c.1 ≤ c.2 ∧ c.2 - c.1 + 1 ≤ 50 ∧ c.2 ≤ maxHeight) →
      (∀ j < calls.length, batchErr j = none) →
      (∃ cs, coinAgeBandsLoop batchErr maxHeight fuel fromHeight calls = .done cs ∧
        calls <+: cs ∧
        rangeHeights cs = heightsFromTo (lastHeight + 1) maxHeight ∧
        (∀ c ∈ cs, c.1 ≤ c.2 ∧ c.2 - c.1 + 1 ≤ 50 ∧ c.2 ≤ maxHeight) ∧
        ∀ j < cs.length, batchErr j = none) ∨
      (∃ e cs a b, coinAgeBandsLoop batchErr maxHeight fuel fromHeight calls =
          .failed e (cs ++ [(a, b)]) ∧
        calls <+: cs ∧
        batchErr cs.length = some e ∧ (∀ j < cs.length, batchErr j = none) ∧
        rangeHeights (cs ++ [(a, b)]) = heightsFromTo (lastHeight + 1) b ∧
        (∀ c ∈ cs ++ [(a, b)], c.1 ≤ c.2 ∧ c.2 - c.1 + 1 ≤ 50 ∧ c.2 ≤ maxHeight)) := by
  intro fuel
  induction fuel with
  | zero =>
    intro f calls hlo hfuel hcov hsz hok
    have hgt : ¬ f ≤ maxHeight := by omega
    refine Or.inl ⟨calls, by simp [coinAgeBandsLoop, hgt], List.prefix_refl _, ?_, hsz, hok⟩
    rw [hcov, min_eq_right (by omega)]
  | succ fuel ih =>
    intro f calls hlo hfuel hcov hsz hok
    by_cases hle : f ≤ maxHeight
    · have hw1 : wrap64 (f + 50) = f + 50 := wrap64_of_range _ (by omega) (by omega)
      have hw2 : wrap64 (f + 50 - 1) = f + 50 - 1 := wrap64_of_range _ (by omega) (by omega)
      have hto : (if f + 50 - 1 > maxHeight then maxHeight else f + 50 - 1) =
          min (f + 50 - 1) maxHeight := by
        split_ifs <;> omega
      have hcov1 : rangeHeights (calls ++ [(f, min (f + 50 - 1) maxHeight)]) =
          heightsFromTo (lastHeight + 1) (min (f + 50 - 1) maxHeight) := by
        rw [rangeHeights_append, rangeHeights_singleton, hcov, min_eq_left (by omega)]
        have := heightsFromTo_append (lastHeight + 1) (f - 1) (min (f + 50 - 1) maxHeight)
          (by omega) (by omega)
        rw [show f - 1 + 1 = f by omega] at this
        exact this
      have hsz1 : ∀ c ∈ calls ++ [(f, min (f + 50 - 1) maxHeight)],
          c.1 ≤ c.2 ∧ c.2 - c.1 + 1 ≤ 50 ∧ c.2 ≤ maxHeight := by
        intro c hc
        rcases List.mem_append.1 hc with hc | hc
        · exact hsz c hc
        · rw [List.mem_singleton] at hc
          subst hc
          simp only
          omega
      cases hb : batchErr calls.length with
      | some e =>
        refine Or.inr ⟨e, calls, f, min (f + 50 - 1) maxHeight, ?_, List.prefix_refl _, hb, hok,
          hcov1, hsz1⟩
        simp only [coinAgeBandsLoop, if_pos hle, hw1, hw2, hto, hb]
      | none =>
        have hok1 : ∀ j < (calls ++ [(f, min (f + 50 - 1) maxHeight)]).length,
            batchErr j = none := by
          intro j hj
          rw [List.length_append, List.length_singleton] at hj
          rcases Nat.lt_succ_iff_lt_or_eq.1 hj with hj | hj
          · exact hok j hj
          · rw [hj]; exact hb
        have hstep : coinAgeBandsLoop batchErr maxHeight (fuel + 1) f calls =
            coinAgeBandsLoop batchErr maxHeight fuel (f + 50)
              (calls ++ [(f, min (f + 50 - 1) maxHeight)]) := by
          simp only [coinAgeBandsLoop, if_pos hle, hw1, hw2, hto, hb]
        rw [hstep]
        have hpre : calls <+: calls ++ [(f, min (f + 50 - 1) maxHeight)] :=
          List.prefix_append _ _
        rcases ih (f + 50) _ (by omega) (by omega) (by rw [hcov1]) hsz1 hok1 with
          ⟨cs, h1, h2, h3⟩ | ⟨e, cs, a, b, h1, h2, h3⟩
        · exact Or.inl ⟨cs, h1, hpre.trans h2, h3⟩
        · exact Or.inr ⟨e, cs, a, b, h1, hpre.trans h2, h3⟩
    · refine Or.inl ⟨calls, by simp [coinAgeBandsLoop, hle], List.prefix_refl _, ?_, hsz, hok⟩
      rw [hcov, min_eq_right (by omega)]

/-- The additions of lines 111 and 112 at the `int64` limit: from `lastHeight`
9223372036854775797 with the best height 9223372036854775807 the first call is on the
range from 9223372036854775798 to -9223372036854775769, the sum
`fromHeight + batchSize - 1` having wrapped around. -/
theorem coinAgeBandsLoop_wraps :
    syncCoinAgeBandsTable (fun _ => some "e") 9223372036854775807 1 9223372036854775797 =
      .failed "e" [(9223372036854775798, -9223372036854775769)] := by
  decide

/-- C30. For every `int64` value `lastHeight` below 9223372036854775807 and every
best height `H` of at most 9223372036854775757 = 2^63 - 51, the range in which the
sums `lastHeight + 1`, `fromHeight + batchSize - 1` and `fromHeight + batchSize` do
not wrap, with fuel for the loop: `syncCoinAgeBandsTable` either returns nil, no call
having failed, after calls of `SyncCoinAgeBandsWithHeightRange` on ranges of 1 to 50
heights each whose heights, range after range, are exactly `lastHeight+1, ..., H` in
increasing order (so the ranges are issued in increasing order, are disjoint and
cover these heights), none when `lastHeight >= H`; or it returns the error of the
first call that failed, the ranges called up to it being such ranges from
`lastHeight+1` on. -/
theorem c30_coin_age_batches (batchErr : Nat → Option String) (H lastHeight : Int) (fuel : Nat)
    (hlast : -9223372036854775808 ≤ lastHeight ∧ lastHeight < 9223372036854775807)
    (hH : H ≤ 9223372036854775757)
    (hfuel : (H - lastHeight).toNat ≤ fuel) :
    ((∃ cs, syncCoinAgeBandsTable batchErr H fuel lastHeight = .done cs ∧
        rangeHeights cs = heightsFromTo (lastHeight + 1) H ∧
        (∀ c ∈ cs, c.1 ≤ c.2 ∧ c.2 - c.1 + 1 ≤ 50) ∧
        (∀ j < cs.length, batchErr j = none) ∧ (H ≤ lastHeight → cs = [])) ∨
      (∃ e cs a b, syncCoinAgeBandsTable batchErr H fuel lastHeight =
          .failed e (cs ++ [(a, b)]) ∧
        batchErr cs.length = some e ∧ (∀ j < cs.length, batchErr j = none) ∧
        rangeHeights (cs ++ [(a, b)]) = heightsFromTo (lastHeight + 1) b ∧ b ≤ H ∧
        (∀ c ∈ cs ++ [(a, b)], c.1 ≤ c.2 ∧ c.2 - c.1 + 1 ≤ 50))) ∧
    ((∀ k, batchErr k = none) →
      ∃ cs, syncCoinAgeBandsTable batchErr H fuel lastHeight = .done cs) := by
  have hw : wrap64 (lastHeight + 1) = lastHeight + 1 :=
    wrap64_of_range _ (by omega) (by omega)
  have h := coinAgeBandsLoop_spec batchErr H lastHeight hlast.1 hH fuel (lastHeight + 1) []
    (le_refl _) (by omega)
    (by rw [rangeHeights_nil, heightsFromTo_empty]; omega)
    (by simp) (by simp)
  unfold syncCoinAgeBandsTable
  rw [hw]
  have hmain : (∃ cs, coinAgeBandsLoop batchErr H fuel (lastHeight + 1) [] = .done cs ∧
        rangeHeights cs = heightsFromTo (lastHeight + 1) H ∧
        (∀ c ∈ cs, c.1 ≤ c.2 ∧ c.2 - c.1 + 1 ≤ 50) ∧
        (∀ j < cs.length, batchErr j = none) ∧ (H ≤ lastHeight → cs = [])) ∨
      (∃ e cs a b, coinAgeBandsLoop batchErr H fuel (lastHeight + 1) [] =
          .failed e (cs ++ [(a, b)]) ∧
        batchErr cs.length = some e ∧ (∀ j < cs.length, batchErr j = none) ∧
        rangeHeights (cs ++ [(a, b)]) = heightsFromTo (lastHeight + 1) b ∧ b ≤ H ∧
        (∀ c ∈ cs ++ [(a, b)], c.1 ≤ c.2 ∧ c.2 - c.1 + 1 ≤ 50)) := by
    rcases h with ⟨cs, h1, _, h3, h4, h5⟩ | ⟨e, cs, a, b, h1, _, h3, h4, h5, h6⟩
    · refine Or.inl ⟨cs, h1, h3, fun c hc => ⟨(h4 c hc).1, (h4 c hc).2.1⟩, h5, fun hle => ?_⟩
      rw [heightsFromTo_empty _ _ (by omega)] at h3
      cases cs with
      | nil => rfl
      | cons c cs =>
        exfalso
        have hc := (h4 c (List.mem_cons_self _ _)).1
        have hmem : c.1 ∈ rangeHeights (c :: cs) := by
          simp only [rangeHeights, List.map_cons, List.flatten_cons, List.mem_append]
          exact Or.inl ((mem_heightsFromTo _ _ _).2 ⟨le_refl _, hc⟩)
        rw [h3] at hmem
        cases hmem
    · exact Or.inr ⟨e, cs, a, b, h1, h3, h4, h5,
        (h6 (a, b) (List.mem_append_right _ (List.mem_singleton_self _))).2.2,
        fun c hc => ⟨(h6 c hc).1, (h6 c hc).2.1⟩⟩
  refine ⟨hmain, fun hall => ?_⟩
  rcases hmain with ⟨cs, h1, _⟩ | ⟨e, cs, a, b, _, h2, _⟩
  · exact ⟨cs, h1⟩
  · rw [hall] at h2
    cases h2

/-- A run of C30: heights 1 to 120 in the ranges 1-50, 51-100 and 101-120. -/
theorem c30_coin_age_batches_witness :
    syncCoinAgeBandsTable (fun _ => none) 120 120 0 = .done [(1, 50), (51, 100), (101, 120)] ∧
    ∃ cs, syncCoinAgeBandsTable (fun _ => none) 120 120 0 = .done cs :=
  ⟨by decide, (c30_coin_age_batches (fun _ => none) 120 0 120 (by decide) (by decide)
    (by decide)).2 (fun _ => rfl)⟩

end Dcrpg

namespace Explorer

/-- C24. `TicketStatusText` is a total function of the spend type `s` and the pool
status `p` with this table: live gives "In Live Ticket Pool" and voted gives "Voted"
for every `s`; expired gives "Expired, Unrevoked" for an unspent ticket and "Expired,
Revoked" for a revoked one; missed gives "Missed, Unrevoked" and "Missed, Revoked" in
the same way; every other `p` gives "Immature" for every `s`; and the result is
"invalid ticket state" if and only if `p` is expired or missed and `s` is neither
unspent nor revoked. -/
theorem c24_ticket_status_text (s : TicketSpendType) (p : TicketPoolStatus) :
    TicketStatusText s .PoolStatusLive = "In Live Ticket Pool" ∧
    TicketStatusText s .PoolStatusVoted = "Voted" ∧
    TicketStatusText .TicketUnspent .PoolStatusExpired = "Expired, Unrevoked" ∧
    TicketStatusText .TicketRevoked .PoolStatusExpired = "Expired, Revoked" ∧
    TicketStatusText .TicketUnspent .PoolStatusMissed = "Missed, Unrevoked" ∧
    TicketStatusText .TicketRevoked .PoolStatusMissed = "Missed, Revoked" ∧
    (∀ n, TicketStatusText s (.other n) = "Immature") ∧
    (TicketStatusText s p = "invalid ticket state" ↔
      (p = .PoolStatusExpired ∨ p = .PoolStatusMissed) ∧
        s ≠ .TicketUnspent ∧ s ≠ .TicketRevoked) := by
  refine ⟨rfl, rfl, rfl, rfl, rfl, rfl, fun _ => rfl, ?_⟩
  cases p <;> cases s <;> simp [TicketStatusText]

/-- C28, at concrete inputs. With a single timestamp 5 and size 100, and with the
timestamps 9, 3, 7 and the sizes 100, 200, 300, the greatest timestamp is at
index 0 and `GetMultichainBlockchainSize` returns 0, not the size 100 at that index:
the test of line 1296 is `timeIndex > 0`. With the timestamps 3, 9, 7 the greatest
one is at index 1 and the result is the size 200 at that index. -/
theorem c28_first_index_returns_zero :
    GetMultichainBlockchainSize (.decoded ⟨[5], [100]⟩) = some 0 ∧
    GetMultichainBlockchainSize (.decoded ⟨[9, 3, 7], [100, 200, 300]⟩) = some 0 ∧
    GetMultichainBlockchainSize (.decoded ⟨[3, 9, 7], [100, 200, 300]⟩) = some 200 := by
  decide

end Explorer
